import Mathlib

/-!
# Edge gateway: dual- and single-FIFO plugins and forwarders

A shallow embedding of the four C sources

* `mqtt-edge_fifo/plugin/time_delta_edge_plugin_fifo.c`  (namespace `Fifo`)
* `mqtt-edge_fifo/forwarder/pq_forwarder.c`              (namespace `PqForwarder`)
* `mqtt-edge/plugin/simple_edge_plugin.c`                (namespace `Simple`)
* `mqtt-edge/forwarder/paho_forwarder.c`                 (namespace `PahoForwarder`)

Conventions of the embedding.

* A C string is a list of characters (`CStr`); `strcmp (a, b) == 0` is `a = b`.
* A `double` is an exact decimal fixed-point number counted in millionths
  (the resolution of `gettimeofday`): the C literal `300.0` is `300000000`,
  `1.0` is `1000000`, and `x * 1000.0` is `x * 1000`.  The roundings of binary
  floating point are not part of this arithmetic; the lines whose claim
  depends on them (the wait that makes up the minimum service time) are given
  a second time over `Binary64`, the doubles of IEEE 754.
* A stream on a FIFO is the list of the bytes not yet read and its
  end-of-file indicator.
* Pointers are natural numbers, `0` is `NULL`.  `malloc` hands out addresses
  that were never used before; an allocation that fails is an input of the
  step that allocates.
* Everything the environment decides (the clock, the HTTP transfer, the
  result of `write`, `open`, `MQTTClient_publishMessage`, the bytes that
  arrive on a FIFO) is an explicit input of the step that consumes it.
* A step returns `none` when the C program would crash there (a read or write
  through a dangling or `NULL` pointer, a failed `assert`).
* Output on `stdout` / `stderr` is not modelled.
-/

/-! ## C basics -/

/-- A NUL-terminated C string. -/
abbrev CStr := List Char

/-- A C `double`, counted in millionths. -/
abbrev double := ℤ

/-- The characters `strncpy (dst, src, n)` followed by `dst[n] = 0` leaves in `dst`. -/
def strncpy (src : CStr) (n : ℕ) : CStr := src.take n

/-- `strncat (dest, src, n)` on a buffer large enough: `dest` with at most `n` bytes of
`src` appended, up to the first NUL byte among them. Here `src` is a byte buffer that
need not be a string; the result is one. -/
def strncat (dest src : CStr) (n : ℕ) : CStr :=
  dest ++ (src.take n).takeWhile (fun c => c ≠ '\x00')

/-- The decimal digit `d` as a character. -/
def digit_char (d : ℕ) : Char := Char.ofNat (48 + d)

/-- Decimal digits of `n`, most significant first, pushed in front of `acc`. -/
def fmt_digits : ℕ → ℕ → CStr → CStr
  | 0, _, acc => acc
  | fuel + 1, n, acc =>
    if n < 10 then digit_char n :: acc
    else fmt_digits fuel (n / 10) (digit_char (n % 10) :: acc)

/-- Exactly `w` decimal digits of `n` (zero padded), pushed in front of `acc`. -/
def fmt_fixed_width : ℕ → ℕ → CStr → CStr
  | 0, _, acc => acc
  | w + 1, n, acc => fmt_fixed_width w (n / 10) (digit_char (n % 10) :: acc)

/-- `printf ("%llu", (unsigned long long) n)`. -/
def fmt_llu (n : ℕ) : CStr := fmt_digits (n % 2 ^ 64 + 1) (n % 2 ^ 64) []

/-- `printf ("%.6f", x)` for a `double` counted in millionths. -/
def fmt_f6 (x : double) : CStr :=
  (if x < 0 then ['-'] else []) ++
    fmt_digits (x.natAbs / 1000000 + 1) (x.natAbs / 1000000) [] ++
    '.' :: fmt_fixed_width 6 (x.natAbs % 1000000) []

/-- A natural number of millionths rounded to `places` decimal places (at most 6), ties
to even: the integer `printf` prints without its decimal point. (`printf` rounds the
binary value of the double, which lies just above or below a decimal tie: the last digit
printed for a tie can differ by one from the one given here.) -/
def fmt_round (places : ℕ) (n : ℕ) : ℕ :=
  let unit := 10 ^ (6 - places)
  if 2 * (n % unit) > unit ∨ (2 * (n % unit) = unit ∧ (n / unit) % 2 = 1) then n / unit + 1
  else n / unit

/-- `printf ("%.4f", x)`. -/
def fmt_f4 (x : double) : CStr :=
  (if x < 0 then ['-'] else []) ++
    fmt_digits (fmt_round 4 x.natAbs / 10000 + 1) (fmt_round 4 x.natAbs / 10000) [] ++
    '.' :: fmt_fixed_width 4 (fmt_round 4 x.natAbs % 10000) []

/-- `printf ("%.3f", x)`. -/
def fmt_f3 (x : double) : CStr :=
  (if x < 0 then ['-'] else []) ++
    fmt_digits (fmt_round 3 x.natAbs / 1000 + 1) (fmt_round 3 x.natAbs / 1000) [] ++
    '.' :: fmt_fixed_width 3 (fmt_round 3 x.natAbs % 1000) []

/-! ## The json-c library, as far as the sources use it

json-c is an external library.  The model covers the JSON grammar (objects,
arrays, strings with backslash escapes, numbers, `true`, `false`, `null`,
white space); the extensions of json-c's non-strict mode (comments, single
quotes, `NaN`, `Infinity`, upper-case literals) and its nesting limit are
left out.  A nested array or object is checked and kept as its source text.
A string is a list of bytes: a backslash-u escape is decoded to the bytes of
its UTF-8 form, in the way of json-c's tokener (whose state names are kept).
-/

/-- A JSON value that is not the top-level object. -/
inductive JVal where
  | null
  | bool (b : Bool)
  | int (n : ℤ)
  | dbl (x : double)
  | str (s : CStr)
  | nested (text : CStr)
  deriving DecidableEq

/-- What `json_tokener_parse` returns when it does not return `NULL`:
an object with its members in insertion order, or some other value. -/
inductive json_object where
  | object (members : List (CStr × JVal))
  | value (v : JVal)
  deriving DecidableEq

def INT32_MAX : ℤ := 2147483647
def INT32_MIN : ℤ := -2147483648
def INT64_MAX : ℤ := 9223372036854775807
def INT64_MIN : ℤ := -9223372036854775808

/-- Saturation of an integer to `[lo, hi]`. -/
def saturate (lo hi n : ℤ) : ℤ := if n < lo then lo else if hi < n then hi else n

def is_ws (c : Char) : Bool := c = ' ' || c = '\t' || c = '\n' || c = '\r'

def is_digit (c : Char) : Bool := 48 ≤ c.toNat && c.toNat ≤ 57

/-- The characters json-c collects into a number token. -/
def is_number_char (c : Char) : Bool :=
  is_digit c || c = '.' || c = '+' || c = '-' || c = 'e' || c = 'E'

def skip_ws : CStr → CStr
  | [] => []
  | c :: cs => if is_ws c then skip_ws cs else c :: cs

/-- The value of a string of decimal digits (`none` when a character is not a digit). -/
def parse_digits : CStr → ℕ → Option ℕ
  | [], acc => some acc
  | c :: cs, acc => if is_digit c then parse_digits cs (acc * 10 + (c.toNat - 48)) else none

/-- An optionally signed non-empty string of digits. -/
def parse_signed (tok : CStr) : Option ℤ :=
  match tok with
  | [] => none
  | '-' :: ds => if ds = [] then none else (parse_digits ds 0).map (fun n => - (n : ℤ))
  | '+' :: ds => if ds = [] then none else (parse_digits ds 0).map (fun n => (n : ℤ))
  | ds => (parse_digits ds 0).map (fun n => (n : ℤ))

/-- Decimal text with a fraction and/or an exponent, as a `double` in millionths
(digits beyond the sixth decimal place are cut). -/
def parse_double_text (tok : CStr) : Option double :=
  let neg := tok.head? = some '-'
  let body := if neg then tok.drop 1 else tok
  let mant := body.takeWhile (fun c => c ≠ 'e' && c ≠ 'E')
  let expo := (body.dropWhile (fun c => c ≠ 'e' && c ≠ 'E')).drop 1
  let ipart := mant.takeWhile (fun c => c ≠ '.')
  let fpart := (mant.dropWhile (fun c => c ≠ '.')).drop 1
  if ipart = [] then none
  else if mant.length ≠ body.length ∧ expo = [] then none
  else
    match parse_digits ipart 0, parse_digits fpart 0,
        (if expo = [] then some 0 else parse_signed expo) with
    | some i, some f, some e =>
      let digits : ℤ := (i * 10 ^ fpart.length + f : ℕ)
      let scale : ℤ := e - fpart.length + 6
      let v : ℤ := if 0 ≤ scale then digits * 10 ^ scale.toNat else digits / 10 ^ (-scale).toNat
      some (if neg then -v else v)
    | _, _, _ => none

/-- A number token: an integer (saturated to 64 bits) when it has neither
fraction nor exponent, a double otherwise. -/
def parse_number (tok : CStr) : Option JVal :=
  if tok.all (fun c => c ≠ '.' && c ≠ 'e' && c ≠ 'E') then
    (parse_signed tok).map (fun n => JVal.int (saturate INT64_MIN INT64_MAX n))
  else (parse_double_text tok).map JVal.dbl

/-- The character denoted by the escape `\c`, for `c` other than `u`. -/
def unescape (c : Char) : Option Char :=
  if c = '"' ∨ c = '\\' ∨ c = '/' then some c
  else if c = 'n' then some '\n'
  else if c = 't' then some '\t'
  else if c = 'r' then some '\r'
  else if c = 'b' then some (Char.ofNat 8)
  else if c = 'f' then some (Char.ofNat 12)
  else none

/-- The value of a hexadecimal digit. -/
def hex_digit (c : Char) : Option ℕ :=
  if is_digit c then some (c.toNat - 48)
  else if 97 ≤ c.toNat ∧ c.toNat ≤ 102 then some (c.toNat - 87)
  else if 65 ≤ c.toNat ∧ c.toNat ≤ 70 then some (c.toNat - 55)
  else none

/-- The three bytes of U+FFFD, which json-c puts in the place of a surrogate that has no
partner. -/
def utf8_replacement_char : CStr := [Char.ofNat 0xEF, Char.ofNat 0xBF, Char.ofNat 0xBD]

/-- `IS_HIGH_SURROGATE` and `IS_LOW_SURROGATE`. -/
def is_high_surrogate (uc : ℕ) : Bool := 0xD800 ≤ uc && uc < 0xDC00
def is_low_surrogate (uc : ℕ) : Bool := 0xDC00 ≤ uc && uc < 0xE000

/-- `DECODE_SURROGATE_PAIR`. -/
def decode_surrogate_pair (hi lo : ℕ) : ℕ := (hi % 0x400) * 0x400 + lo % 0x400 + 0x10000

/-- The bytes (UTF-8) json-c appends for the code point of a backslash-u escape that is
not a high surrogate. -/
def utf8_bytes (uc : ℕ) : CStr :=
  if uc < 0x80 then [Char.ofNat uc]
  else if uc < 0x800 then [Char.ofNat (0xC0 + uc / 0x40), Char.ofNat (0x80 + uc % 0x40)]
  else if is_low_surrogate uc then utf8_replacement_char
  else if uc < 0x10000 then
    [Char.ofNat (0xE0 + uc / 0x1000), Char.ofNat (0x80 + uc / 0x40 % 0x40),
      Char.ofNat (0x80 + uc % 0x40)]
  else if uc < 0x110000 then
    [Char.ofNat (0xF0 + uc / 0x40000), Char.ofNat (0x80 + uc / 0x1000 % 0x40),
      Char.ofNat (0x80 + uc / 0x40 % 0x40), Char.ofNat (0x80 + uc % 0x40)]
  else utf8_replacement_char

/-- The states of json-c's tokener inside a string literal: in the string, after a
backslash, inside the four digits of a backslash-u escape (`st_pos` digits read, value so
far `ucs_char`), and, after a high surrogate, waiting for the backslash and for the `u`
of its partner. -/
inductive StringState where
  | string
  | string_escape
  | escape_unicode (st_pos ucs_char : ℕ)
  | escape_unicode_need_escape
  | escape_unicode_need_u

/-- The bytes `pre` put in front of the contents of a parsed string. -/
def string_prepend (pre : CStr) (r : Option (CStr × CStr)) : Option (CStr × CStr) :=
  r.map (fun p => (pre ++ p.1, p.2))

/-- The rest of a string literal from the tokener state `st` on, with the pending high
surrogate `high_surrogate` (0 when there is none): the bytes of the string and what
follows the closing quote. A high surrogate whose partner does not follow is replaced by
U+FFFD and the character after it is taken up as usual. -/
def string_chars : StringState → ℕ → CStr → Option (CStr × CStr)
  | _, _, [] => none
  | StringState.string, _, c :: cs =>
    if c = '"' then some ([], cs)
    else if c = '\\' then string_chars StringState.string_escape 0 cs
    else string_prepend [c] (string_chars StringState.string 0 cs)
  | StringState.string_escape, _, c :: cs =>
    if c = 'u' then string_chars (StringState.escape_unicode 0 0) 0 cs
    else
      match unescape c with
      | some d => string_prepend [d] (string_chars StringState.string 0 cs)
      | none => none
  | StringState.escape_unicode st_pos ucs_char, high_surrogate, c :: cs =>
    match hex_digit c with
    | none => none
    | some h =>
      if st_pos < 3 then
        string_chars (StringState.escape_unicode (st_pos + 1) (ucs_char * 16 + h))
          high_surrogate cs
      else
        let paired := high_surrogate ≠ 0 ∧ is_low_surrogate (ucs_char * 16 + h) = true
        let pre := if high_surrogate ≠ 0 ∧ ¬ paired then utf8_replacement_char else []
        let uc :=
          if paired then decode_surrogate_pair high_surrogate (ucs_char * 16 + h)
          else ucs_char * 16 + h
        if is_high_surrogate uc then
          string_prepend pre (string_chars StringState.escape_unicode_need_escape uc cs)
        else string_prepend (pre ++ utf8_bytes uc) (string_chars StringState.string 0 cs)
  | StringState.escape_unicode_need_escape, high_surrogate, c :: cs =>
    if c = '\\' then string_chars StringState.escape_unicode_need_u high_surrogate cs
    else if c = '"' then some (utf8_replacement_char, cs)
    else string_prepend (utf8_replacement_char ++ [c]) (string_chars StringState.string 0 cs)
  | StringState.escape_unicode_need_u, high_surrogate, c :: cs =>
    if c = 'u' then string_chars (StringState.escape_unicode 0 0) high_surrogate cs
    else
      match unescape c with
      | some d =>
        string_prepend (utf8_replacement_char ++ [d]) (string_chars StringState.string 0 cs)
      | none => none

/-- The rest of a string literal after its opening quote: contents and what follows
the closing quote. -/
def parse_string_body (cs : CStr) : Option (CStr × CStr) :=
  string_chars StringState.string 0 cs

/-- The C string at the start of a byte buffer: the bytes before the first NUL. -/
def c_string (bytes : CStr) : CStr := bytes.takeWhile (fun c => c ≠ '\x00')

/-- `json_object_object_add`: the value of an existing key is replaced in place,
a new key goes to the end. -/
def json_object_object_add (ms : List (CStr × JVal)) (key : CStr) (v : JVal) :
    List (CStr × JVal) :=
  match ms with
  | [] => [(key, v)]
  | (k, w) :: rest =>
    if k = key then (k, v) :: rest else (k, w) :: json_object_object_add rest key v

mutual
/-- One JSON value at the start of the text, and the text after it. -/
def parse_value : ℕ → CStr → Option (JVal × CStr)
  | 0, _ => none
  | fuel + 1, cs =>
    match skip_ws cs with
    | [] => none
    | c :: rest =>
      if c = '"' then
        match parse_string_body rest with
        | none => none
        | some (s, r) => some (JVal.str s, r)
      else if c = '\x7b' then
        match parse_members fuel rest [] with
        | none => none
        | some (_, r) => some (JVal.nested ((c :: rest).take ((c :: rest).length - r.length)), r)
      else if c = '[' then
        match skip_ws rest with
        | ']' :: r => some (JVal.nested ((c :: rest).take ((c :: rest).length - r.length)), r)
        | _ =>
          match parse_elements fuel rest with
          | none => none
          | some r => some (JVal.nested ((c :: rest).take ((c :: rest).length - r.length)), r)
      else if is_number_char c then
        match parse_number ((c :: rest).takeWhile is_number_char) with
        | none => none
        | some v => some (v, (c :: rest).dropWhile is_number_char)
      else if (c :: rest).take 4 = ['n', 'u', 'l', 'l'] then some (JVal.null, rest.drop 3)
      else if (c :: rest).take 4 = ['t', 'r', 'u', 'e'] then some (JVal.bool true, rest.drop 3)
      else if (c :: rest).take 5 = ['f', 'a', 'l', 's', 'e'] then
        some (JVal.bool false, rest.drop 4)
      else none
/-- The members of an object after its opening brace, added to `acc`. -/
def parse_members : ℕ → CStr → List (CStr × JVal) → Option (List (CStr × JVal) × CStr)
  | 0, _, _ => none
  | fuel + 1, cs, acc =>
    match skip_ws cs with
    | '\x7d' :: r => if acc = [] then some (acc, r) else none
    | '"' :: rest =>
      match parse_string_body rest with
      | none => none
      | some (k, r) =>
        match skip_ws r with
        | ':' :: r2 =>
          match parse_value fuel r2 with
          | none => none
          | some (v, r3) =>
            match skip_ws r3 with
            | ',' :: r4 => parse_members fuel r4 (json_object_object_add acc (c_string k) v)
            | '\x7d' :: r4 => some (json_object_object_add acc (c_string k) v, r4)
            | _ => none
        | _ => none
    | _ => none
/-- The elements of a non-empty array after its opening bracket; only the rest of the text
is kept. -/
def parse_elements : ℕ → CStr → Option CStr
  | 0, _ => none
  | fuel + 1, cs =>
    match parse_value fuel cs with
    | none => none
    | some (_, r) =>
      match skip_ws r with
      | ',' :: r2 => parse_elements fuel r2
      | ']' :: r2 => some r2
      | _ => none
end

/-- `json_tokener_parse`: the first JSON value of the text. `none` is `NULL`, which
json-c returns for a text that does not parse and also for the JSON text `null` (a JSON
`null` is the `NULL` pointer). -/
def json_tokener_parse (text : CStr) : Option json_object :=
  match skip_ws text with
  | '\x7b' :: rest =>
    match parse_members (text.length + 1) rest [] with
    | none => none
    | some (ms, _) => some (json_object.object ms)
  | cs =>
    match parse_value (text.length + 1) cs with
    | none => none
    | some (JVal.null, _) => none
    | some (v, _) => some (json_object.value v)

/-- `json_object_object_get_ex`: the value stored under `key` (`none` when the key is
absent or the argument is not an object; a stored JSON `null` is `some JVal.null`). -/
def json_object_object_get_ex (jso : json_object) (key : CStr) : Option JVal :=
  match jso with
  | json_object.object ms => (ms.find? (fun p => p.1 = key)).map Prod.snd
  | json_object.value _ => none

/-- `json_object_get_string`: the C string at the pointer returned; `none` is the `NULL`
returned for a JSON `null`. -/
def json_object_get_string (v : JVal) : Option CStr :=
  match v with
  | JVal.null => none
  | JVal.str s => some (c_string s)
  | JVal.bool b => some (if b then "true".toList else "false".toList)
  | JVal.int n => some ((if n < 0 then ['-'] else []) ++ fmt_digits (n.natAbs + 1) n.natAbs [])
  | JVal.dbl x => some (fmt_f6 x)
  | JVal.nested t => some t

/-- `json_object_get_int`: a 32-bit `int`, saturated. -/
def json_object_get_int (v : JVal) : ℤ :=
  match v with
  | JVal.int n => saturate INT32_MIN INT32_MAX n
  | JVal.dbl x => saturate INT32_MIN INT32_MAX (x.tdiv 1000000)
  | JVal.bool b => if b then 1 else 0
  | JVal.str s =>
    match parse_signed (c_string s) with
    | some n => saturate INT32_MIN INT32_MAX n
    | none => 0
  | _ => 0

/-- `json_object_get_double`. -/
def json_object_get_double (v : JVal) : double :=
  match v with
  | JVal.dbl x => x
  | JVal.int n => n * 1000000
  | JVal.bool b => if b then 1000000 else 0
  | JVal.str s =>
    match parse_double_text (c_string s), parse_signed (c_string s) with
    | _, some n => n * 1000000
    | some x, none => x
    | none, none => 0
  | _ => 0

/-! ## Constants of the external headers -/

/-- Return codes of `mosquitto.h`. -/
def MOSQ_ERR_NOMEM : ℤ := 1
def MOSQ_ERR_INVAL : ℤ := 3
def MOSQ_ERR_ACL_DENIED : ℤ := 12

/-- Values of `errno.h` (Linux). -/
def EAGAIN : ℤ := 11
def EPIPE : ℤ := 32

/-- Return code of `MQTTClient.h`. -/
def MQTTCLIENT_SUCCESS : ℤ := 0

/-! ## The per-source table (`struct ip_entry`, uthash) -/

/-- `struct ip_entry`; `ip` is the key, at most 63 characters. -/
structure ip_entry where
  ip : CStr
  last_time : double
  packet_count : ℕ
  deriving DecidableEq

/-- `HASH_FIND_STR (ip_table, key, e)`: the entry whose stored key is `key`; among
entries with equal keys uthash finds the one added last. -/
def HASH_FIND_STR (ip_table : List ip_entry) (key : CStr) : Option ip_entry :=
  ip_table.find? (fun e => e.ip = key)

/-- `HASH_ADD_STR (ip_table, ip, e)`. -/
def HASH_ADD_STR (ip_table : List ip_entry) (e : ip_entry) : List ip_entry := e :: ip_table

/-- An assignment through the pointer returned by `HASH_FIND_STR (ip_table, key, e)`. -/
def ip_entry_assign (key : CStr) (f : ip_entry → ip_entry) : List ip_entry → List ip_entry
  | [] => []
  | e :: rest => if e.ip = key then f e :: rest else e :: ip_entry_assign key f rest

/-- `e->packet_count++` on a `uint64_t`. -/
def packet_count_incr (e : ip_entry) : ip_entry :=
  { e with packet_count := (e.packet_count + 1) % 2 ^ 64 }

/-! ## Singly linked queues with head and tail pointers

`ReceiveNode` and `CSVRecord` are both linked through a `next` field and
appended to under a mutex in the same way. `Cell` carries the `next`
field, `Queue` the memory holding the cells and the two pointers.
-/

/-- A heap cell: the payload of the C struct and its `next` pointer. -/
structure Cell (α : Type) where
  val : α
  next : ℕ

/-- A queue: `mem` maps an address to the cell allocated there, `brk` is the first
address never handed out, `head` and `tail` are the two global pointers. -/
structure Queue (α : Type) where
  mem : ℕ → Option (Cell α)
  brk : ℕ
  head : ℕ
  tail : ℕ

/-- No cell allocated, both pointers `NULL`. -/
def Queue.empty {α : Type} : Queue α := { mem := fun _ => none, brk := 1, head := 0, tail := 0 }

/-- Append a new cell holding `x`:
`if (!tail) head = tail = rn; else { tail->next = rn; tail = rn; }`. -/
def Queue.enqueue {α : Type} (q : Queue α) (x : α) : Option (Queue α) :=
  let rn := q.brk
  let mem := Function.update q.mem rn (some { val := x, next := 0 })
  if q.tail = 0 then some { mem := mem, brk := rn + 1, head := rn, tail := rn }
  else
    match mem q.tail with
    | none => none
    | some t =>
      some { mem := Function.update mem q.tail (some { t with next := rn }),
             brk := rn + 1, head := q.head, tail := rn }

/-- The cursor advance of a consumer thread:
`if (pos == NULL) { pos = head; has_new = (pos != NULL); }
 else if (pos->next) { pos = pos->next; has_new = 1; }`
followed by the copy `data = *pos` when `has_new`. Returns the new cursor and the
copied payload (`none` when there is nothing new). -/
def Queue.advance {α : Type} (q : Queue α) (pos : ℕ) : Option (ℕ × Option α) :=
  if pos = 0 then
    if q.head = 0 then some (0, none)
    else
      match q.mem q.head with
      | none => none
      | some c => some (q.head, some c.val)
  else
    match q.mem pos with
    | none => none
    | some c =>
      if c.next ≠ 0 then
        match q.mem c.next with
        | none => none
        | some d => some (c.next, some d.val)
      else some (pos, none)

/-- The payloads reachable from `p` by following `next`, at most `fuel` of them. -/
def Queue.walk {α : Type} (mem : ℕ → Option (Cell α)) : ℕ → ℕ → List α
  | 0, _ => []
  | fuel + 1, p =>
    if p = 0 then []
    else
      match mem p with
      | none => []
      | some c => c.val :: Queue.walk mem fuel c.next

/-- The payloads in the queue, from `head` on. -/
def Queue.toList {α : Type} (q : Queue α) : List α := Queue.walk q.mem q.brk q.head

/-! ## libcurl, as far as the sources use it -/

/-- What the HTTP transfer of one `curl_easy_perform` does: whether `curl_easy_init`
returned a handle, the pieces of the response body in the order they are handed to the
write callback, and whether the transfer itself ends with `CURLE_OK`. -/
structure CurlEnv where
  init_ok : Bool
  chunks : List CStr
  transfer_ok : Bool

/-- The write callback of both plugins (`curl_write_cb`, `curl_callback`): `ud` is the
256-byte response buffer, `ptr` the `size * nmemb` bytes of the chunk. Returns the new
buffer contents and the value returned to libcurl. -/
def curl_write_cb (ud : CStr) (ptr : CStr) : CStr × ℕ :=
  let total_size := ptr.length
  let current_len := ud.length
  let remaining := 255 - current_len
  let total_size := if total_size > remaining then remaining else total_size
  (strncat ud ptr total_size, total_size)

/-- libcurl hands the chunks to the callback one after the other and gives up with
`CURLE_WRITE_ERROR` as soon as the callback returns a count different from the chunk
size. Returns the buffer and whether every chunk was accepted. -/
def curl_deliver : List CStr → CStr → CStr × Bool
  | [], ud => (ud, true)
  | ptr :: rest, ud =>
    if (curl_write_cb ud ptr).2 = ptr.length then curl_deliver rest (curl_write_cb ud ptr).1
    else ((curl_write_cb ud ptr).1, false)

/-- `curl_easy_perform`: the response buffer and whether the result is `CURLE_OK`. -/
def curl_easy_perform (c : CurlEnv) : CStr × Bool :=
  ((curl_deliver c.chunks []).1, (curl_deliver c.chunks []).2 && c.transfer_ok)

/-- What a `write (fd, buffer, len)` on a FIFO does, and what the `open` of the
broken-pipe branch returns if it is reached. -/
structure WriteEnv where
  written : ℤ
  errno : ℤ
  new_fd : ℤ

/-! ## The arithmetic of C doubles -/

/-- A finite IEEE-754 binary64 number, `mant * 2 ^ expo` with a significand of at most 53
bits. The exponent is not bounded: overflow and subnormal numbers are left out. -/
structure Binary64 where
  mant : ℤ
  expo : ℤ
  deriving DecidableEq

namespace Binary64

def zero : Binary64 := { mant := 0, expo := 0 }

/-- The number of binary digits of `n`, for `n ≤ fuel`. -/
def bit_length : ℕ → ℕ → ℕ
  | 0, _ => 0
  | fuel + 1, n => if n = 0 then 0 else bit_length fuel (n / 2) + 1

/-- The binary64 number nearest to `m * 2 ^ e`, ties to the even significand (the
rounding mode in force when a C program starts). -/
def round (m e : ℤ) : Binary64 :=
  let n := m.natAbs
  let extra := bit_length n n - 53
  if extra = 0 then { mant := m, expo := e }
  else
    let q := n / 2 ^ extra
    let r := n % 2 ^ extra
    let half := 2 ^ (extra - 1)
    let q1 := if half < r ∨ (r = half ∧ q % 2 = 1) then q + 1 else q
    if q1 = 2 ^ 53 then { mant := m.sign * 2 ^ 52, expo := e + extra + 1 }
    else { mant := m.sign * q1, expo := e + extra }

/-- The significands of `x` and `y` over the smaller of their exponents. -/
def align (x y : Binary64) : ℤ × ℤ :=
  (x.mant * 2 ^ (x.expo - min x.expo y.expo).toNat,
    y.mant * 2 ^ (y.expo - min x.expo y.expo).toNat)

/-- `x - y` on doubles. -/
def sub (x y : Binary64) : Binary64 :=
  round ((align x y).1 - (align x y).2) (min x.expo y.expo)

/-- `x < y` on doubles. -/
def lt (x y : Binary64) : Bool := decide ((align x y).1 < (align x y).2)

end Binary64

namespace Fifo

/-! ## `time_delta_edge_plugin_fifo.c` -/

def CLEANUP_INTERVAL : ℤ := 1000000

/-- `#define FIXED_SERVICE_TIME_MS 0.0`. -/
def FIXED_SERVICE_TIME_MS : double := 0

/-- `struct ReceiveNode` without its `next` field (see `Cell`); `ip` holds at most 63
characters. -/
structure ReceiveNode where
  ip : CStr
  recv_ts : double
  packet_count : ℕ
  deriving DecidableEq

/-- `struct CSVRecord` without its `next` field. -/
structure CSVRecord where
  packet_count : ℕ
  recv_ts : double
  service_start_ts : double
  api_start_ts : double
  api_end_ts : double
  service_end_ts : double
  ip : CStr
  delta : double
  p_value : double
  trust : double
  action : CStr
  actual_api_time_ms : double
  wait_time_ms : double
  total_service_time_ms : double
  deriving DecidableEq

/-- The static variables of the plugin, and what it has put on the two FIFOs and in
the log file. -/
structure Globals where
  ip_table : List ip_entry
  high_fifo_fd : ℤ
  low_fifo_fd : ℤ
  log_file : Bool
  receive : Queue ReceiveNode
  receive_current_pos : ℕ
  csv_queue : Queue CSVRecord
  process_counter : ℤ
  high_pipe : CStr
  low_pipe : CStr
  log_rows : List CStr

/-- The record `enqueue_csv_record` builds from its arguments (the two `strncpy`). -/
def csv_record_stored (record : CSVRecord) : CSVRecord :=
  { record with ip := strncpy record.ip 63, action := strncpy record.action 15 }

/-- `enqueue_csv_record`; `alloc` tells whether `malloc` succeeds. -/
def enqueue_csv_record (g : Globals) (alloc : Bool) (record : CSVRecord) : Option Globals :=
  if !alloc then some g
  else
    match g.csv_queue.enqueue (csv_record_stored record) with
    | none => none
    | some q => some { g with csv_queue := q }

/-- Result of `call_policy_api`: `ok` is `return 0` with the three out-parameters,
`failed` is `return -1`. -/
inductive ApiResult where
  | ok (action : CStr) (trust : double) (p_val : double)
  | failed
  deriving DecidableEq

/-- `call_policy_api`; the request (`ip`, `delta`) only reaches the decision service, whose
answer is part of `c`. `none`: the `strncpy` from the `NULL` that `json_object_get_string`
returns for `"action": null`. -/
def call_policy_api (c : CurlEnv) : Option ApiResult :=
  if !c.init_ok then some ApiResult.failed
  else if !(curl_easy_perform c).2 then some ApiResult.failed
  else
    match json_tokener_parse (curl_easy_perform c).1 with
    | none => some ApiResult.failed
    | some r =>
      match json_object_object_get_ex r "action".toList,
          json_object_object_get_ex r "trust".toList,
          json_object_object_get_ex r "p_value".toList with
      | some ja, some jt, some jp =>
        match json_object_get_string ja with
        | none => none
        | some action_str =>
          some (ApiResult.ok (strncpy action_str 15) (json_object_get_double jt)
            (json_object_get_double jp))
      | _, _, _ => some ApiResult.failed

/-- The line `snprintf` formats in `write_to_fifo`. -/
def fifo_line (ip : CStr) (count : ℕ) (enqueue_ts : double) (action : CStr) : CStr :=
  "\x7b\"ip\":\"".toList ++ ip ++ "\",\"count\":".toList ++ fmt_llu count ++
    ",\"timestamp\":".toList ++ fmt_f6 enqueue_ts ++ ",\"priority\":\"".toList ++ action ++
    "\"\x7d\n".toList

/-- The bytes accepted by the FIFO behind the chosen descriptor. -/
def pipe_append (g : Globals) (high : Bool) (bytes : CStr) : Globals :=
  if high then { g with high_pipe := g.high_pipe ++ bytes }
  else { g with low_pipe := g.low_pipe ++ bytes }

/-- `if (strcmp (action, "high") == 0) high_fifo_fd = fd; else low_fifo_fd = fd;`. -/
def set_fifo_fd (g : Globals) (high : Bool) (fd : ℤ) : Globals :=
  if high then { g with high_fifo_fd := fd } else { g with low_fifo_fd := fd }

/-- The part of `write_to_fifo` after the target was chosen; `high` tells whether
`action` is `"high"` (it is `"low"` otherwise). -/
def fifo_write (g : Globals) (high : Bool) (buffer : CStr) (w : WriteEnv) : Globals :=
  let target_fd := if high then g.high_fifo_fd else g.low_fifo_fd
  if target_fd = -1 then g
  else
    let len : ℤ := buffer.length
    if 0 < len ∧ len < 256 then
      if w.written = len then pipe_append g high buffer
      else if w.written < 0 then
        if w.errno = EPIPE then
          if w.new_fd ≠ -1 then set_fifo_fd g high w.new_fd
          else set_fifo_fd g high (-1)
        else g
      else pipe_append g high (buffer.take w.written.toNat)
    else g

/-- `write_to_fifo`. -/
def write_to_fifo (g : Globals) (action ip : CStr) (count : ℕ) (enqueue_ts : double)
    (w : WriteEnv) : Globals :=
  if action = "high".toList then fifo_write g true (fifo_line ip count enqueue_ts action) w
  else if action = "low".toList then fifo_write g false (fifo_line ip count enqueue_ts action) w
  else g

/-- The system calls `write_to_fifo` makes after its `write`: `close (fd)` and
`open (path, O_WRONLY | O_NONBLOCK)` on the path of the HIGH (`true`) or LOW FIFO. -/
inductive Syscall where
  | close (fd : ℤ)
  | open_nonblock (high : Bool)
  deriving DecidableEq

/-- The system calls made after the `write` in the part of `write_to_fifo` that
`fifo_write` models. -/
def fifo_write_calls (g : Globals) (high : Bool) (buffer : CStr) (w : WriteEnv) :
    List Syscall :=
  let target_fd := if high then g.high_fifo_fd else g.low_fifo_fd
  if target_fd = -1 then []
  else
    let len : ℤ := buffer.length
    if 0 < len ∧ len < 256 then
      if w.written = len then []
      else if w.written < 0 then
        if w.errno = EPIPE then [Syscall.close target_fd, Syscall.open_nonblock high]
        else []
      else []
    else []

/-- The system calls `write_to_fifo` makes after its `write`. -/
def write_to_fifo_calls (g : Globals) (action ip : CStr) (count : ℕ) (enqueue_ts : double)
    (w : WriteEnv) : List Syscall :=
  if action = "high".toList then
    fifo_write_calls g true (fifo_line ip count enqueue_ts action) w
  else if action = "low".toList then
    fifo_write_calls g false (fifo_line ip count enqueue_ts action) w
  else []

/-- The loop of `cleanup_old_receive_nodes`, `fuel` iterations at most (`none` when
they do not suffice or a pointer dangles). -/
def cleanup_loop (now : double) (pos : ℕ) :
    ℕ → Queue ReceiveNode → ℕ → ℕ → Option (Queue ReceiveNode)
  | 0, q, _, curr => if curr = 0 ∨ curr = pos then some q else none
  | fuel + 1, q, prev, curr =>
    if curr = 0 ∨ curr = pos then some q
    else
      match q.mem curr with
      | none => none
      | some c =>
        if now - c.val.recv_ts > 300000000 then
          if prev ≠ 0 then
            match q.mem prev with
            | none => none
            | some p =>
              let mem := Function.update q.mem prev (some { p with next := c.next })
              cleanup_loop now pos fuel { q with mem := Function.update mem curr none }
                prev c.next
          else
            cleanup_loop now pos fuel
              { q with head := c.next, mem := Function.update q.mem curr none } prev c.next
        else cleanup_loop now pos fuel q curr c.next

/-- `cleanup_old_receive_nodes`; `now` is what `now_sec ()` returns. -/
def cleanup_old_receive_nodes (g : Globals) (now : double) : Option Globals :=
  if g.receive.head = 0 ∨ g.receive_current_pos = 0 then some g
  else
    match cleanup_loop now g.receive_current_pos g.receive.brk g.receive 0 g.receive.head with
    | none => none
    | some q => some { g with receive := q }

/-- What the environment does during one iteration of `processor_thread_fn`. -/
structure ProcEnv where
  service_start_ts : double
  api_start_ts : double
  curl : CurlEnv
  api_end_ts : double
  service_end_ts : double
  write : WriteEnv
  csv_alloc : Bool
  cleanup_now : double

/-- What one iteration of `processor_thread_fn` did with the record it took: the local
variables `current_data`, `delta`, `action`, `trust`, `p_val`, `wait_time_ms`, whether
`call_policy_api` returned non-zero, and the telemetry record appended to the CSV queue
(`none` when its `malloc` failed). -/
structure Processed where
  current_data : ReceiveNode
  delta : double
  api_failed : Bool
  action : CStr
  trust : double
  p_val : double
  wait_time_ms : double
  telemetry : Option CSVRecord
  deriving DecidableEq

/-- The `if / else if` chain on `action` that ends an API call in `processor_thread_fn`. -/
def route (g : Globals) (action : CStr) (current_data : ReceiveNode)
    (service_end_ts : double) (w : WriteEnv) : Globals :=
  if action = "drop".toList then g
  else if action = "high".toList then
    write_to_fifo g action current_data.ip current_data.packet_count service_end_ts w
  else if action = "low".toList then
    write_to_fifo g action current_data.ip current_data.packet_count service_end_ts w
  else
    write_to_fifo g "low".toList current_data.ip current_data.packet_count service_end_ts w

/-- One iteration of the `while` loop of `processor_thread_fn`. The second component is
`none` when the iteration found no new record (`has_new_data == 0`). -/
def processor_thread_fn (g : Globals) (env : ProcEnv) : Option (Globals × Option Processed) :=
  match g.receive.advance g.receive_current_pos with
  | none => none
  | some (_, none) => some (g, none)
  | some (pos, some current_data) =>
    let e := HASH_FIND_STR g.ip_table current_data.ip
    let delta : double :=
      match e with
      | some e => current_data.recv_ts - e.last_time
      | none => 0
    let ip_table :=
      match e with
      | some _ =>
        ip_entry_assign current_data.ip (fun e => { e with last_time := current_data.recv_ts })
          g.ip_table
      | none => g.ip_table
    let g1 := { g with receive_current_pos := pos, ip_table := ip_table }
    match call_policy_api env.curl with
    | none => none
    | some api =>
      let action : CStr :=
        match api with
        | ApiResult.ok a _ _ => a
        | ApiResult.failed => "low".toList
      let trust : double :=
        match api with
        | ApiResult.ok _ t _ => t
        | ApiResult.failed => 1000000
      let p_val : double :=
        match api with
        | ApiResult.ok _ _ p => p
        | ApiResult.failed => 0
      let actual_api_time_ms := (env.api_end_ts - env.api_start_ts) * 1000
      let elapsed_time_ms := (env.api_end_ts - env.service_start_ts) * 1000
      let wait_time_ms : double :=
        if elapsed_time_ms < FIXED_SERVICE_TIME_MS then FIXED_SERVICE_TIME_MS - elapsed_time_ms
        else 0
      let actual_service_time_ms := (env.service_end_ts - env.service_start_ts) * 1000
      let g2 := route g1 action current_data env.service_end_ts env.write
      let record : CSVRecord :=
        { packet_count := current_data.packet_count, recv_ts := current_data.recv_ts,
          service_start_ts := env.service_start_ts, api_start_ts := env.api_start_ts,
          api_end_ts := env.api_end_ts, service_end_ts := env.service_end_ts,
          ip := current_data.ip, delta := delta, p_value := p_val, trust := trust,
          action := action, actual_api_time_ms := actual_api_time_ms,
          wait_time_ms := wait_time_ms, total_service_time_ms := actual_service_time_ms }
      match enqueue_csv_record g2 env.csv_alloc record with
      | none => none
      | some g3 =>
        let g4 := { g3 with process_counter := g3.process_counter + 1 }
        let p : Processed :=
          { current_data := current_data, delta := delta,
            api_failed := decide (api = ApiResult.failed), action := action, trust := trust,
            p_val := p_val, wait_time_ms := wait_time_ms,
            telemetry := if env.csv_alloc then some (csv_record_stored record) else none }
        if g4.process_counter.tmod CLEANUP_INTERVAL = 0 then
          match cleanup_old_receive_nodes g4 env.cleanup_now with
          | none => none
          | some g5 => some (g5, some p)
        else some (g4, some p)

/-- The value `processor_thread_fn` gives `wait_time_ms`, in the arithmetic of C doubles,
when the macro `FIXED_SERVICE_TIME_MS` is defined as `fixed_service_time_ms`:
`if (elapsed_time_ms < FIXED_SERVICE_TIME_MS) wait_time_ms = FIXED_SERVICE_TIME_MS -
elapsed_time_ms;` after `wait_time_ms = 0.0`. -/
def wait_time_ms (fixed_service_time_ms elapsed_time_ms : Binary64) : Binary64 :=
  if Binary64.lt elapsed_time_ms fixed_service_time_ms then
    Binary64.sub fixed_service_time_ms elapsed_time_ms
  else Binary64.zero

/-- One invocation of the message hook: whether `msg` and `msg->client` are there, what
`mosquitto_client_address` returns (`none` is `NULL`), what `now_sec ()` returns, and
whether the `calloc` of a table entry and the `malloc` of a queue node succeed. -/
structure Msg where
  client : Bool
  address : Option CStr
  recv_ts : double
  entry_alloc : Bool
  node_alloc : Bool

/-- What the hook returns, the sequence number `seq` it assigned (when it got that far)
and the record it appended to the receive queue (when it did). -/
structure HookResult where
  rc : ℤ
  seq : Option ℕ
  enqueued : Option ReceiveNode
  deriving DecidableEq

/-- `on_message_callback`. -/
def on_message_callback (g : Globals) (m : Msg) : Option (Globals × HookResult) :=
  if !m.client then some (g, { rc := MOSQ_ERR_INVAL, seq := none, enqueued := none })
  else
    match m.address with
    | none => some (g, { rc := MOSQ_ERR_INVAL, seq := none, enqueued := none })
    | some ip =>
      match HASH_FIND_STR g.ip_table ip with
      | none =>
        if !m.entry_alloc then
          some (g, { rc := MOSQ_ERR_NOMEM, seq := none, enqueued := none })
        else
          let e : ip_entry :=
            packet_count_incr { ip := strncpy ip 63, last_time := m.recv_ts, packet_count := 0 }
          let g1 := { g with ip_table := HASH_ADD_STR g.ip_table e }
          let seq := e.packet_count
          if !m.node_alloc then
            some (g1, { rc := MOSQ_ERR_NOMEM, seq := some seq, enqueued := none })
          else
            let rn : ReceiveNode :=
              { ip := strncpy ip 63, recv_ts := m.recv_ts, packet_count := seq }
            match g1.receive.enqueue rn with
            | none => none
            | some q =>
              some ({ g1 with receive := q },
                { rc := MOSQ_ERR_ACL_DENIED, seq := some seq, enqueued := some rn })
      | some e =>
        let g1 := { g with ip_table := ip_entry_assign ip packet_count_incr g.ip_table }
        let seq := (packet_count_incr e).packet_count
        if !m.node_alloc then
          some (g1, { rc := MOSQ_ERR_NOMEM, seq := some seq, enqueued := none })
        else
          let rn : ReceiveNode :=
            { ip := strncpy ip 63, recv_ts := m.recv_ts, packet_count := seq }
          match g1.receive.enqueue rn with
          | none => none
          | some q =>
            some ({ g1 with receive := q },
              { rc := MOSQ_ERR_ACL_DENIED, seq := some seq, enqueued := some rn })

/-- What `mosquitto_plugin_init` finds: whether `fopen` of the log succeeds and what the
two `open` calls on the FIFOs return. -/
structure InitEnv where
  log_open : Bool
  high_fd : ℤ
  low_fd : ℤ

/-- The header row written to the log. -/
def csv_header : CStr :=
  ("packet_count,recv_ts,service_start_ts,api_start_ts,api_end_ts,service_end_ts,ip,delta," ++
    "p_value,trust,packet_count_dup,action,actual_api_time_ms,wait_time_ms," ++
    "total_service_time_ms\n").toList

/-- The state after `mosquitto_plugin_init` (both threads created). -/
def mosquitto_plugin_init (env : InitEnv) : Globals :=
  { ip_table := [], high_fifo_fd := env.high_fd, low_fifo_fd := env.low_fd,
    log_file := env.log_open, receive := Queue.empty, receive_current_pos := 0,
    csv_queue := Queue.empty, process_counter := 0, high_pipe := [], low_pipe := [],
    log_rows := if env.log_open then [csv_header] else [] }

/-- The row `fprintf` writes in `csv_writer_thread_fn`, format
`"%llu,%.6f,%.6f,%.6f,%.6f,%.6f,%s,%.6f,%.4f,%.3f,%llu,%s,%.3f,%.3f,%.3f\n"`. -/
def csv_row (record_data : CSVRecord) : CStr :=
  fmt_llu record_data.packet_count ++ [','] ++
    fmt_f6 record_data.recv_ts ++ [','] ++
    fmt_f6 record_data.service_start_ts ++ [','] ++
    fmt_f6 record_data.api_start_ts ++ [','] ++
    fmt_f6 record_data.api_end_ts ++ [','] ++
    fmt_f6 record_data.service_end_ts ++ [','] ++
    record_data.ip ++ [','] ++
    fmt_f6 record_data.delta ++ [','] ++
    fmt_f4 record_data.p_value ++ [','] ++
    fmt_f3 record_data.trust ++ [','] ++
    fmt_llu record_data.packet_count ++ [','] ++
    record_data.action ++ [','] ++
    fmt_f3 record_data.actual_api_time_ms ++ [','] ++
    fmt_f3 record_data.wait_time_ms ++ [','] ++
    fmt_f3 record_data.total_service_time_ms ++ ['\n']

/-- One iteration of the `while` loop of `csv_writer_thread_fn`; `current_pos` is the
local variable of the thread function, the cursor into the CSV queue. Returns the new
state and the new cursor. -/
def csv_writer_thread_fn (g : Globals) (current_pos : ℕ) : Option (Globals × ℕ) :=
  match g.csv_queue.advance current_pos with
  | none => none
  | some (pos, none) => some (g, pos)
  | some (pos, some record_data) =>
    if g.log_file then some ({ g with log_rows := g.log_rows ++ [csv_row record_data] }, pos)
    else some (g, pos)

/-- The iterations of the CSV writer thread, `fuel` of them, from cursor `current_pos`. -/
def csv_writer_run : ℕ → Globals → ℕ → Option (Globals × ℕ)
  | 0, g, current_pos => some (g, current_pos)
  | fuel + 1, g, current_pos =>
    match csv_writer_thread_fn g current_pos with
    | none => none
    | some (g1, pos) => csv_writer_run fuel g1 pos

/-- What an iteration of the loop of `csv_writer_thread_fn` does that can be observed:
the copy `record_data = *current_pos` of a new record, and the calls on `log_file`. -/
inductive WriterAct where
  | take (record_data : CSVRecord)
  | fprintf (row : CStr)
  | fflush
  deriving DecidableEq

/-- The acts of one iteration of the loop of `csv_writer_thread_fn`, in program order:
nothing without a new record; the copy, then, if `log_file` is not `NULL`, `fprintf` and
`fflush`. -/
def csv_writer_acts (g : Globals) (current_pos : ℕ) : List WriterAct :=
  match g.csv_queue.advance current_pos with
  | some (_, some record_data) =>
    WriterAct.take record_data ::
      (if g.log_file then [WriterAct.fprintf (csv_row record_data), WriterAct.fflush] else [])
  | _ => []

/-- The two threads at the CSV queue: a call of `enqueue_csv_record` by the processing
thread (`alloc` tells whether its `malloc` succeeds), or one iteration of the loop of the
writer thread. The queue mutex makes them follow one another. -/
inductive CsvEvent where
  | enqueue (alloc : Bool) (record : CSVRecord)
  | writer

/-- One step at the CSV queue; `current_pos` is the cursor of the writer thread. -/
def csv_step (g : Globals) (current_pos : ℕ) (ev : CsvEvent) : Option (Globals × ℕ) :=
  match ev with
  | CsvEvent.enqueue alloc record =>
    (enqueue_csv_record g alloc record).map (fun g1 => (g1, current_pos))
  | CsvEvent.writer => csv_writer_thread_fn g current_pos

/-- The state and the cursor after a sequence of steps at the CSV queue (`none` when one of
them crashes). -/
def csv_steps : List CsvEvent → Globals → ℕ → Option (Globals × ℕ)
  | [], g, current_pos => some (g, current_pos)
  | ev :: evs, g, current_pos =>
    match csv_step g current_pos ev with
    | none => none
    | some (g1, pos) => csv_steps evs g1 pos

/-- The acts of the writer thread during a sequence of steps at the CSV queue, up to the
first step that crashes. -/
def csv_steps_acts : List CsvEvent → Globals → ℕ → List WriterAct
  | [], _, _ => []
  | ev :: evs, g, current_pos =>
    match csv_step g current_pos ev with
    | none => []
    | some (g1, pos) =>
      (match ev with
        | CsvEvent.writer => csv_writer_acts g current_pos
        | CsvEvent.enqueue _ _ => []) ++ csv_steps_acts evs g1 pos

/-- The steps of the plugin after initialisation: a message arrives at the hook, the
processing thread runs one iteration of its loop, or the sweep runs on its own. -/
inductive Event where
  | message (m : Msg)
  | process (env : ProcEnv)
  | sweep (now : double)

/-- What a step lets one observe. -/
inductive Obs where
  | hook (r : HookResult)
  | processed (p : Option Processed)
  | swept
  deriving DecidableEq

def step (g : Globals) (ev : Event) : Option (Globals × Obs) :=
  match ev with
  | Event.message m => (on_message_callback g m).map (fun r => (r.1, Obs.hook r.2))
  | Event.process env => (processor_thread_fn g env).map (fun r => (r.1, Obs.processed r.2))
  | Event.sweep now => (cleanup_old_receive_nodes g now).map (fun g1 => (g1, Obs.swept))

/-- The observations of a sequence of steps, up to the first step that crashes. -/
def run : Globals → List Event → List Obs
  | _, [] => []
  | g, ev :: evs =>
    match step g ev with
    | none => []
    | some (g1, o) => o :: run g1 evs

/-- The state after a sequence of steps (`none` when one of them crashes). -/
def run_state : Globals → List Event → Option Globals
  | g, [] => some g
  | g, ev :: evs =>
    match step g ev with
    | none => none
    | some (g1, _) => run_state g1 evs

/-- The source address of a message as the hook sees it (`none` when the hook returns
`MOSQ_ERR_INVAL`). -/
def Msg.source (m : Msg) : Option CStr := if m.client then m.address else none

/-- The number of messages from source `a` among the events. -/
def arrivals (a : CStr) : List Event → ℕ
  | [] => 0
  | Event.message m :: evs => (if m.source = some a then 1 else 0) + arrivals a evs
  | _ :: evs => arrivals a evs

/-- The records appended to the receive queue, in order. -/
def enqueued_of : List Obs → List ReceiveNode
  | [] => []
  | Obs.hook r :: os => r.enqueued.toList ++ enqueued_of os
  | _ :: os => enqueued_of os

/-- What the iterations of the processing thread that took a record did, in order. -/
def processed_of : List Obs → List Processed
  | [] => []
  | Obs.processed (some p) :: os => p :: processed_of os
  | _ :: os => processed_of os

/-- A step that does not crash the plugin in `call_policy_api`. -/
def Event.survives : Event → Bool
  | Event.process env => (call_policy_api env.curl).isSome
  | _ => true

/-- A step in which the telemetry allocation, if any, succeeds. -/
def Event.csv_allocated : Event → Bool
  | Event.process env => env.csv_alloc
  | _ => true

/-- A step in which the allocations of the hook, if any, succeed. -/
def Event.hook_allocated : Event → Bool
  | Event.message m => m.entry_alloc && m.node_alloc
  | _ => true

/-- A step in which the source address seen by the hook, if any, is shorter than 64
characters. -/
def Event.short_source : Event → Bool
  | Event.message m =>
    match m.source with
    | some a => decide (a.length < 64)
    | none => true
  | _ => true

/-- A step in which the `calloc` of a table entry, if any, succeeds. -/
def Event.entry_allocated : Event → Bool
  | Event.message m => m.entry_alloc
  | _ => true

/-- The sequence number assigned in a step, if it is a hook invocation that assigned one. -/
def seq_of : Obs → Option ℕ
  | Obs.hook r => r.seq
  | _ => none

/-- The source address and receive timestamp of every message the hook accepts, in
order of arrival. -/
def received : List Event → List (CStr × double)
  | [] => []
  | Event.message m :: evs =>
    match m.source with
    | some a => (a, m.recv_ts) :: received evs
    | none => received evs
  | _ :: evs => received evs

/-- The delta of the `j`-th record `rec` of `recs`: 0 when no earlier record has the
same source, otherwise the receive timestamp of `rec` minus that of the latest earlier
record of the same source. -/
def expected_delta (recs : List ReceiveNode) (j : ℕ) (rec : ReceiveNode) : double :=
  match (recs.take j).reverse.find? (fun r => decide (r.ip = rec.ip)) with
  | none => 0
  | some prev => rec.recv_ts - prev.recv_ts

end Fifo

/-! ## Reading lines from a FIFO (`fgets`) -/

def BUF_SIZE : ℕ := 4096

/-- At most `k` characters of the stream, up to and including the first newline, and
the characters left in the stream. -/
def fgets_take : ℕ → CStr → CStr × CStr
  | 0, cs => ([], cs)
  | _ + 1, [] => ([], [])
  | k + 1, c :: cs =>
    if c = '\n' then ([c], cs) else (c :: (fgets_take k cs).1, (fgets_take k cs).2)

/-- `fgets (buf, n, f)` on a stream whose end-of-file indicator is not set and whose bytes
still to be read are `file`: `none` is the `NULL` returned when there is nothing to read
(end of file, or `EAGAIN` on a non-blocking descriptor); otherwise the contents of `buf`
and the bytes left. -/
def fgets (n : ℕ) (file : CStr) : Option (CStr × CStr) :=
  if file = [] then none else some (fgets_take (n - 1) file)

/-- Whether `fgets (buf, n, f)` uses up the bytes at hand before it has a newline or a
full buffer, and so calls `read` on the drained FIFO: the bytes hold no newline and are
fewer than `n - 1`. That `read` returns -1 with `EAGAIN` while a writer has the FIFO
open, and 0 when none has: the stream then sets its end-of-file indicator. -/
def fgets_starved (n : ℕ) (file : CStr) : Bool :=
  decide ('\n' ∉ file) && decide (file.length < n - 1)

/-- `if (len > 0 && buf[len-1] == '\n') buf[len-1] = '\0';`. -/
def strip_newline (buf : CStr) : CStr :=
  if buf.getLast? = some '\n' then buf.dropLast else buf

/-- The payload handed to `MQTTClient_publishMessage`: the raw line, or the JSON object
that `json_object_to_json_string` serialises. -/
inductive Payload where
  | raw (line : CStr)
  | json (members : List (CStr × JVal))
  deriving DecidableEq

/-- How a forwarder loop was left, or `pending` when it is still running after the steps
considered. `crashed` is the failed `assert` of `json_object_object_add` on a line that
parses as JSON but is not an object. -/
inductive Exit where
  | stopped
  | eof
  | breaker
  | crashed
  | pending
  deriving DecidableEq

/-- The members published for a parsed line: the line's own members with `forwarder_ip`
and `forward_timestamp` added. -/
def augment (members : List (CStr × JVal)) (start_forward_ts : double) : List (CStr × JVal) :=
  json_object_object_add
    (json_object_object_add members "forwarder_ip".toList (JVal.str "192.168.100.2".toList))
    "forward_timestamp".toList (JVal.dbl start_forward_ts)

namespace PqForwarder

/-! ## `pq_forwarder.c` -/

/-- What the environment does during one `process_message`. -/
structure PubEnv where
  enqueue_ts : double
  start_forward_ts : double
  rc : ℤ
  end_forward_ts : double
  connected : Bool

/-- One call of `MQTTClient_publishMessage`. -/
structure Publish where
  payload : Payload
  priority : CStr
  rc : ℤ
  deriving DecidableEq

/-- One row of the forwarder's CSV file; `none` in a string column is the `NULL` that
`json_object_get_string` returns for a JSON `null`. -/
structure CsvRow where
  enqueue_ts : double
  start_forward_ts : double
  end_forward_ts : double
  orig_ip : Option CStr
  packet_count : ℤ
  orig_ts : double
  fwd_res : CStr
  forward_duration_ms : double
  msg_priority : Option CStr
  deriving DecidableEq

/-- The variables of `main` and the statics, the bytes not yet read from the two FIFOs,
the end-of-file indicators of the two streams, and what has been published and logged.
The indicator of a stream is set when a `read` returns 0 and is never cleared (the
program calls neither `clearerr` nor a positioning function): from then on `fgets`
returns `NULL` without reading. -/
structure State where
  publish_failures : ℤ
  high_processed : ℕ
  low_processed : ℕ
  total_messages : ℕ
  debug_cycle : ℕ
  high_file : CStr
  low_file : CStr
  high_eof : Bool
  low_eof : Bool
  csv : List CsvRow
  published : List Publish
  deriving DecidableEq

/-- The state when the processing loop of `main` is entered. -/
def main_start (high_file low_file : CStr) : State :=
  { publish_failures := 0, high_processed := 0, low_processed := 0, total_messages := 0,
    debug_cycle := 0, high_file := high_file, low_file := low_file, high_eof := false,
    low_eof := false, csv := [], published := [] }

/-- The local variables `orig_ip`, `packet_count`, `orig_ts`, `msg_priority` of
`process_message` after the `if (jobj)` block. -/
structure Fields where
  orig_ip : Option CStr
  packet_count : ℤ
  orig_ts : double
  msg_priority : Option CStr
  deriving DecidableEq

def parse_fields (jobj : Option json_object) : Fields :=
  match jobj with
  | none =>
    { orig_ip := some "unknown".toList, packet_count := 0, orig_ts := 0,
      msg_priority := some "unknown".toList }
  | some j =>
    { orig_ip :=
        match json_object_object_get_ex j "ip".toList with
        | some tmp => json_object_get_string tmp
        | none => some "unknown".toList,
      packet_count :=
        match json_object_object_get_ex j "count".toList with
        | some tmp => json_object_get_int tmp
        | none => 0,
      orig_ts :=
        match json_object_object_get_ex j "timestamp".toList with
        | some tmp => json_object_get_double tmp
        | none => 0,
      msg_priority :=
        match json_object_object_get_ex j "priority".toList with
        | some tmp => json_object_get_string tmp
        | none => some "unknown".toList }

/-- `process_message`; returns the new state and the return value, `none` on a crash. -/
def process_message (s : State) (line : CStr) (priority : CStr) (env : PubEnv) :
    Option (State × ℤ) :=
  if line = [] then some (s, 0)
  else
    let jobj := json_tokener_parse line
    let f := parse_fields jobj
    let payload : Option Payload :=
      match jobj with
      | none => some (Payload.raw line)
      | some (json_object.object ms) => some (Payload.json (augment ms env.start_forward_ts))
      | some (json_object.value _) => none
    match payload with
    | none => none
    | some payload =>
      let ok : Bool := env.rc = MQTTCLIENT_SUCCESS
      let s1 : State :=
        if ok then
          if priority = "HIGH".toList then { s with high_processed := s.high_processed + 1 }
          else { s with low_processed := s.low_processed + 1 }
        else { s with publish_failures := s.publish_failures + 1 }
      let row : CsvRow :=
        { enqueue_ts := env.enqueue_ts, start_forward_ts := env.start_forward_ts,
          end_forward_ts := env.end_forward_ts, orig_ip := f.orig_ip,
          packet_count := f.packet_count, orig_ts := f.orig_ts,
          fwd_res := if ok then "SUCCESS".toList else "FAILED".toList,
          forward_duration_ms := (env.end_forward_ts - env.start_forward_ts) * 1000,
          msg_priority := f.msg_priority }
      some ({ s1 with csv := s1.csv ++ [row],
                      published := s1.published ++
                        [{ payload := payload, priority := priority, rc := env.rc }] },
        if ok then 1 else 0)

/-- What the environment does during one cycle of the loop: the value of `running` at the
loop test, the bytes that reached each FIFO since it was last read, whether a `read` of
the drained FIFO finds it without a writer (it returns 0, not `EAGAIN`), the publish of
each of the two possible messages, and the connection check at the end of the cycle. -/
structure CycleEnv where
  running : Bool
  high_arrival : CStr
  high_hangup : Bool
  high_pub : PubEnv
  low_arrival : CStr
  low_hangup : Bool
  low_pub : PubEnv
  connected : Bool
  reconnect_rc : ℤ

/-- The first half of a cycle: `fgets` on the HIGH FIFO and what follows from it. With
the end-of-file indicator set `fgets` returns `NULL` and the bytes stay in the FIFO. -/
def read_high (s : State) (env : CycleEnv) : Option State :=
  if s.high_eof then some { s with high_file := s.high_file ++ env.high_arrival }
  else
    let eof := fgets_starved BUF_SIZE (s.high_file ++ env.high_arrival) && env.high_hangup
    match fgets BUF_SIZE (s.high_file ++ env.high_arrival) with
    | none => some { s with high_eof := eof }
    | some (high_buf, rest) =>
      let s1 := { s with high_file := rest, high_eof := eof }
      if strip_newline high_buf ≠ [] then
        match process_message s1 (strip_newline high_buf) "HIGH".toList env.high_pub with
        | none => none
        | some (s2, _) => some { s2 with total_messages := s2.total_messages + 1 }
      else some s1

/-- The second half of a cycle: `fgets` on the LOW FIFO and what follows from it. With
the end-of-file indicator set `fgets` returns `NULL` and the bytes stay in the FIFO. -/
def read_low (s : State) (env : CycleEnv) : Option State :=
  if s.low_eof then some { s with low_file := s.low_file ++ env.low_arrival }
  else
    let eof := fgets_starved BUF_SIZE (s.low_file ++ env.low_arrival) && env.low_hangup
    match fgets BUF_SIZE (s.low_file ++ env.low_arrival) with
    | none => some { s with low_eof := eof }
    | some (low_buf, rest) =>
      let s1 := { s with low_file := rest, low_eof := eof }
      if strip_newline low_buf ≠ [] then
        match process_message s1 (strip_newline low_buf) "LOW".toList env.low_pub with
        | none => none
        | some (s2, _) => some { s2 with total_messages := s2.total_messages + 1 }
      else some s1

/-- The body of the `while (running)` loop up to the circuit-breaker test (the reconnect
attempt changes nothing that is modelled). -/
def cycle (s : State) (env : CycleEnv) : Option State :=
  match read_high { s with debug_cycle := s.debug_cycle + 1 } env with
  | none => none
  | some s1 => read_low s1 env

/-- The `while (running)` loop of `main`, one `CycleEnv` per cycle. The state is observed
at the loop test: when a cycle crashes the state returned is the one at the last loop
test, before that cycle (`read_high` gives what the HIGH half of the cycle did when it is
the LOW half that crashes). -/
def main_loop : List CycleEnv → State → State × Exit
  | [], s => (s, Exit.pending)
  | env :: envs, s =>
    if !env.running then (s, Exit.stopped)
    else
      match cycle s env with
      | none => (s, Exit.crashed)
      | some s1 =>
        if s1.publish_failures > 100 then (s1, Exit.breaker) else main_loop envs s1

end PqForwarder

namespace PahoForwarder

/-! ## `paho_forwarder.c` -/

/-- What the environment does during one iteration of the loop. -/
structure IterEnv where
  running : Bool
  read_ts : double
  start_forward_ts : double
  rc : ℤ
  end_forward_ts : double
  connected : Bool
  reconnect_rc : ℤ

structure Publish where
  payload : Payload
  rc : ℤ
  deriving DecidableEq

structure CsvRow where
  read_ts : double
  start_forward_ts : double
  end_forward_ts : double
  orig_ip : Option CStr
  packet_count : ℤ
  orig_ts : double
  fwd_res : CStr
  forward_duration_ms : double
  deriving DecidableEq

/-- The variables of `main`, the bytes the FIFO still delivers before end of file, and
what has been published and logged. -/
structure State where
  publish_failures : ℤ
  count : ℕ
  file : CStr
  csv : List CsvRow
  published : List Publish
  deriving DecidableEq

def main_start (file : CStr) : State :=
  { publish_failures := 0, count := 0, file := file, csv := [], published := [] }

/-- The body of the loop after a non-empty line was read, up to the circuit-breaker test. -/
def forward_line (s : State) (buf : CStr) (env : IterEnv) : Option State :=
  let jobj := json_tokener_parse buf
  let payload : Option Payload :=
    match jobj with
    | none => some (Payload.raw buf)
    | some (json_object.object ms) => some (Payload.json (augment ms env.start_forward_ts))
    | some (json_object.value _) => none
  match payload with
  | none => none
  | some payload =>
    let ok : Bool := env.rc = MQTTCLIENT_SUCCESS
    let row : CsvRow :=
      { read_ts := env.read_ts, start_forward_ts := env.start_forward_ts,
        end_forward_ts := env.end_forward_ts,
        orig_ip :=
          match jobj with
          | none => some []
          | some j =>
            match json_object_object_get_ex j "ip".toList with
            | some tmp => json_object_get_string tmp
            | none => some [],
        packet_count :=
          match jobj with
          | none => 0
          | some j =>
            match json_object_object_get_ex j "count".toList with
            | some tmp => json_object_get_int tmp
            | none => 0,
        orig_ts :=
          match jobj with
          | none => 0
          | some j =>
            match json_object_object_get_ex j "timestamp".toList with
            | some tmp => json_object_get_double tmp
            | none => 0,
        fwd_res := if ok then "SUCCESS".toList else "FAILED".toList,
        forward_duration_ms := (env.end_forward_ts - env.start_forward_ts) * 1000 }
    some { s with count := s.count + 1,
                  publish_failures := if ok then s.publish_failures else s.publish_failures + 1,
                  csv := s.csv ++ [row],
                  published := s.published ++ [{ payload := payload, rc := env.rc }] }

/-- The loop `while (running && fgets (buf, sizeof (buf), f))` of `main`, one `IterEnv`
per evaluation of the loop condition. -/
def main_loop : List IterEnv → State → State × Exit
  | [], s => (s, Exit.pending)
  | env :: envs, s =>
    if !env.running then (s, Exit.stopped)
    else
      match fgets BUF_SIZE s.file with
      | none => (s, Exit.eof)
      | some (buf, rest) =>
        if strip_newline buf = [] then main_loop envs { s with file := rest }
        else
          match forward_line { s with file := rest } (strip_newline buf) env with
          | none => ({ s with file := rest }, Exit.crashed)
          | some s1 =>
            if s1.publish_failures > 100 then (s1, Exit.breaker) else main_loop envs s1

end PahoForwarder

namespace Simple

/-! ## `simple_edge_plugin.c` -/

/-- One row of the plugin's log. -/
structure LogRow where
  enqueue_ts : double
  start_service_ts : double
  end_service_ts : double
  ip : CStr
  count : ℕ
  delta : double
  action : CStr
  deriving DecidableEq

/-- The static variables of the plugin, and what it has put on the FIFO and in the log. -/
structure Globals where
  ip_table : List ip_entry
  fifo_fd : ℤ
  log_file : Bool
  fifo_pipe : CStr
  log_rows : List LogRow

/-- `call_policy_api`: `some (some a)` is `return 0` with `out_action = a`, `some none` is
`return -1`, `none` the crash on `"action": null`. -/
def call_policy_api (c : CurlEnv) : Option (Option CStr) :=
  if !c.init_ok then some none
  else if !(curl_easy_perform c).2 then some none
  else
    match json_tokener_parse (curl_easy_perform c).1 with
    | none => some none
    | some response_obj =>
      match json_object_object_get_ex response_obj "action".toList with
      | some action_obj =>
        match json_object_get_string action_obj with
        | none => none
        | some a => some (some (strncpy a 15))
      | none => some none

/-- The line `snprintf` formats in `write_to_fifo`. -/
def fifo_line (ip : CStr) (count : ℕ) (enqueue_ts : double) : CStr :=
  "\x7b\"ip\":\"".toList ++ ip ++ "\",\"count\":".toList ++ fmt_llu count ++
    ",\"timestamp\":".toList ++ fmt_f6 enqueue_ts ++ "\x7d\n".toList

/-- `write_to_fifo`. -/
def write_to_fifo (g : Globals) (ip : CStr) (count : ℕ) (enqueue_ts : double)
    (w : WriteEnv) : Globals :=
  if g.fifo_fd = -1 then g
  else
    let buffer := fifo_line ip count enqueue_ts
    let len : ℤ := buffer.length
    if 0 < len ∧ len < 256 then
      if w.written < 0 then g
      else { g with fifo_pipe := g.fifo_pipe ++ buffer.take w.written.toNat }
    else g

/-- `log_message`. -/
def log_message (g : Globals) (row : LogRow) : Globals :=
  if g.log_file then { g with log_rows := g.log_rows ++ [row] } else g

/-- One invocation of the message hook and what the environment does during it. -/
structure Msg where
  client : Bool
  address : Option CStr
  enqueue_ts : double
  entry_alloc : Bool
  start_service_ts : double
  curl : CurlEnv
  end_service_ts : double
  write : WriteEnv

/-- What the hook returns, and its local variables `count`, `delta` and `action`. -/
structure HookResult where
  rc : ℤ
  count : Option ℕ
  delta : double
  action : CStr
  deriving DecidableEq

/-- `on_message_callback`; `none` is a crash (the unchecked `calloc`, or the crash of
`call_policy_api`). -/
def on_message_callback (g : Globals) (m : Msg) : Option (Globals × HookResult) :=
  if !m.client then
    some (g, { rc := MOSQ_ERR_INVAL, count := none, delta := 0, action := [] })
  else
    match m.address with
    | none => some (g, { rc := MOSQ_ERR_INVAL, count := none, delta := 0, action := [] })
    | some client_ip =>
      let found := HASH_FIND_STR g.ip_table client_ip
      if found = none ∧ m.entry_alloc = false then none
      else
        let delta : double :=
          match found with
          | none => 0
          | some entry => m.enqueue_ts - entry.last_time
        let ip_table :=
          match found with
          | none =>
            HASH_ADD_STR g.ip_table
              { ip := strncpy client_ip 63, last_time := m.enqueue_ts, packet_count := 1 }
          | some _ =>
            ip_entry_assign client_ip
              (fun entry => packet_count_incr { entry with last_time := m.enqueue_ts })
              g.ip_table
        let count : ℕ :=
          match found with
          | none => 1
          | some entry => (packet_count_incr entry).packet_count
        let g1 := { g with ip_table := ip_table }
        match call_policy_api m.curl with
        | none => none
        | some api =>
          let action : CStr :=
            match api with
            | some a => a
            | none => "forward".toList
          let g2 := log_message g1
            { enqueue_ts := m.enqueue_ts, start_service_ts := m.start_service_ts,
              end_service_ts := m.end_service_ts, ip := client_ip, count := count,
              delta := delta, action := action }
          let g3 :=
            if action = "forward".toList then write_to_fifo g2 client_ip count m.enqueue_ts m.write
            else g2
          some (g3, { rc := MOSQ_ERR_ACL_DENIED, count := some count, delta := delta,
                      action := action })

/-- The state after `mosquitto_plugin_init`: whether `fopen` of the log succeeded and what
`open` of the FIFO returned. -/
def mosquitto_plugin_init (log_open : Bool) (fifo_fd : ℤ) : Globals :=
  { ip_table := [], fifo_fd := fifo_fd, log_file := log_open, fifo_pipe := [],
    log_rows := [] }

/-- The results of the hook on a sequence of messages, up to the first crash. -/
def run : Globals → List Msg → List HookResult
  | _, [] => []
  | g, m :: ms =>
    match on_message_callback g m with
    | none => []
    | some (g1, r) => r :: run g1 ms

/-- The source address of a message as the hook sees it (`none` when the hook returns
`MOSQ_ERR_INVAL`). -/
def Msg.source (m : Msg) : Option CStr := if m.client then m.address else none

/-- The number of messages from source `a` among `ms`. -/
def arrivals (a : CStr) : List Msg → ℕ
  | [] => 0
  | m :: ms => (if m.source = some a then 1 else 0) + arrivals a ms

/-- A message whose source address, if any, is shorter than 64 characters. -/
def Msg.short_source (m : Msg) : Bool :=
  match m.source with
  | some a => decide (a.length < 64)
  | none => true

/-- A message during whose handling neither the `calloc` of a table entry fails nor
`call_policy_api` crashes. -/
def Msg.survives (m : Msg) : Bool := m.entry_alloc && (call_policy_api m.curl).isSome

end Simple

/-! ## Invariants of the linked queues (used in the proofs) -/

/-- The address of the first cell of `l`, or `d` when there is none. -/
def first_or {α : Type} : List (ℕ × α) → ℕ → ℕ
  | [], d => d
  | (a, _) :: _, _ => a

/-- The address of the last cell of `l`, or `d` when there is none. -/
def last_or {α : Type} : List (ℕ × α) → ℕ → ℕ
  | [], d => d
  | (a, _) :: rest, _ => last_or rest a

/-- The cells of `l` are allocated at their addresses with their payloads and linked
in the order of `l`, the last one pointing to `stop`. -/
def Seg {α : Type} (mem : ℕ → Option (Cell α)) : List (ℕ × α) → ℕ → Prop
  | [], _ => True
  | (a, x) :: rest, stop =>
    a ≠ 0 ∧ mem a = some { val := x, next := first_or rest stop } ∧ Seg mem rest stop

/-- The queue `q` consists of the cells `l`, in this order. -/
structure QueueInv {α : Type} (q : Queue α) (l : List (ℕ × α)) : Prop where
  seg : Seg q.mem l 0
  head_eq : q.head = first_or l 0
  tail_eq : q.tail = last_or l 0
  nodup : (l.map Prod.fst).Nodup
  below : ∀ a ∈ l.map Prod.fst, a < q.brk
  brk_pos : 0 < q.brk

/-- The addresses of the nodes reachable from `p` by following `next`, at most `fuel` of
them. -/
def Queue.addrs {α : Type} (mem : ℕ → Option (Cell α)) : ℕ → ℕ → List ℕ
  | 0, _ => []
  | fuel + 1, p =>
    if p = 0 then []
    else
      match mem p with
      | none => []
      | some c => p :: Queue.addrs mem fuel c.next

/-- The addresses of the nodes reachable from `head`, in order. -/
def Queue.nodes {α : Type} (q : Queue α) : List ℕ := Queue.addrs q.mem q.brk q.head

/-- The cells kept by the sweep: those not older than 300 seconds. -/
def kept (now : double) (l : List (ℕ × Fifo.ReceiveNode)) : List (ℕ × Fifo.ReceiveNode) :=
  l.filter (fun c => ¬ (now - c.2.recv_ts > 300000000))


namespace Fifo

/-- The cursor `pos` of the processing thread has taken the first `n` of the records
`hist` appended so far; `cells` are the cells still in the queue. -/
def CursorInv (pos : ℕ) (cells : List (ℕ × ReceiveNode)) (hist : List ReceiveNode)
    (n : ℕ) : Prop :=
  (pos = 0 ∧ n = 0 ∧ cells.map Prod.snd = hist) ∨
    ∃ pre x post, cells = pre ++ (pos, x) :: post ∧ post.map Prod.snd = hist.drop n ∧
      n ≤ hist.length

/-- The invariant of the two queues: `hist` are the records appended to the receive
queue so far, the first `n` of them taken by the processing thread, and `tele` the
telemetry records appended to the CSV queue. -/
def Inv (g : Globals) (hist : List ReceiveNode) (n : ℕ) (tele : List CSVRecord) : Prop :=
  (∃ cells, QueueInv g.receive cells ∧ CursorInv g.receive_current_pos cells hist n) ∧
    ∃ ccells, QueueInv g.csv_queue ccells ∧ ccells.map Prod.snd = tele

/-- The part of the state that the FIFO writes leave alone. -/
def core (g : Globals) :
    Queue ReceiveNode × ℕ × Queue CSVRecord × List ip_entry × ℤ :=
  (g.receive, g.receive_current_pos, g.csv_queue, g.ip_table, g.process_counter)

/-- The two FIFO descriptors and what has been written to the two FIFOs. -/
def io (g : Globals) : ℤ × ℤ × CStr × CStr :=
  (g.high_fifo_fd, g.low_fifo_fd, g.high_pipe, g.low_pipe)

end Fifo

/-- The sequence counters of the table agree with the numbers `cnt` of messages counted
per source: a source without an entry has none, an entry holds the number modulo 2^64. -/
def CountInv (tbl : List ip_entry) (cnt : CStr → ℕ) : Prop :=
  ∀ a, (HASH_FIND_STR tbl a = none → cnt a = 0) ∧
    ∀ e, HASH_FIND_STR tbl a = some e → e.packet_count = cnt a % 2 ^ 64

/-- The receive timestamp the table should hold for source `a` when the first `n` of the
records `hist` have been processed: that of the latest processed record of `a`, or, when
none has been processed, that of the first record of `a`. -/
def Fifo.last_seen (a : CStr) (hist : List Fifo.ReceiveNode) (n : ℕ) : double :=
  match (hist.take n).reverse.find? (fun r => decide (r.ip = a)) with
  | some r => r.recv_ts
  | none =>
    match hist.find? (fun r => decide (r.ip = a)) with
    | some r => r.recv_ts
    | none => 0

/-- The table agrees with the records `hist` appended to the receive queue, the first
`n` of them processed. -/
def Fifo.TableInv (tbl : List ip_entry) (hist : List Fifo.ReceiveNode) (n : ℕ) : Prop :=
  ∀ a, (HASH_FIND_STR tbl a = none → ∀ r ∈ hist, r.ip ≠ a) ∧
    ∀ e, HASH_FIND_STR tbl a = some e →
      (∃ r ∈ hist, r.ip = a) ∧ e.last_time = Fifo.last_seen a hist n

/-- The iterations of the processing thread that took a record, each with what the
environment did during it: the process steps among `evs` whose observation in the run
`os` holds a record. -/
def Fifo.taken : List Fifo.Event → List Fifo.Obs → List (Fifo.ProcEnv × Fifo.Processed)
  | Fifo.Event.process env :: evs, Fifo.Obs.processed (some p) :: os =>
    (env, p) :: Fifo.taken evs os
  | _ :: evs, _ :: os => Fifo.taken evs os
  | _, _ => []

/-- The line of the record taken in the iteration `ep`, with priority label `label`. -/
def Fifo.line_of (label : CStr) (ep : Fifo.ProcEnv × Fifo.Processed) : CStr :=
  Fifo.fifo_line ep.2.current_data.ip ep.2.current_data.packet_count ep.1.service_end_ts label

/-- The channel write of the iteration `ep` succeeds: unless the record is dropped, its
line fits the 256-byte buffer and `write` returns its full length. -/
def Fifo.write_succeeds (ep : Fifo.ProcEnv × Fifo.Processed) : Bool :=
  if ep.2.action = "drop".toList then true
  else if ep.2.action = "high".toList then
    decide ((Fifo.line_of "high".toList ep).length < 256) &&
      decide (ep.1.write.written = (Fifo.line_of "high".toList ep).length)
  else
    decide ((Fifo.line_of "low".toList ep).length < 256) &&
      decide (ep.1.write.written = (Fifo.line_of "low".toList ep).length)

/-- What `call_policy_api` of the dual-FIFO plugin makes of the result `r` of
`json_tokener_parse` on the response body. -/
def Fifo.api_result_of (r : Option json_object) : Option Fifo.ApiResult :=
  match r with
  | none => some Fifo.ApiResult.failed
  | some r =>
    match json_object_object_get_ex r "action".toList,
        json_object_object_get_ex r "trust".toList,
        json_object_object_get_ex r "p_value".toList with
    | some ja, some jt, some jp =>
      match json_object_get_string ja with
      | none => none
      | some action_str =>
        some (Fifo.ApiResult.ok (strncpy action_str 15) (json_object_get_double jt)
          (json_object_get_double jp))
    | _, _, _ => some Fifo.ApiResult.failed

/-- The payload both forwarders publish for the non-empty line `line` when the forward
starts at `start_forward_ts`; `none` when the forwarder crashes on the line. -/
def payload_of (line : CStr) (start_forward_ts : double) : Option Payload :=
  match json_tokener_parse line with
  | none => some (Payload.raw line)
  | some (json_object.object ms) => some (Payload.json (augment ms start_forward_ts))
  | some (json_object.value _) => none

/-- The columns of a row of the log, in the order of the format string of
`csv_writer_thread_fn`. -/
def Fifo.csv_columns (r : Fifo.CSVRecord) : List CStr :=
  [fmt_llu r.packet_count, fmt_f6 r.recv_ts, fmt_f6 r.service_start_ts, fmt_f6 r.api_start_ts,
    fmt_f6 r.api_end_ts, fmt_f6 r.service_end_ts, r.ip, fmt_f6 r.delta, fmt_f4 r.p_value,
    fmt_f3 r.trust, fmt_llu r.packet_count, r.action, fmt_f3 r.actual_api_time_ms,
    fmt_f3 r.wait_time_ms, fmt_f3 r.total_service_time_ms]

/-- The column names of the header row of the log. -/
def Fifo.csv_column_names : List CStr :=
  ["packet_count".toList, "recv_ts".toList, "service_start_ts".toList, "api_start_ts".toList,
    "api_end_ts".toList, "service_end_ts".toList, "ip".toList, "delta".toList,
    "p_value".toList, "trust".toList, "packet_count_dup".toList, "action".toList,
    "actual_api_time_ms".toList, "wait_time_ms".toList, "total_service_time_ms".toList]

/-- The columns a reader of the log finds in a row: the text before the final newline,
split at every comma. -/
def Fifo.row_columns (row : CStr) : List CStr :=
  row.dropLast.splitOn ','

/-- The cursor `pos` of a consumer of the queue with cells `cells` has the cells `todo`
still in front of it. -/
def CursorAt {α : Type} (pos : ℕ) (cells todo : List (ℕ × α)) : Prop :=
  (pos = 0 ∧ cells = todo) ∨ ∃ pre x, cells = pre ++ (pos, x) :: todo

/-- The records of the receive queue from the cursor node on (none when the cursor is
`NULL`). -/
def Fifo.from_cursor (g : Fifo.Globals) : List Fifo.ReceiveNode :=
  Queue.walk g.receive.mem g.receive.brk g.receive_current_pos

/-- The records the calls of `enqueue_csv_record` among `evs` append to the CSV queue, in
the order of the calls (a call whose `malloc` fails appends none). -/
def Fifo.csv_enqueued : List Fifo.CsvEvent → List Fifo.CSVRecord
  | [] => []
  | Fifo.CsvEvent.enqueue alloc record :: evs =>
    (if alloc then [Fifo.csv_record_stored record] else []) ++ Fifo.csv_enqueued evs
  | Fifo.CsvEvent.writer :: evs => Fifo.csv_enqueued evs

/-- What the writer thread does with the record `r`: it takes it, and with the log open
it writes its row and flushes. -/
def Fifo.acts_of (log : Bool) (r : Fifo.CSVRecord) : List Fifo.WriterAct :=
  Fifo.WriterAct.take r ::
    (if log then [Fifo.WriterAct.fprintf (Fifo.csv_row r), Fifo.WriterAct.fflush] else [])

/-- The number of rows written during the acts `acts`: the writer steps that took a
record and wrote its row. -/
def Fifo.rows_written (acts : List Fifo.WriterAct) : ℕ :=
  (acts.filter (fun a => match a with
    | Fifo.WriterAct.fprintf _ => true
    | _ => false)).length

/-- The number of records taken during the acts `acts`. -/
def Fifo.records_taken (acts : List Fifo.WriterAct) : ℕ :=
  (acts.filter (fun a => match a with
    | Fifo.WriterAct.take _ => true
    | _ => false)).length

/-- The number of publish attempts of the dual-FIFO forwarder that did not return
`MQTTCLIENT_SUCCESS`. -/
def PqForwarder.failed (ps : List PqForwarder.Publish) : ℕ :=
  (ps.filter (fun p => p.rc ≠ MQTTCLIENT_SUCCESS)).length

/-- The number of publish attempts of the single-FIFO forwarder that did not return
`MQTTCLIENT_SUCCESS`. -/
def PahoForwarder.failed (ps : List PahoForwarder.Publish) : ℕ :=
  (ps.filter (fun p => p.rc ≠ MQTTCLIENT_SUCCESS)).length

/-! ## Concrete inputs (used where a statement is evaluated on an example) -/

/-- A hook invocation for a message from `ip` received at `recv_ts`, no allocation failing. -/
def ex_msg (ip : CStr) (recv_ts : double) : Fifo.Msg :=
  { client := true, address := some ip, recv_ts := recv_ts, entry_alloc := true,
    node_alloc := true }

/-- A transfer that delivers the decision `action`, trust 0.5, p-value 0.25 in one chunk. -/
def ex_curl (action : CStr) : CurlEnv :=
  { init_ok := true,
    chunks := ["\x7b\"action\":\"".toList ++ action ++
      "\",\"trust\":0.5,\"p_value\":0.25\x7d".toList],
    transfer_ok := true }

/-- A transfer that times out. -/
def ex_curl_timeout : CurlEnv := { init_ok := true, chunks := [], transfer_ok := false }

/-- An iteration of the processing thread that starts at second 5: the transfer `curl`,
a `write` that returns `written`, and the telemetry allocation `csv_alloc`. -/
def ex_env (curl : CurlEnv) (written : ℤ) (csv_alloc : Bool) : Fifo.ProcEnv :=
  { service_start_ts := 5000000, api_start_ts := 5000001, curl := curl,
    api_end_ts := 5000100, service_end_ts := 5000101,
    write := { written := written, errno := EAGAIN, new_fd := -1 },
    csv_alloc := csv_alloc, cleanup_now := 5000200 }

/-- The plugin after initialisation with both FIFOs open (descriptors 5 and 6). -/
def ex_plugin : Fifo.Globals :=
  Fifo.mosquitto_plugin_init { log_open := true, high_fd := 5, low_fd := 6 }

/-- The plugin after initialisation when the open of the LOW FIFO failed. -/
def ex_plugin_no_low : Fifo.Globals :=
  Fifo.mosquitto_plugin_init { log_open := true, high_fd := 5, low_fd := -1 }

/-- The plugin after initialisation when the open of the HIGH FIFO failed. -/
def ex_plugin_no_high : Fifo.Globals :=
  Fifo.mosquitto_plugin_init { log_open := true, high_fd := -1, low_fd := 6 }

/-- The state reached from `g` by the events `evs` (`g` itself if a step crashes). -/
def ex_after (g : Fifo.Globals) (evs : List Fifo.Event) : Fifo.Globals :=
  (Fifo.run_state g evs).getD g

/-- The plugin with one record of source 10.0.0.5, received at second 1, in its queue. -/
def ex_queued : Fifo.Globals :=
  ex_after ex_plugin [Fifo.Event.message (ex_msg "10.0.0.5".toList 1000000)]

/-- A placeholder for the local variables of an iteration that took no record. -/
def ex_nothing : Fifo.Processed :=
  { current_data := { ip := [], recv_ts := 0, packet_count := 0 }, delta := 0,
    api_failed := false, action := [], trust := 0, p_val := 0, wait_time_ms := 0,
    telemetry := none }

/-- The state after the iteration `env` of the processing thread in state `g`. -/
def ex_step_state (g : Fifo.Globals) (env : Fifo.ProcEnv) : Fifo.Globals :=
  ((Fifo.processor_thread_fn g env).getD (g, none)).1

/-- What the iteration `env` of the processing thread in state `g` did. -/
def ex_step_done (g : Fifo.Globals) (env : Fifo.ProcEnv) : Fifo.Processed :=
  ((Fifo.processor_thread_fn g env).getD (g, none)).2.getD ex_nothing

/-- The record of the first message of source 10.0.0.5, received at second 1. -/
def ex_record : Fifo.ReceiveNode :=
  { ip := "10.0.0.5".toList, recv_ts := 1000000, packet_count := 1 }

/-- A `write` that accepts all `len` bytes. -/
def ex_write_ok (len : ℤ) : WriteEnv := { written := len, errno := 0, new_fd := -1 }

/-- An iteration of the single-FIFO forwarder whose publish returns `rc`. -/
def ex_iter (rc : ℤ) : PahoForwarder.IterEnv :=
  { running := true, read_ts := 7000000, start_forward_ts := 7000001, rc := rc,
    end_forward_ts := 7000002, connected := true, reconnect_rc := 0 }

/-- A publish of the dual-FIFO forwarder that returns `rc`. -/
def ex_pub (rc : ℤ) : PqForwarder.PubEnv :=
  { enqueue_ts := 7000000, start_forward_ts := 7000001, rc := rc,
    end_forward_ts := 7000002, connected := true }

/-- A cycle of the dual-FIFO forwarder during which nothing arrives on the FIFOs and
whose publishes return `rc_high` and `rc_low`. -/
def ex_cycle (rc_high rc_low : ℤ) : PqForwarder.CycleEnv :=
  { running := true, high_arrival := [], high_hangup := false, high_pub := ex_pub rc_high,
    low_arrival := [], low_hangup := false, low_pub := ex_pub rc_low, connected := true,
    reconnect_rc := 0 }

/-- A cycle of the dual-FIFO forwarder before which the bytes `high_arrival` reach the HIGH
FIFO and during which the HIGH FIFO has no writer; both publishes succeed. -/
def ex_cycle_hangup (high_arrival : CStr) : PqForwarder.CycleEnv :=
  { running := true, high_arrival := high_arrival, high_hangup := true, high_pub := ex_pub 0,
    low_arrival := [], low_hangup := false, low_pub := ex_pub 0, connected := true,
    reconnect_rc := 0 }

/-- `n` lines holding the one character `m`. -/
def ex_lines (n : ℕ) : CStr := (List.replicate n ['m', '\n']).flatten

/-- A source address of 64 characters. -/
def ex_long_address : CStr := List.replicate 64 'a'

/-- A hook invocation of the single-FIFO plugin for a message from `ip` that arrives at
`ts`; the policy service answers "forward" and the `write` accepts 64 bytes. -/
def ex_simple_msg (ip : CStr) (ts : double) : Simple.Msg :=
  { client := true, address := some ip, enqueue_ts := ts, entry_alloc := true,
    start_service_ts := ts + 1, curl := ex_curl "forward".toList, end_service_ts := ts + 100,
    write := ex_write_ok 64 }

/-- Messages of the dual-FIFO plugin from 10.0.0.5 at second 1 and from 10.0.0.6 at
second 2, and one iteration of the processing thread. -/
def ex_two_sources : List Fifo.Event :=
  [Fifo.Event.message (ex_msg "10.0.0.5".toList 1000000),
    Fifo.Event.message (ex_msg "10.0.0.6".toList 2000000),
    Fifo.Event.process (ex_env (ex_curl "high".toList) 67 true)]

/-- Messages of the single-FIFO plugin from 10.0.0.5 at second 1 and from 10.0.0.6 at
second 2. -/
def ex_simple_two_sources : List Simple.Msg :=
  [ex_simple_msg "10.0.0.5".toList 1000000, ex_simple_msg "10.0.0.6".toList 2000000]

/-- Messages from 10.0.0.5 at seconds 1 and 4 with one from 10.0.0.6 at second 2 in
between, all received before the processing thread takes the three records. -/
def ex_interleaved : List Fifo.Event :=
  [Fifo.Event.message (ex_msg "10.0.0.5".toList 1000000),
    Fifo.Event.message (ex_msg "10.0.0.6".toList 2000000),
    Fifo.Event.message (ex_msg "10.0.0.5".toList 4000000),
    Fifo.Event.process (ex_env (ex_curl "high".toList) 67 true),
    Fifo.Event.process (ex_env (ex_curl "low".toList) 66 true),
    Fifo.Event.process (ex_env (ex_curl "high".toList) 67 true)]

/-- What the third iteration of the processing thread did in the run `ex_interleaved`. -/
def ex_third_processed : Fifo.Processed :=
  ((Fifo.processed_of (Fifo.run ex_plugin ex_interleaved))[2]?).getD ex_nothing

/-- Two messages, two iterations of the processing thread, a sweep at second 400 (which
frees the first record; the second is the one the cursor is on), a third message, and two
more iterations, the last of which finds nothing. -/
def ex_with_sweep : List Fifo.Event :=
  [Fifo.Event.message (ex_msg "10.0.0.5".toList 1000000),
    Fifo.Event.message (ex_msg "10.0.0.6".toList 2000000),
    Fifo.Event.process (ex_env (ex_curl "high".toList) 67 true),
    Fifo.Event.process (ex_env (ex_curl "low".toList) 66 true),
    Fifo.Event.sweep 400000000,
    Fifo.Event.message (ex_msg "10.0.0.5".toList 401000000),
    Fifo.Event.process (ex_env ex_curl_timeout 68 true),
    Fifo.Event.process (ex_env (ex_curl "high".toList) 67 true)]

/-- Four messages of 10.0.0.5 and the iterations that classify them "high", "low",
"drop" and "medium"; every `write` accepts the whole line. -/
def ex_channels : List Fifo.Event :=
  [Fifo.Event.message (ex_msg "10.0.0.5".toList 1000000),
    Fifo.Event.message (ex_msg "10.0.0.5".toList 2000000),
    Fifo.Event.message (ex_msg "10.0.0.5".toList 3000000),
    Fifo.Event.message (ex_msg "10.0.0.5".toList 4000000),
    Fifo.Event.process (ex_env (ex_curl "high".toList) 67 true),
    Fifo.Event.process (ex_env (ex_curl "low".toList) 66 true),
    Fifo.Event.process (ex_env (ex_curl "drop".toList) 0 true),
    Fifo.Event.process (ex_env (ex_curl "medium".toList) 66 true)]

/-- A transfer that delivers, in one chunk, the decision "high", trust 0.5, p-value 0.25
and an additional field `note` holding `pad` characters. -/
def ex_curl_note (pad : ℕ) : CurlEnv :=
  { init_ok := true,
    chunks := ["\x7b\"action\":\"high\",\"trust\":0.5,\"p_value\":0.25,\"note\":\"".toList ++
      List.replicate pad 'x' ++ "\"\x7d".toList],
    transfer_ok := true }

/-- A transfer that delivers the body `body` in one chunk. -/
def ex_curl_body (body : CStr) : CurlEnv :=
  { init_ok := true, chunks := [body], transfer_ok := true }

/-- Three messages of 10.0.0.5 received at seconds 1, 2 and 3, and two iterations of
the processing thread: the cursor is on the second record. -/
def ex_two_taken : List Fifo.Event :=
  [Fifo.Event.message (ex_msg "10.0.0.5".toList 1000000),
    Fifo.Event.message (ex_msg "10.0.0.5".toList 2000000),
    Fifo.Event.message (ex_msg "10.0.0.5".toList 3000000),
    Fifo.Event.process (ex_env (ex_curl "high".toList) 67 true),
    Fifo.Event.process (ex_env (ex_curl "low".toList) 66 true)]

/-- A hook invocation of the single-FIFO plugin for a message from 10.0.0.5 at second 1
during which the transfer to the policy service goes as `curl` says. -/
def ex_simple_curl (curl : CurlEnv) : Simple.Msg :=
  { client := true, address := some "10.0.0.5".toList, enqueue_ts := 1000000,
    entry_alloc := true, start_service_ts := 1000001, curl := curl,
    end_service_ts := 1000100, write := ex_write_ok 64 }

/-- The same, the policy service answering with the body `body`. -/
def ex_simple_answer (body : CStr) : Simple.Msg := ex_simple_curl (ex_curl_body body)

/-- A transfer that delivers the decision "high", trust 0.5, p-value 0.25 in three chunks,
the second of which is a single NUL byte. -/
def ex_curl_nul : CurlEnv :=
  { init_ok := true,
    chunks := ["\x7b\"action\":\"high\",".toList, ['\x00'],
      "\"trust\":0.5,\"p_value\":0.25\x7d".toList],
    transfer_ok := true }

/-- The telemetry of the message number `count` of 10.0.0.5, classified "high". -/
def ex_telemetry (count : ℕ) : Fifo.CSVRecord :=
  { packet_count := count, recv_ts := 1000000, service_start_ts := 5000000,
    api_start_ts := 5000001, api_end_ts := 5000100, service_end_ts := 5000101,
    ip := "10.0.0.5".toList, delta := 0, p_value := 250000, trust := 500000,
    action := "high".toList, actual_api_time_ms := 99000, wait_time_ms := 0,
    total_service_time_ms := 101000 }

/-- Three calls of `enqueue_csv_record`, the second with a failing `malloc`, and four
iterations of the writer thread before, in between and after; the first and the last
iteration find nothing new. -/
def ex_csv_events : List Fifo.CsvEvent :=
  [Fifo.CsvEvent.writer, Fifo.CsvEvent.enqueue true (ex_telemetry 1), Fifo.CsvEvent.writer,
    Fifo.CsvEvent.enqueue false (ex_telemetry 2), Fifo.CsvEvent.enqueue true (ex_telemetry 3),
    Fifo.CsvEvent.writer, Fifo.CsvEvent.writer]

@[simp] theorem first_or_nil {α : Type} (d : ℕ) : first_or ([] : List (ℕ × α)) d = d := rfl

@[simp] theorem first_or_cons {α : Type} (a : ℕ) (x : α) (l : List (ℕ × α)) (d : ℕ) :
    first_or ((a, x) :: l) d = a := rfl

@[simp] theorem last_or_nil {α : Type} (d : ℕ) : last_or ([] : List (ℕ × α)) d = d := rfl

@[simp] theorem last_or_cons {α : Type} (a : ℕ) (x : α) (l : List (ℕ × α)) (d : ℕ) :
    last_or ((a, x) :: l) d = last_or l a := rfl

theorem seg_cons {α : Type} (mem : ℕ → Option (Cell α)) (a : ℕ) (x : α)
    (rest : List (ℕ × α)) (stop : ℕ) :
    Seg mem ((a, x) :: rest) stop ↔
      a ≠ 0 ∧ mem a = some { val := x, next := first_or rest stop } ∧ Seg mem rest stop :=
  Iff.rfl

theorem first_or_append {α : Type} (l1 l2 : List (ℕ × α)) (d : ℕ) :
    first_or (l1 ++ l2) d = first_or l1 (first_or l2 d) := by
  cases l1 with
  | nil => rfl
  | cons c l1 => rfl

theorem last_or_append {α : Type} (l1 l2 : List (ℕ × α)) (d : ℕ) :
    last_or (l1 ++ l2) d = last_or l2 (last_or l1 d) := by
  induction l1 generalizing d with
  | nil => rfl
  | cons c l1 ih => obtain ⟨a, x⟩ := c; simp [ih]

theorem seg_append {α : Type} (mem : ℕ → Option (Cell α)) (l1 l2 : List (ℕ × α)) (stop : ℕ) :
    Seg mem (l1 ++ l2) stop ↔ Seg mem l1 (first_or l2 stop) ∧ Seg mem l2 stop := by
  induction l1 with
  | nil => simp [Seg]
  | cons c l1 ih =>
    obtain ⟨a, x⟩ := c
    have e : first_or (l1 ++ l2) stop = first_or l1 (first_or l2 stop) := first_or_append _ _ _
    show (a ≠ 0 ∧ mem a = some { val := x, next := first_or (l1 ++ l2) stop } ∧
        Seg mem (l1 ++ l2) stop) ↔
      (a ≠ 0 ∧ mem a = some { val := x, next := first_or l1 (first_or l2 stop) } ∧
        Seg mem l1 (first_or l2 stop)) ∧ Seg mem l2 stop
    rw [ih, e]
    tauto

theorem seg_congr {α : Type} {mem mem1 : ℕ → Option (Cell α)} {l : List (ℕ × α)} {stop : ℕ}
    (h : Seg mem l stop) (hm : ∀ a ∈ l.map Prod.fst, mem1 a = mem a) : Seg mem1 l stop := by
  induction l with
  | nil => trivial
  | cons c l ih =>
    obtain ⟨a, x⟩ := c
    obtain ⟨h0, h1, h2⟩ := h
    refine ⟨h0, ?_, ih h2 (fun b hb => hm b (by simp [hb]))⟩
    rw [hm a (by simp)]; exact h1

theorem seg_addr_ne_zero {α : Type} {mem : ℕ → Option (Cell α)} {l : List (ℕ × α)} {stop : ℕ}
    (h : Seg mem l stop) : ∀ a ∈ l.map Prod.fst, a ≠ 0 := by
  induction l with
  | nil => simp
  | cons c l ih =>
    obtain ⟨a, x⟩ := c
    obtain ⟨h0, _, h2⟩ := h
    intro b hb
    simp at hb
    rcases hb with rfl | ⟨y, hb⟩
    · exact h0
    · exact ih h2 b (by simp; exact ⟨y, hb⟩)

theorem walk_of_seg {α : Type} {mem : ℕ → Option (Cell α)} {l : List (ℕ × α)}
    (h : Seg mem l 0) (fuel : ℕ) (hf : l.length ≤ fuel) :
    Queue.walk mem fuel (first_or l 0) = l.map Prod.snd := by
  induction l generalizing fuel with
  | nil => cases fuel <;> simp [Queue.walk]
  | cons c l ih =>
    obtain ⟨a, x⟩ := c
    obtain ⟨h0, h1, h2⟩ := h
    cases fuel with
    | zero => simp at hf
    | succ fuel =>
      simp only [List.length_cons, Nat.add_le_add_iff_right] at hf
      simp [Queue.walk, h0, h1, ih h2 fuel hf]

theorem nodup_length_lt {l : List ℕ} {n : ℕ} (hn : l.Nodup) (hb : ∀ a ∈ l, a < n) :
    l.length ≤ n := by
  have hs : l ⊆ List.range n := fun a ha => List.mem_range.mpr (hb a ha)
  simpa using (hn.subperm hs).length_le

theorem QueueInv.toList_eq {α : Type} {q : Queue α} {l : List (ℕ × α)} (h : QueueInv q l) :
    q.toList = l.map Prod.snd := by
  unfold Queue.toList
  rw [h.head_eq]
  apply walk_of_seg h.seg
  simpa using nodup_length_lt h.nodup h.below

theorem QueueInv.empty {α : Type} : QueueInv (Queue.empty : Queue α) [] :=
  ⟨trivial, rfl, rfl, by simp, by simp, by simp [Queue.empty]⟩

theorem QueueInv.enqueue {α : Type} {q : Queue α} {l : List (ℕ × α)} (h : QueueInv q l)
    (x : α) :
    ∃ q1, q.enqueue x = some q1 ∧ QueueInv q1 (l ++ [(q.brk, x)]) ∧ q1.brk = q.brk + 1 := by
  have hb := h.brk_pos
  rcases List.eq_nil_or_concat l with rfl | ⟨l0, c, rfl⟩
  · have ht : q.tail = 0 := h.tail_eq
    simp only [Queue.enqueue, ht, if_true]
    refine ⟨_, rfl, ?_, rfl⟩
    exact ⟨⟨by omega, by simp, trivial⟩, rfl, rfl, by simp, by simp, by simp⟩
  · obtain ⟨t, y⟩ := c
    rw [List.concat_eq_append] at h ⊢
    have hs := (seg_append q.mem l0 [(t, y)] 0).mp h.seg
    obtain ⟨hs0, ht0, hmt, _⟩ := hs
    have htail : q.tail = t := by rw [h.tail_eq, last_or_append]; rfl
    have htb : t < q.brk := h.below t (by simp)
    have hnd := h.nodup
    rw [List.map_append, List.nodup_append] at hnd
    obtain ⟨hnd0, _, hdisj⟩ := hnd
    have hne : t ≠ q.brk := by omega
    have h1 : Function.update q.mem q.brk (some { val := x, next := 0 }) t =
        some { val := y, next := 0 } := by
      rw [Function.update_noteq hne]; simpa using hmt
    have he : q.enqueue x = some (Queue.mk
        (Function.update (Function.update q.mem q.brk (some (Cell.mk x 0))) t
          (some (Cell.mk y q.brk)))
        (q.brk + 1) q.head q.brk) := by
      unfold Queue.enqueue
      subst htail
      simp only [ht0, if_false]
      rw [h1]
    refine ⟨_, he, ?_, rfl⟩
    refine ⟨?_, ?_, ?_, ?_, ?_, by simp⟩
    · rw [List.append_assoc, seg_append]
      refine ⟨?_, ht0, ?_, by omega, ?_, trivial⟩
      · apply seg_congr hs0
        intro a ha
        have hat : a ≠ t := fun e => hdisj ha (by simp [e])
        have hab : a < q.brk := h.below a (by simp at ha ⊢; rcases ha with ⟨z, hz⟩; exact Or.inl ⟨z, hz⟩)
        simp only [List.singleton_append, first_or_cons]
        rw [Function.update_noteq hat, Function.update_noteq (by omega)]
      · simp
      · simp [Function.update_noteq hne.symm]
    · show q.head = _
      rw [h.head_eq, first_or_append, first_or_append, first_or_append]
      cases l0 with
      | nil => simp
      | cons c l0 => obtain ⟨a, z⟩ := c; simp
    · show q.brk = _
      rw [last_or_append]; rfl
    · rw [List.map_append, List.nodup_append]
      refine ⟨h.nodup, by simp, ?_⟩
      intro a ha hb2
      simp at hb2
      have := h.below a ha
      omega
    · intro a ha
      simp only [List.map_append, List.mem_append] at ha
      show a < q.brk + 1
      rcases ha with ha | ha
      · have := h.below a (by simpa using ha); omega
      · simp at ha; omega

theorem QueueInv.advance_start {α : Type} {q : Queue α} {l : List (ℕ × α)}
    (h : QueueInv q l) :
    q.advance 0 = some (first_or l 0, l.head?.map Prod.snd) := by
  cases l with
  | nil =>
    have : q.head = 0 := h.head_eq
    simp [Queue.advance, this]
  | cons c l =>
    obtain ⟨a, x⟩ := c
    have hh : q.head = a := h.head_eq
    obtain ⟨h0, h1, _⟩ := h.seg
    simp [Queue.advance, hh, h0, h1]

theorem QueueInv.advance_at {α : Type} {q : Queue α} {pre post : List (ℕ × α)} {pos : ℕ}
    {x : α} (h : QueueInv q (pre ++ (pos, x) :: post)) :
    q.advance pos = some (first_or post pos, post.head?.map Prod.snd) := by
  obtain ⟨_, h0, h1, h2⟩ := (seg_append q.mem pre ((pos, x) :: post) 0).mp h.seg
  cases post with
  | nil => simp [Queue.advance, h0, h1]
  | cons c post =>
    obtain ⟨b, y⟩ := c
    obtain ⟨hb0, hb1, _⟩ := h2
    simp at h1
    simp [Queue.advance, h0, h1, hb0, hb1]

theorem last_or_ne_zero {α : Type} {mem : ℕ → Option (Cell α)} {l : List (ℕ × α)} {stop : ℕ}
    (h : Seg mem l stop) (hl : l ≠ []) : last_or l 0 ≠ 0 ∧ last_or l 0 ∈ l.map Prod.fst := by
  rcases List.eq_nil_or_concat l with rfl | ⟨l0, c, rfl⟩
  · exact absurd rfl hl
  · obtain ⟨t, y⟩ := c
    rw [List.concat_eq_append] at h ⊢
    obtain ⟨_, ht0, _, _⟩ := (seg_append mem l0 [(t, y)] stop).mp h
    rw [last_or_append]
    simp [ht0]

theorem cleanup_loop_spec (now : double) (pos : ℕ) (x : Fifo.ReceiveNode)
    (post : List (ℕ × Fifo.ReceiveNode)) :
    ∀ (todo done : List (ℕ × Fifo.ReceiveNode)) (q : Queue Fifo.ReceiveNode) (fuel : ℕ),
      QueueInv q (done ++ (todo ++ (pos, x) :: post)) → todo.length ≤ fuel →
      ∃ q1, Fifo.cleanup_loop now pos fuel q (last_or done 0) (first_or todo pos) = some q1 ∧
        QueueInv q1 (done ++ (kept now todo ++ (pos, x) :: post)) ∧ q1.brk = q.brk := by
  intro todo
  induction todo with
  | nil =>
    intro done q fuel h _
    refine ⟨q, ?_, by simpa [kept] using h, rfl⟩
    cases fuel <;> simp [Fifo.cleanup_loop]
  | cons c todo ih =>
    intro done q fuel h hf
    obtain ⟨a, y⟩ := c
    cases fuel with
    | zero => simp at hf
    | succ fuel =>
      simp only [List.length_cons, Nat.add_le_add_iff_right] at hf
      have hseg := h.seg
      rw [seg_append, List.cons_append, seg_cons] at hseg
      obtain ⟨hsd, ha0, hma, hst⟩ := hseg
      simp only [first_or_cons] at hsd
      have hnd := h.nodup
      simp only [List.map_append, List.map_cons, List.cons_append] at hnd
      have hapos : a ≠ pos := by
        intro e
        subst e
        have := (List.nodup_append.mp hnd).2.1
        simp at this
      have hnext : first_or (todo ++ (pos, x) :: post) 0 = first_or todo pos := by
        rw [first_or_append]; rfl
      rw [hnext] at hma
      simp only [first_or_cons]
      unfold Fifo.cleanup_loop
      simp only [ha0, hapos, or_self, if_false, hma]
      by_cases hold : now - y.recv_ts > 300000000
      · simp only [hold, if_true]
        have hkept : kept now ((a, y) :: todo) = kept now todo := by
          unfold kept
          rw [List.filter_cons_of_neg]
          simp only [decide_not, Bool.not_eq_true', decide_eq_false_iff_not, not_not]
          exact hold
        rw [hkept]
        have hndA : a ∉ (done ++ (todo ++ (pos, x) :: post)).map Prod.fst := by
          intro hmem
          simp only [List.map_append, List.mem_append] at hmem
          have h1 := List.nodup_append.mp hnd
          rcases hmem with hmem | hmem
          · exact h1.2.2 hmem (by simp)
          · have h2 := h1.2.1
            simp only [List.nodup_cons] at h2
            exact h2.1 (by simpa using hmem)
        have hnd2 : ((done ++ (todo ++ (pos, x) :: post)).map Prod.fst).Nodup := by
          have h1 := List.nodup_append.mp hnd
          simp only [List.map_append]
          refine List.nodup_append.mpr ⟨h1.1, ?_, ?_⟩
          · have := h1.2.1; simp only [List.nodup_cons] at this; simpa using this.2
          · intro b hb hb2
            exact h1.2.2 hb (by simp at hb2 ⊢; exact Or.inr hb2)
        have hbelow2 : ∀ b ∈ (done ++ (todo ++ (pos, x) :: post)).map Prod.fst, b < q.brk := by
          intro b hb
          apply h.below
          simp only [List.map_append, List.mem_append, List.map_cons, List.mem_cons] at hb ⊢
          tauto
        have htail2 : q.tail = last_or (done ++ (todo ++ (pos, x) :: post)) 0 := by
          rw [h.tail_eq]
          simp only [last_or_append, last_or_cons]
        by_cases hdone : done = []
        · subst hdone
          simp only [last_or_nil, ne_eq, not_true_eq_false, if_false]
          have hq : QueueInv
              (Queue.mk (Function.update q.mem a none) q.brk (first_or todo pos) q.tail)
              ([] ++ (todo ++ (pos, x) :: post)) := by
            refine ⟨?_, ?_, htail2, hnd2, hbelow2, h.brk_pos⟩
            · apply seg_congr hst
              intro b hb
              have : b ≠ a := fun e => hndA (by subst e; simpa using hb)
              simp [Function.update_noteq this]
            · show first_or todo pos = _
              simp [first_or_append]
          obtain ⟨q1, hq1, hI, hb⟩ := ih [] _ fuel hq hf
          exact ⟨q1, by simpa using hq1, hI, hb⟩
        · obtain ⟨hp0, hpm⟩ := last_or_ne_zero hsd hdone
          rcases List.eq_nil_or_concat done with rfl | ⟨d0, c, hd⟩
          · exact absurd rfl hdone
          · obtain ⟨p, z⟩ := c
            rw [List.concat_eq_append] at hd
            subst hd
            have hlast : last_or (d0 ++ [(p, z)]) 0 = p := by rw [last_or_append]; rfl
            rw [hlast] at hp0 ⊢
            obtain ⟨hs0, _, hmp, _⟩ := (seg_append q.mem d0 [(p, z)] a).mp hsd
            simp only [first_or_nil] at hmp
            simp only [ne_eq, hp0, not_false_eq_true, if_true, hmp]
            have hpa : p ≠ a := by
              intro e
              apply hndA
              subst e
              simp
            have hq : QueueInv
                (Queue.mk (Function.update (Function.update q.mem p
                    (some (Cell.mk z (first_or todo pos)))) a none) q.brk q.head q.tail)
                ((d0 ++ [(p, z)]) ++ (todo ++ (pos, x) :: post)) := by
              refine ⟨?_, ?_, htail2, hnd2, hbelow2, h.brk_pos⟩
              · rw [seg_append, seg_append]
                have hnd3 := hnd2
                rw [List.map_append] at hnd3
                replace hnd3 := List.nodup_append.mp hnd3
                simp only [List.map_append] at hnd3
                have hnd4 := List.nodup_append.mp hnd3.1
                refine ⟨⟨?_, hp0, ?_, trivial⟩, ?_⟩
                · apply seg_congr hs0
                  intro b hb
                  have hb1 : b ≠ a := fun e => hndA (by subst e; simp at hb ⊢; tauto)
                  have hb2 : b ≠ p := fun e => hnd4.2.2 hb (by subst e; simp)
                  simp [Function.update_noteq hb1, Function.update_noteq hb2]
                · simp [Function.update_noteq hpa, hnext]
                · apply seg_congr hst
                  intro b hb
                  have hb1 : b ≠ a := fun e => hndA (by subst e; simp at hb ⊢; tauto)
                  have hb2 : b ≠ p := by
                    intro e
                    subst e
                    have hd := List.disjoint_left.mp hnd3.2.2
                    have hbm : b ∈ List.map Prod.fst d0 ++ List.map Prod.fst [(b, z)] := by simp
                    exact hd hbm (by simpa using hb)
                  simp [Function.update_noteq hb1, Function.update_noteq hb2]
              · show q.head = _
                rw [h.head_eq]
                simp [first_or_append]
            obtain ⟨q1, hq1, hI, hb⟩ := ih (d0 ++ [(p, z)]) _ fuel hq hf
            rw [hlast] at hq1
            exact ⟨q1, hq1, hI, hb⟩
      · simp only [hold, if_false]
        have hkept : kept now ((a, y) :: todo) = (a, y) :: kept now todo := by
          unfold kept
          rw [List.filter_cons_of_pos]
          simp only [decide_not, Bool.not_eq_true', decide_eq_false_iff_not]
          exact hold
        rw [hkept]
        have hq : QueueInv q ((done ++ [(a, y)]) ++ (todo ++ (pos, x) :: post)) := by
          simpa using h
        obtain ⟨q1, hq1, hI, hb⟩ := ih (done ++ [(a, y)]) q fuel hq hf
        have hlast : last_or (done ++ [(a, y)]) 0 = a := by rw [last_or_append]; rfl
        rw [hlast] at hq1
        exact ⟨q1, hq1, by simpa using hI, hb⟩

namespace Fifo

theorem inv_init (env : InitEnv) : Inv (mosquitto_plugin_init env) [] 0 [] :=
  ⟨⟨[], QueueInv.empty, Or.inl ⟨rfl, rfl, rfl⟩⟩, ⟨[], QueueInv.empty, rfl⟩⟩

theorem core_pipe_append (g : Globals) (high : Bool) (bytes : CStr) :
    core (pipe_append g high bytes) = core g := by
  unfold pipe_append; split_ifs <;> rfl

theorem core_set_fifo_fd (g : Globals) (high : Bool) (fd : ℤ) :
    core (set_fifo_fd g high fd) = core g := by
  unfold set_fifo_fd; split_ifs <;> rfl

theorem core_fifo_write (g : Globals) (high : Bool) (buffer : CStr) (w : WriteEnv) :
    core (fifo_write g high buffer w) = core g := by
  unfold fifo_write
  dsimp only
  split_ifs <;> simp only [core_pipe_append, core_set_fifo_fd]

theorem core_write_to_fifo (g : Globals) (action ip : CStr) (count : ℕ) (ts : double)
    (w : WriteEnv) : core (write_to_fifo g action ip count ts w) = core g := by
  unfold write_to_fifo
  split_ifs <;> simp only [core_fifo_write]

theorem core_route (g : Globals) (action : CStr) (d : ReceiveNode) (ts : double)
    (w : WriteEnv) : core (route g action d ts w) = core g := by
  unfold route
  split_ifs <;> simp only [core_write_to_fifo]

theorem core_route_fields (g : Globals) (action : CStr) (d : ReceiveNode) (ts : double)
    (w : WriteEnv) :
    (route g action d ts w).receive = g.receive ∧
    (route g action d ts w).receive_current_pos = g.receive_current_pos ∧
    (route g action d ts w).csv_queue = g.csv_queue ∧
    (route g action d ts w).ip_table = g.ip_table ∧
    (route g action d ts w).process_counter = g.process_counter := by
  have h := core_route g action d ts w
  simp only [core, Prod.mk.injEq] at h
  exact h

theorem cursor_enqueue {pos : ℕ} {cells : List (ℕ × ReceiveNode)} {hist : List ReceiveNode}
    {n : ℕ} (h : CursorInv pos cells hist n) (a : ℕ) (x : ReceiveNode) :
    CursorInv pos (cells ++ [(a, x)]) (hist ++ [x]) n := by
  rcases h with ⟨h1, h2, h3⟩ | ⟨pre, y, post, h1, h2, h3⟩
  · exact Or.inl ⟨h1, h2, by simp [h3]⟩
  · refine Or.inr ⟨pre, y, post ++ [(a, x)], by simp [h1], ?_, by simp; omega⟩
    rw [List.map_append, h2, List.drop_append_of_le_length h3]
    rfl

theorem inv_message {g : Globals} {hist : List ReceiveNode} {n : ℕ} {tele : List CSVRecord}
    (h : Inv g hist n tele) (m : Msg) :
    ∃ g1 r, on_message_callback g m = some (g1, r) ∧
      Inv g1 (hist ++ r.enqueued.toList) n tele := by
  obtain ⟨⟨cells, hq, hc⟩, hcsv⟩ := h
  unfold on_message_callback
  by_cases hcl : m.client = true
  swap
  · simp only [Bool.not_eq_true] at hcl
    simp only [hcl, Bool.not_false, if_true]
    exact ⟨_, _, rfl, by simpa using ⟨⟨cells, hq, hc⟩, hcsv⟩⟩
  simp only [hcl, Bool.not_true, Bool.false_eq_true, if_false]
  cases haddr : m.address with
  | none => exact ⟨_, _, rfl, by simpa using ⟨⟨cells, hq, hc⟩, hcsv⟩⟩
  | some ip =>
    simp only
    cases hfind : HASH_FIND_STR g.ip_table ip with
    | none =>
      simp only
      by_cases hea : m.entry_alloc = true
      swap
      · simp only [Bool.not_eq_true] at hea
        simp only [hea, Bool.not_false, if_true]
        exact ⟨_, _, rfl, by simpa using ⟨⟨cells, hq, hc⟩, hcsv⟩⟩
      simp only [hea, Bool.not_true, Bool.false_eq_true, if_false]
      by_cases hna : m.node_alloc = true
      swap
      · simp only [Bool.not_eq_true] at hna
        simp only [hna, Bool.not_false, if_true]
        exact ⟨_, _, rfl, by simpa using ⟨⟨cells, hq, hc⟩, hcsv⟩⟩
      simp only [hna, Bool.not_true, Bool.false_eq_true, if_false]
      obtain ⟨q1, he, hq1, _⟩ := hq.enqueue
        { ip := strncpy ip 63, recv_ts := m.recv_ts,
          packet_count := (packet_count_incr
            { ip := strncpy ip 63, last_time := m.recv_ts, packet_count := 0 }).packet_count }
      rw [he]
      exact ⟨_, _, rfl, ⟨_, hq1, cursor_enqueue hc _ _⟩, hcsv⟩
    | some e =>
      simp only
      by_cases hna : m.node_alloc = true
      swap
      · simp only [Bool.not_eq_true] at hna
        simp only [hna, Bool.not_false, if_true]
        exact ⟨_, _, rfl, by simpa using ⟨⟨cells, hq, hc⟩, hcsv⟩⟩
      simp only [hna, Bool.not_true, Bool.false_eq_true, if_false]
      obtain ⟨q1, he, hq1, _⟩ := hq.enqueue
        { ip := strncpy ip 63, recv_ts := m.recv_ts,
          packet_count := (packet_count_incr e).packet_count }
      rw [he]
      exact ⟨_, _, rfl, ⟨_, hq1, cursor_enqueue hc _ _⟩, hcsv⟩


theorem inv_congr {g g1 : Globals} {hist : List ReceiveNode} {n : ℕ} {tele : List CSVRecord}
    (h : Inv g hist n tele) (h1 : g1.receive = g.receive)
    (h2 : g1.receive_current_pos = g.receive_current_pos) (h3 : g1.csv_queue = g.csv_queue) :
    Inv g1 hist n tele := by
  unfold Inv at *
  rw [h1, h2, h3]
  exact h

theorem inv_sweep {g : Globals} {hist : List ReceiveNode} {n : ℕ} {tele : List CSVRecord}
    (h : Inv g hist n tele) (now : double) :
    ∃ g1, cleanup_old_receive_nodes g now = some g1 ∧ Inv g1 hist n tele := by
  obtain ⟨⟨cells, hq, hc⟩, hcsv⟩ := h
  unfold cleanup_old_receive_nodes
  by_cases h0 : g.receive.head = 0 ∨ g.receive_current_pos = 0
  · simp only [h0, if_true]
    exact ⟨g, rfl, ⟨⟨cells, hq, hc⟩, hcsv⟩⟩
  · simp only [h0, if_false]
    rcases hc with ⟨h1, _, _⟩ | ⟨pre, x, post, h1, h2, h3⟩
    · exact absurd (Or.inr h1) h0
    · subst h1
      have hlen : pre.length ≤ g.receive.brk := by
        have := nodup_length_lt hq.nodup hq.below
        simp at this; omega
      have hq2 : QueueInv g.receive ([] ++ (pre ++ (g.receive_current_pos, x) :: post)) := by
        simpa using hq
      obtain ⟨q1, hl, hq1, _⟩ :=
        cleanup_loop_spec now g.receive_current_pos x post pre [] g.receive g.receive.brk hq2 hlen
      have hhead : g.receive.head = first_or pre g.receive_current_pos := by
        rw [hq.head_eq, first_or_append]; rfl
      rw [hhead]
      simp only [last_or_nil] at hl
      rw [hl]
      exact ⟨_, rfl, ⟨_, by simpa using hq1, Or.inr ⟨kept now pre, x, post, rfl, h2, h3⟩⟩, hcsv⟩

theorem cleanup_frame {g g1 : Globals} {now : double}
    (h : cleanup_old_receive_nodes g now = some g1) :
    io g1 = io g ∧ g1.ip_table = g.ip_table ∧ g1.csv_queue = g.csv_queue ∧
      g1.receive_current_pos = g.receive_current_pos ∧
      g1.process_counter = g.process_counter := by
  unfold cleanup_old_receive_nodes at h
  split_ifs at h
  · simp only [Option.some.injEq] at h; subst h; simp
  · split at h
    · exact absurd h (by simp)
    · simp only [Option.some.injEq] at h; subst h; simp [io]

theorem enqueue_csv_frame {g g1 : Globals} {alloc : Bool} {r : CSVRecord}
    (h : enqueue_csv_record g alloc r = some g1) :
    io g1 = io g ∧ g1.ip_table = g.ip_table ∧ g1.receive = g.receive ∧
      g1.receive_current_pos = g.receive_current_pos ∧
      g1.process_counter = g.process_counter := by
  unfold enqueue_csv_record at h
  split_ifs at h
  · simp only [Option.some.injEq] at h; subst h; simp
  · split at h
    · exact absurd h (by simp)
    · simp only [Option.some.injEq] at h; subst h; simp [io]

theorem io_fifo_write_congr {ga gb : Globals} (hab : io ga = io gb) (high : Bool)
    (buffer : CStr) (w : WriteEnv) :
    io (fifo_write ga high buffer w) = io (fifo_write gb high buffer w) := by
  simp only [io, Prod.mk.injEq] at hab
  obtain ⟨e1, e2, e3, e4⟩ := hab
  cases high <;> simp only [fifo_write, e1, e2, if_true, if_false, Bool.false_eq_true] <;>
    split_ifs <;> simp [io, pipe_append, set_fifo_fd, e1, e2, e3, e4]

theorem io_write_to_fifo_congr {ga gb : Globals} (hab : io ga = io gb) (action ip : CStr)
    (count : ℕ) (ts : double) (w : WriteEnv) :
    io (write_to_fifo ga action ip count ts w) = io (write_to_fifo gb action ip count ts w) := by
  unfold write_to_fifo
  split_ifs
  · exact io_fifo_write_congr hab _ _ _
  · exact io_fifo_write_congr hab _ _ _
  · exact hab

theorem io_route_congr {ga gb : Globals} (hab : io ga = io gb) (action : CStr)
    (d : ReceiveNode) (ts : double) (w : WriteEnv) :
    io (route ga action d ts w) = io (route gb action d ts w) := by
  unfold route
  split_ifs
  · exact hab
  · exact io_write_to_fifo_congr hab _ _ _ _ _
  · exact io_write_to_fifo_congr hab _ _ _ _ _
  · exact io_write_to_fifo_congr hab _ _ _ _ _

/-- What an iteration that took a record does, in terms of the state before. -/
theorem processor_some {g g1 : Globals} {env : ProcEnv} {p : Processed}
    (h : processor_thread_fn g env = some (g1, some p)) :
    ∃ pos api, g.receive.advance g.receive_current_pos = some (pos, some p.current_data) ∧
      call_policy_api env.curl = some api ∧
      p.delta = (match HASH_FIND_STR g.ip_table p.current_data.ip with
        | some e => p.current_data.recv_ts - e.last_time
        | none => 0) ∧
      g1.ip_table = (match HASH_FIND_STR g.ip_table p.current_data.ip with
        | some _ => ip_entry_assign p.current_data.ip
            (fun e => { e with last_time := p.current_data.recv_ts }) g.ip_table
        | none => g.ip_table) ∧
      p.api_failed = decide (api = ApiResult.failed) ∧
      p.action = (match api with
        | ApiResult.ok a _ _ => a
        | ApiResult.failed => "low".toList) ∧
      p.trust = (match api with
        | ApiResult.ok _ t _ => t
        | ApiResult.failed => 1000000) ∧
      p.p_val = (match api with
        | ApiResult.ok _ _ q => q
        | ApiResult.failed => 0) ∧
      io g1 = io (route g p.action p.current_data env.service_end_ts env.write) ∧
      p.telemetry.isSome = env.csv_alloc ∧
      (∀ t, p.telemetry = some t → t.action = strncpy p.action 15 ∧ t.trust = p.trust ∧
        t.p_value = p.p_val ∧ t.delta = p.delta ∧ t.packet_count = p.current_data.packet_count ∧
        t.recv_ts = p.current_data.recv_ts ∧ t.ip = strncpy p.current_data.ip 63) := by
  unfold processor_thread_fn at h
  split at h
  · exact absurd h (by simp)
  · simp at h
  · rename_i pos d hadv
    simp only at h
    split at h
    · exact absurd h (by simp)
    · rename_i api hapi
      have hio : ∀ (a : CStr) (ga gb : Globals), io ga = io gb →
          io (route ga a d env.service_end_ts env.write) =
            io (route gb a d env.service_end_ts env.write) :=
        fun a ga gb hab => io_route_congr hab a d env.service_end_ts env.write
      split at h
      · exact absurd h (by simp)
      · rename_i g3 hcsv
        obtain ⟨f1, f2, f3, f4, f5⟩ := enqueue_csv_frame hcsv
        obtain ⟨c1, c2, c3, c4, c5⟩ := core_route_fields _ _ d env.service_end_ts env.write
        have htel : ∀ (b : Bool) (r : CSVRecord),
            (if b then some (csv_record_stored r) else none).isSome = b := by
          intro b r; cases b <;> simp
        split at h
        · split at h
          · exact absurd h (by simp)
          · rename_i g5 hcl
            obtain ⟨k1, k2, k3, k4, k5⟩ := cleanup_frame hcl
            simp only [Option.some.injEq, Prod.mk.injEq] at h
            obtain ⟨hg, hp⟩ := h
            subst hp
            subst hg
            refine ⟨pos, api, hadv, hapi, rfl, ?_, rfl, rfl, rfl, rfl, ?_, htel _ _, ?_⟩
            · rw [k2]; simp only []; rw [f2, c4]
            · rw [k1]; simp only [io] at f1 ⊢; rw [f1]; exact hio _ _ _ rfl
            · intro t ht
              by_cases hal : env.csv_alloc = true
              · simp only [hal, if_true, Option.some.injEq] at ht
                subst ht
                exact ⟨rfl, rfl, rfl, rfl, rfl, rfl, rfl⟩
              · simp [hal] at ht
        · simp only [Option.some.injEq, Prod.mk.injEq] at h
          obtain ⟨hg, hp⟩ := h
          subst hp
          subst hg
          refine ⟨pos, api, hadv, hapi, rfl, ?_, rfl, rfl, rfl, rfl, ?_, htel _ _, ?_⟩
          · simp only []; rw [f2, c4]
          · simp only [io] at f1 ⊢; rw [f1]; exact hio _ _ _ rfl
          · intro t ht
            by_cases hal : env.csv_alloc = true
            · simp only [hal, if_true, Option.some.injEq] at ht
              subst ht
              exact ⟨rfl, rfl, rfl, rfl, rfl, rfl, rfl⟩
            · simp [hal] at ht


theorem advance_cases {g : Globals} {hist : List ReceiveNode} {n : ℕ} {tele : List CSVRecord}
    (h : Inv g hist n tele) :
    (hist.length ≤ n ∧ ∃ pos, g.receive.advance g.receive_current_pos = some (pos, none)) ∨
      ∃ d pos, hist[n]? = some d ∧
        g.receive.advance g.receive_current_pos = some (pos, some d) ∧
        ∀ g1 : Globals, g1.receive = g.receive → g1.receive_current_pos = pos →
          g1.csv_queue = g.csv_queue → Inv g1 hist (n + 1) tele := by
  obtain ⟨⟨cells, hq, hc⟩, hcsv⟩ := h
  rcases hc with ⟨h1, h2, h3⟩ | ⟨pre, x, post, h1, h2, h3⟩
  · rw [h1, hq.advance_start]
    subst h2
    cases cells with
    | nil =>
      left
      simp at h3
      subst h3
      exact ⟨by simp, 0, rfl⟩
    | cons c rest =>
      right
      obtain ⟨a, x⟩ := c
      refine ⟨x, a, by simp [← h3], rfl, ?_⟩
      intro g1 e1 e2 e3
      refine ⟨⟨(a, x) :: rest, by rw [e1]; exact hq, ?_⟩, by rw [e3]; exact hcsv⟩
      rw [e2]
      refine Or.inr ⟨[], x, rest, rfl, by simp [← h3], by simp [← h3]⟩
  · subst h1
    rw [hq.advance_at]
    cases post with
    | nil =>
      left
      simp only [List.map_nil] at h2
      have := List.drop_eq_nil_iff.mp h2.symm
      exact ⟨this, _, rfl⟩
    | cons c post =>
      right
      obtain ⟨b, y⟩ := c
      simp only [List.map_cons] at h2
      have hlt : n < hist.length := by
        by_contra hge
        have : List.drop n hist = [] := List.drop_eq_nil_iff.mpr (by omega)
        rw [this] at h2
        exact absurd h2 (by simp)
      have hdrop := List.drop_eq_getElem_cons hlt
      rw [hdrop] at h2
      simp only [List.cons.injEq] at h2
      refine ⟨y, b, by rw [List.getElem?_eq_getElem hlt, h2.1], rfl, ?_⟩
      intro g1 e1 e2 e3
      refine ⟨⟨pre ++ (g.receive_current_pos, x) :: (b, y) :: post, by rw [e1]; exact hq, ?_⟩,
        by rw [e3]; exact hcsv⟩
      rw [e2]
      exact Or.inr ⟨pre ++ [(g.receive_current_pos, x)], y, post, by simp, h2.2, hlt⟩

theorem inv_csv_enqueue {g : Globals} {hist : List ReceiveNode} {n : ℕ}
    {tele : List CSVRecord} (h : Inv g hist n tele) (alloc : Bool) (r : CSVRecord) :
    ∃ g1, enqueue_csv_record g alloc r = some g1 ∧
      Inv g1 hist n (tele ++ (if alloc then some (csv_record_stored r) else none).toList) := by
  obtain ⟨hr, ccells, hq, hc⟩ := h
  unfold enqueue_csv_record
  cases alloc with
  | false => exact ⟨g, rfl, by simpa using ⟨hr, ccells, hq, hc⟩⟩
  | true =>
    obtain ⟨q1, he, hq1, _⟩ := hq.enqueue (csv_record_stored r)
    simp only [Bool.not_true, Bool.false_eq_true, if_false, he]
    exact ⟨_, rfl, hr, _, hq1, by simp [hc]⟩

theorem finish_step {g2 : Globals} {hist : List ReceiveNode} {n : ℕ} {tele : List CSVRecord}
    (alloc : Bool) (record : CSVRecord) (now : double) (P : Processed)
    (hI2 : Inv g2 hist n tele)
    (hP : P.telemetry = if alloc then some (csv_record_stored record) else none) :
    ∃ g1 p,
      (match enqueue_csv_record g2 alloc record with
        | none => none
        | some g3 =>
          if (g3.process_counter + 1).tmod CLEANUP_INTERVAL = 0 then
            match cleanup_old_receive_nodes
                { g3 with process_counter := g3.process_counter + 1 } now with
            | none => none
            | some g5 => some (g5, some P)
          else some ({ g3 with process_counter := g3.process_counter + 1 }, some P)) =
        some (g1, some p) ∧ p.current_data = P.current_data ∧
      Inv g1 hist n (tele ++ p.telemetry.toList) := by
  obtain ⟨g3, he, hI3⟩ := inv_csv_enqueue hI2 alloc record
  rw [he]
  simp only
  rw [← hP] at hI3
  have hI4 : Inv { g3 with process_counter := g3.process_counter + 1 } hist n
      (tele ++ P.telemetry.toList) := inv_congr hI3 rfl rfl rfl
  split_ifs with hcnt
  · obtain ⟨g5, hcl, hI5⟩ := inv_sweep hI4 now
    rw [hcl]
    exact ⟨_, _, rfl, rfl, hI5⟩
  · exact ⟨_, _, rfl, rfl, hI4⟩

theorem inv_process {g : Globals} {hist : List ReceiveNode} {n : ℕ} {tele : List CSVRecord}
    (h : Inv g hist n tele) (env : ProcEnv) :
    (hist.length ≤ n ∧ processor_thread_fn g env = some (g, none)) ∨
      ∃ d, hist[n]? = some d ∧
        ((call_policy_api env.curl = none ∧ processor_thread_fn g env = none) ∨
          ∃ g1 p, processor_thread_fn g env = some (g1, some p) ∧ p.current_data = d ∧
            Inv g1 hist (n + 1) (tele ++ p.telemetry.toList)) := by
  rcases advance_cases h with ⟨hlen, pos, hadv⟩ | ⟨d, pos, hd, hadv, hnext⟩
  · left
    refine ⟨hlen, ?_⟩
    unfold processor_thread_fn
    rw [hadv]
  · right
    refine ⟨d, hd, ?_⟩
    cases hapi : call_policy_api env.curl with
    | none =>
      left
      refine ⟨rfl, ?_⟩
      unfold processor_thread_fn
      rw [hadv]
      simp only [hapi]
    | some api =>
      right
      unfold processor_thread_fn
      rw [hadv]
      simp only [hapi]
      apply finish_step
      · apply hnext
        · exact (core_route_fields _ _ _ _ _).1
        · exact (core_route_fields _ _ _ _ _).2.1
        · exact (core_route_fields _ _ _ _ _).2.2.1
      · rfl


theorem run_fifo (evs : List Event) :
    ∀ (g : Globals) (hist : List ReceiveNode) (n : ℕ) (tele : List CSVRecord),
      Inv g hist n tele →
      (processed_of (run g evs)).map Processed.current_data =
        ((hist ++ enqueued_of (run g evs)).drop n).take (processed_of (run g evs)).length := by
  induction evs with
  | nil => intro g hist n tele _; simp [run, processed_of]
  | cons ev evs ih =>
    intro g hist n tele h
    cases ev with
    | message m =>
      obtain ⟨g1, r, hs, hI⟩ := inv_message h m
      have := ih g1 _ n tele hI
      simp only [run, step, hs, Option.map_some', processed_of, enqueued_of]
      rw [← List.append_assoc]
      exact this
    | process env =>
      rcases inv_process h env with ⟨_, hs⟩ | ⟨d, hd, ⟨_, hs⟩ | ⟨g1, p, hs, hp, hI⟩⟩
      · have := ih g hist n tele h
        simp only [run, step, hs, Option.map_some', processed_of, enqueued_of]
        exact this
      · simp [run, step, hs, processed_of]
      · have := ih g1 hist (n + 1) _ hI
        simp only [run, step, hs, Option.map_some', processed_of, enqueued_of, List.map_cons,
          List.length_cons, hp]
        rw [this]
        have hlt : n < (hist ++ enqueued_of (run g1 evs)).length := by
          have := (List.getElem?_eq_some_iff.mp hd).1
          simp; omega
        have hget : (hist ++ enqueued_of (run g1 evs))[n] = d := by
          have h2 := List.getElem?_eq_some_iff.mp hd
          rw [List.getElem_append_left h2.1]
          exact h2.2
        rw [List.drop_eq_getElem_cons hlt, hget, List.take_succ_cons]
    | sweep now =>
      obtain ⟨g1, hs, hI⟩ := inv_sweep h now
      have := ih g1 hist n tele hI
      simp only [run, step, hs, Option.map_some', processed_of, enqueued_of]
      exact this

theorem run_total (evs : List Event) :
    ∀ (g : Globals) (hist : List ReceiveNode) (n : ℕ) (tele : List CSVRecord),
      Inv g hist n tele → (∀ ev ∈ evs, ev.survives = true) →
      (run g evs).length = evs.length ∧ ∃ g1, run_state g evs = some g1 := by
  induction evs with
  | nil => intro g hist n tele _ _; exact ⟨rfl, g, rfl⟩
  | cons ev evs ih =>
    intro g hist n tele h hsv
    have hsv1 : ∀ e ∈ evs, e.survives = true := fun e he => hsv e (List.mem_cons_of_mem _ he)
    cases ev with
    | message m =>
      obtain ⟨g1, r, hs, hI⟩ := inv_message h m
      obtain ⟨h1, h2⟩ := ih g1 _ n tele hI hsv1
      simp only [run, run_state, step, hs, Option.map_some', List.length_cons, h1]
      exact ⟨trivial, h2⟩
    | process env =>
      have hsurv : call_policy_api env.curl ≠ none := by
        have := hsv _ (List.mem_cons_self _ _)
        simp only [Event.survives] at this
        intro e
        rw [e] at this
        simp at this
      rcases inv_process h env with ⟨_, hs⟩ | ⟨d, hd, ⟨hc, _⟩ | ⟨g1, p, hs, hp, hI⟩⟩
      · obtain ⟨h1, h2⟩ := ih g hist n tele h hsv1
        simp only [run, run_state, step, hs, Option.map_some', List.length_cons, h1]
        exact ⟨trivial, h2⟩
      · exact absurd hc hsurv
      · obtain ⟨h1, h2⟩ := ih g1 hist (n + 1) _ hI hsv1
        simp only [run, run_state, step, hs, Option.map_some', List.length_cons, h1]
        exact ⟨trivial, h2⟩
    | sweep now =>
      obtain ⟨g1, hs, hI⟩ := inv_sweep h now
      obtain ⟨h1, h2⟩ := ih g1 hist n tele hI hsv1
      simp only [run, run_state, step, hs, Option.map_some', List.length_cons, h1]
      exact ⟨trivial, h2⟩

theorem run_state_inv (evs : List Event) :
    ∀ (g g1 : Globals) (hist : List ReceiveNode) (n : ℕ) (tele : List CSVRecord),
      Inv g hist n tele → run_state g evs = some g1 →
      (run g evs).length = evs.length ∧
      Inv g1 (hist ++ enqueued_of (run g evs)) (n + (processed_of (run g evs)).length)
        (tele ++ (processed_of (run g evs)).filterMap Processed.telemetry) := by
  induction evs with
  | nil =>
    intro g g1 hist n tele h hr
    simp only [run_state, Option.some.injEq] at hr
    subst hr
    simpa [run, enqueued_of, processed_of] using h
  | cons ev evs ih =>
    intro g g2 hist n tele h hr
    cases ev with
    | message m =>
      obtain ⟨g1, r, hs, hI⟩ := inv_message h m
      simp only [run_state, step, hs, Option.map_some'] at hr
      have := ih g1 g2 _ n tele hI hr
      simp only [run, step, hs, Option.map_some', processed_of, enqueued_of, List.length_cons]
      rw [← List.append_assoc]
      exact ⟨by rw [this.1], this.2⟩
    | process env =>
      rcases inv_process h env with ⟨_, hs⟩ | ⟨d, hd, ⟨_, hs⟩ | ⟨g1, p, hs, hp, hI⟩⟩
      · simp only [run_state, step, hs, Option.map_some'] at hr
        have := ih g g2 hist n tele h hr
        simp only [run, step, hs, Option.map_some', processed_of, enqueued_of, List.length_cons]
        exact ⟨by rw [this.1], this.2⟩
      · simp [run_state, step, hs] at hr
      · simp only [run_state, step, hs, Option.map_some'] at hr
        have := ih g1 g2 hist (n + 1) _ hI hr
        simp only [run, step, hs, Option.map_some', processed_of, enqueued_of, List.length_cons,
          List.filterMap_cons]
        refine ⟨by rw [this.1], ?_⟩
        have h2 := this.2
        rw [Nat.add_assoc, Nat.add_comm 1] at h2
        cases ht : p.telemetry with
        | none => simpa [ht] using h2
        | some t => simpa [ht] using h2
    | sweep now =>
      obtain ⟨g1, hs, hI⟩ := inv_sweep h now
      simp only [run_state, step, hs, Option.map_some'] at hr
      have := ih g1 g2 hist n tele hI hr
      simp only [run, step, hs, Option.map_some', processed_of, enqueued_of, List.length_cons]
      exact ⟨by rw [this.1], this.2⟩

end Fifo

namespace Fifo

theorem fifo_line_pos (ip : CStr) (count : ℕ) (ts : double) (action : CStr) :
    0 < (fifo_line ip count ts action).length := by
  simp [fifo_line]

/-- What `fifo_write` does to the two FIFOs. -/
theorem fifo_write_high (g : Globals) (buffer : CStr) (w : WriteEnv) :
    (fifo_write g true buffer w).low_pipe = g.low_pipe ∧
    (fifo_write g true buffer w).low_fifo_fd = g.low_fifo_fd ∧
    (∃ k, (fifo_write g true buffer w).high_pipe = g.high_pipe ++ buffer.take k) ∧
    (g.high_fifo_fd = -1 → fifo_write g true buffer w = g) ∧
    (g.high_fifo_fd ≠ -1 → 0 < buffer.length → buffer.length < 256 →
      w.written = buffer.length →
      (fifo_write g true buffer w).high_pipe = g.high_pipe ++ buffer ∧
      (fifo_write g true buffer w).high_fifo_fd = g.high_fifo_fd) := by
  refine ⟨?_, ?_, ?_, ?_, ?_⟩
  · simp only [fifo_write, if_true]
    split_ifs <;> simp [pipe_append, set_fifo_fd]
  · simp only [fifo_write, if_true]
    split_ifs <;> simp [pipe_append, set_fifo_fd]
  · simp only [fifo_write, if_true]
    split_ifs
    · exact ⟨0, by simp⟩
    · exact ⟨buffer.length, by simp [pipe_append]⟩
    · exact ⟨0, by simp [set_fifo_fd]⟩
    · exact ⟨0, by simp [set_fifo_fd]⟩
    · exact ⟨0, by simp⟩
    · exact ⟨w.written.toNat, by simp [pipe_append]⟩
    · exact ⟨0, by simp⟩
  · intro h
    simp [fifo_write, h]
  · intro h h0 h1 h2
    have h0' : (0 : ℤ) < (buffer.length : ℤ) := by exact_mod_cast h0
    have h1' : (buffer.length : ℤ) < 256 := by exact_mod_cast h1
    simp [fifo_write, h, h0', h1', h2, pipe_append]

theorem fifo_write_low (g : Globals) (buffer : CStr) (w : WriteEnv) :
    (fifo_write g false buffer w).high_pipe = g.high_pipe ∧
    (fifo_write g false buffer w).high_fifo_fd = g.high_fifo_fd ∧
    (∃ k, (fifo_write g false buffer w).low_pipe = g.low_pipe ++ buffer.take k) ∧
    (g.low_fifo_fd = -1 → fifo_write g false buffer w = g) ∧
    (g.low_fifo_fd ≠ -1 → 0 < buffer.length → buffer.length < 256 →
      w.written = buffer.length →
      (fifo_write g false buffer w).low_pipe = g.low_pipe ++ buffer ∧
      (fifo_write g false buffer w).low_fifo_fd = g.low_fifo_fd) := by
  refine ⟨?_, ?_, ?_, ?_, ?_⟩
  · simp only [fifo_write, Bool.false_eq_true, if_false]
    split_ifs <;> simp [pipe_append, set_fifo_fd]
  · simp only [fifo_write, Bool.false_eq_true, if_false]
    split_ifs <;> simp [pipe_append, set_fifo_fd]
  · simp only [fifo_write, Bool.false_eq_true, if_false]
    split_ifs
    · exact ⟨0, by simp⟩
    · exact ⟨buffer.length, by simp [pipe_append]⟩
    · exact ⟨0, by simp [set_fifo_fd]⟩
    · exact ⟨0, by simp [set_fifo_fd]⟩
    · exact ⟨0, by simp⟩
    · exact ⟨w.written.toNat, by simp [pipe_append]⟩
    · exact ⟨0, by simp⟩
  · intro h
    simp [fifo_write, h]
  · intro h h0 h1 h2
    have h0' : (0 : ℤ) < (buffer.length : ℤ) := by exact_mod_cast h0
    have h1' : (buffer.length : ℤ) < 256 := by exact_mod_cast h1
    simp [fifo_write, h, h0', h1', h2, pipe_append]

/-- A `write` that fails writes nothing, on either FIFO. -/
theorem fifo_write_neg (g : Globals) (high : Bool) (buffer : CStr) (w : WriteEnv)
    (hw : w.written < 0) :
    (fifo_write g high buffer w).high_pipe = g.high_pipe ∧
      (fifo_write g high buffer w).low_pipe = g.low_pipe := by
  have hne : ¬ w.written = (buffer.length : ℤ) := by
    have : (0 : ℤ) ≤ (buffer.length : ℤ) := Int.natCast_nonneg _
    omega
  unfold fifo_write
  simp only [hne, hw, if_false, if_true]
  split_ifs <;> cases high <;> simp [set_fifo_fd]

end Fifo

theorem option_some_of_snd {α β : Type} (o : Option (α × β)) (d : α × β) (b : β)
    (h : o.map Prod.snd = some b) : o = some ((o.getD d).1, b) := by
  cases o with
  | none => simp at h
  | some x =>
    simp only [Option.map_some', Option.some.injEq] at h
    subst h
    rfl

namespace Fifo

theorem route_low (g : Globals) (d : ReceiveNode) (ts : double) (w : WriteEnv) :
    route g "low".toList d ts w =
      fifo_write g false (fifo_line d.ip d.packet_count ts "low".toList) w := by
  have h1 : "low".toList ≠ "drop".toList := by decide
  have h2 : "low".toList ≠ "high".toList := by decide
  simp only [route, write_to_fifo, h1, h2, if_false, if_true]

theorem route_high (g : Globals) (d : ReceiveNode) (ts : double) (w : WriteEnv) :
    route g "high".toList d ts w =
      fifo_write g true (fifo_line d.ip d.packet_count ts "high".toList) w := by
  have h1 : "high".toList ≠ "drop".toList := by decide
  simp only [route, write_to_fifo, h1, if_false, if_true]

theorem route_other (g : Globals) (action : CStr) (d : ReceiveNode) (ts : double)
    (w : WriteEnv) (h1 : action ≠ "drop".toList) (h2 : action ≠ "high".toList)
    (h3 : action ≠ "low".toList) :
    route g action d ts w = route g "low".toList d ts w := by
  have e1 : "low".toList ≠ "drop".toList := by decide
  have e2 : "low".toList ≠ "high".toList := by decide
  simp only [route, h1, h2, h3, e1, e2, if_false, if_true]

/-- A `write` that fails leaves both FIFOs as they are, whatever the action. -/
theorem route_neg (g : Globals) (action : CStr) (d : ReceiveNode) (ts : double)
    (w : WriteEnv) (hw : w.written < 0) :
    (route g action d ts w).high_pipe = g.high_pipe ∧
      (route g action d ts w).low_pipe = g.low_pipe := by
  unfold route write_to_fifo
  split_ifs <;> first | exact ⟨rfl, rfl⟩ | exact fifo_write_neg _ _ _ _ hw

end Fifo

namespace Fifo

theorem processor_step_eq (g : Globals) (env : ProcEnv)
    (h : ((processor_thread_fn g env).bind Prod.snd).isSome = true) :
    processor_thread_fn g env = some (ex_step_state g env, some (ex_step_done g env)) := by
  unfold ex_step_state ex_step_done
  cases hr : processor_thread_fn g env with
  | none => simp [hr] at h
  | some r =>
    obtain ⟨g1, o⟩ := r
    cases o with
    | none => simp [hr] at h
    | some p => rfl

end Fifo

/-- C2, as stated, fails: the classifier call times out while the LOW FIFO is
unavailable (its open failed at start-up, descriptor -1); the record of source 10.0.0.5
takes the defaults but is written to neither FIFO. -/
theorem C2_counterexample :
    Fifo.call_policy_api ex_curl_timeout = some Fifo.ApiResult.failed ∧
    (Fifo.processor_thread_fn
        (ex_after ex_plugin_no_low [Fifo.Event.message (ex_msg "10.0.0.5".toList 1000000)])
        (ex_env ex_curl_timeout 66 true)).map
      (fun r => (r.1.low_pipe, r.1.high_pipe, r.2.map Fifo.Processed.action)) =
      some ([], [], some "low".toList) := by
  decide

/-- C2 (amended): when `call_policy_api` returns non-zero, the iteration uses action
"low", trust 1.0 and p_value 0.0; it never touches the HIGH FIFO or its descriptor, it
does not take the drop branch but the LOW write: the LOW FIFO receives the record's line
with label "low" when its descriptor is open and the write succeeds, nothing when the
descriptor is -1 or the write fails, and never more than a part of that line; the
telemetry record is enqueued exactly when its allocation succeeds and then carries these
three values. -/
theorem C2_classifier_failure_defaults (g g1 : Fifo.Globals) (env : Fifo.ProcEnv)
    (p : Fifo.Processed)
    (hfail : Fifo.call_policy_api env.curl = some Fifo.ApiResult.failed)
    (hstep : Fifo.processor_thread_fn g env = some (g1, some p)) :
    p.api_failed = true ∧ p.action = "low".toList ∧ p.trust = 1000000 ∧ p.p_val = 0 ∧
    g1.high_pipe = g.high_pipe ∧ g1.high_fifo_fd = g.high_fifo_fd ∧
    (∃ k, g1.low_pipe = g.low_pipe ++
      (Fifo.fifo_line p.current_data.ip p.current_data.packet_count env.service_end_ts
        "low".toList).take k) ∧
    (g.low_fifo_fd = -1 → g1.low_pipe = g.low_pipe) ∧
    (g.low_fifo_fd ≠ -1 →
      (Fifo.fifo_line p.current_data.ip p.current_data.packet_count env.service_end_ts
        "low".toList).length < 256 →
      env.write.written = (Fifo.fifo_line p.current_data.ip p.current_data.packet_count
        env.service_end_ts "low".toList).length →
      g1.low_pipe = g.low_pipe ++ Fifo.fifo_line p.current_data.ip
        p.current_data.packet_count env.service_end_ts "low".toList) ∧
    p.telemetry.isSome = env.csv_alloc ∧
    (∀ t, p.telemetry = some t →
      t.action = "low".toList ∧ t.trust = 1000000 ∧ t.p_value = 0) ∧
    (env.write.written < 0 → g1.low_pipe = g.low_pipe) := by
  obtain ⟨pos, api, _, hapi, _, _, hf, ha, ht, hp, hio, htel, htv⟩ := Fifo.processor_some hstep
  rw [hfail] at hapi
  simp only [Option.some.injEq] at hapi
  subst hapi
  simp only at ha ht hp
  simp only [decide_True] at hf
  rw [ha, Fifo.route_low] at hio
  simp only [Fifo.io, Prod.mk.injEq] at hio
  obtain ⟨i1, i2, i3, i4⟩ := hio
  obtain ⟨w1, w2, w3, w4, w5⟩ := Fifo.fifo_write_low g
    (Fifo.fifo_line p.current_data.ip p.current_data.packet_count env.service_end_ts
      "low".toList) env.write
  refine ⟨hf, ha, ht, hp, by rw [i3, w1], by rw [i1, w2], ?_, ?_, ?_, htel, ?_, ?_⟩
  · obtain ⟨k, hk⟩ := w3
    exact ⟨k, by rw [i4, hk]⟩
  · intro h
    rw [i4, w4 h]
  · intro h h1 h2
    rw [i4]
    exact (w5 h (Fifo.fifo_line_pos _ _ _ _) h1 h2).1
  · intro t htt
    obtain ⟨t1, t2, t3, _⟩ := htv t htt
    rw [t1, t2, t3, ha, ht, hp]
    exact ⟨by decide, rfl, rfl⟩
  · intro hw
    rw [i4]
    exact (Fifo.fifo_write_neg g false _ env.write hw).2

/-- C2, witness: the classifier call times out for the first record of source 10.0.0.5
with both FIFOs open; the record's line goes to the LOW FIFO with label "low". -/
theorem C2_classifier_failure_defaults_witness :
    Fifo.call_policy_api (ex_env ex_curl_timeout 66 true).curl = some Fifo.ApiResult.failed ∧
    Fifo.processor_thread_fn ex_queued (ex_env ex_curl_timeout 66 true) =
      some (ex_step_state ex_queued (ex_env ex_curl_timeout 66 true),
        some (ex_step_done ex_queued (ex_env ex_curl_timeout 66 true))) ∧
    (ex_step_done ex_queued (ex_env ex_curl_timeout 66 true)).action = "low".toList ∧
    (ex_step_state ex_queued (ex_env ex_curl_timeout 66 true)).high_pipe = [] ∧
    (ex_step_state ex_queued (ex_env ex_curl_timeout 66 true)).low_pipe =
      Fifo.fifo_line "10.0.0.5".toList 1 5000101 "low".toList :=
  have hstep := Fifo.processor_step_eq ex_queued (ex_env ex_curl_timeout 66 true) (by decide)
  have h := C2_classifier_failure_defaults ex_queued _ _ _ (by decide) hstep
  ⟨by decide, hstep, h.2.1, h.2.2.2.2.1, by
    have h9 := h.2.2.2.2.2.2.2.2.1 (by decide) (by decide) (by decide)
    rw [h9]
    decide⟩

/-- C3, as stated, fails: the outcome is not a function of the action string alone.
With the HIGH FIFO unavailable (descriptor -1) the action "high" writes to neither FIFO,
with the HIGH FIFO open the same action for the same record writes its line. -/
theorem C3_counterexample :
    (Fifo.route ex_plugin_no_high "high".toList ex_record 5000101 (ex_write_ok 67)).high_pipe
      = [] ∧
    (Fifo.route ex_plugin_no_high "high".toList ex_record 5000101 (ex_write_ok 67)).low_pipe
      = [] ∧
    (Fifo.route ex_plugin "high".toList ex_record 5000101 (ex_write_ok 67)).high_pipe =
      Fifo.fifo_line "10.0.0.5".toList 1 5000101 "high".toList := by
  decide

/-- C3 (amended): the routing step selects its target as a total function of the action
string: "drop" changes nothing (no write is attempted); "high" leaves the LOW FIFO and its
descriptor alone and appends to the HIGH FIFO the record's line with label "high" when
the HIGH descriptor is open and the write succeeds, nothing when the descriptor is -1,
and never more than a part of that line; "low" does the same with the two FIFOs
exchanged and label "low"; every other action string does exactly what "low" does.
When the write fails nothing is written, whatever the action. -/
theorem C3_route_by_action (g : Fifo.Globals) (action : CStr) (d : Fifo.ReceiveNode)
    (ts : double) (w : WriteEnv) :
    (action = "drop".toList → Fifo.route g action d ts w = g) ∧
    (action = "high".toList →
      (Fifo.route g action d ts w).low_pipe = g.low_pipe ∧
      (Fifo.route g action d ts w).low_fifo_fd = g.low_fifo_fd ∧
      (∃ k, (Fifo.route g action d ts w).high_pipe =
        g.high_pipe ++ (Fifo.fifo_line d.ip d.packet_count ts "high".toList).take k) ∧
      (g.high_fifo_fd = -1 → Fifo.route g action d ts w = g) ∧
      (g.high_fifo_fd ≠ -1 →
        (Fifo.fifo_line d.ip d.packet_count ts "high".toList).length < 256 →
        w.written = (Fifo.fifo_line d.ip d.packet_count ts "high".toList).length →
        (Fifo.route g action d ts w).high_pipe =
          g.high_pipe ++ Fifo.fifo_line d.ip d.packet_count ts "high".toList)) ∧
    (action = "low".toList →
      (Fifo.route g action d ts w).high_pipe = g.high_pipe ∧
      (Fifo.route g action d ts w).high_fifo_fd = g.high_fifo_fd ∧
      (∃ k, (Fifo.route g action d ts w).low_pipe =
        g.low_pipe ++ (Fifo.fifo_line d.ip d.packet_count ts "low".toList).take k) ∧
      (g.low_fifo_fd = -1 → Fifo.route g action d ts w = g) ∧
      (g.low_fifo_fd ≠ -1 →
        (Fifo.fifo_line d.ip d.packet_count ts "low".toList).length < 256 →
        w.written = (Fifo.fifo_line d.ip d.packet_count ts "low".toList).length →
        (Fifo.route g action d ts w).low_pipe =
          g.low_pipe ++ Fifo.fifo_line d.ip d.packet_count ts "low".toList)) ∧
    (action ≠ "drop".toList → action ≠ "high".toList → action ≠ "low".toList →
      Fifo.route g action d ts w = Fifo.route g "low".toList d ts w) ∧
    (w.written < 0 →
      (Fifo.route g action d ts w).high_pipe = g.high_pipe ∧
        (Fifo.route g action d ts w).low_pipe = g.low_pipe) := by
  refine ⟨?_, ?_, ?_, ?_, ?_⟩
  · intro h
    simp only [Fifo.route, h, if_true]
  · intro h
    subst h
    rw [Fifo.route_high]
    obtain ⟨w1, w2, w3, w4, w5⟩ := Fifo.fifo_write_high g
      (Fifo.fifo_line d.ip d.packet_count ts "high".toList) w
    exact ⟨w1, w2, w3, w4, fun h h1 h2 => (w5 h (Fifo.fifo_line_pos _ _ _ _) h1 h2).1⟩
  · intro h
    subst h
    rw [Fifo.route_low]
    obtain ⟨w1, w2, w3, w4, w5⟩ := Fifo.fifo_write_low g
      (Fifo.fifo_line d.ip d.packet_count ts "low".toList) w
    exact ⟨w1, w2, w3, w4, fun h h1 h2 => (w5 h (Fifo.fifo_line_pos _ _ _ _) h1 h2).1⟩
  · exact Fifo.route_other g action d ts w
  · exact Fifo.route_neg g action d ts w

/-- C3, witness: with both FIFOs open and writes that succeed, "high" puts the line on
the HIGH FIFO, "low" on the LOW FIFO, and the unknown action "medium" does what "low"
does. -/
theorem C3_route_by_action_witness :
    (Fifo.route ex_plugin "high".toList ex_record 5000101 (ex_write_ok 67)).high_pipe =
      [] ++ Fifo.fifo_line "10.0.0.5".toList 1 5000101 "high".toList ∧
    (Fifo.route ex_plugin "low".toList ex_record 5000101 (ex_write_ok 66)).low_pipe =
      [] ++ Fifo.fifo_line "10.0.0.5".toList 1 5000101 "low".toList ∧
    Fifo.route ex_plugin "medium".toList ex_record 5000101 (ex_write_ok 66) =
      Fifo.route ex_plugin "low".toList ex_record 5000101 (ex_write_ok 66) :=
  ⟨(C3_route_by_action ex_plugin "high".toList ex_record 5000101 (ex_write_ok 67)).2.1 rfl
      |>.2.2.2.2 (by decide) (by decide) (by decide),
    (C3_route_by_action ex_plugin "low".toList ex_record 5000101 (ex_write_ok 66)).2.2.1 rfl
      |>.2.2.2.2 (by decide) (by decide) (by decide),
    (C3_route_by_action ex_plugin "medium".toList ex_record 5000101 (ex_write_ok 66)).2.2.2.1
      (by decide) (by decide) (by decide)⟩

namespace Fifo

theorem telemetry_all_some (evs : List Event) :
    ∀ g : Globals, (∀ ev ∈ evs, ev.csv_allocated = true) →
      ∀ p ∈ processed_of (run g evs), p.telemetry.isSome = true := by
  induction evs with
  | nil => intro g _ p hp; simp [run, processed_of] at hp
  | cons ev evs ih =>
    intro g hall p hp
    have hall1 : ∀ e ∈ evs, e.csv_allocated = true :=
      fun e he => hall e (List.mem_cons_of_mem _ he)
    cases hs : step g ev with
    | none => simp [run, hs, processed_of] at hp
    | some r =>
      obtain ⟨g1, o⟩ := r
      simp only [run, hs] at hp
      cases o with
      | hook r => exact ih g1 hall1 p (by simpa [processed_of] using hp)
      | swept => exact ih g1 hall1 p (by simpa [processed_of] using hp)
      | processed q =>
        cases q with
        | none => exact ih g1 hall1 p (by simpa [processed_of] using hp)
        | some q =>
          simp only [processed_of, List.mem_cons] at hp
          rcases hp with rfl | hp
          · cases ev with
            | message m =>
              simp only [step, Option.map_eq_some'] at hs
              obtain ⟨_, _, hs2⟩ := hs
              simp at hs2
            | sweep now =>
              simp only [step, Option.map_eq_some'] at hs
              obtain ⟨_, _, hs2⟩ := hs
              simp at hs2
            | process env =>
              simp only [step, Option.map_eq_some'] at hs
              obtain ⟨r, hr, hs2⟩ := hs
              obtain ⟨g2, o2⟩ := r
              simp only [Prod.mk.injEq, Obs.processed.injEq] at hs2
              obtain ⟨rfl, rfl⟩ := hs2
              obtain ⟨_, _, _, _, _, _, _, _, _, _, _, htel, _⟩ := processor_some hr
              rw [htel]
              exact hall (Event.process env) (List.mem_cons_self _ _)
          · exact ih g1 hall1 p hp

theorem run_state_eq_after (g : Globals) (evs : List Event)
    (h : (run_state g evs).isSome = true) : run_state g evs = some (ex_after g evs) := by
  unfold ex_after
  cases hr : run_state g evs with
  | none => simp [hr] at h
  | some g1 => rfl

end Fifo

/-- C9, as stated, fails: the record of source 10.0.0.5 is classified ("high") and
written to the HIGH FIFO, but the `malloc` of its telemetry record fails and
`enqueue_csv_record` returns without enqueuing anything. -/
theorem C9_counterexample :
    (Fifo.processed_of (Fifo.run ex_plugin
      [Fifo.Event.message (ex_msg "10.0.0.5".toList 1000000),
        Fifo.Event.process (ex_env (ex_curl "high".toList) 67 false)])).length = 1 ∧
    (ex_after ex_plugin
      [Fifo.Event.message (ex_msg "10.0.0.5".toList 1000000),
        Fifo.Event.process (ex_env (ex_curl "high".toList) 67 false)]).csv_queue.toList = [] := by
  decide

/-- C9 (amended): after any sequence of steps of the plugin, the CSV queue holds, in
processing order, exactly the telemetry records of the records that were classified and
whose telemetry allocation (`malloc` in `enqueue_csv_record`) succeeded; when no such
allocation fails, the number of telemetry records equals the number of classified
records, whatever the actions, the classifier failures and the outcomes of the FIFO
writes. -/
theorem C9_telemetry_per_record (env : Fifo.InitEnv) (evs : List Fifo.Event)
    (g : Fifo.Globals) (h : Fifo.run_state (Fifo.mosquitto_plugin_init env) evs = some g) :
    g.csv_queue.toList =
      (Fifo.processed_of (Fifo.run (Fifo.mosquitto_plugin_init env) evs)).filterMap
        Fifo.Processed.telemetry ∧
    ((∀ ev ∈ evs, ev.csv_allocated = true) →
      g.csv_queue.toList.length =
        (Fifo.processed_of (Fifo.run (Fifo.mosquitto_plugin_init env) evs)).length) := by
  obtain ⟨_, _, ccells, hq, hc⟩ := Fifo.run_state_inv evs _ g [] 0 [] (Fifo.inv_init env) h
  have hl : g.csv_queue.toList =
      (Fifo.processed_of (Fifo.run (Fifo.mosquitto_plugin_init env) evs)).filterMap
        Fifo.Processed.telemetry := by
    rw [hq.toList_eq, hc]; simp
  refine ⟨hl, ?_⟩
  intro hall
  rw [hl]
  have hsome := Fifo.telemetry_all_some evs (Fifo.mosquitto_plugin_init env) hall
  generalize Fifo.processed_of (Fifo.run (Fifo.mosquitto_plugin_init env) evs) = ps at hsome
  induction ps with
  | nil => rfl
  | cons p ps ih =>
    have hp := hsome p (List.mem_cons_self _ _)
    cases ht : p.telemetry with
    | none => simp [ht] at hp
    | some t =>
      simp only [List.filterMap_cons, ht, List.length_cons]
      rw [ih (fun q hq => hsome q (List.mem_cons_of_mem _ hq))]

/-- C9, witness: two messages, the first classified "high" and written, the second
classified "drop"; both leave a telemetry record. -/
theorem C9_telemetry_per_record_witness :
    Fifo.run_state (Fifo.mosquitto_plugin_init { log_open := true, high_fd := 5, low_fd := 6 })
        [Fifo.Event.message (ex_msg "10.0.0.5".toList 1000000),
          Fifo.Event.message (ex_msg "10.0.0.5".toList 2000000),
          Fifo.Event.process (ex_env (ex_curl "high".toList) 67 true),
          Fifo.Event.process (ex_env (ex_curl "drop".toList) 0 true)] =
      some (ex_after ex_plugin
        [Fifo.Event.message (ex_msg "10.0.0.5".toList 1000000),
          Fifo.Event.message (ex_msg "10.0.0.5".toList 2000000),
          Fifo.Event.process (ex_env (ex_curl "high".toList) 67 true),
          Fifo.Event.process (ex_env (ex_curl "drop".toList) 0 true)]) ∧
    (ex_after ex_plugin
        [Fifo.Event.message (ex_msg "10.0.0.5".toList 1000000),
          Fifo.Event.message (ex_msg "10.0.0.5".toList 2000000),
          Fifo.Event.process (ex_env (ex_curl "high".toList) 67 true),
          Fifo.Event.process (ex_env (ex_curl "drop".toList) 0 true)]).csv_queue.toList.length =
      (Fifo.processed_of (Fifo.run
        (Fifo.mosquitto_plugin_init { log_open := true, high_fd := 5, low_fd := 6 })
        [Fifo.Event.message (ex_msg "10.0.0.5".toList 1000000),
          Fifo.Event.message (ex_msg "10.0.0.5".toList 2000000),
          Fifo.Event.process (ex_env (ex_curl "high".toList) 67 true),
          Fifo.Event.process (ex_env (ex_curl "drop".toList) 0 true)])).length ∧
    (Fifo.processed_of (Fifo.run
        (Fifo.mosquitto_plugin_init { log_open := true, high_fd := 5, low_fd := 6 })
        [Fifo.Event.message (ex_msg "10.0.0.5".toList 1000000),
          Fifo.Event.message (ex_msg "10.0.0.5".toList 2000000),
          Fifo.Event.process (ex_env (ex_curl "high".toList) 67 true),
          Fifo.Event.process (ex_env (ex_curl "drop".toList) 0 true)])).length = 2 :=
  have hrun := Fifo.run_state_eq_after ex_plugin
    [Fifo.Event.message (ex_msg "10.0.0.5".toList 1000000),
      Fifo.Event.message (ex_msg "10.0.0.5".toList 2000000),
      Fifo.Event.process (ex_env (ex_curl "high".toList) 67 true),
      Fifo.Event.process (ex_env (ex_curl "drop".toList) 0 true)] (by decide)
  ⟨hrun, (C9_telemetry_per_record _ _ _ hrun).2 (by decide), by decide⟩

/-- C10: the receive queue is first-in first-out with exactly-once consumption. For
every sequence of hook invocations, iterations of the processing thread and sweeps after
plugin start, the records taken by the processing thread, in the order taken, are exactly
the first records appended by the hook, in the order appended: none skipped, none taken
twice. No step crashes unless an API call does, so the sequence runs to its end. -/
theorem C10_receive_queue_fifo (env : Fifo.InitEnv) (evs : List Fifo.Event) :
    (Fifo.processed_of (Fifo.run (Fifo.mosquitto_plugin_init env) evs)).map
        Fifo.Processed.current_data =
      (Fifo.enqueued_of (Fifo.run (Fifo.mosquitto_plugin_init env) evs)).take
        (Fifo.processed_of (Fifo.run (Fifo.mosquitto_plugin_init env) evs)).length ∧
    ((∀ ev ∈ evs, ev.survives = true) →
      (Fifo.run (Fifo.mosquitto_plugin_init env) evs).length = evs.length) := by
  refine ⟨?_, fun hs => (Fifo.run_total evs _ [] 0 [] (Fifo.inv_init env) hs).1⟩
  have := Fifo.run_fifo evs _ [] 0 [] (Fifo.inv_init env)
  simpa using this

set_option maxRecDepth 100000 in
/-- C10, witness: three records are appended, a sweep frees the first after the first
two were taken, and four iterations of the processing thread take the three records in
the order appended. -/
theorem C10_receive_queue_fifo_witness :
    (∀ ev ∈ ex_with_sweep, ev.survives = true) ∧
    (Fifo.processed_of (Fifo.run ex_plugin ex_with_sweep)).map Fifo.Processed.current_data =
      (Fifo.enqueued_of (Fifo.run ex_plugin ex_with_sweep)).take
        (Fifo.processed_of (Fifo.run ex_plugin ex_with_sweep)).length ∧
    (Fifo.run ex_plugin ex_with_sweep).length = ex_with_sweep.length ∧
    (Fifo.processed_of (Fifo.run ex_plugin ex_with_sweep)).map
      (fun p => p.current_data.recv_ts) = [1000000, 2000000, 401000000] ∧
    (ex_after ex_plugin ex_with_sweep).receive.toList.map Fifo.ReceiveNode.recv_ts =
      [2000000, 401000000] :=
  have h := C10_receive_queue_fifo { log_open := true, high_fd := 5, low_fd := 6 }
    ex_with_sweep
  ⟨by decide, h.1, h.2 (by decide), by decide, by decide⟩

/-! ## The forwarders -/

theorem fgets_take_head (k : ℕ) (c : Char) (cs : CStr) (hc : c ≠ '\n') :
    ∃ l, (fgets_take (k + 1) (c :: cs)).1 = c :: l := by
  simp [fgets_take, hc]

theorem strip_newline_cons (c : Char) (l : CStr) (hc : c ≠ '\n') :
    strip_newline (c :: l) ≠ [] := by
  unfold strip_newline
  split_ifs with h
  · cases l with
    | nil => simp at h; exact absurd h hc
    | cons d l => simp [List.dropLast]
  · simp

namespace PqForwarder

/-- What a call of `process_message` on a non-empty line does. -/
theorem process_message_some {s s1 : State} {line priority : CStr} {env : PubEnv} {r : ℤ}
    (hl : line ≠ []) (h : process_message s line priority env = some (s1, r)) :
    (∃ payload, s1.published =
      s.published ++ [{ payload := payload, priority := priority, rc := env.rc }]) ∧
    s1.publish_failures =
      (if env.rc = MQTTCLIENT_SUCCESS then s.publish_failures else s.publish_failures + 1) ∧
    s1.high_processed + s1.low_processed =
      (if env.rc = MQTTCLIENT_SUCCESS then s.high_processed + s.low_processed + 1
        else s.high_processed + s.low_processed) ∧
    s1.high_file = s.high_file ∧ s1.low_file = s.low_file ∧
    s1.total_messages = s.total_messages := by
  unfold process_message at h
  simp only [hl, if_false] at h
  split at h
  · exact absurd h (by simp)
  · rename_i payload hp
    simp only [Option.some.injEq, Prod.mk.injEq] at h
    obtain ⟨h, _⟩ := h
    subst h
    by_cases hrc : env.rc = MQTTCLIENT_SUCCESS
    · by_cases hpr : priority = ['H', 'I', 'G', 'H']
      · refine ⟨⟨payload, ?_⟩, ?_, ?_, ?_, ?_, ?_⟩ <;> simp [hrc, hpr]; omega
      · refine ⟨⟨payload, ?_⟩, ?_, ?_, ?_, ?_, ?_⟩ <;> simp [hrc, hpr]; omega
    · refine ⟨⟨payload, ?_⟩, ?_, ?_, ?_, ?_, ?_⟩ <;> simp [hrc]

/-- What the first half of a cycle does. -/
theorem read_high_spec {s s1 : State} {env : CycleEnv} (h : read_high s env = some s1) :
    s1.low_file = s.low_file ∧
    ((s1.published = s.published ∧ s1.publish_failures = s.publish_failures ∧
        s1.total_messages = s.total_messages ∧
        s1.high_processed + s1.low_processed = s.high_processed + s.low_processed) ∨
      ((∃ payload, s1.published = s.published ++
          [{ payload := payload, priority := "HIGH".toList, rc := env.high_pub.rc }]) ∧
        s1.publish_failures = (if env.high_pub.rc = MQTTCLIENT_SUCCESS then s.publish_failures
          else s.publish_failures + 1) ∧
        s1.total_messages = s.total_messages + 1 ∧
        s1.high_processed + s1.low_processed =
          (if env.high_pub.rc = MQTTCLIENT_SUCCESS then s.high_processed + s.low_processed + 1
            else s.high_processed + s.low_processed))) ∧
    (s.high_eof = false → ∀ c cs, s.high_file ++ env.high_arrival = c :: cs → c ≠ '\n' →
      ∃ payload, s1.published = s.published ++
        [{ payload := payload, priority := "HIGH".toList, rc := env.high_pub.rc }]) := by
  unfold read_high at h
  by_cases he : s.high_eof = true
  · rw [if_pos he] at h
    simp only [Option.some.injEq] at h
    subst h
    refine ⟨rfl, Or.inl ⟨rfl, rfl, rfl, rfl⟩, ?_⟩
    intro hf
    rw [he] at hf
    exact absurd hf (by simp)
  rw [if_neg he] at h
  simp only at h
  split at h
  · rename_i hf
    simp only [Option.some.injEq] at h
    subst h
    refine ⟨rfl, Or.inl ⟨rfl, rfl, rfl, rfl⟩, ?_⟩
    intro _ c cs hd _
    simp [fgets, hd] at hf
  · rename_i buf rest hf
    by_cases hne : strip_newline buf ≠ []
    · rw [if_pos hne] at h
      split at h
      · exact absurd h (by simp)
      · rename_i s2 r hpm
        simp only [Option.some.injEq] at h
        subst h
        obtain ⟨p1, p2, p3, p4, p5, p6⟩ := process_message_some hne hpm
        exact ⟨p5, Or.inr ⟨p1, p2, by simp [p6], p3⟩, fun _ _ _ _ _ => p1⟩
    · rw [if_neg hne] at h
      simp only [Option.some.injEq] at h
      subst h
      refine ⟨rfl, Or.inl ⟨rfl, rfl, rfl, rfl⟩, ?_⟩
      intro _ c cs hd hc
      exfalso
      apply hne
      simp only [fgets, hd, List.cons_ne_nil, if_false, Option.some.injEq, BUF_SIZE] at hf
      have hb : buf = (fgets_take 4095 (c :: cs)).1 := by rw [hf]
      obtain ⟨l, hl⟩ := fgets_take_head 4094 c cs hc
      rw [hb, hl]
      exact strip_newline_cons c l hc

/-- What the second half of a cycle does. -/
theorem read_low_spec {s s1 : State} {env : CycleEnv} (h : read_low s env = some s1) :
    s1.high_file = s.high_file ∧
    ((s1.published = s.published ∧ s1.publish_failures = s.publish_failures ∧
        s1.total_messages = s.total_messages ∧
        s1.high_processed + s1.low_processed = s.high_processed + s.low_processed) ∨
      ((∃ payload, s1.published = s.published ++
          [{ payload := payload, priority := "LOW".toList, rc := env.low_pub.rc }]) ∧
        s1.publish_failures = (if env.low_pub.rc = MQTTCLIENT_SUCCESS then s.publish_failures
          else s.publish_failures + 1) ∧
        s1.total_messages = s.total_messages + 1 ∧
        s1.high_processed + s1.low_processed =
          (if env.low_pub.rc = MQTTCLIENT_SUCCESS then s.high_processed + s.low_processed + 1
            else s.high_processed + s.low_processed))) := by
  unfold read_low at h
  by_cases he : s.low_eof = true
  · rw [if_pos he] at h
    simp only [Option.some.injEq] at h
    subst h
    exact ⟨rfl, Or.inl ⟨rfl, rfl, rfl, rfl⟩⟩
  rw [if_neg he] at h
  simp only at h
  split at h
  · simp only [Option.some.injEq] at h
    subst h
    exact ⟨rfl, Or.inl ⟨rfl, rfl, rfl, rfl⟩⟩
  · rename_i buf rest hf
    by_cases hne : strip_newline buf ≠ []
    · rw [if_pos hne] at h
      split at h
      · exact absurd h (by simp)
      · rename_i s2 r hpm
        simp only [Option.some.injEq] at h
        subst h
        obtain ⟨p1, p2, p3, p4, p5, p6⟩ := process_message_some hne hpm
        exact ⟨p4, Or.inr ⟨p1, p2, by simp [p6], p3⟩⟩
    · rw [if_neg hne] at h
      simp only [Option.some.injEq] at h
      subst h
      exact ⟨rfl, Or.inl ⟨rfl, rfl, rfl, rfl⟩⟩

end PqForwarder

namespace PqForwarder

theorem failed_append (ps qs : List Publish) : failed (ps ++ qs) = failed ps + failed qs := by
  simp [failed]

theorem failed_single (p : Publish) :
    failed [p] = if p.rc = MQTTCLIENT_SUCCESS then 0 else 1 := by
  unfold failed
  by_cases h : p.rc = MQTTCLIENT_SUCCESS <;> simp [h]

/-- What a cycle of the loop publishes: at most one HIGH message followed by at most one
LOW message, and a HIGH message whenever the HIGH stream is not at end of file and holds
data that does not start with a newline. -/
theorem cycle_spec {s s1 : State} {env : CycleEnv} (h : cycle s env = some s1) :
    ∃ hs ls, s1.published = s.published ++ (hs ++ ls) ∧
      s1.publish_failures = s.publish_failures + failed (hs ++ ls) ∧
      s1.total_messages = s.total_messages + (hs ++ ls).length ∧
      s1.high_processed + s1.low_processed + failed (hs ++ ls) =
        s.high_processed + s.low_processed + (hs ++ ls).length ∧
      hs.length ≤ 1 ∧ ls.length ≤ 1 ∧
      (∀ p ∈ hs, p.priority = "HIGH".toList ∧ p.rc = env.high_pub.rc) ∧
      (∀ p ∈ ls, p.priority = "LOW".toList ∧ p.rc = env.low_pub.rc) ∧
      (s.high_eof = false →
        ∀ c cs, s.high_file ++ env.high_arrival = c :: cs → c ≠ '\n' → hs ≠ []) := by
  unfold cycle at h
  cases h1 : read_high { s with debug_cycle := s.debug_cycle + 1 } env with
  | none => rw [h1] at h; exact absurd h (by simp)
  | some s2 =>
    rw [h1] at h
    simp only at h
    obtain ⟨_, a2, a3⟩ := read_high_spec h1
    obtain ⟨_, b2⟩ := read_low_spec h
    simp only at a2 a3
    rcases a2 with ⟨a21, a22, a23, a24⟩ | ⟨⟨pl, a21⟩, a22, a23, a24⟩
    · have hhs : s.high_eof = false →
          ∀ c cs, s.high_file ++ env.high_arrival = c :: cs → c ≠ '\n' → False := by
        intro he c cs hd hc
        obtain ⟨pl, hpl⟩ := a3 he c cs hd hc
        rw [a21] at hpl
        simp at hpl
      rcases b2 with ⟨b21, b22, b23, b24⟩ | ⟨⟨pl2, b21⟩, b22, b23, b24⟩
      · refine ⟨[], [], by simp [b21, a21], by simp [failed, b22, a22], by simp [b23, a23],
          by simp [failed, b24, a24], by simp, by simp, by simp, by simp, ?_⟩
        intro he c cs hd hc
        exact (hhs he c cs hd hc).elim
      · refine ⟨[], [{ payload := pl2, priority := "LOW".toList, rc := env.low_pub.rc }],
          by rw [b21, a21]; rfl, ?_, by simp [b23, a23], ?_, by simp, by simp,
          by simp, by simp, ?_⟩
        · rw [b22, a22, List.nil_append, failed_single]
          split_ifs <;> simp
        · rw [b24, a24, List.nil_append, failed_single]
          split_ifs <;> simp
        · intro he c cs hd hc
          exact (hhs he c cs hd hc).elim
    · rcases b2 with ⟨b21, b22, b23, b24⟩ | ⟨⟨pl2, b21⟩, b22, b23, b24⟩
      · refine ⟨[{ payload := pl, priority := "HIGH".toList, rc := env.high_pub.rc }], [],
          by rw [b21, a21]; simp, ?_, by simp [b23, a23], ?_, by simp, by simp,
          by simp, by simp, by simp⟩
        · rw [b22, a22, List.append_nil, failed_single]
          split_ifs <;> simp
        · rw [b24, a24, List.append_nil, failed_single]
          split_ifs <;> simp
      · refine ⟨[{ payload := pl, priority := "HIGH".toList, rc := env.high_pub.rc }],
          [{ payload := pl2, priority := "LOW".toList, rc := env.low_pub.rc }],
          by rw [b21, a21]; simp, ?_, by simp [b23, a23], ?_, by simp,
          by simp, by simp, by simp, by simp⟩
        · rw [b22, a22, failed_append, failed_single, failed_single]
          split_ifs <;> (simp; try ring)
        · rw [b24, a24, failed_append, failed_single, failed_single]
          split_ifs <;> simp

theorem failed_le_length (ps : List Publish) : failed ps ≤ ps.length := by
  unfold failed
  exact List.length_filter_le _ _

/-- The counters along the loop. -/
theorem main_loop_spec (envs : List CycleEnv) :
    ∀ s : State, s.publish_failures = failed s.published → s.publish_failures ≤ 100 →
      (main_loop envs s).1.publish_failures = failed (main_loop envs s).1.published ∧
      ((main_loop envs s).2 = Exit.breaker →
        (main_loop envs s).1.publish_failures = 101 ∨
          (main_loop envs s).1.publish_failures = 102) ∧
      ((main_loop envs s).2 ≠ Exit.breaker → (main_loop envs s).1.publish_failures ≤ 100) ∧
      ((∀ e ∈ envs, e.high_pub.rc ≠ MQTTCLIENT_SUCCESS ∧ e.low_pub.rc ≠ MQTTCLIENT_SUCCESS) →
        (s.published.length : ℤ) = s.publish_failures →
        ((main_loop envs s).1.published.length : ℤ) = (main_loop envs s).1.publish_failures) := by
  induction envs with
  | nil =>
    intro s h1 h2
    exact ⟨h1, by simp [main_loop], fun _ => h2, fun _ h => h⟩
  | cons env envs ih =>
    intro s h1 h2
    unfold main_loop
    by_cases hr : env.running = true
    swap
    · simp only [Bool.not_eq_true] at hr
      simp only [hr, Bool.not_false, if_true]
      exact ⟨h1, by simp, fun _ => h2, fun _ h => h⟩
    simp only [hr, Bool.not_true, Bool.false_eq_true, if_false]
    cases hc : cycle s env with
    | none => exact ⟨h1, by simp, fun _ => h2, fun _ h => h⟩
    | some s1 =>
      simp only
      obtain ⟨hs, ls, c1, c2, _, _, c5, c6, c7, c8, _⟩ := cycle_spec hc
      have hlen : failed (hs ++ ls) ≤ 2 := by
        have := failed_le_length (hs ++ ls)
        simp at this
        omega
      have hJ : s1.publish_failures = failed s1.published := by
        rw [c2, c1, h1]; simp only [failed_append]; push_cast; ring
      have hK : (∀ e ∈ env :: envs,
          e.high_pub.rc ≠ MQTTCLIENT_SUCCESS ∧ e.low_pub.rc ≠ MQTTCLIENT_SUCCESS) →
          (s.published.length : ℤ) = s.publish_failures →
          (s1.published.length : ℤ) = s1.publish_failures := by
        intro hall hk
        have he := hall env (List.mem_cons_self _ _)
        have hf : failed (hs ++ ls) = (hs ++ ls).length := by
          unfold failed
          rw [List.filter_eq_self.mpr]
          intro p hp
          rcases List.mem_append.mp hp with hp | hp
          · simp [(c7 p hp).2, he.1]
          · simp [(c8 p hp).2, he.2]
        rw [c1, c2, hf, List.length_append]
        push_cast
        omega
      by_cases hb : s1.publish_failures > 100
      · simp only [hb, if_true]
        refine ⟨hJ, fun _ => ?_, fun h => absurd rfl h, hK⟩
        omega
      · simp only [hb, if_false]
        obtain ⟨i1, i2, i3, i4⟩ := ih s1 hJ (by omega)
        exact ⟨i1, i2, i3, fun hall hk =>
          i4 (fun e he => hall e (List.mem_cons_of_mem _ he)) (hK hall hk)⟩

end PqForwarder

namespace PahoForwarder

theorem paho_failed_append (ps qs : List Publish) : failed (ps ++ qs) = failed ps + failed qs := by
  simp [failed]

theorem paho_failed_single (p : Publish) :
    failed [p] = if p.rc = MQTTCLIENT_SUCCESS then 0 else 1 := by
  unfold failed
  by_cases h : p.rc = MQTTCLIENT_SUCCESS <;> simp [h]

/-- What the body of the loop does with a non-empty line. -/
theorem forward_line_some {s s1 : State} {buf : CStr} {env : IterEnv}
    (h : forward_line s buf env = some s1) :
    (∃ payload, s1.published = s.published ++ [{ payload := payload, rc := env.rc }]) ∧
    s1.publish_failures =
      (if env.rc = MQTTCLIENT_SUCCESS then s.publish_failures else s.publish_failures + 1) ∧
    s1.file = s.file ∧ s1.count = s.count + 1 := by
  unfold forward_line at h
  simp only at h
  split at h
  · exact absurd h (by simp)
  · rename_i payload hp
    simp only [Option.some.injEq] at h
    subst h
    by_cases hrc : env.rc = MQTTCLIENT_SUCCESS
    · refine ⟨⟨payload, ?_⟩, ?_, ?_, ?_⟩ <;> simp [hrc]
    · refine ⟨⟨payload, ?_⟩, ?_, ?_, ?_⟩ <;> simp [hrc]

/-- The counters along the loop. -/
theorem paho_main_loop_spec (envs : List IterEnv) :
    ∀ s : State, s.publish_failures = failed s.published → s.publish_failures ≤ 100 →
      (main_loop envs s).1.publish_failures = failed (main_loop envs s).1.published ∧
      ((main_loop envs s).2 = Exit.breaker → (main_loop envs s).1.publish_failures = 101) ∧
      ((main_loop envs s).2 ≠ Exit.breaker → (main_loop envs s).1.publish_failures ≤ 100) ∧
      ((∀ e ∈ envs, e.rc ≠ MQTTCLIENT_SUCCESS) →
        (s.published.length : ℤ) = s.publish_failures →
        ((main_loop envs s).1.published.length : ℤ) = (main_loop envs s).1.publish_failures) := by
  induction envs with
  | nil =>
    intro s h1 h2
    exact ⟨h1, by simp [main_loop], fun _ => h2, fun _ h => h⟩
  | cons env envs ih =>
    intro s h1 h2
    unfold main_loop
    by_cases hr : env.running = true
    swap
    · simp only [Bool.not_eq_true] at hr
      simp only [hr, Bool.not_false, if_true]
      exact ⟨h1, by simp, fun _ => h2, fun _ h => h⟩
    simp only [hr, Bool.not_true, Bool.false_eq_true, if_false]
    cases hg : fgets BUF_SIZE s.file with
    | none => exact ⟨h1, by simp, fun _ => h2, fun _ h => h⟩
    | some x =>
      obtain ⟨buf, rest⟩ := x
      simp only
      by_cases hempty : strip_newline buf = []
      · simp only [hempty, if_true]
        obtain ⟨i1, i2, i3, i4⟩ := ih { s with file := rest } h1 h2
        exact ⟨i1, i2, i3, fun hall hk =>
          i4 (fun e he => hall e (List.mem_cons_of_mem _ he)) hk⟩
      · simp only [hempty, if_false]
        cases hfl : forward_line { s with file := rest } (strip_newline buf) env with
        | none => exact ⟨h1, by simp, fun _ => h2, fun _ h => h⟩
        | some s1 =>
          simp only
          obtain ⟨⟨pl, c1⟩, c2, _, _⟩ := forward_line_some hfl
          simp only at c1 c2
          have hJ : s1.publish_failures = failed s1.published := by
            rw [c2, c1, paho_failed_append, paho_failed_single, h1]
            split_ifs <;> simp
          have hK : (∀ e ∈ env :: envs, e.rc ≠ MQTTCLIENT_SUCCESS) →
              (s.published.length : ℤ) = s.publish_failures →
              (s1.published.length : ℤ) = s1.publish_failures := by
            intro hall hk
            have he := hall env (List.mem_cons_self _ _)
            rw [c1, c2, if_neg he, List.length_append]
            push_cast
            simp [hk]
          have hle : s1.publish_failures ≤ s.publish_failures + 1 := by
            rw [c2]; split_ifs <;> omega
          by_cases hb : s1.publish_failures > 100
          · simp only [hb, if_true]
            refine ⟨hJ, fun _ => ?_, fun h => absurd rfl h, hK⟩
            omega
          · simp only [hb, if_false]
            obtain ⟨i1, i2, i3, i4⟩ := ih s1 hJ (by omega)
            exact ⟨i1, i2, i3, fun hall hk =>
              i4 (fun e he => hall e (List.mem_cons_of_mem _ he)) (hK hall hk)⟩

end PahoForwarder
set_option maxRecDepth 100000 in
/-- C5, as stated, fails: with every publish failing, the single-FIFO forwarder is
still in its loop after the 100th failed publish, makes the 101st publish attempt and
leaves the loop only after it; so does the dual-FIFO forwarder (here all messages come
from the HIGH FIFO). -/
theorem C5_counterexample :
    (PahoForwarder.main_loop (List.replicate 100 (ex_iter (-1)))
      (PahoForwarder.main_start (ex_lines 101))).2 = Exit.pending ∧
    (PahoForwarder.main_loop (List.replicate 100 (ex_iter (-1)))
      (PahoForwarder.main_start (ex_lines 101))).1.publish_failures = 100 ∧
    (PahoForwarder.main_loop (List.replicate 101 (ex_iter (-1)))
      (PahoForwarder.main_start (ex_lines 101))).2 = Exit.breaker ∧
    (PahoForwarder.main_loop (List.replicate 101 (ex_iter (-1)))
      (PahoForwarder.main_start (ex_lines 101))).1.published.length = 101 ∧
    (PqForwarder.main_loop (List.replicate 100 (ex_cycle (-1) (-1)))
      (PqForwarder.main_start (ex_lines 101) [])).2 = Exit.pending ∧
    (PqForwarder.main_loop (List.replicate 101 (ex_cycle (-1) (-1)))
      (PqForwarder.main_start (ex_lines 101) [])).2 = Exit.breaker ∧
    (PqForwarder.main_loop (List.replicate 101 (ex_cycle (-1) (-1)))
      (PqForwarder.main_start (ex_lines 101) [])).1.published.length = 101 := by
  decide

/-- C5 (amended): the circuit breaker trips when the failure counter exceeds 100. The
single-FIFO forwarder leaves its loop through the breaker with exactly 101 failures and
never with fewer; the dual-FIFO forwarder with 101 or 102 (the test runs once per
cycle). While the loop has not been left through the breaker the counter is at most
100. In a run in which every publish fails the number of publish attempts equals the
counter, so the loop ends right after the 101st attempt (the 101st or 102nd for the
dual-FIFO forwarder) and no further attempt is made. -/
theorem C5_breaker_above_100 (file : CStr) (ienvs : List PahoForwarder.IterEnv)
    (high low : CStr) (cenvs : List PqForwarder.CycleEnv) :
    ((PahoForwarder.main_loop ienvs (PahoForwarder.main_start file)).2 = Exit.breaker →
      (PahoForwarder.main_loop ienvs (PahoForwarder.main_start file)).1.publish_failures
        = 101) ∧
    ((PahoForwarder.main_loop ienvs (PahoForwarder.main_start file)).2 ≠ Exit.breaker →
      (PahoForwarder.main_loop ienvs (PahoForwarder.main_start file)).1.publish_failures
        ≤ 100) ∧
    ((∀ e ∈ ienvs, e.rc ≠ MQTTCLIENT_SUCCESS) →
      ((PahoForwarder.main_loop ienvs (PahoForwarder.main_start file)).1.published.length : ℤ)
        = (PahoForwarder.main_loop ienvs
            (PahoForwarder.main_start file)).1.publish_failures) ∧
    ((PqForwarder.main_loop cenvs (PqForwarder.main_start high low)).2 = Exit.breaker →
      (PqForwarder.main_loop cenvs (PqForwarder.main_start high low)).1.publish_failures
          = 101 ∨
        (PqForwarder.main_loop cenvs (PqForwarder.main_start high low)).1.publish_failures
          = 102) ∧
    ((PqForwarder.main_loop cenvs (PqForwarder.main_start high low)).2 ≠ Exit.breaker →
      (PqForwarder.main_loop cenvs (PqForwarder.main_start high low)).1.publish_failures
        ≤ 100) ∧
    ((∀ e ∈ cenvs, e.high_pub.rc ≠ MQTTCLIENT_SUCCESS ∧ e.low_pub.rc ≠ MQTTCLIENT_SUCCESS) →
      ((PqForwarder.main_loop cenvs (PqForwarder.main_start high low)).1.published.length : ℤ)
        = (PqForwarder.main_loop cenvs
            (PqForwarder.main_start high low)).1.publish_failures) := by
  obtain ⟨_, a2, a3, a4⟩ := PahoForwarder.paho_main_loop_spec ienvs (PahoForwarder.main_start file)
    (by simp [PahoForwarder.main_start, PahoForwarder.failed])
    (by simp [PahoForwarder.main_start])
  obtain ⟨_, b2, b3, b4⟩ := PqForwarder.main_loop_spec cenvs (PqForwarder.main_start high low)
    (by simp [PqForwarder.main_start, PqForwarder.failed])
    (by simp [PqForwarder.main_start])
  exact ⟨a2, a3, fun h => a4 h (by simp [PahoForwarder.main_start]), b2, b3,
    fun h => b4 h (by simp [PqForwarder.main_start])⟩

set_option maxRecDepth 100000 in
/-- C5, witness: 101 failing publishes of the single-FIFO forwarder, and 51 cycles with
two failing publishes each of the dual-FIFO forwarder (102 failures). -/
theorem C5_breaker_above_100_witness :
    (PahoForwarder.main_loop (List.replicate 101 (ex_iter (-1)))
      (PahoForwarder.main_start (ex_lines 101))).2 = Exit.breaker ∧
    (∀ e ∈ List.replicate 101 (ex_iter (-1)), e.rc ≠ MQTTCLIENT_SUCCESS) ∧
    (PqForwarder.main_loop (List.replicate 51 (ex_cycle (-1) (-1)))
      (PqForwarder.main_start (ex_lines 51) (ex_lines 51))).2 = Exit.breaker ∧
    (PahoForwarder.main_loop (List.replicate 101 (ex_iter (-1)))
      (PahoForwarder.main_start (ex_lines 101))).1.publish_failures = 101 ∧
    ((PahoForwarder.main_loop (List.replicate 101 (ex_iter (-1)))
      (PahoForwarder.main_start (ex_lines 101))).1.published.length : ℤ) =
      (PahoForwarder.main_loop (List.replicate 101 (ex_iter (-1)))
        (PahoForwarder.main_start (ex_lines 101))).1.publish_failures ∧
    (PqForwarder.main_loop (List.replicate 51 (ex_cycle (-1) (-1)))
      (PqForwarder.main_start (ex_lines 51) (ex_lines 51))).1.publish_failures = 102 :=
  have h := C5_breaker_above_100 (ex_lines 101) (List.replicate 101 (ex_iter (-1)))
    (ex_lines 51) (ex_lines 51) (List.replicate 51 (ex_cycle (-1) (-1)))
  ⟨by decide, by decide, by decide, h.1 (by decide), h.2.2.1 (by decide), by decide⟩

/-- C6, as stated, fails: neither forwarder resets `publish_failures`. A failed publish
followed by a successful one leaves the counter at 1 in both forwarders. -/
theorem C6_counterexample :
    (PahoForwarder.main_loop [ex_iter (-1), ex_iter 0]
      (PahoForwarder.main_start (ex_lines 2))).1.publish_failures = 1 ∧
    (PahoForwarder.main_loop [ex_iter (-1), ex_iter 0]
      (PahoForwarder.main_start (ex_lines 2))).1.published.map PahoForwarder.Publish.rc
      = [-1, 0] ∧
    (PqForwarder.main_loop [ex_cycle (-1) 0]
      (PqForwarder.main_start (ex_lines 1) (ex_lines 1))).1.publish_failures = 1 ∧
    (PqForwarder.main_loop [ex_cycle (-1) 0]
      (PqForwarder.main_start (ex_lines 1) (ex_lines 1))).1.published.map
        PqForwarder.Publish.rc = [-1, 0] := by
  decide

/-- C6 (amended): in both forwarders `publish_failures` is never reset. A successful
publish leaves it unchanged, a failed one adds 1, so that after every sequence of publish
outcomes the counter equals the total number of failed publishes since the start, and
failures separated by successes do add up towards the circuit-breaker threshold. -/
theorem C6_failures_accumulate (file : CStr) (ienvs : List PahoForwarder.IterEnv)
    (high low : CStr) (cenvs : List PqForwarder.CycleEnv) :
    (PahoForwarder.main_loop ienvs (PahoForwarder.main_start file)).1.publish_failures =
      PahoForwarder.failed
        (PahoForwarder.main_loop ienvs (PahoForwarder.main_start file)).1.published ∧
    (PqForwarder.main_loop cenvs (PqForwarder.main_start high low)).1.publish_failures =
      PqForwarder.failed
        (PqForwarder.main_loop cenvs (PqForwarder.main_start high low)).1.published ∧
    (∀ (s s1 : PahoForwarder.State) (buf : CStr) (env : PahoForwarder.IterEnv),
      PahoForwarder.forward_line s buf env = some s1 →
      s1.publish_failures =
        if env.rc = MQTTCLIENT_SUCCESS then s.publish_failures else s.publish_failures + 1) ∧
    (∀ (s s1 : PqForwarder.State) (line priority : CStr) (env : PqForwarder.PubEnv) (r : ℤ),
      line ≠ [] → PqForwarder.process_message s line priority env = some (s1, r) →
      s1.publish_failures =
        if env.rc = MQTTCLIENT_SUCCESS then s.publish_failures else s.publish_failures + 1) := by
  refine ⟨?_, ?_, ?_, ?_⟩
  · exact (PahoForwarder.paho_main_loop_spec ienvs (PahoForwarder.main_start file)
      (by simp [PahoForwarder.main_start, PahoForwarder.failed])
      (by simp [PahoForwarder.main_start])).1
  · exact (PqForwarder.main_loop_spec cenvs (PqForwarder.main_start high low)
      (by simp [PqForwarder.main_start, PqForwarder.failed])
      (by simp [PqForwarder.main_start])).1
  · intro s s1 buf env h
    exact (PahoForwarder.forward_line_some h).2.1
  · intro s s1 line priority env r hl h
    exact (PqForwarder.process_message_some hl h).2.1

/-- C6, witness: failure, success, failure in the single-FIFO forwarder: the counter
is 2 after the third publish. -/
theorem C6_failures_accumulate_witness :
    (PahoForwarder.main_loop [ex_iter (-1), ex_iter 0, ex_iter (-1)]
      (PahoForwarder.main_start (ex_lines 3))).1.publish_failures =
      PahoForwarder.failed
        (PahoForwarder.main_loop [ex_iter (-1), ex_iter 0, ex_iter (-1)]
          (PahoForwarder.main_start (ex_lines 3))).1.published ∧
    PahoForwarder.failed
        (PahoForwarder.main_loop [ex_iter (-1), ex_iter 0, ex_iter (-1)]
          (PahoForwarder.main_start (ex_lines 3))).1.published = 2 :=
  ⟨(C6_failures_accumulate (ex_lines 3) [ex_iter (-1), ex_iter 0, ex_iter (-1)] [] [] []).1,
    by decide⟩

/-- C7, the code at the failing input: the router writes the line for sequence number
2147483648 of source 10.0.0.5 to the HIGH FIFO; the forwarder reads it back with address
and priority label intact, but `json_object_get_int` into the `int packet_count` yields
2147483647. -/
theorem C7_count_truncated :
    (Fifo.write_to_fifo ex_plugin "high".toList "10.0.0.5".toList 2147483648 1500000
        (ex_write_ok 76)).high_pipe =
      "\x7b\"ip\":\"10.0.0.5\",\"count\":2147483648,\"timestamp\":1.500000,\"priority\":\"high\"\x7d\n".toList ∧
    (PqForwarder.main_loop [ex_cycle 0 0]
        (PqForwarder.main_start
          (Fifo.write_to_fifo ex_plugin "high".toList "10.0.0.5".toList 2147483648 1500000
            (ex_write_ok 76)).high_pipe [])).1.csv.map
      (fun row => (row.orig_ip, row.packet_count, row.msg_priority)) =
      [(some "10.0.0.5".toList, 2147483647, some "high".toList)] ∧
    PqForwarder.parse_fields (json_tokener_parse (strip_newline
        (Fifo.fifo_line "10.0.0.5".toList 2147483647 1500000 "high".toList))) =
      { orig_ip := some "10.0.0.5".toList, packet_count := 2147483647, orig_ts := 1500000,
        msg_priority := some "high".toList } := by
  decide

/-! ## The per-source table -/

theorem find_add (tbl : List ip_entry) (e : ip_entry) (a : CStr) :
    HASH_FIND_STR (HASH_ADD_STR tbl e) a = if e.ip = a then some e else HASH_FIND_STR tbl a := by
  unfold HASH_FIND_STR HASH_ADD_STR
  by_cases h : e.ip = a <;> simp [List.find?_cons, h]

theorem find_assign (k : CStr) (f : ip_entry → ip_entry) (hf : ∀ e, (f e).ip = e.ip)
    (tbl : List ip_entry) (a : CStr) :
    HASH_FIND_STR (ip_entry_assign k f tbl) a =
      if a = k then (HASH_FIND_STR tbl a).map f else HASH_FIND_STR tbl a := by
  induction tbl with
  | nil => simp [ip_entry_assign, HASH_FIND_STR]
  | cons e rest ih =>
    unfold HASH_FIND_STR at ih ⊢
    unfold ip_entry_assign
    by_cases hk : e.ip = k
    · by_cases ha : e.ip = a
      · have hak : a = k := ha ▸ hk
        simp [List.find?_cons, hk, ha, hf, hak]
      · have hak : ¬ a = k := fun c => ha (c ▸ hk)
        have hka : ¬ k = a := fun c => hak c.symm
        simp [List.find?_cons, hk, hf, hak, hka]
    · by_cases ha : e.ip = a
      · have hak : ¬ a = k := fun c => hk (c ▸ ha)
        simp [List.find?_cons, hk, ha, hak]
      · simp only [hk, if_false, List.find?_cons, ha, decide_False]
        exact ih

theorem find_ip {tbl : List ip_entry} {a : CStr} {e : ip_entry}
    (h : HASH_FIND_STR tbl a = some e) : e.ip = a := by
  unfold HASH_FIND_STR at h
  simpa using List.find?_some h

theorem strncpy_short {a : CStr} (h : a.length < 64) : strncpy a 63 = a := by
  unfold strncpy
  exact List.take_of_length_le (by omega)

namespace Fifo

theorem hook_spec {g g1 : Globals} {m : Msg} {r : HookResult}
    (h : on_message_callback g m = some (g1, r)) :
    (m.source = none ∧ g1.ip_table = g.ip_table ∧ r.seq = none ∧ r.enqueued = none) ∨
    ∃ a, m.source = some a ∧
      ((HASH_FIND_STR g.ip_table a = none ∧ m.entry_alloc = false ∧
          g1.ip_table = g.ip_table ∧ r.seq = none ∧ r.enqueued = none) ∨
        (HASH_FIND_STR g.ip_table a = none ∧ m.entry_alloc = true ∧
          g1.ip_table = HASH_ADD_STR g.ip_table
            { ip := strncpy a 63, last_time := m.recv_ts, packet_count := 1 } ∧
          r.seq = some 1 ∧
          r.enqueued = if m.node_alloc then
            some { ip := strncpy a 63, recv_ts := m.recv_ts, packet_count := 1 } else none) ∨
        ∃ e, HASH_FIND_STR g.ip_table a = some e ∧
          g1.ip_table = ip_entry_assign a packet_count_incr g.ip_table ∧
          r.seq = some ((e.packet_count + 1) % 2 ^ 64) ∧
          r.enqueued = if m.node_alloc then
            some { ip := strncpy a 63, recv_ts := m.recv_ts,
                   packet_count := (e.packet_count + 1) % 2 ^ 64 } else none) := by
  unfold on_message_callback at h
  by_cases hcl : m.client = true
  swap
  · simp only [Bool.not_eq_true] at hcl
    simp only [hcl, Bool.not_false, if_true, Option.some.injEq, Prod.mk.injEq] at h
    obtain ⟨rfl, rfl⟩ := h
    left
    simp [Msg.source, hcl]
  simp only [hcl, Bool.not_true, Bool.false_eq_true, if_false] at h
  cases ha : m.address with
  | none =>
    simp only [ha, Option.some.injEq, Prod.mk.injEq] at h
    obtain ⟨rfl, rfl⟩ := h
    left
    simp [Msg.source, hcl, ha]
  | some a =>
    right
    refine ⟨a, by simp [Msg.source, hcl, ha], ?_⟩
    simp only [ha] at h
    have hone : (packet_count_incr
        { ip := strncpy a 63, last_time := m.recv_ts, packet_count := 0 }) =
        { ip := strncpy a 63, last_time := m.recv_ts, packet_count := 1 } := by
      simp [packet_count_incr]
    cases hf : HASH_FIND_STR g.ip_table a with
    | none =>
      simp only [hf] at h
      by_cases hea : m.entry_alloc = true
      · right; left
        simp only [hea, Bool.not_true, Bool.false_eq_true, if_false, hone] at h
        by_cases hna : m.node_alloc = true
        · simp only [hna, Bool.not_true, Bool.false_eq_true, if_false] at h
          split at h
          · exact absurd h (by simp)
          · simp only [Option.some.injEq, Prod.mk.injEq] at h
            obtain ⟨rfl, rfl⟩ := h
            simp [hea, hna]
        · simp only [Bool.not_eq_true] at hna
          simp only [hna, Bool.not_false, if_true, Option.some.injEq, Prod.mk.injEq] at h
          obtain ⟨rfl, rfl⟩ := h
          simp [hea, hna]
      · left
        simp only [Bool.not_eq_true] at hea
        simp only [hea, Bool.not_false, if_true, Option.some.injEq, Prod.mk.injEq] at h
        obtain ⟨rfl, rfl⟩ := h
        simp [hea]
    | some e =>
      right; right
      refine ⟨e, rfl, ?_⟩
      simp only [hf] at h
      by_cases hna : m.node_alloc = true
      · simp only [hna, Bool.not_true, Bool.false_eq_true, if_false] at h
        split at h
        · exact absurd h (by simp)
        · simp only [Option.some.injEq, Prod.mk.injEq] at h
          obtain ⟨rfl, rfl⟩ := h
          simp [hna, packet_count_incr]
      · simp only [Bool.not_eq_true] at hna
        simp only [hna, Bool.not_false, if_true, Option.some.injEq, Prod.mk.injEq] at h
        obtain ⟨rfl, rfl⟩ := h
        simp [hna, packet_count_incr]

end Fifo

/-! ## Sequence numbers -/

theorem count_assign (tbl : List ip_entry) (cnt : CStr → ℕ) (k : CStr)
    (f : ip_entry → ip_entry) (hf : ∀ e, (f e).ip = e.ip)
    (hc : ∀ e, (f e).packet_count = e.packet_count) (h : CountInv tbl cnt) :
    CountInv (ip_entry_assign k f tbl) cnt := by
  intro a
  rw [find_assign k f hf]
  by_cases hak : a = k
  · simp only [hak, if_true]
    refine ⟨fun h0 => (h k).1 (by simpa using h0), fun e he => ?_⟩
    cases hfd : HASH_FIND_STR tbl k with
    | none => rw [hfd] at he; simp at he
    | some e0 =>
      rw [hfd] at he
      simp only [Option.map_some', Option.some.injEq] at he
      rw [← he, hc]
      exact (h k).2 e0 hfd
  · simp only [hak, if_false]
    exact h a

theorem count_incr (tbl : List ip_entry) (cnt : CStr → ℕ) (k : CStr) (e0 : ip_entry)
    (f : ip_entry → ip_entry) (hf : ∀ e, (f e).ip = e.ip)
    (hc : ∀ e, (f e).packet_count = (e.packet_count + 1) % 2 ^ 64)
    (h : CountInv tbl cnt) (hfd : HASH_FIND_STR tbl k = some e0) :
    CountInv (ip_entry_assign k f tbl)
      (fun a => cnt a + if some k = some a then 1 else 0) := by
  intro a
  rw [find_assign k f hf]
  by_cases hak : a = k
  · subst hak
    simp only [if_true, hfd]
    simp only [Option.map_some', Option.some.injEq, reduceCtorEq, false_implies, true_and]
    intro e he
    rw [← he, hc, (h a).2 e0 hfd]
    omega
  · have hka : ¬ k = a := fun c => hak c.symm
    simp only [hak, if_false, Option.some.injEq, hka, Nat.add_zero]
    exact h a

theorem count_add (tbl : List ip_entry) (cnt : CStr → ℕ) (k : CStr) (t : double)
    (h : CountInv tbl cnt) (hk : HASH_FIND_STR tbl k = none) :
    CountInv (HASH_ADD_STR tbl { ip := k, last_time := t, packet_count := 1 })
      (fun a => cnt a + if some k = some a then 1 else 0) := by
  intro a
  rw [find_add]
  by_cases hak : k = a
  · subst hak
    simp only [if_true, reduceCtorEq, false_implies, Option.some.injEq, true_and]
    intro e he
    rw [← he, (h k).1 hk]
    rfl
  · simp only [hak, if_false, Option.some.injEq, Nat.add_zero]
    exact h a

namespace Fifo

theorem processor_none {g g1 : Globals} {env : ProcEnv}
    (h : processor_thread_fn g env = some (g1, none)) : g1 = g := by
  unfold processor_thread_fn at h
  split at h
  · exact absurd h (by simp)
  · simp only [Option.some.injEq, Prod.mk.injEq, and_true] at h
    exact h.symm
  · simp only at h
    split at h
    · exact absurd h (by simp)
    · split at h
      · exact absurd h (by simp)
      · split at h
        · split at h
          · exact absurd h (by simp)
          · simp only [Option.some.injEq, Prod.mk.injEq, reduceCtorEq, and_false] at h
        · simp only [Option.some.injEq, Prod.mk.injEq, reduceCtorEq, and_false] at h

theorem processor_table {g g1 : Globals} {env : ProcEnv} {op : Option Processed}
    (h : processor_thread_fn g env = some (g1, op)) :
    g1.ip_table = g.ip_table ∨
      ∃ k t, g1.ip_table = ip_entry_assign k (fun e => { e with last_time := t }) g.ip_table := by
  cases op with
  | none => left; rw [processor_none h]
  | some p =>
    obtain ⟨_, _, _, _, _, ht, _⟩ := processor_some h
    cases hf : HASH_FIND_STR g.ip_table p.current_data.ip with
    | none => left; rw [ht, hf]
    | some e => right; exact ⟨_, _, by rw [ht, hf]⟩

theorem arrivals_cons (a : CStr) (ev : Event) (evs : List Event) :
    arrivals a (ev :: evs) = arrivals a [ev] + arrivals a evs := by
  cases ev <;> simp [arrivals]

theorem count_step {g g1 : Globals} {ev : Event} {o : Obs} {cnt : CStr → ℕ}
    (hT : CountInv g.ip_table cnt) (hs : ev.short_source = true)
    (ha : ev.entry_allocated = true) (h : step g ev = some (g1, o)) :
    CountInv g1.ip_table (fun a => cnt a + arrivals a [ev]) ∧
      ∀ m a, ev = Event.message m → m.source = some a →
        seq_of o = some ((cnt a + 1) % 2 ^ 64) := by
  cases ev with
  | message m =>
    simp only [step, Option.map_eq_some', Prod.mk.injEq] at h
    obtain ⟨⟨g2, r⟩, hcb, hg, ho⟩ := h
    simp only at hg ho
    subst hg ho
    simp only [Event.short_source] at hs
    simp only [Event.entry_allocated] at ha
    simp only [arrivals, Nat.add_zero, Event.message.injEq, seq_of]
    rcases hook_spec hcb with ⟨hsrc, ht, _, _⟩ | ⟨a, hsrc, hcase⟩
    · rw [ht, hsrc]
      refine ⟨by simpa using hT, ?_⟩
      intro m1 a1 hm hm1
      subst hm
      rw [hsrc] at hm1
      exact absurd hm1 (by simp)
    · rw [hsrc] at hs ⊢
      simp only [decide_eq_true_eq] at hs
      rw [strncpy_short hs] at hcase
      rcases hcase with ⟨_, hea, _⟩ | ⟨hfd, _, ht, hseq, _⟩ | ⟨e, hfd, ht, hseq, _⟩
      · rw [hea] at ha
        exact absurd ha (by simp)
      · rw [ht]
        refine ⟨count_add _ cnt a _ hT hfd, ?_⟩
        intro m1 a1 hm hm1
        subst hm
        rw [hsrc] at hm1
        simp only [Option.some.injEq] at hm1
        subst hm1
        rw [hseq, (hT a).1 hfd]
        rfl
      · rw [ht]
        refine ⟨count_incr _ cnt a e packet_count_incr (fun _ => rfl) (fun _ => rfl) hT hfd, ?_⟩
        intro m1 a1 hm hm1
        subst hm
        rw [hsrc] at hm1
        simp only [Option.some.injEq] at hm1
        subst hm1
        rw [hseq, (hT a).2 e hfd]
        simp
  | process env =>
    simp only [step, Option.map_eq_some', Prod.mk.injEq] at h
    obtain ⟨⟨g2, op⟩, hp, hg, _⟩ := h
    simp only at hg
    subst hg
    simp only [arrivals, Nat.add_zero]
    refine ⟨?_, fun m a hm => absurd hm (by simp)⟩
    rcases processor_table hp with ht | ⟨k, t, ht⟩
    · rw [ht]; exact hT
    · rw [ht]; exact count_assign _ cnt k _ (fun _ => rfl) (fun _ => rfl) hT
  | sweep now =>
    simp only [step, Option.map_eq_some', Prod.mk.injEq] at h
    obtain ⟨g2, hp, hg, _⟩ := h
    subst hg
    simp only [arrivals, Nat.add_zero]
    refine ⟨?_, fun m a hm => absurd hm (by simp)⟩
    rw [(cleanup_frame hp).2.1]
    exact hT

theorem run_seq (evs : List Event) :
    ∀ (g : Globals) (cnt : CStr → ℕ), CountInv g.ip_table cnt →
      (∀ ev ∈ evs, ev.short_source = true) → (∀ ev ∈ evs, ev.entry_allocated = true) →
      ∀ (pre : List Event) (m : Msg) (post : List Event) (a : CStr),
        evs = pre ++ Event.message m :: post → m.source = some a →
        pre.length < (run g evs).length →
        ((run g evs)[pre.length]?).bind seq_of =
          some ((cnt a + arrivals a pre + 1) % 2 ^ 64) := by
  induction evs with
  | nil =>
    intro g cnt _ _ _ pre m post a he
    exact absurd he (by simp)
  | cons ev evs ih =>
    intro g cnt hT hs ha pre m post a he hsrc hlen
    cases hstep : step g ev with
    | none => simp [run, hstep] at hlen
    | some res =>
      obtain ⟨g1, o⟩ := res
      have hc := count_step hT (hs ev (List.mem_cons_self _ _))
        (ha ev (List.mem_cons_self _ _)) hstep
      simp only [run, hstep] at hlen ⊢
      cases pre with
      | nil =>
        simp only [List.nil_append, List.cons.injEq] at he
        simp only [List.length_nil, List.getElem?_cons_zero, Option.some_bind, arrivals,
          Nat.add_zero]
        exact hc.2 m a he.1 hsrc
      | cons e pre1 =>
        simp only [List.cons_append, List.cons.injEq] at he
        obtain ⟨he1, he2⟩ := he
        subst he1
        simp only [List.length_cons, List.getElem?_cons_succ]
        simp only [List.length_cons, Nat.add_lt_add_iff_right] at hlen
        have := ih g1 _ hc.1 (fun x hx => hs x (List.mem_cons_of_mem _ hx))
          (fun x hx => ha x (List.mem_cons_of_mem _ hx)) pre1 m post a he2 hsrc hlen
        rw [this, arrivals_cons a ev pre1]
        congr 2
        omega

end Fifo

namespace Simple

theorem log_message_table (g : Globals) (row : LogRow) :
    (log_message g row).ip_table = g.ip_table := by
  unfold log_message
  split_ifs <;> rfl

theorem write_to_fifo_table (g : Globals) (ip : CStr) (count : ℕ) (ts : double)
    (w : WriteEnv) : (write_to_fifo g ip count ts w).ip_table = g.ip_table := by
  unfold write_to_fifo
  simp only
  split_ifs <;> rfl

theorem simple_hook_spec {g g1 : Globals} {m : Msg} {r : HookResult}
    (h : on_message_callback g m = some (g1, r)) :
    (m.source = none ∧ g1.ip_table = g.ip_table ∧ r.count = none) ∨
    ∃ a, m.source = some a ∧
      ((HASH_FIND_STR g.ip_table a = none ∧
          g1.ip_table = HASH_ADD_STR g.ip_table
            { ip := strncpy a 63, last_time := m.enqueue_ts, packet_count := 1 } ∧
          r.count = some 1 ∧ r.delta = 0) ∨
        ∃ e, HASH_FIND_STR g.ip_table a = some e ∧
          g1.ip_table = ip_entry_assign a
            (fun entry => packet_count_incr { entry with last_time := m.enqueue_ts })
            g.ip_table ∧
          r.count = some ((e.packet_count + 1) % 2 ^ 64) ∧
          r.delta = m.enqueue_ts - e.last_time) := by
  unfold on_message_callback at h
  by_cases hcl : m.client = true
  swap
  · simp only [Bool.not_eq_true] at hcl
    simp only [hcl, Bool.not_false, if_true, Option.some.injEq, Prod.mk.injEq] at h
    obtain ⟨rfl, rfl⟩ := h
    left
    simp [Msg.source, hcl]
  simp only [hcl, Bool.not_true, Bool.false_eq_true, if_false] at h
  cases ha : m.address with
  | none =>
    simp only [ha, Option.some.injEq, Prod.mk.injEq] at h
    obtain ⟨rfl, rfl⟩ := h
    left
    simp [Msg.source, hcl, ha]
  | some a =>
    right
    refine ⟨a, by simp [Msg.source, hcl, ha], ?_⟩
    simp only [ha] at h
    split_ifs at h with hcrash
    cases hapi : call_policy_api m.curl with
    | none => simp [hapi] at h
    | some api =>
      simp only [hapi, Option.some.injEq, Prod.mk.injEq] at h
      obtain ⟨hg, hr⟩ := h
      have htab : g1.ip_table = (match HASH_FIND_STR g.ip_table a with
          | none => HASH_ADD_STR g.ip_table
              { ip := strncpy a 63, last_time := m.enqueue_ts, packet_count := 1 }
          | some _ => ip_entry_assign a
              (fun entry => packet_count_incr { entry with last_time := m.enqueue_ts })
              g.ip_table) := by
        rw [← hg]
        split_ifs
        · rw [write_to_fifo_table, log_message_table]
        · rw [log_message_table]
      cases hf : HASH_FIND_STR g.ip_table a with
      | none =>
        left
        rw [hf] at htab
        refine ⟨rfl, htab, ?_, ?_⟩
        · rw [← hr]; simp only [hf]
        · rw [← hr]; simp only [hf]
      | some e =>
        right
        rw [hf] at htab
        refine ⟨e, rfl, htab, ?_, ?_⟩
        · rw [← hr]; simp only [hf, packet_count_incr]
        · rw [← hr]; simp only [hf]

theorem hook_total (g : Globals) (m : Msg) (h : m.survives = true) :
    ∃ g1 r, on_message_callback g m = some (g1, r) := by
  simp only [Msg.survives, Bool.and_eq_true, Option.isSome_iff_exists] at h
  obtain ⟨hea, api, hapi⟩ := h
  unfold on_message_callback
  by_cases hcl : m.client = true
  swap
  · simp only [Bool.not_eq_true] at hcl
    simp [hcl]
  simp only [hcl, Bool.not_true, Bool.false_eq_true, if_false]
  cases ha : m.address with
  | none => simp
  | some a =>
    simp only [hea, Bool.true_eq_false, and_false, if_false, hapi]
    exact ⟨_, _, rfl⟩

theorem simple_arrivals_cons (a : CStr) (m : Msg) (ms : List Msg) :
    arrivals a (m :: ms) = arrivals a [m] + arrivals a ms := by
  simp [arrivals]

theorem simple_count_step {g g1 : Globals} {m : Msg} {r : HookResult} {cnt : CStr → ℕ}
    (hT : CountInv g.ip_table cnt) (hs : m.short_source = true)
    (h : on_message_callback g m = some (g1, r)) :
    CountInv g1.ip_table (fun a => cnt a + arrivals a [m]) ∧
      ∀ a, m.source = some a → r.count = some ((cnt a + 1) % 2 ^ 64) := by
  simp only [Msg.short_source] at hs
  simp only [arrivals, Nat.add_zero]
  rcases simple_hook_spec h with ⟨hsrc, ht, _⟩ | ⟨a, hsrc, hcase⟩
  · rw [ht, hsrc]
    refine ⟨by simpa using hT, ?_⟩
    intro a1 hm1
    exact absurd hm1 (by simp)
  · rw [hsrc] at hs ⊢
    simp only [decide_eq_true_eq] at hs
    rw [strncpy_short hs] at hcase
    rcases hcase with ⟨hfd, ht, hseq, _⟩ | ⟨e, hfd, ht, hseq, _⟩
    · rw [ht]
      refine ⟨count_add _ cnt a _ hT hfd, ?_⟩
      intro a1 hm1
      simp only [Option.some.injEq] at hm1
      subst hm1
      rw [hseq, (hT a).1 hfd]
      rfl
    · rw [ht]
      refine ⟨?_, ?_⟩
      · exact count_incr _ cnt a e _ (fun _ => rfl) (fun _ => rfl) hT hfd
      · intro a1 hm1
        simp only [Option.some.injEq] at hm1
        subst hm1
        rw [hseq, (hT a).2 e hfd]
        simp

theorem simple_run_seq (ms : List Msg) :
    ∀ (g : Globals) (cnt : CStr → ℕ), CountInv g.ip_table cnt →
      (∀ m ∈ ms, m.short_source = true) →
      ∀ (pre : List Msg) (m : Msg) (post : List Msg) (a : CStr),
        ms = pre ++ m :: post → m.source = some a →
        pre.length < (run g ms).length →
        ((run g ms)[pre.length]?).bind HookResult.count =
          some ((cnt a + arrivals a pre + 1) % 2 ^ 64) := by
  induction ms with
  | nil =>
    intro g cnt _ _ pre m post a he
    exact absurd he (by simp)
  | cons m0 ms ih =>
    intro g cnt hT hs pre m post a he hsrc hlen
    cases hstep : on_message_callback g m0 with
    | none => simp [run, hstep] at hlen
    | some res =>
      obtain ⟨g1, o⟩ := res
      have hc := simple_count_step hT (hs m0 (List.mem_cons_self _ _)) hstep
      simp only [run, hstep] at hlen ⊢
      cases pre with
      | nil =>
        simp only [List.nil_append, List.cons.injEq] at he
        simp only [List.length_nil, List.getElem?_cons_zero, Option.some_bind, arrivals,
          Nat.add_zero]
        rw [he.1] at hc
        exact hc.2 a hsrc
      | cons e pre1 =>
        simp only [List.cons_append, List.cons.injEq] at he
        obtain ⟨he1, he2⟩ := he
        subst he1
        simp only [List.length_cons, List.getElem?_cons_succ]
        simp only [List.length_cons, Nat.add_lt_add_iff_right] at hlen
        have := ih g1 _ hc.1 (fun x hx => hs x (List.mem_cons_of_mem _ hx))
          pre1 m post a he2 hsrc hlen
        rw [this, simple_arrivals_cons a m0 pre1]
        congr 2
        omega

theorem simple_run_total (ms : List Msg) :
    ∀ g : Globals, (∀ m ∈ ms, m.survives = true) → (run g ms).length = ms.length := by
  induction ms with
  | nil => intro g _; rfl
  | cons m ms ih =>
    intro g h
    obtain ⟨g1, r, hs⟩ := hook_total g m (h m (List.mem_cons_self _ _))
    simp only [run, hs, List.length_cons]
    rw [ih g1 (fun x hx => h x (List.mem_cons_of_mem _ hx))]

end Simple

/-- C1, as stated, fails. The table key holds at most 63 characters while the lookup
uses the whole address: two messages from a source whose address has 64 characters both
get sequence number 1, in both plugins; and when such a message is followed by one from
the source whose address is the first 63 of these characters, that source's first message
gets 2. In the dual-FIFO plugin a message whose `calloc` of a table entry fails gets no
number at all. -/
theorem C1_counterexample :
    (Fifo.run ex_plugin
        [Fifo.Event.message (ex_msg ex_long_address 1000000),
          Fifo.Event.message (ex_msg ex_long_address 2000000)]).map Fifo.seq_of =
      [some 1, some 1] ∧
    (Simple.run (Simple.mosquitto_plugin_init true 5)
        [ex_simple_msg ex_long_address 1000000,
          ex_simple_msg ex_long_address 2000000]).map Simple.HookResult.count =
      [some 1, some 1] ∧
    (Fifo.run ex_plugin
        [Fifo.Event.message (ex_msg ex_long_address 1000000),
          Fifo.Event.message (ex_msg (ex_long_address.take 63) 2000000)]).map Fifo.seq_of =
      [some 1, some 2] ∧
    (Fifo.run ex_plugin
        [Fifo.Event.message
          { client := true, address := some "10.0.0.5".toList, recv_ts := 1000000,
            entry_alloc := false, node_alloc := true },
          Fifo.Event.message (ex_msg "10.0.0.5".toList 2000000)]).map Fifo.seq_of =
      [none, some 1] := by
  decide

/-- C1 (amended): in a run in which every source address is shorter than 64 characters
and, in the dual-FIFO plugin, no `calloc` of a table entry fails, the hook of either
plugin assigns to the k-th message received from a source the sequence number k (modulo
2^64, `packet_count` being a `uint64_t`), whatever messages of other sources, iterations
of the processing thread and sweeps come in between: the message at position
`pre.length` of the run gets the number of earlier messages of its source plus 1. A run
stops at the first step that crashes; when no step crashes every step is taken. -/
theorem C1_sequence_numbers (env : Fifo.InitEnv) (evs : List Fifo.Event) (log_open : Bool)
    (fifo_fd : ℤ) (ms : List Simple.Msg)
    (hshort : ∀ ev ∈ evs, ev.short_source = true)
    (halloc : ∀ ev ∈ evs, ev.entry_allocated = true)
    (hshort1 : ∀ m ∈ ms, m.short_source = true) :
    (∀ (pre : List Fifo.Event) (m : Fifo.Msg) (post : List Fifo.Event) (a : CStr),
      evs = pre ++ Fifo.Event.message m :: post → m.source = some a →
      pre.length < (Fifo.run (Fifo.mosquitto_plugin_init env) evs).length →
      ((Fifo.run (Fifo.mosquitto_plugin_init env) evs)[pre.length]?).bind Fifo.seq_of =
        some ((Fifo.arrivals a pre + 1) % 2 ^ 64)) ∧
    ((∀ ev ∈ evs, ev.survives = true) →
      (Fifo.run (Fifo.mosquitto_plugin_init env) evs).length = evs.length) ∧
    (∀ (pre : List Simple.Msg) (m : Simple.Msg) (post : List Simple.Msg) (a : CStr),
      ms = pre ++ m :: post → m.source = some a →
      pre.length < (Simple.run (Simple.mosquitto_plugin_init log_open fifo_fd) ms).length →
      ((Simple.run (Simple.mosquitto_plugin_init log_open fifo_fd) ms)[pre.length]?).bind
          Simple.HookResult.count =
        some ((Simple.arrivals a pre + 1) % 2 ^ 64)) ∧
    ((∀ m ∈ ms, m.survives = true) →
      (Simple.run (Simple.mosquitto_plugin_init log_open fifo_fd) ms).length = ms.length) := by
  have h0 : ∀ tbl : List ip_entry, tbl = [] → CountInv tbl (fun _ => 0) := by
    intro tbl ht
    subst ht
    intro a
    simp [HASH_FIND_STR]
  refine ⟨?_, ?_, ?_, ?_⟩
  · intro pre m post a he hsrc hlen
    have := Fifo.run_seq evs (Fifo.mosquitto_plugin_init env) (fun _ => 0) (h0 _ rfl) hshort
      halloc pre m post a he hsrc hlen
    simpa using this
  · intro hsv
    exact (Fifo.run_total evs (Fifo.mosquitto_plugin_init env) [] 0 [] (Fifo.inv_init env)
      hsv).1
  · intro pre m post a he hsrc hlen
    have := Simple.simple_run_seq ms (Simple.mosquitto_plugin_init log_open fifo_fd) (fun _ => 0)
      (h0 _ rfl) hshort1 pre m post a he hsrc hlen
    simpa using this
  · intro hsv
    exact Simple.simple_run_total ms _ hsv

/-- C1, witness: in both plugins the second message of 10.0.0.5, received after a
message of 10.0.0.6 (and, in the dual-FIFO plugin, an iteration of the processing
thread), gets sequence number 2. -/
theorem C1_sequence_numbers_witness :
    (∀ ev ∈ ex_two_sources ++ [Fifo.Event.message (ex_msg "10.0.0.5".toList 3000000)],
      ev.short_source = true) ∧
    (∀ ev ∈ ex_two_sources ++ [Fifo.Event.message (ex_msg "10.0.0.5".toList 3000000)],
      ev.entry_allocated = true) ∧
    (∀ m ∈ ex_simple_two_sources ++ [ex_simple_msg "10.0.0.5".toList 3000000],
      m.short_source = true) ∧
    (ex_msg "10.0.0.5".toList 3000000).source = some "10.0.0.5".toList ∧
    ex_two_sources.length < (Fifo.run ex_plugin
      (ex_two_sources ++ [Fifo.Event.message (ex_msg "10.0.0.5".toList 3000000)])).length ∧
    ((Fifo.run ex_plugin
        (ex_two_sources ++ [Fifo.Event.message (ex_msg "10.0.0.5".toList 3000000)]))[
          ex_two_sources.length]?).bind Fifo.seq_of =
      some ((Fifo.arrivals "10.0.0.5".toList ex_two_sources + 1) % 2 ^ 64) ∧
    (Fifo.arrivals "10.0.0.5".toList ex_two_sources + 1) % 2 ^ 64 = 2 ∧
    ((Simple.run (Simple.mosquitto_plugin_init true 5)
        (ex_simple_two_sources ++ [ex_simple_msg "10.0.0.5".toList 3000000]))[
          ex_simple_two_sources.length]?).bind Simple.HookResult.count =
      some ((Simple.arrivals "10.0.0.5".toList ex_simple_two_sources + 1) % 2 ^ 64) :=
  have h := C1_sequence_numbers { log_open := true, high_fd := 5, low_fd := 6 }
    (ex_two_sources ++ [Fifo.Event.message (ex_msg "10.0.0.5".toList 3000000)]) true 5
    (ex_simple_two_sources ++ [ex_simple_msg "10.0.0.5".toList 3000000])
    (by decide) (by decide) (by decide)
  ⟨by decide, by decide, by decide, by decide, by decide,
    h.1 ex_two_sources (ex_msg "10.0.0.5".toList 3000000) [] "10.0.0.5".toList rfl
      (by decide) (by decide),
    by decide,
    h.2.2.1 ex_simple_two_sources (ex_simple_msg "10.0.0.5".toList 3000000) []
      "10.0.0.5".toList rfl (by decide) (by decide)⟩

/-! ## Inter-arrival deltas -/

namespace Fifo

theorem inv_le {g : Globals} {hist : List ReceiveNode} {n : ℕ} {tele : List CSVRecord}
    (h : Inv g hist n tele) : n ≤ hist.length := by
  obtain ⟨⟨cells, _, hc⟩, _⟩ := h
  rcases hc with ⟨_, h2, _⟩ | ⟨_, _, _, _, _, h3⟩
  · omega
  · exact h3

theorem find_reverse_none {l : List ReceiveNode} {a : CStr}
    (h : ∀ r ∈ l, r.ip ≠ a) : l.reverse.find? (fun r => decide (r.ip = a)) = none := by
  rw [List.find?_eq_none]
  intro r hr
  simpa using h r (List.mem_reverse.mp hr)

theorem last_seen_append_same {a : CStr} {hist : List ReceiveNode} {n : ℕ} (r : ReceiveNode)
    (hn : n ≤ hist.length) (h : r.ip ≠ a ∨ ∃ r1 ∈ hist, r1.ip = a) :
    last_seen a (hist ++ [r]) n = last_seen a hist n := by
  unfold last_seen
  rw [List.take_append_of_le_length hn, List.find?_append]
  rcases h with h | ⟨r1, hr1, hip⟩
  · have : [r].find? (fun r => decide (r.ip = a)) = none := by simp [h]
    rw [this, Option.or_none]
  · cases hf : hist.find? (fun r => decide (r.ip = a)) with
    | none =>
      rw [List.find?_eq_none] at hf
      exact absurd hip (by simpa using hf r1 hr1)
    | some r2 => rfl

theorem last_seen_append_first {a : CStr} {hist : List ReceiveNode} {n : ℕ} (r : ReceiveNode)
    (hn : n ≤ hist.length) (hr : r.ip = a) (h : ∀ r1 ∈ hist, r1.ip ≠ a) :
    last_seen a (hist ++ [r]) n = r.recv_ts := by
  unfold last_seen
  rw [List.take_append_of_le_length hn,
    find_reverse_none (fun r1 h1 => h r1 (List.mem_of_mem_take h1)), List.find?_append]
  have h1 : hist.find? (fun r => decide (r.ip = a)) = none := by
    rw [List.find?_eq_none]
    intro r1 hr1
    simpa using h r1 hr1
  rw [h1]
  simp [hr]

theorem last_seen_step_same {a : CStr} {hist : List ReceiveNode} {n : ℕ} {d : ReceiveNode}
    (hd : hist[n]? = some d) (h : d.ip ≠ a) :
    last_seen a hist (n + 1) = last_seen a hist n := by
  unfold last_seen
  rw [List.take_succ, hd]
  simp [List.find?_cons, h]

theorem last_seen_step_at {hist : List ReceiveNode} {n : ℕ} {d : ReceiveNode}
    (hd : hist[n]? = some d) : last_seen d.ip hist (n + 1) = d.recv_ts := by
  unfold last_seen
  rw [List.take_succ, hd]
  simp [List.find?_cons]

theorem last_seen_expected {hist : List ReceiveNode} {n : ℕ} {d : ReceiveNode}
    (hd : hist[n]? = some d) :
    d.recv_ts - last_seen d.ip hist n = expected_delta hist n d := by
  unfold last_seen expected_delta
  cases hf : (hist.take n).reverse.find? (fun r => decide (r.ip = d.ip)) with
  | some prev => rfl
  | none =>
    have hlt := (List.getElem?_eq_some_iff.mp hd).1
    have hsplit : hist = hist.take n ++ d :: hist.drop (n + 1) := by
      have h2 := (List.getElem?_eq_some_iff.mp hd).2
      rw [← h2, ← List.drop_eq_getElem_cons hlt, List.take_append_drop]
    have hnone : (hist.take n).find? (fun r => decide (r.ip = d.ip)) = none := by
      rw [List.find?_eq_none] at hf ⊢
      intro r hr
      exact hf r (List.mem_reverse.mpr hr)
    have hfirst : hist.find? (fun r => decide (r.ip = d.ip)) = some d := by
      rw [hsplit, List.find?_append, hnone]
      simp [List.find?_cons]
    simp only [hfirst]
    ring

theorem table_assign_time {tbl : List ip_entry} {hist : List ReceiveNode} {n : ℕ}
    {d : ReceiveNode} (hT : TableInv tbl hist n) (hd : hist[n]? = some d) :
    TableInv (ip_entry_assign d.ip (fun e => { e with last_time := d.recv_ts }) tbl) hist
      (n + 1) := by
  intro a
  rw [find_assign d.ip (fun e => { e with last_time := d.recv_ts }) (fun _ => rfl)]
  by_cases ha : a = d.ip
  · subst ha
    simp only [if_true, Option.map_eq_none', Option.map_eq_some']
    refine ⟨(hT d.ip).1, ?_⟩
    rintro e ⟨e0, he0, rfl⟩
    exact ⟨((hT d.ip).2 e0 he0).1, (last_seen_step_at hd).symm⟩
  · simp only [ha, if_false]
    refine ⟨(hT a).1, fun e he => ?_⟩
    rw [last_seen_step_same hd (fun c => ha c.symm)]
    exact (hT a).2 e he

theorem table_process {g g1 : Globals} {env : ProcEnv} {p : Processed}
    {hist : List ReceiveNode} {n : ℕ} (hT : TableInv g.ip_table hist n)
    (hd : hist[n]? = some p.current_data)
    (h : processor_thread_fn g env = some (g1, some p)) :
    p.delta = expected_delta hist n p.current_data ∧ TableInv g1.ip_table hist (n + 1) := by
  obtain ⟨_, _, _, _, hdelta, ht, _⟩ := processor_some h
  have hmem : p.current_data ∈ hist := by
    obtain ⟨h1, h2⟩ := List.getElem?_eq_some_iff.mp hd
    rw [← h2]
    exact List.getElem_mem _
  cases hf : HASH_FIND_STR g.ip_table p.current_data.ip with
  | none => exact absurd rfl ((hT _).1 hf _ hmem)
  | some e =>
    rw [hf] at hdelta ht
    simp only at hdelta ht
    refine ⟨?_, ?_⟩
    · rw [hdelta, ((hT _).2 e hf).2]
      exact last_seen_expected hd
    · rw [ht]
      exact table_assign_time hT hd

theorem table_message {g g1 : Globals} {m : Msg} {r : HookResult}
    {hist : List ReceiveNode} {n : ℕ} (hT : TableInv g.ip_table hist n)
    (hn : n ≤ hist.length) (hs : (Event.message m).short_source = true)
    (ha : (Event.message m).hook_allocated = true)
    (h : on_message_callback g m = some (g1, r)) :
    TableInv g1.ip_table (hist ++ r.enqueued.toList) n ∧
      r.enqueued.toList.map (fun x => (x.ip, x.recv_ts)) = received [Event.message m] := by
  simp only [Event.short_source] at hs
  simp only [Event.hook_allocated, Bool.and_eq_true] at ha
  obtain ⟨hea, hna⟩ := ha
  simp only [received]
  rcases hook_spec h with ⟨hsrc, ht, _, henq⟩ | ⟨a, hsrc, hcase⟩
  · rw [ht, henq, hsrc]
    simpa using hT
  · rw [hsrc] at hs ⊢
    simp only [decide_eq_true_eq] at hs
    rw [strncpy_short hs] at hcase
    simp only [hna, if_true] at hcase
    rcases hcase with ⟨_, hea1, _⟩ | ⟨hfd, _, ht, _, henq⟩ | ⟨e, hfd, ht, _, henq⟩
    · rw [hea1] at hea
      exact absurd hea (by simp)
    · rw [ht, henq]
      refine ⟨?_, by simp⟩
      intro b
      rw [find_add]
      simp only [Option.toList_some]
      by_cases hb : a = b
      · subst hb
        simp only [if_true, reduceCtorEq, false_implies, Option.some.injEq, true_and]
        intro e he
        subst he
        refine ⟨⟨{ ip := a, recv_ts := m.recv_ts, packet_count := 1 }, by simp, rfl⟩, ?_⟩
        exact (last_seen_append_first { ip := a, recv_ts := m.recv_ts, packet_count := 1 } hn
          rfl ((hT a).1 hfd)).symm
      · simp only [hb, if_false]
        refine ⟨fun h0 x hx => ?_, fun e he => ?_⟩
        · rcases List.mem_append.mp hx with hx | hx
          · exact (hT b).1 h0 x hx
          · simp only [List.mem_singleton] at hx
            subst hx
            exact hb
        · obtain ⟨⟨x, hx, hxb⟩, hl⟩ := (hT b).2 e he
          refine ⟨⟨x, List.mem_append_left _ hx, hxb⟩, ?_⟩
          rw [last_seen_append_same _ hn (Or.inl hb)]
          exact hl
    · rw [ht, henq]
      refine ⟨?_, by simp⟩
      intro b
      rw [find_assign a packet_count_incr (fun _ => rfl)]
      simp only [Option.toList_some]
      by_cases hb : b = a
      · subst hb
        simp only [if_true, hfd, Option.map_some', reduceCtorEq, false_implies,
          Option.some.injEq, true_and]
        intro e1 he1
        subst he1
        obtain ⟨⟨x, hx, hxb⟩, hl⟩ := (hT b).2 e hfd
        refine ⟨⟨x, List.mem_append_left _ hx, hxb⟩, ?_⟩
        rw [last_seen_append_same _ hn (Or.inr ⟨x, hx, hxb⟩)]
        exact hl
      · simp only [hb, if_false]
        have hab : ¬ a = b := fun c => hb c.symm
        refine ⟨fun h0 x hx => ?_, fun e1 he1 => ?_⟩
        · rcases List.mem_append.mp hx with hx | hx
          · exact (hT b).1 h0 x hx
          · simp only [List.mem_singleton] at hx
            subst hx
            exact hab
        · obtain ⟨⟨x, hx, hxb⟩, hl⟩ := (hT b).2 e1 he1
          refine ⟨⟨x, List.mem_append_left _ hx, hxb⟩, ?_⟩
          rw [last_seen_append_same _ hn (Or.inl hab)]
          exact hl

theorem expected_delta_append (hist more : List ReceiveNode) (n : ℕ) (d : ReceiveNode)
    (hn : n ≤ hist.length) :
    expected_delta (hist ++ more) n d = expected_delta hist n d := by
  unfold expected_delta
  rw [List.take_append_of_le_length hn]

theorem run_delta (evs : List Event) :
    ∀ (g : Globals) (hist : List ReceiveNode) (n : ℕ) (tele : List CSVRecord),
      Inv g hist n tele → TableInv g.ip_table hist n →
      (∀ ev ∈ evs, ev.short_source = true) → (∀ ev ∈ evs, ev.hook_allocated = true) →
      ∀ (j : ℕ) (p : Processed), (processed_of (run g evs))[j]? = some p →
        (hist ++ enqueued_of (run g evs))[n + j]? = some p.current_data ∧
          p.delta = expected_delta (hist ++ enqueued_of (run g evs)) (n + j) p.current_data := by
  induction evs with
  | nil => intro g hist n tele _ _ _ _ j p hp; simp [run, processed_of] at hp
  | cons ev evs ih =>
    intro g hist n tele h hT hs ha j p hp
    have hs1 : ∀ e ∈ evs, e.short_source = true := fun e he => hs e (List.mem_cons_of_mem _ he)
    have ha1 : ∀ e ∈ evs, e.hook_allocated = true :=
      fun e he => ha e (List.mem_cons_of_mem _ he)
    cases ev with
    | message m =>
      obtain ⟨g1, r, hstep, hI⟩ := inv_message h m
      have hT1 := (table_message hT (inv_le h) (hs _ (List.mem_cons_self _ _))
        (ha _ (List.mem_cons_self _ _)) hstep).1
      simp only [run, step, hstep, Option.map_some', processed_of, enqueued_of] at hp ⊢
      rw [← List.append_assoc]
      exact ih g1 _ n tele hI hT1 hs1 ha1 j p hp
    | process env =>
      rcases inv_process h env with ⟨_, hstep⟩ | ⟨d, hd, ⟨_, hstep⟩ | ⟨g1, p0, hstep, hp0, hI⟩⟩
      · simp only [run, step, hstep, Option.map_some', processed_of, enqueued_of] at hp ⊢
        exact ih g hist n tele h hT hs1 ha1 j p hp
      · simp [run, step, hstep, processed_of] at hp
      · rw [← hp0] at hd
        obtain ⟨hdel, hT1⟩ := table_process hT hd hstep
        have hlt := (List.getElem?_eq_some_iff.mp hd).1
        simp only [run, step, hstep, Option.map_some', processed_of, enqueued_of] at hp ⊢
        cases j with
        | zero =>
          simp only [List.getElem?_cons_zero, Option.some.injEq] at hp
          subst hp
          simp only [Nat.add_zero]
          refine ⟨?_, ?_⟩
          · rw [List.getElem?_append_left hlt]
            exact hd
          · rw [expected_delta_append _ _ _ _ (Nat.le_of_lt hlt)]
            exact hdel
        | succ j =>
          simp only [List.getElem?_cons_succ] at hp
          have := ih g1 hist (n + 1) _ hI hT1 hs1 ha1 j p hp
          rw [Nat.add_assoc, Nat.add_comm 1 j] at this
          exact this
    | sweep now =>
      obtain ⟨g1, hstep, hI⟩ := inv_sweep h now
      have hT1 : TableInv g1.ip_table hist n := by
        rw [(cleanup_frame hstep).2.1]
        exact hT
      simp only [run, step, hstep, Option.map_some', processed_of, enqueued_of] at hp ⊢
      exact ih g1 hist n tele hI hT1 hs1 ha1 j p hp

theorem received_cons (ev : Event) (evs : List Event) :
    received (ev :: evs) = received [ev] ++ received evs := by
  cases ev with
  | message m =>
    simp only [received]
    cases m.source <;> simp
  | process env => simp [received]
  | sweep now => simp [received]

theorem run_received (evs : List Event) :
    ∀ (g : Globals) (hist : List ReceiveNode) (n : ℕ) (tele : List CSVRecord),
      Inv g hist n tele →
      (∀ ev ∈ evs, ev.short_source = true) → (∀ ev ∈ evs, ev.hook_allocated = true) →
      (enqueued_of (run g evs)).map (fun x => (x.ip, x.recv_ts)) <+: received evs ∧
        ((∀ ev ∈ evs, ev.survives = true) →
          (enqueued_of (run g evs)).map (fun x => (x.ip, x.recv_ts)) = received evs) := by
  induction evs with
  | nil => intro g hist n tele _ _ _; simp [run, enqueued_of, received]
  | cons ev evs ih =>
    intro g hist n tele h hs ha
    have hs1 : ∀ e ∈ evs, e.short_source = true := fun e he => hs e (List.mem_cons_of_mem _ he)
    have ha1 : ∀ e ∈ evs, e.hook_allocated = true :=
      fun e he => ha e (List.mem_cons_of_mem _ he)
    rw [received_cons]
    cases ev with
    | message m =>
      obtain ⟨g1, r, hstep, hI⟩ := inv_message h m
      have hr : r.enqueued.toList.map (fun x => (x.ip, x.recv_ts)) =
          received [Event.message m] := by
        cases hsrc : m.source with
        | none =>
          rcases hook_spec hstep with ⟨_, _, _, henq⟩ | ⟨a, hsrc1, _⟩
          · rw [henq]; simp [received, hsrc]
          · rw [hsrc] at hsrc1; exact absurd hsrc1 (by simp)
        | some a =>
          rcases hook_spec hstep with ⟨hsrc1, _⟩ | ⟨a1, hsrc1, hcase⟩
          · rw [hsrc] at hsrc1; exact absurd hsrc1 (by simp)
          · have hs0 := hs _ (List.mem_cons_self _ _)
            have ha0 := ha _ (List.mem_cons_self _ _)
            simp only [Event.short_source, hsrc1, decide_eq_true_eq] at hs0
            simp only [Event.hook_allocated, Bool.and_eq_true] at ha0
            rw [strncpy_short hs0] at hcase
            simp only [ha0.2, if_true] at hcase
            rcases hcase with ⟨_, hea1, _⟩ | ⟨_, _, _, _, henq⟩ | ⟨e, _, _, _, henq⟩
            · rw [hea1] at ha0
              exact absurd ha0.1 (by simp)
            · rw [henq]; simp [received, hsrc1]
            · rw [henq]; simp [received, hsrc1]
      obtain ⟨i1, i2⟩ := ih g1 _ n tele hI hs1 ha1
      simp only [run, step, hstep, Option.map_some', enqueued_of, List.map_append, hr]
      exact ⟨(List.prefix_append_right_inj _).mpr i1,
        fun hsv => by rw [i2 (fun e he => hsv e (List.mem_cons_of_mem _ he))]⟩
    | process env =>
      simp only [received, List.nil_append]
      rcases inv_process h env with ⟨_, hstep⟩ | ⟨d, hd, ⟨hc, hstep⟩ | ⟨g1, p0, hstep, hp0, hI⟩⟩
      · obtain ⟨i1, i2⟩ := ih g hist n tele h hs1 ha1
        simp only [run, step, hstep, Option.map_some', enqueued_of]
        exact ⟨i1, fun hsv => i2 (fun e he => hsv e (List.mem_cons_of_mem _ he))⟩
      · simp only [run, step, hstep, Option.map_none', enqueued_of, List.map_nil]
        refine ⟨List.nil_prefix, fun hsv => ?_⟩
        have := hsv _ (List.mem_cons_self _ _)
        simp only [Event.survives, hc] at this
        exact absurd this (by simp)
      · obtain ⟨i1, i2⟩ := ih g1 hist (n + 1) _ hI hs1 ha1
        simp only [run, step, hstep, Option.map_some', enqueued_of]
        exact ⟨i1, fun hsv => i2 (fun e he => hsv e (List.mem_cons_of_mem _ he))⟩
    | sweep now =>
      simp only [received, List.nil_append]
      obtain ⟨g1, hstep, hI⟩ := inv_sweep h now
      obtain ⟨i1, i2⟩ := ih g1 hist n tele hI hs1 ha1
      simp only [run, step, hstep, Option.map_some', enqueued_of]
      exact ⟨i1, fun hsv => i2 (fun e he => hsv e (List.mem_cons_of_mem _ he))⟩

end Fifo

set_option maxRecDepth 100000 in
/-- C8, as stated, fails. The table key holds at most 63 characters: after a message
from a source with a 64-character address at second 1, the first message of the source
whose address is the first 63 of these characters, received at second 2, is handed to the
classifier with delta 1 s instead of 0. And when the `malloc` of the queue node of the
second message of 10.0.0.5 (second 2) fails, its third message (second 3) gets delta 2 s,
not 1 s. -/
theorem C8_counterexample :
    (ex_long_address.take 63).length < 64 ∧
    (Fifo.processed_of (Fifo.run ex_plugin
        [Fifo.Event.message (ex_msg ex_long_address 1000000),
          Fifo.Event.message (ex_msg (ex_long_address.take 63) 2000000),
          Fifo.Event.process (ex_env (ex_curl "high".toList) 67 true),
          Fifo.Event.process (ex_env (ex_curl "high".toList) 67 true)])).map
      (fun p => (p.current_data.recv_ts, p.delta)) = [(1000000, 0), (2000000, 1000000)] ∧
    (Fifo.processed_of (Fifo.run ex_plugin
        [Fifo.Event.message (ex_msg "10.0.0.5".toList 1000000),
          Fifo.Event.message
            { client := true, address := some "10.0.0.5".toList, recv_ts := 2000000,
              entry_alloc := true, node_alloc := false },
          Fifo.Event.message (ex_msg "10.0.0.5".toList 3000000),
          Fifo.Event.process (ex_env (ex_curl "high".toList) 67 true),
          Fifo.Event.process (ex_env (ex_curl "high".toList) 67 true)])).map
      (fun p => (p.current_data.recv_ts, p.delta)) = [(1000000, 0), (3000000, 2000000)] := by
  decide

/-- C8 (amended): in the dual-FIFO plugin, in a run in which every source address is
shorter than 64 characters and no allocation of the message hook fails, the records are
processed in queue order and the delta handed to the classifier for the j-th record is 0
when it is the first message of its source, and otherwise its receive timestamp minus
that of the previous message of the same source, also when later messages of the source
were received before the earlier ones were processed. The queued records are the
received messages (address and receive timestamp) in order of arrival, up to the first
step that crashes. -/
theorem C8_delta_per_source (env : Fifo.InitEnv) (evs : List Fifo.Event)
    (hshort : ∀ ev ∈ evs, ev.short_source = true)
    (halloc : ∀ ev ∈ evs, ev.hook_allocated = true) :
    (∀ (j : ℕ) (p : Fifo.Processed),
      (Fifo.processed_of (Fifo.run (Fifo.mosquitto_plugin_init env) evs))[j]? = some p →
      (Fifo.enqueued_of (Fifo.run (Fifo.mosquitto_plugin_init env) evs))[j]? =
          some p.current_data ∧
        p.delta = Fifo.expected_delta
          (Fifo.enqueued_of (Fifo.run (Fifo.mosquitto_plugin_init env) evs)) j
          p.current_data) ∧
    (Fifo.enqueued_of (Fifo.run (Fifo.mosquitto_plugin_init env) evs)).map
        (fun x => (x.ip, x.recv_ts)) <+: Fifo.received evs ∧
    ((∀ ev ∈ evs, ev.survives = true) →
      (Fifo.enqueued_of (Fifo.run (Fifo.mosquitto_plugin_init env) evs)).map
          (fun x => (x.ip, x.recv_ts)) = Fifo.received evs ∧
        (Fifo.run (Fifo.mosquitto_plugin_init env) evs).length = evs.length) := by
  have hT : Fifo.TableInv (Fifo.mosquitto_plugin_init env).ip_table [] 0 := by
    intro a
    simp [Fifo.mosquitto_plugin_init, HASH_FIND_STR]
  have hr := Fifo.run_received evs _ [] 0 [] (Fifo.inv_init env) hshort halloc
  refine ⟨?_, hr.1, fun hsv => ⟨hr.2 hsv, ?_⟩⟩
  · intro j p hp
    have := Fifo.run_delta evs _ [] 0 [] (Fifo.inv_init env) hT hshort halloc j p hp
    simpa using this
  · exact (Fifo.run_total evs _ [] 0 [] (Fifo.inv_init env) hsv).1

set_option maxRecDepth 100000 in
/-- C8, witness: 10.0.0.5 sends at seconds 1 and 4, 10.0.0.6 at second 2, and all three
messages are received before the first is processed; the third record processed is the
second message of 10.0.0.5 and its delta is 3 s. -/
theorem C8_delta_per_source_witness :
    (∀ ev ∈ ex_interleaved, ev.short_source = true) ∧
    (∀ ev ∈ ex_interleaved, ev.hook_allocated = true) ∧
    (Fifo.processed_of (Fifo.run ex_plugin ex_interleaved))[2]? = some ex_third_processed ∧
    ((Fifo.enqueued_of (Fifo.run ex_plugin ex_interleaved))[2]? =
        some ex_third_processed.current_data ∧
      ex_third_processed.delta = Fifo.expected_delta
        (Fifo.enqueued_of (Fifo.run ex_plugin ex_interleaved)) 2
        ex_third_processed.current_data) ∧
    ex_third_processed.delta = 3000000 ∧
    (Fifo.processed_of (Fifo.run ex_plugin ex_interleaved)).map Fifo.Processed.delta =
      [0, 0, 3000000] :=
  ⟨by decide, by decide, by decide,
    (C8_delta_per_source { log_open := true, high_fd := 5, low_fd := 6 } ex_interleaved
      (by decide) (by decide)).1 2 ex_third_processed (by decide),
    by decide, by decide⟩

/-! ## What reaches the two channels -/

theorem flatten_filter_cons {α : Type} (P : α → Prop) [DecidablePred P] (f : α → CStr)
    (x : α) (l : List α) :
    ((List.filter (fun a => decide (P a)) (x :: l)).map f).flatten =
      (if P x then f x else []) ++ ((l.filter (fun a => decide (P a))).map f).flatten := by
  by_cases h : P x <;> simp [List.filter_cons, h]

namespace Fifo

theorem hook_io {g g1 : Globals} {m : Msg} {r : HookResult}
    (h : on_message_callback g m = some (g1, r)) :
    io g1 = io g ∧ g1.csv_queue = g.csv_queue ∧
      g1.receive_current_pos = g.receive_current_pos ∧
      g1.process_counter = g.process_counter ∧ g1.log_file = g.log_file ∧
      g1.log_rows = g.log_rows := by
  unfold on_message_callback at h
  by_cases hcl : m.client = true
  swap
  · simp only [Bool.not_eq_true] at hcl
    simp only [hcl, Bool.not_false, if_true, Option.some.injEq, Prod.mk.injEq] at h
    obtain ⟨rfl, _⟩ := h
    simp
  simp only [hcl, Bool.not_true, Bool.false_eq_true, if_false] at h
  cases ha : m.address with
  | none =>
    simp only [ha, Option.some.injEq, Prod.mk.injEq] at h
    obtain ⟨rfl, _⟩ := h
    simp
  | some a =>
    simp only [ha] at h
    cases hf : HASH_FIND_STR g.ip_table a with
    | none =>
      simp only [hf] at h
      by_cases hea : m.entry_alloc = true
      · simp only [hea, Bool.not_true, Bool.false_eq_true, if_false] at h
        by_cases hna : m.node_alloc = true
        · simp only [hna, Bool.not_true, Bool.false_eq_true, if_false] at h
          split at h
          · exact absurd h (by simp)
          · simp only [Option.some.injEq, Prod.mk.injEq] at h
            obtain ⟨rfl, _⟩ := h
            simp [io]
        · simp only [Bool.not_eq_true] at hna
          simp only [hna, Bool.not_false, if_true, Option.some.injEq, Prod.mk.injEq] at h
          obtain ⟨rfl, _⟩ := h
          simp [io]
      · simp only [Bool.not_eq_true] at hea
        simp only [hea, Bool.not_false, if_true, Option.some.injEq, Prod.mk.injEq] at h
        obtain ⟨rfl, _⟩ := h
        simp
    | some e =>
      simp only [hf] at h
      by_cases hna : m.node_alloc = true
      · simp only [hna, Bool.not_true, Bool.false_eq_true, if_false] at h
        split at h
        · exact absurd h (by simp)
        · simp only [Option.some.injEq, Prod.mk.injEq] at h
          obtain ⟨rfl, _⟩ := h
          simp [io]
      · simp only [Bool.not_eq_true] at hna
        simp only [hna, Bool.not_false, if_true, Option.some.injEq, Prod.mk.injEq] at h
        obtain ⟨rfl, _⟩ := h
        simp [io]

theorem route_written (g : Globals) (env : ProcEnv) (p : Processed)
    (hh : g.high_fifo_fd ≠ -1) (hl : g.low_fifo_fd ≠ -1)
    (hok : write_succeeds (env, p) = true) :
    io (route g p.action p.current_data env.service_end_ts env.write) =
      (g.high_fifo_fd, g.low_fifo_fd,
        g.high_pipe ++ (if p.action = "high".toList then line_of "high".toList (env, p) else []),
        g.low_pipe ++ (if p.action ≠ "high".toList ∧ p.action ≠ "drop".toList then
          line_of "low".toList (env, p) else [])) := by
  unfold write_succeeds at hok
  dsimp only at hok
  by_cases hd : p.action = "drop".toList
  · have hne : ¬ p.action = "high".toList := by rw [hd]; decide
    simp [route, hd, hne, io]
  · by_cases hhi : p.action = "high".toList
    · rw [if_neg hd, if_pos hhi, Bool.and_eq_true] at hok
      simp only [decide_eq_true_eq] at hok
      obtain ⟨h1, h2⟩ := hok
      have hw := (fifo_write_high g (fifo_line p.current_data.ip p.current_data.packet_count
        env.service_end_ts "high".toList) env.write)
      obtain ⟨w1, w2, _, _, w5⟩ := hw
      obtain ⟨w6, w7⟩ := w5 hh (fifo_line_pos _ _ _ _) h1 h2
      rw [hhi, route_high]
      simp only [io, w1, w2, w6, w7, line_of, if_true, ne_eq, not_true_eq_false, false_and,
        if_false, List.append_nil]
    · rw [if_neg hd, if_neg hhi, Bool.and_eq_true] at hok
      simp only [decide_eq_true_eq] at hok
      obtain ⟨h1, h2⟩ := hok
      have hw := (fifo_write_low g (fifo_line p.current_data.ip p.current_data.packet_count
        env.service_end_ts "low".toList) env.write)
      obtain ⟨w1, w2, _, _, w5⟩ := hw
      obtain ⟨w6, w7⟩ := w5 hl (fifo_line_pos _ _ _ _) h1 h2
      have hr : route g p.action p.current_data env.service_end_ts env.write =
          route g "low".toList p.current_data env.service_end_ts env.write := by
        by_cases hlo : p.action = "low".toList
        · rw [hlo]
        · exact route_other g p.action _ _ _ hd hhi hlo
      rw [hr, route_low]
      simp only [io, w1, w2, w6, w7, line_of, hhi, hd, if_false, ne_eq, not_false_eq_true,
        and_self, if_true, List.append_nil]

theorem run_channels (evs : List Event) :
    ∀ (g g1 : Globals), run_state g evs = some g1 →
      g.high_fifo_fd ≠ -1 → g.low_fifo_fd ≠ -1 →
      (∀ ep ∈ taken evs (run g evs), write_succeeds ep = true) →
      g1.high_fifo_fd = g.high_fifo_fd ∧ g1.low_fifo_fd = g.low_fifo_fd ∧
      g1.high_pipe = g.high_pipe ++
        (((taken evs (run g evs)).filter (fun ep => decide (ep.2.action = "high".toList))).map
          (line_of "high".toList)).flatten ∧
      g1.low_pipe = g.low_pipe ++
        (((taken evs (run g evs)).filter (fun ep =>
            decide (ep.2.action ≠ "high".toList ∧ ep.2.action ≠ "drop".toList))).map
          (line_of "low".toList)).flatten := by
  induction evs with
  | nil =>
    intro g g1 hr _ _ _
    simp only [run_state, Option.some.injEq] at hr
    subst hr
    simp [run, taken]
  | cons ev evs ih =>
    intro g g2 hr hh hl hok
    cases hstep : step g ev with
    | none => simp [run_state, hstep] at hr
    | some res =>
      obtain ⟨g1, o⟩ := res
      simp only [run_state, hstep] at hr
      simp only [run, hstep] at hok ⊢
      cases ev with
      | message m =>
        simp only [step, Option.map_eq_some', Prod.mk.injEq] at hstep
        obtain ⟨⟨ga, r⟩, hcb, hg, ho⟩ := hstep
        simp only at hg ho
        subst hg ho
        have hio := (hook_io hcb).1
        simp only [io, Prod.mk.injEq] at hio
        obtain ⟨i1, i2, i3, i4⟩ := hio
        simp only [taken] at hok ⊢
        have := ih ga g2 hr (by rw [i1]; exact hh) (by rw [i2]; exact hl) hok
        rw [i1, i2, i3, i4] at this
        exact this
      | sweep now =>
        simp only [step, Option.map_eq_some', Prod.mk.injEq] at hstep
        obtain ⟨ga, hcb, hg, ho⟩ := hstep
        subst hg ho
        have hio := (cleanup_frame hcb).1
        simp only [io, Prod.mk.injEq] at hio
        obtain ⟨i1, i2, i3, i4⟩ := hio
        simp only [taken] at hok ⊢
        have := ih ga g2 hr (by rw [i1]; exact hh) (by rw [i2]; exact hl) hok
        rw [i1, i2, i3, i4] at this
        exact this
      | process env =>
        simp only [step, Option.map_eq_some', Prod.mk.injEq] at hstep
        obtain ⟨⟨ga, op⟩, hcb, hg, ho⟩ := hstep
        simp only at hg ho
        subst hg ho
        cases op with
        | none =>
          have hga := processor_none hcb
          subst hga
          simp only [taken] at hok ⊢
          exact ih ga g2 hr hh hl hok
        | some p =>
          simp only [taken, List.mem_cons, forall_eq_or_imp] at hok
          obtain ⟨hok0, hok1⟩ := hok
          obtain ⟨_, _, _, _, _, _, _, _, _, _, hio, _⟩ := processor_some hcb
          rw [route_written g env p hh hl hok0] at hio
          simp only [io, Prod.mk.injEq] at hio
          obtain ⟨i1, i2, i3, i4⟩ := hio
          have := ih ga g2 hr (by rw [i1]; exact hh) (by rw [i2]; exact hl) hok1
          rw [i1, i2, i3, i4] at this
          obtain ⟨t1, t2, t3, t4⟩ := this
          refine ⟨t1, t2, ?_, ?_⟩
          · rw [t3]
            simp only [taken]
            rw [flatten_filter_cons (fun ep : ProcEnv × Processed => ep.2.action = "high".toList)]
            simp only [List.append_assoc]
          · rw [t4]
            simp only [taken]
            rw [flatten_filter_cons (fun ep : ProcEnv × Processed =>
              ep.2.action ≠ "high".toList ∧ ep.2.action ≠ "drop".toList)]
            simp only [List.append_assoc]

theorem taken_processed (evs : List Event) :
    ∀ g : Globals, (taken evs (run g evs)).map Prod.snd = processed_of (run g evs) := by
  induction evs with
  | nil => intro g; simp [run, taken, processed_of]
  | cons ev evs ih =>
    intro g
    cases hstep : step g ev with
    | none => cases ev <;> simp [run, hstep, taken, processed_of]
    | some res =>
      obtain ⟨g1, o⟩ := res
      simp only [run, hstep]
      cases ev with
      | message m =>
        simp only [step, Option.map_eq_some', Prod.mk.injEq] at hstep
        obtain ⟨_, _, _, ho⟩ := hstep
        subst ho
        simp only [taken, processed_of]
        exact ih g1
      | sweep now =>
        simp only [step, Option.map_eq_some', Prod.mk.injEq] at hstep
        obtain ⟨_, _, _, ho⟩ := hstep
        subst ho
        simp only [taken, processed_of]
        exact ih g1
      | process env =>
        simp only [step, Option.map_eq_some', Prod.mk.injEq] at hstep
        obtain ⟨⟨ga, op⟩, _, _, ho⟩ := hstep
        simp only at ho
        subst ho
        cases op with
        | none => simp only [taken, processed_of]; exact ih g1
        | some p => simp only [taken, processed_of, List.map_cons]; rw [ih g1]

end Fifo

/-- C11: after any sequence of steps of the dual-FIFO plugin started with both FIFOs
open, in which every channel write succeeds (the line of every record that is not dropped
fits the 256-byte buffer and `write` returns its full length), the HIGH FIFO holds
exactly the lines of the records whose action is "high", in processing order and with
label "high", and the LOW FIFO exactly the lines of the records whose action is neither
"high" nor "drop", in processing order and with label "low". -/
theorem C11_channel_contents (env : Fifo.InitEnv) (evs : List Fifo.Event) (g : Fifo.Globals)
    (hhigh : env.high_fd ≠ -1) (hlow : env.low_fd ≠ -1)
    (hrun : Fifo.run_state (Fifo.mosquitto_plugin_init env) evs = some g)
    (hok : ∀ ep ∈ Fifo.taken evs (Fifo.run (Fifo.mosquitto_plugin_init env) evs),
      Fifo.write_succeeds ep = true) :
    g.high_pipe =
      (((Fifo.taken evs (Fifo.run (Fifo.mosquitto_plugin_init env) evs)).filter
          (fun ep => decide (ep.2.action = "high".toList))).map
        (Fifo.line_of "high".toList)).flatten ∧
    g.low_pipe =
      (((Fifo.taken evs (Fifo.run (Fifo.mosquitto_plugin_init env) evs)).filter
          (fun ep => decide (ep.2.action ≠ "high".toList ∧ ep.2.action ≠ "drop".toList))).map
        (Fifo.line_of "low".toList)).flatten ∧
    (Fifo.taken evs (Fifo.run (Fifo.mosquitto_plugin_init env) evs)).map Prod.snd =
      Fifo.processed_of (Fifo.run (Fifo.mosquitto_plugin_init env) evs) := by
  obtain ⟨_, _, h3, h4⟩ := Fifo.run_channels evs _ g hrun hhigh hlow hok
  refine ⟨?_, ?_, Fifo.taken_processed evs _⟩
  · rw [h3]; simp [Fifo.mosquitto_plugin_init]
  · rw [h4]; simp [Fifo.mosquitto_plugin_init]

set_option maxRecDepth 100000 in
/-- C11, witness: four records of 10.0.0.5 classified "high", "low", "drop" and
"medium": the first is on the HIGH FIFO, the second and the fourth are on the LOW FIFO
with label "low", the third on neither. -/
theorem C11_channel_contents_witness :
    (5 : ℤ) ≠ -1 ∧ (6 : ℤ) ≠ -1 ∧
    Fifo.run_state (Fifo.mosquitto_plugin_init { log_open := true, high_fd := 5, low_fd := 6 })
      ex_channels = some (ex_after ex_plugin ex_channels) ∧
    (∀ ep ∈ Fifo.taken ex_channels (Fifo.run ex_plugin ex_channels),
      Fifo.write_succeeds ep = true) ∧
    (ex_after ex_plugin ex_channels).high_pipe =
      (((Fifo.taken ex_channels (Fifo.run ex_plugin ex_channels)).filter
          (fun ep => decide (ep.2.action = "high".toList))).map
        (Fifo.line_of "high".toList)).flatten ∧
    (ex_after ex_plugin ex_channels).high_pipe =
      "\x7b\"ip\":\"10.0.0.5\",\"count\":1,\"timestamp\":5.000101,\"priority\":\"high\"\x7d\n".toList ∧
    (ex_after ex_plugin ex_channels).low_pipe =
      ("\x7b\"ip\":\"10.0.0.5\",\"count\":2,\"timestamp\":5.000101,\"priority\":\"low\"\x7d\n" ++
        "\x7b\"ip\":\"10.0.0.5\",\"count\":4,\"timestamp\":5.000101,\"priority\":\"low\"\x7d\n").toList :=
  have hrun := Fifo.run_state_eq_after ex_plugin ex_channels (by decide)
  ⟨by decide, by decide, hrun, by decide,
    (C11_channel_contents { log_open := true, high_fd := 5, low_fd := 6 } ex_channels _
      (by decide) (by decide) hrun (by decide)).1,
    by decide, by decide⟩

/-! ## The classifier call -/

theorem strncat_text (dest src : CStr) (n : ℕ) (h : '\x00' ∉ src) :
    strncat dest src n = dest ++ src.take n := by
  unfold strncat
  rw [List.takeWhile_eq_self_iff.mpr]
  intro x hx
  have hx1 : x ∈ src := List.mem_of_mem_take hx
  simp only [ne_eq, decide_eq_true_eq]
  intro e
  exact h (e ▸ hx1)

theorem curl_deliver_spec (chunks : List CStr) :
    ∀ ud : CStr, ud.length ≤ 255 → (∀ ptr ∈ chunks, '\x00' ∉ ptr) →
      ((curl_deliver chunks ud).2 = true ↔ ud.length + chunks.flatten.length ≤ 255) ∧
      ((curl_deliver chunks ud).2 = true → (curl_deliver chunks ud).1 = ud ++ chunks.flatten) := by
  induction chunks with
  | nil => intro ud h _; simp [curl_deliver]; omega
  | cons ptr rest ih =>
    intro ud h hnul
    have hptr : '\x00' ∉ ptr := hnul ptr (List.mem_cons_self _ _)
    by_cases hfit : ptr.length ≤ 255 - ud.length
    · have hcb : curl_write_cb ud ptr = (ud ++ ptr, ptr.length) := by
        have : ¬ ptr.length > 255 - ud.length := by omega
        simp [curl_write_cb, this, strncat_text _ _ _ hptr]
      have hlen : (ud ++ ptr).length ≤ 255 := by simp; omega
      obtain ⟨i1, i2⟩ := ih (ud ++ ptr) hlen (fun x hx => hnul x (List.mem_cons_of_mem _ hx))
      simp only [curl_deliver, hcb, if_true]
      refine ⟨?_, ?_⟩
      · rw [i1]; simp; omega
      · intro h2; rw [i2 h2]; simp
    · have hcb : (curl_write_cb ud ptr).2 = 255 - ud.length := by
        have : ptr.length > 255 - ud.length := by omega
        simp [curl_write_cb, this]
      have hne : ¬ (curl_write_cb ud ptr).2 = ptr.length := by rw [hcb]; omega
      simp only [curl_deliver, hne, if_false]
      refine ⟨?_, ?_⟩
      · simp; omega
      · intro h2; simp at h2

theorem curl_easy_perform_spec (c : CurlEnv) (hnul : ∀ ptr ∈ c.chunks, '\x00' ∉ ptr) :
    ((curl_easy_perform c).2 = true ↔ c.transfer_ok = true ∧ c.chunks.flatten.length ≤ 255) ∧
    ((curl_easy_perform c).2 = true → (curl_easy_perform c).1 = c.chunks.flatten) := by
  obtain ⟨h1, h2⟩ := curl_deliver_spec c.chunks [] (by simp) hnul
  simp only [List.length_nil, Nat.zero_add, List.nil_append] at h1 h2
  unfold curl_easy_perform
  simp only [Bool.and_eq_true]
  refine ⟨?_, ?_⟩
  · rw [h1]; exact And.comm
  · intro h; exact h2 h.1

theorem get_ex_add_ne (ms : List (CStr × JVal)) (k : CStr) (v : JVal) (key : CStr)
    (h : key ≠ k) :
    json_object_object_get_ex (json_object.object (json_object_object_add ms k v)) key =
      json_object_object_get_ex (json_object.object ms) key := by
  unfold json_object_object_get_ex
  simp only
  congr 1
  induction ms with
  | nil =>
    have : ¬ k = key := fun c => h c.symm
    simp [json_object_object_add, List.find?_cons, this]
  | cons m rest ih =>
    obtain ⟨k0, w⟩ := m
    unfold json_object_object_add
    by_cases hk : k0 = k
    · have h2 : ¬ k = key := fun c => h c.symm
      subst hk
      simp [List.find?_cons, h2]
    · simp only [hk, if_false, List.find?_cons]
      by_cases hkey : k0 = key
      · simp [hkey]
      · simp only [hkey, decide_False]
        exact ih

theorem get_ex_add_eq (ms : List (CStr × JVal)) (k : CStr) (v : JVal) :
    json_object_object_get_ex (json_object.object (json_object_object_add ms k v)) k =
      some v := by
  unfold json_object_object_get_ex
  simp only
  induction ms with
  | nil => simp [json_object_object_add, List.find?_cons]
  | cons m rest ih =>
    obtain ⟨k0, w⟩ := m
    unfold json_object_object_add
    by_cases hk : k0 = k
    · simp [hk, List.find?_cons]
    · simp only [hk, if_false, List.find?_cons, decide_False]
      exact ih

namespace Fifo

theorem call_policy_api_eq (c : CurlEnv) (hnul : ∀ ptr ∈ c.chunks, '\x00' ∉ ptr) :
    call_policy_api c =
      if c.init_ok = true ∧ c.transfer_ok = true ∧ c.chunks.flatten.length ≤ 255 then
        api_result_of (json_tokener_parse c.chunks.flatten)
      else some ApiResult.failed := by
  obtain ⟨h1, h2⟩ := curl_easy_perform_spec c hnul
  unfold call_policy_api
  by_cases hi : c.init_ok = true
  swap
  · simp [hi]
  by_cases hp : (curl_easy_perform c).2 = true
  swap
  · have : ¬ (c.transfer_ok = true ∧ c.chunks.flatten.length ≤ 255) := fun x => hp (h1.mpr x)
    simp only [hi, Bool.not_true, Bool.false_eq_true, if_false, hp, Bool.not_false, if_true,
      true_and, this]
  · have hc := h1.mp hp
    simp only [hi, hp, Bool.not_true, Bool.false_eq_true, if_false, hc, and_self, if_true,
      h2 hp]
    all_goals (unfold api_result_of; rfl)

theorem api_result_ok_iff (r : Option json_object) (a : CStr) (t p : double) :
    api_result_of r = some (ApiResult.ok a t p) ↔
      ∃ r0 ja jt jp s, r = some r0 ∧
        json_object_object_get_ex r0 "action".toList = some ja ∧
        json_object_object_get_ex r0 "trust".toList = some jt ∧
        json_object_object_get_ex r0 "p_value".toList = some jp ∧
        json_object_get_string ja = some s ∧ a = strncpy s 15 ∧
        t = json_object_get_double jt ∧ p = json_object_get_double jp := by
  unfold api_result_of
  cases r with
  | none => simp
  | some r0 =>
    simp only [Option.some.injEq, exists_and_left, exists_eq_left']
    cases ha : json_object_object_get_ex r0 "action".toList with
    | none => simp
    | some ja =>
      cases ht : json_object_object_get_ex r0 "trust".toList with
      | none => simp
      | some jt =>
        cases hp : json_object_object_get_ex r0 "p_value".toList with
        | none => simp
        | some jp =>
          cases hs : json_object_get_string ja with
          | none => simp [hs]
          | some s =>
            simp only [Option.some.injEq, ApiResult.ok.injEq, hs, exists_eq_left']
            constructor
            · rintro ⟨rfl, rfl, rfl⟩
              exact ⟨rfl, rfl, rfl⟩
            · rintro ⟨rfl, rfl, rfl⟩
              exact ⟨rfl, rfl, rfl⟩

theorem get_string_some (v : JVal) (h : v ≠ JVal.null) :
    ∃ s, json_object_get_string v = some s := by
  cases v with
  | null => exact absurd rfl h
  | bool b => exact ⟨_, rfl⟩
  | int n => exact ⟨_, rfl⟩
  | dbl x => exact ⟨_, rfl⟩
  | str s => exact ⟨_, rfl⟩
  | nested t => exact ⟨_, rfl⟩

/-- With an `action` that is not JSON `null` the result is -1 exactly when the body does
not parse or one of the three fields is missing, and a success otherwise. -/
theorem api_result_failed_iff (r : Option json_object)
    (hact : r.bind (fun r0 => json_object_object_get_ex r0 "action".toList) ≠
      some JVal.null) :
    (api_result_of r = some ApiResult.failed ↔
      ¬ ∃ r0 ja jt jp, r = some r0 ∧
        json_object_object_get_ex r0 "action".toList = some ja ∧
        json_object_object_get_ex r0 "trust".toList = some jt ∧
        json_object_object_get_ex r0 "p_value".toList = some jp) ∧
    ((∃ a t p, api_result_of r = some (ApiResult.ok a t p)) ↔
      ∃ r0 ja jt jp, r = some r0 ∧
        json_object_object_get_ex r0 "action".toList = some ja ∧
        json_object_object_get_ex r0 "trust".toList = some jt ∧
        json_object_object_get_ex r0 "p_value".toList = some jp) := by
  unfold api_result_of
  cases r with
  | none => simp
  | some r0 =>
    simp only [Option.some.injEq, exists_and_left, exists_eq_left']
    have hact0 : json_object_object_get_ex r0 "action".toList ≠ some JVal.null := hact
    cases ha : json_object_object_get_ex r0 "action".toList with
    | none => simp
    | some ja =>
      cases ht : json_object_object_get_ex r0 "trust".toList with
      | none => simp
      | some jt =>
        cases hp : json_object_object_get_ex r0 "p_value".toList with
        | none => simp
        | some jp =>
          have hja : ja ≠ JVal.null := by
            intro e
            rw [ha, e] at hact0
            exact hact0 rfl
          obtain ⟨s, hs⟩ := get_string_some ja hja
          simp [hs]

theorem api_result_add (ms : List (CStr × JVal)) (k : CStr) (v : JVal)
    (h1 : k ≠ "action".toList) (h2 : k ≠ "trust".toList) (h3 : k ≠ "p_value".toList) :
    api_result_of (some (json_object.object (json_object_object_add ms k v))) =
      api_result_of (some (json_object.object ms)) := by
  unfold api_result_of
  simp only
  rw [get_ex_add_ne ms k v _ (Ne.symm h1), get_ex_add_ne ms k v _ (Ne.symm h2),
    get_ex_add_ne ms k v _ (Ne.symm h3)]

end Fifo

set_option maxRecDepth 100000 in
/-- C12, as stated, fails. The response buffer holds 255 bytes: a body with the three
fields and a `note` field that brings it to 256 bytes makes the write callback return a
short count, the transfer ends with an error and `call_policy_api` returns -1, while the
same three fields with a shorter `note`, or none, are accepted. The action returned is
not the `action` field but its first 15 characters. A NUL byte in the response is not
copied by `strncat`: a body that is no JSON text because of one is accepted. -/
theorem C12_counterexample :
    (ex_curl_note 202).chunks.flatten.length = 256 ∧
    Fifo.call_policy_api (ex_curl_note 202) = some Fifo.ApiResult.failed ∧
    Fifo.call_policy_api (ex_curl_note 201) =
      some (Fifo.ApiResult.ok "high".toList 500000 250000) ∧
    Fifo.call_policy_api (ex_curl "high".toList) =
      some (Fifo.ApiResult.ok "high".toList 500000 250000) ∧
    Fifo.call_policy_api (ex_curl "high-priority-level-one".toList) =
      some (Fifo.ApiResult.ok "high-priority-l".toList 500000 250000) ∧
    json_tokener_parse ex_curl_nul.chunks.flatten = none ∧
    Fifo.call_policy_api ex_curl_nul =
      some (Fifo.ApiResult.ok "high".toList 500000 250000) := by
  decide

/-- C12 (amended): for a response without NUL bytes whose `action` field is not JSON
`null`, `call_policy_api` of the dual-FIFO plugin returns 0 exactly when `curl_easy_init`
and the transfer succeed, the response body has at most 255 bytes, it parses as JSON and
the value parsed has the three fields `action`, `trust` and `p_value`; it returns -1
exactly when one of these conditions fails. On success the action returned is the string
of the `action` field cut to 15 characters, and trust and p_value are what
`json_object_get_double` makes of the other two fields. A field added to a response
object under another key does not change the result as long as the body still has at
most 255 bytes. -/
theorem C12_policy_api_result (c : CurlEnv) (hnul : ∀ ptr ∈ c.chunks, '\x00' ∉ ptr)
    (hact : (json_tokener_parse c.chunks.flatten).bind
        (fun r => json_object_object_get_ex r "action".toList) ≠ some JVal.null) :
    ((∃ a t p, Fifo.call_policy_api c = some (Fifo.ApiResult.ok a t p)) ↔
      (c.init_ok = true ∧ c.transfer_ok = true ∧ c.chunks.flatten.length ≤ 255) ∧
        ∃ r ja jt jp, json_tokener_parse c.chunks.flatten = some r ∧
          json_object_object_get_ex r "action".toList = some ja ∧
          json_object_object_get_ex r "trust".toList = some jt ∧
          json_object_object_get_ex r "p_value".toList = some jp) ∧
    (Fifo.call_policy_api c = some Fifo.ApiResult.failed ↔
      ¬ ((c.init_ok = true ∧ c.transfer_ok = true ∧ c.chunks.flatten.length ≤ 255) ∧
        ∃ r ja jt jp, json_tokener_parse c.chunks.flatten = some r ∧
          json_object_object_get_ex r "action".toList = some ja ∧
          json_object_object_get_ex r "trust".toList = some jt ∧
          json_object_object_get_ex r "p_value".toList = some jp)) ∧
    (∀ (a : CStr) (t p : double),
      Fifo.call_policy_api c = some (Fifo.ApiResult.ok a t p) ↔
        (c.init_ok = true ∧ c.transfer_ok = true ∧ c.chunks.flatten.length ≤ 255) ∧
          ∃ r ja jt jp s, json_tokener_parse c.chunks.flatten = some r ∧
            json_object_object_get_ex r "action".toList = some ja ∧
            json_object_object_get_ex r "trust".toList = some jt ∧
            json_object_object_get_ex r "p_value".toList = some jp ∧
            json_object_get_string ja = some s ∧ a = strncpy s 15 ∧
            t = json_object_get_double jt ∧ p = json_object_get_double jp) ∧
    (∀ (c1 : CurlEnv) (ms : List (CStr × JVal)) (k : CStr) (v : JVal),
      (∀ ptr ∈ c1.chunks, '\x00' ∉ ptr) →
      c1.init_ok = c.init_ok → c1.transfer_ok = c.transfer_ok →
      c.chunks.flatten.length ≤ 255 → c1.chunks.flatten.length ≤ 255 →
      json_tokener_parse c.chunks.flatten = some (json_object.object ms) →
      json_tokener_parse c1.chunks.flatten =
        some (json_object.object (json_object_object_add ms k v)) →
      k ≠ "action".toList → k ≠ "trust".toList → k ≠ "p_value".toList →
      Fifo.call_policy_api c1 = Fifo.call_policy_api c) := by
  obtain ⟨f1, f2⟩ := Fifo.api_result_failed_iff (json_tokener_parse c.chunks.flatten) hact
  refine ⟨?_, ?_, ?_, ?_⟩
  · rw [Fifo.call_policy_api_eq c hnul]
    by_cases h : c.init_ok = true ∧ c.transfer_ok = true ∧ c.chunks.flatten.length ≤ 255
    · rw [if_pos h, f2]
      exact ⟨fun x => ⟨h, x⟩, fun x => x.2⟩
    · rw [if_neg h]
      constructor
      · rintro ⟨a, t, p, h1⟩
        simp at h1
      · rintro ⟨h1, _⟩
        exact absurd h1 h
  · rw [Fifo.call_policy_api_eq c hnul]
    by_cases h : c.init_ok = true ∧ c.transfer_ok = true ∧ c.chunks.flatten.length ≤ 255
    · rw [if_pos h, f1]
      exact ⟨fun x y => x y.2, fun x y => x ⟨h, y⟩⟩
    · rw [if_neg h]
      exact ⟨fun _ y => h y.1, fun _ => rfl⟩
  · intro a t p
    rw [Fifo.call_policy_api_eq c hnul]
    by_cases h : c.init_ok = true ∧ c.transfer_ok = true ∧ c.chunks.flatten.length ≤ 255
    · rw [if_pos h, Fifo.api_result_ok_iff]
      constructor
      · rintro ⟨r0, ja, jt, jp, s, h1, rest⟩
        exact ⟨h, r0, ja, jt, jp, s, h1, rest⟩
      · rintro ⟨_, r0, ja, jt, jp, s, h1, rest⟩
        exact ⟨r0, ja, jt, jp, s, h1, rest⟩
    · rw [if_neg h]
      constructor
      · intro h1; simp at h1
      · rintro ⟨h1, _⟩; exact absurd h1 h
  · intro c1 ms k v hnul1 hi ht hl hl1 hp hp1 k1 k2 k3
    rw [Fifo.call_policy_api_eq c1 hnul1, Fifo.call_policy_api_eq c hnul, hi, ht, hp, hp1,
      Fifo.api_result_add ms k v k1 k2 k3]
    simp only [hl, hl1, and_true]

set_option maxRecDepth 100000 in
/-- C12, witness: the response with the three fields is a success with action "high",
trust 0.5 and p_value 0.25, and the response with the additional field `note` (three
characters) gives the same result. -/
theorem C12_policy_api_result_witness :
    (∀ ptr ∈ (ex_curl "high".toList).chunks, '\x00' ∉ ptr) ∧
    (json_tokener_parse (ex_curl "high".toList).chunks.flatten).bind
        (fun r => json_object_object_get_ex r "action".toList) ≠ some JVal.null ∧
    (∀ ptr ∈ (ex_curl_note 3).chunks, '\x00' ∉ ptr) ∧
    (ex_curl "high".toList).chunks.flatten.length ≤ 255 ∧
    (ex_curl_note 3).chunks.flatten.length ≤ 255 ∧
    json_tokener_parse (ex_curl "high".toList).chunks.flatten =
      some (json_object.object
        [("action".toList, JVal.str "high".toList), ("trust".toList, JVal.dbl 500000),
          ("p_value".toList, JVal.dbl 250000)]) ∧
    json_tokener_parse (ex_curl_note 3).chunks.flatten =
      some (json_object.object (json_object_object_add
        [("action".toList, JVal.str "high".toList), ("trust".toList, JVal.dbl 500000),
          ("p_value".toList, JVal.dbl 250000)] "note".toList (JVal.str "xxx".toList))) ∧
    Fifo.call_policy_api (ex_curl_note 3) = Fifo.call_policy_api (ex_curl "high".toList) ∧
    Fifo.call_policy_api (ex_curl "high".toList) ≠ some Fifo.ApiResult.failed ∧
    Fifo.call_policy_api (ex_curl "high".toList) =
      some (Fifo.ApiResult.ok "high".toList 500000 250000) :=
  have h := C12_policy_api_result (ex_curl "high".toList) (by decide) (by decide)
  ⟨by decide, by decide, by decide, by decide, by decide, by decide, by decide,
    h.2.2.2 (ex_curl_note 3)
      [("action".toList, JVal.str "high".toList), ("trust".toList, JVal.dbl 500000),
        ("p_value".toList, JVal.dbl 250000)] "note".toList
      (JVal.str "xxx".toList) (by decide) rfl rfl (by decide) (by decide) (by decide) (by decide)
      (by decide) (by decide) (by decide),
    fun hf => h.2.1.mp hf ⟨by decide,
      json_object.object
        [("action".toList, JVal.str "high".toList), ("trust".toList, JVal.dbl 500000),
          ("p_value".toList, JVal.dbl 250000)],
      JVal.str "high".toList, JVal.dbl 500000, JVal.dbl 250000,
      by decide, by decide, by decide, by decide⟩,
    by decide⟩

/-! ## The published payload -/

theorem augment_fields (ms : List (CStr × JVal)) (ts : double) :
    json_object_object_get_ex (json_object.object (augment ms ts)) "forwarder_ip".toList =
      some (JVal.str "192.168.100.2".toList) ∧
    json_object_object_get_ex (json_object.object (augment ms ts)) "forward_timestamp".toList =
      some (JVal.dbl ts) ∧
    ∀ key, key ≠ "forwarder_ip".toList → key ≠ "forward_timestamp".toList →
      json_object_object_get_ex (json_object.object (augment ms ts)) key =
        json_object_object_get_ex (json_object.object ms) key := by
  unfold augment
  refine ⟨?_, get_ex_add_eq _ _ _, ?_⟩
  · rw [get_ex_add_ne _ _ _ _ (by decide), get_ex_add_eq]
  · intro key h1 h2
    rw [get_ex_add_ne _ _ _ _ h2, get_ex_add_ne _ _ _ _ h1]

namespace PqForwarder

theorem process_message_payload (s : State) (line priority : CStr) (env : PubEnv)
    (hl : line ≠ []) :
    (payload_of line env.start_forward_ts = none →
      process_message s line priority env = none) ∧
    (∀ pl, payload_of line env.start_forward_ts = some pl →
      ∃ s1 r, process_message s line priority env = some (s1, r) ∧
        s1.published = s.published ++ [{ payload := pl, priority := priority, rc := env.rc }] ∧
        s1.high_file = s.high_file ∧ s1.low_file = s.low_file) := by
  unfold process_message payload_of
  simp only [hl, if_false]
  cases hj : json_tokener_parse line with
  | none =>
    simp only [reduceCtorEq, false_implies, Option.some.injEq, true_and]
    intro pl hpl
    subst hpl
    refine ⟨_, _, rfl, ?_, ?_, ?_⟩ <;> split_ifs <;> simp
  | some j =>
    cases j with
    | object ms =>
      simp only [reduceCtorEq, false_implies, Option.some.injEq, true_and]
      intro pl hpl
      subst hpl
      refine ⟨_, _, rfl, ?_, ?_, ?_⟩ <;> split_ifs <;> simp
    | value v => simp

end PqForwarder

namespace PahoForwarder

theorem forward_line_payload (s : State) (buf : CStr) (env : IterEnv) :
    (payload_of buf env.start_forward_ts = none → forward_line s buf env = none) ∧
    (∀ pl, payload_of buf env.start_forward_ts = some pl →
      ∃ s1, forward_line s buf env = some s1 ∧
        s1.published = s.published ++ [{ payload := pl, rc := env.rc }]) := by
  unfold forward_line payload_of
  cases hj : json_tokener_parse buf with
  | none => simp
  | some j =>
    cases j with
    | object ms => simp
    | value v => simp

end PahoForwarder

/-- C13, as stated, fails: a line that does not parse as JSON is published as it is,
without `forwarder_ip` and `forward_timestamp`, by both forwarders; and a field
`forwarder_ip` of the original message does not keep its value. -/
theorem C13_counterexample :
    (PqForwarder.main_loop [ex_cycle 0 0]
        (PqForwarder.main_start "hello\n".toList [])).1.published =
      [{ payload := Payload.raw "hello".toList, priority := "HIGH".toList, rc := 0 }] ∧
    (PahoForwarder.main_loop [ex_iter 0]
        (PahoForwarder.main_start "hello\n".toList)).1.published =
      [{ payload := Payload.raw "hello".toList, rc := 0 }] ∧
    (PqForwarder.main_loop [ex_cycle 0 0]
        (PqForwarder.main_start
          "\x7b\"ip\":\"10.0.0.5\",\"forwarder_ip\":\"10.9.9.9\"\x7d\n".toList [])).1.published =
      [{ payload := Payload.json
          [("ip".toList, JVal.str "10.0.0.5".toList),
            ("forwarder_ip".toList, JVal.str "192.168.100.2".toList),
            ("forward_timestamp".toList, JVal.dbl 7000001)],
         priority := "HIGH".toList, rc := 0 }] := by
  decide

/-- C13 (amended): for every non-empty line that parses as a JSON object, both
forwarders publish that object with the two fields `forwarder_ip` ("192.168.100.2") and
`forward_timestamp` (the time the forward started) set, and every field of the original
message under another key is kept with its value; a non-empty line that does not parse
as JSON is published unchanged, without the two fields. -/
theorem C13_payload_augmented (line : CStr) (hl : line ≠ []) :
    (∀ ms, json_tokener_parse line = some (json_object.object ms) →
      (∀ (s : PqForwarder.State) (priority : CStr) (env : PqForwarder.PubEnv),
        ∃ s1 r, PqForwarder.process_message s line priority env = some (s1, r) ∧
          s1.published = s.published ++
            [{ payload := Payload.json (augment ms env.start_forward_ts),
               priority := priority, rc := env.rc }]) ∧
      (∀ (s : PahoForwarder.State) (env : PahoForwarder.IterEnv),
        ∃ s1, PahoForwarder.forward_line s line env = some s1 ∧
          s1.published = s.published ++
            [{ payload := Payload.json (augment ms env.start_forward_ts), rc := env.rc }]) ∧
      ∀ ts : double,
        json_object_object_get_ex (json_object.object (augment ms ts)) "forwarder_ip".toList =
          some (JVal.str "192.168.100.2".toList) ∧
        json_object_object_get_ex (json_object.object (augment ms ts))
          "forward_timestamp".toList = some (JVal.dbl ts) ∧
        ∀ key v, key ≠ "forwarder_ip".toList → key ≠ "forward_timestamp".toList →
          json_object_object_get_ex (json_object.object ms) key = some v →
          json_object_object_get_ex (json_object.object (augment ms ts)) key = some v) ∧
    (json_tokener_parse line = none →
      (∀ (s : PqForwarder.State) (priority : CStr) (env : PqForwarder.PubEnv),
        ∃ s1 r, PqForwarder.process_message s line priority env = some (s1, r) ∧
          s1.published = s.published ++
            [{ payload := Payload.raw line, priority := priority, rc := env.rc }]) ∧
      (∀ (s : PahoForwarder.State) (env : PahoForwarder.IterEnv),
        ∃ s1, PahoForwarder.forward_line s line env = some s1 ∧
          s1.published = s.published ++ [{ payload := Payload.raw line, rc := env.rc }])) := by
  refine ⟨?_, ?_⟩
  · intro ms hp
    have hpl : ∀ ts, payload_of line ts = some (Payload.json (augment ms ts)) := by
      intro ts; simp [payload_of, hp]
    refine ⟨?_, ?_, ?_⟩
    · intro s priority env
      obtain ⟨s1, r, h1, h2, _⟩ :=
        (PqForwarder.process_message_payload s line priority env hl).2 _ (hpl _)
      exact ⟨s1, r, h1, h2⟩
    · intro s env
      exact (PahoForwarder.forward_line_payload s line env).2 _ (hpl _)
    · intro ts
      obtain ⟨a1, a2, a3⟩ := augment_fields ms ts
      exact ⟨a1, a2, fun key v h1 h2 h3 => by rw [a3 key h1 h2]; exact h3⟩
  · intro hp
    have hpl : ∀ ts, payload_of line ts = some (Payload.raw line) := by
      intro ts; simp [payload_of, hp]
    refine ⟨?_, ?_⟩
    · intro s priority env
      obtain ⟨s1, r, h1, h2, _⟩ :=
        (PqForwarder.process_message_payload s line priority env hl).2 _ (hpl _)
      exact ⟨s1, r, h1, h2⟩
    · intro s env
      exact (PahoForwarder.forward_line_payload s line env).2 _ (hpl _)

set_option maxRecDepth 100000 in
/-- C13, witness: the line the router writes for the first record of 10.0.0.5 with
priority "high" parses as an object of four fields; the payload published for it keeps
the field `count` and carries `forwarder_ip`. -/
theorem C13_payload_augmented_witness :
    strip_newline (Fifo.fifo_line "10.0.0.5".toList 1 1500000 "high".toList) ≠ [] ∧
    json_tokener_parse (strip_newline
        (Fifo.fifo_line "10.0.0.5".toList 1 1500000 "high".toList)) =
      some (json_object.object
        [("ip".toList, JVal.str "10.0.0.5".toList), ("count".toList, JVal.int 1),
          ("timestamp".toList, JVal.dbl 1500000),
          ("priority".toList, JVal.str "high".toList)]) ∧
    json_object_object_get_ex
        (json_object.object
          [("ip".toList, JVal.str "10.0.0.5".toList), ("count".toList, JVal.int 1),
            ("timestamp".toList, JVal.dbl 1500000),
            ("priority".toList, JVal.str "high".toList)])
        "count".toList = some (JVal.int 1) ∧
    json_object_object_get_ex
        (json_object.object (augment
          [("ip".toList, JVal.str "10.0.0.5".toList), ("count".toList, JVal.int 1),
            ("timestamp".toList, JVal.dbl 1500000),
            ("priority".toList, JVal.str "high".toList)] 7000001))
        "count".toList = some (JVal.int 1) ∧
    json_object_object_get_ex
        (json_object.object (augment
          [("ip".toList, JVal.str "10.0.0.5".toList), ("count".toList, JVal.int 1),
            ("timestamp".toList, JVal.dbl 1500000),
            ("priority".toList, JVal.str "high".toList)] 7000001))
        "forwarder_ip".toList = some (JVal.str "192.168.100.2".toList) :=
  have h := ((C13_payload_augmented
    (strip_newline (Fifo.fifo_line "10.0.0.5".toList 1 1500000 "high".toList))
    (by decide)).1 _ (by decide)).2.2 7000001
  ⟨by decide, by decide, by decide,
    h.2.2 "count".toList (JVal.int 1) (by decide) (by decide) (by decide), h.1⟩
/-! ## The rows of the log -/

/-- The numbers printed in a row hold neither a comma nor a newline. -/
theorem digit_char_ne_sep (c : Char) (hc : c = ',' ∨ c = '\n') (d : ℕ) (h : d < 10) :
    digit_char d ≠ c := by
  rcases hc with rfl | rfl <;> interval_cases d <;> decide

theorem fmt_digits_no_sep (c : Char) (hc : c = ',' ∨ c = '\n') (fuel : ℕ) :
    ∀ (n : ℕ) (acc : CStr), c ∉ acc → c ∉ fmt_digits fuel n acc := by
  induction fuel with
  | zero => intro n acc h; simpa [fmt_digits] using h
  | succ fuel ih =>
    intro n acc h
    unfold fmt_digits
    split_ifs with hn
    · intro hm
      rcases List.mem_cons.mp hm with hm | hm
      · exact digit_char_ne_sep c hc n hn hm.symm
      · exact h hm
    · apply ih
      intro hm
      rcases List.mem_cons.mp hm with hm | hm
      · exact digit_char_ne_sep c hc (n % 10) (Nat.mod_lt _ (by norm_num)) hm.symm
      · exact h hm

theorem fmt_fixed_width_no_sep (c : Char) (hc : c = ',' ∨ c = '\n') (w : ℕ) :
    ∀ (n : ℕ) (acc : CStr), c ∉ acc → c ∉ fmt_fixed_width w n acc := by
  induction w with
  | zero => intro n acc h; simpa [fmt_fixed_width] using h
  | succ w ih =>
    intro n acc h
    unfold fmt_fixed_width
    apply ih
    intro hm
    rcases List.mem_cons.mp hm with hm | hm
    · exact digit_char_ne_sep c hc (n % 10) (Nat.mod_lt _ (by norm_num)) hm.symm
    · exact h hm

theorem fmt_llu_no_sep (c : Char) (hc : c = ',' ∨ c = '\n') (n : ℕ) : c ∉ fmt_llu n :=
  fmt_digits_no_sep c hc _ _ [] (by simp)

theorem sign_no_sep (c : Char) (hc : c = ',' ∨ c = '\n') (x : double) :
    c ∉ (if x < 0 then ['-'] else []) := by
  rcases hc with rfl | rfl <;> split_ifs <;> simp

theorem dot_ne_sep (c : Char) (hc : c = ',' ∨ c = '\n') : c ≠ '.' := by
  rcases hc with rfl | rfl <;> decide

theorem fmt_f6_no_sep (c : Char) (hc : c = ',' ∨ c = '\n') (x : double) : c ∉ fmt_f6 x := by
  unfold fmt_f6
  intro h
  rcases List.mem_append.mp h with h | h
  · rcases List.mem_append.mp h with h | h
    · exact sign_no_sep c hc x h
    · exact fmt_digits_no_sep c hc _ _ [] (by simp) h
  · rcases List.mem_cons.mp h with h | h
    · exact dot_ne_sep c hc h
    · exact fmt_fixed_width_no_sep c hc _ _ [] (by simp) h

theorem fmt_f4_no_sep (c : Char) (hc : c = ',' ∨ c = '\n') (x : double) : c ∉ fmt_f4 x := by
  unfold fmt_f4
  intro h
  rcases List.mem_append.mp h with h | h
  · rcases List.mem_append.mp h with h | h
    · exact sign_no_sep c hc x h
    · exact fmt_digits_no_sep c hc _ _ [] (by simp) h
  · rcases List.mem_cons.mp h with h | h
    · exact dot_ne_sep c hc h
    · exact fmt_fixed_width_no_sep c hc _ _ [] (by simp) h

theorem fmt_f3_no_sep (c : Char) (hc : c = ',' ∨ c = '\n') (x : double) : c ∉ fmt_f3 x := by
  unfold fmt_f3
  intro h
  rcases List.mem_append.mp h with h | h
  · rcases List.mem_append.mp h with h | h
    · exact sign_no_sep c hc x h
    · exact fmt_digits_no_sep c hc _ _ [] (by simp) h
  · rcases List.mem_cons.mp h with h | h
    · exact dot_ne_sep c hc h
    · exact fmt_fixed_width_no_sep c hc _ _ [] (by simp) h

theorem splitOn_length {α : Type} [DecidableEq α] (a : α) (l : List α) :
    (l.splitOn a).length = l.count a + 1 := by
  induction l with
  | nil => simp [List.splitOn]
  | cons x xs ih =>
    simp only [List.splitOn] at ih ⊢
    rw [List.splitOnP_cons]
    by_cases h : x = a
    · subst h
      simp [ih]
    · have h1 : (x == a) = false := by simpa using h
      simp [h1, ih, List.count_cons, h]

namespace Fifo

theorem csv_row_columns (r : CSVRecord) :
    csv_row r = List.intercalate [','] (csv_columns r) ++ ['\n'] ∧
      (csv_columns r).length = 15 := by
  refine ⟨?_, rfl⟩
  simp [csv_row, csv_columns, List.intercalate, List.intersperse]

set_option maxRecDepth 100000 in
theorem csv_header_columns :
    csv_header = List.intercalate [','] csv_column_names ++ ['\n'] ∧
      csv_column_names.length = 15 := by
  decide

theorem row_columns_count (row : CStr) :
    (row_columns (row ++ ['\n'])).length = row.count ',' + 1 := by
  unfold row_columns
  rw [List.dropLast_concat]
  exact splitOn_length ',' row

theorem csv_row_count (c : Char) (hc : c = ',' ∨ c = '\n') (r : CSVRecord) :
    (csv_row r).count c =
      14 * List.count c [','] + List.count c ['\n'] + r.ip.count c + r.action.count c := by
  have c1 := List.count_eq_zero_of_not_mem (fmt_llu_no_sep c hc r.packet_count)
  have c2 := List.count_eq_zero_of_not_mem (fmt_f6_no_sep c hc r.recv_ts)
  have c3 := List.count_eq_zero_of_not_mem (fmt_f6_no_sep c hc r.service_start_ts)
  have c4 := List.count_eq_zero_of_not_mem (fmt_f6_no_sep c hc r.api_start_ts)
  have c5 := List.count_eq_zero_of_not_mem (fmt_f6_no_sep c hc r.api_end_ts)
  have c6 := List.count_eq_zero_of_not_mem (fmt_f6_no_sep c hc r.service_end_ts)
  have c8 := List.count_eq_zero_of_not_mem (fmt_f6_no_sep c hc r.delta)
  have c9 := List.count_eq_zero_of_not_mem (fmt_f4_no_sep c hc r.p_value)
  have c10 := List.count_eq_zero_of_not_mem (fmt_f3_no_sep c hc r.trust)
  have c13 := List.count_eq_zero_of_not_mem (fmt_f3_no_sep c hc r.actual_api_time_ms)
  have c14 := List.count_eq_zero_of_not_mem (fmt_f3_no_sep c hc r.wait_time_ms)
  have c15 := List.count_eq_zero_of_not_mem (fmt_f3_no_sep c hc r.total_service_time_ms)
  unfold csv_row
  simp only [List.count_append, c1, c2, c3, c4, c5, c6, c8, c9, c10, c13, c14, c15]
  omega

/-- The commas of a row: the 14 of the format and those of the two strings. -/
theorem csv_row_commas_count (r : CSVRecord) :
    (csv_row r).count ',' = 14 + r.ip.count ',' + r.action.count ',' := by
  rw [csv_row_count ',' (Or.inl rfl) r]
  have e1 : List.count ',' [','] = 1 := by decide
  have e2 : List.count ',' ['\n'] = 0 := by decide
  omega

/-- The newlines of a row: the one of the format and those of the two strings. -/
theorem csv_row_newlines_count (r : CSVRecord) :
    (csv_row r).count '\n' = 1 + r.ip.count '\n' + r.action.count '\n' := by
  rw [csv_row_count '\n' (Or.inr rfl) r]
  have e1 : List.count '\n' [','] = 0 := by decide
  have e2 : List.count '\n' ['\n'] = 1 := by decide
  omega

theorem csv_row_column_count (r : CSVRecord) :
    (row_columns (csv_row r)).length = 15 + r.ip.count ',' + r.action.count ',' := by
  have h := csv_row_commas_count r
  rw [(csv_row_columns r).1] at h ⊢
  rw [row_columns_count]
  simp only [List.count_append] at h
  have e2 : List.count ',' ['\n'] = 0 := by decide
  omega

theorem csv_row_split (r : CSVRecord) (hip : ',' ∉ r.ip) (hact : ',' ∉ r.action) :
    row_columns (csv_row r) = csv_columns r := by
  rw [(csv_row_columns r).1]
  unfold row_columns
  rw [List.dropLast_concat]
  apply List.splitOn_intercalate
  · intro l hl
    simp only [csv_columns, List.mem_cons, List.mem_singleton, List.not_mem_nil, or_false]
      at hl
    rcases hl with h | h | h | h | h | h | h | h | h | h | h | h | h | h | h <;> subst h
    · exact fmt_llu_no_sep _ (Or.inl rfl) _
    · exact fmt_f6_no_sep _ (Or.inl rfl) _
    · exact fmt_f6_no_sep _ (Or.inl rfl) _
    · exact fmt_f6_no_sep _ (Or.inl rfl) _
    · exact fmt_f6_no_sep _ (Or.inl rfl) _
    · exact fmt_f6_no_sep _ (Or.inl rfl) _
    · exact hip
    · exact fmt_f6_no_sep _ (Or.inl rfl) _
    · exact fmt_f4_no_sep _ (Or.inl rfl) _
    · exact fmt_f3_no_sep _ (Or.inl rfl) _
    · exact fmt_llu_no_sep _ (Or.inl rfl) _
    · exact hact
    · exact fmt_f3_no_sep _ (Or.inl rfl) _
    · exact fmt_f3_no_sep _ (Or.inl rfl) _
    · exact fmt_f3_no_sep _ (Or.inl rfl) _
  · simp [csv_columns]

set_option maxRecDepth 100000 in
theorem csv_header_split : row_columns csv_header = csv_column_names := by
  decide

end Fifo

namespace Fifo

theorem log_fifo_write (g : Globals) (high : Bool) (buffer : CStr) (w : WriteEnv) :
    (fifo_write g high buffer w).log_file = g.log_file ∧
      (fifo_write g high buffer w).log_rows = g.log_rows := by
  unfold fifo_write
  cases high <;> simp only [pipe_append, set_fifo_fd] <;> split_ifs <;> exact ⟨rfl, rfl⟩

theorem log_route (g : Globals) (action : CStr) (d : ReceiveNode) (ts : double)
    (w : WriteEnv) :
    (route g action d ts w).log_file = g.log_file ∧
      (route g action d ts w).log_rows = g.log_rows := by
  unfold route write_to_fifo
  split_ifs <;> first | exact ⟨rfl, rfl⟩ | exact log_fifo_write _ _ _ _

theorem log_enqueue_csv {g g1 : Globals} {alloc : Bool} {r : CSVRecord}
    (h : enqueue_csv_record g alloc r = some g1) :
    g1.log_file = g.log_file ∧ g1.log_rows = g.log_rows := by
  unfold enqueue_csv_record at h
  split_ifs at h
  · simp only [Option.some.injEq] at h; subst h; exact ⟨rfl, rfl⟩
  · split at h
    · exact absurd h (by simp)
    · simp only [Option.some.injEq] at h; subst h; exact ⟨rfl, rfl⟩

theorem log_cleanup {g g1 : Globals} {now : double}
    (h : cleanup_old_receive_nodes g now = some g1) :
    g1.log_file = g.log_file ∧ g1.log_rows = g.log_rows := by
  unfold cleanup_old_receive_nodes at h
  split_ifs at h
  · simp only [Option.some.injEq] at h; subst h; exact ⟨rfl, rfl⟩
  · split at h
    · exact absurd h (by simp)
    · simp only [Option.some.injEq] at h; subst h; exact ⟨rfl, rfl⟩

theorem log_processor {g g1 : Globals} {env : ProcEnv} {op : Option Processed}
    (h : processor_thread_fn g env = some (g1, op)) :
    g1.log_file = g.log_file ∧ g1.log_rows = g.log_rows := by
  unfold processor_thread_fn at h
  split at h
  · exact absurd h (by simp)
  · simp only [Option.some.injEq, Prod.mk.injEq] at h
    obtain ⟨rfl, _⟩ := h
    exact ⟨rfl, rfl⟩
  · simp only at h
    split at h
    · exact absurd h (by simp)
    · split at h
      · exact absurd h (by simp)
      · rename_i g3 hcsv
        obtain ⟨e1, e2⟩ := log_enqueue_csv hcsv
        obtain ⟨r1, r2⟩ := log_route
          { g with receive_current_pos := ‹ℕ›,
                   ip_table := (match HASH_FIND_STR g.ip_table (‹ReceiveNode›).ip with
                     | some _ => ip_entry_assign (‹ReceiveNode›).ip
                         (fun e => { e with last_time := (‹ReceiveNode›).recv_ts }) g.ip_table
                     | none => g.ip_table) }
          (match ‹ApiResult› with
            | ApiResult.ok a _ _ => a
            | ApiResult.failed => "low".toList)
          ‹ReceiveNode› env.service_end_ts env.write
        split at h
        · split at h
          · exact absurd h (by simp)
          · rename_i g5 hcl
            obtain ⟨k1, k2⟩ := log_cleanup hcl
            simp only [Option.some.injEq, Prod.mk.injEq] at h
            obtain ⟨rfl, _⟩ := h
            rw [k1, k2]
            simp only
            rw [e1, e2]
            exact ⟨r1, r2⟩
        · simp only [Option.some.injEq, Prod.mk.injEq] at h
          obtain ⟨rfl, _⟩ := h
          simp only
          rw [e1, e2]
          exact ⟨r1, r2⟩

theorem log_run (evs : List Event) :
    ∀ g g1 : Globals, run_state g evs = some g1 →
      g1.log_file = g.log_file ∧ g1.log_rows = g.log_rows := by
  induction evs with
  | nil =>
    intro g g1 h
    simp only [run_state, Option.some.injEq] at h
    subst h
    exact ⟨rfl, rfl⟩
  | cons ev evs ih =>
    intro g g2 h
    cases hstep : step g ev with
    | none => simp [run_state, hstep] at h
    | some res =>
      obtain ⟨g1, o⟩ := res
      simp only [run_state, hstep] at h
      obtain ⟨i1, i2⟩ := ih g1 g2 h
      have hf : g1.log_file = g.log_file ∧ g1.log_rows = g.log_rows := by
        cases ev with
        | message m =>
          simp only [step, Option.map_eq_some', Prod.mk.injEq] at hstep
          obtain ⟨⟨ga, r⟩, hcb, hg, _⟩ := hstep
          simp only at hg
          subst hg
          exact ⟨(hook_io hcb).2.2.2.2.1, (hook_io hcb).2.2.2.2.2⟩
        | process env =>
          simp only [step, Option.map_eq_some', Prod.mk.injEq] at hstep
          obtain ⟨⟨ga, op⟩, hcb, hg, _⟩ := hstep
          simp only at hg
          subst hg
          exact log_processor hcb
        | sweep now =>
          simp only [step, Option.map_eq_some', Prod.mk.injEq] at hstep
          obtain ⟨ga, hcb, hg, _⟩ := hstep
          subst hg
          exact log_cleanup hcb
      exact ⟨i1.trans hf.1, i2.trans hf.2⟩

theorem writer_run_spec (k : ℕ) :
    ∀ (g : Globals) (pos : ℕ) (cells todo : List (ℕ × CSVRecord)),
      QueueInv g.csv_queue cells → CursorAt pos cells todo →
      ∃ g1 pos1, csv_writer_run k g pos = some (g1, pos1) ∧
        g1.log_rows = g.log_rows ++
          (if g.log_file then (todo.take k).map (fun c => csv_row c.2) else []) ∧
        g1.csv_queue = g.csv_queue ∧ g1.log_file = g.log_file := by
  induction k with
  | zero => intro g pos cells todo _ _; exact ⟨g, pos, rfl, by simp, rfl, rfl⟩
  | succ k ih =>
    intro g pos cells todo hq hc
    have hadv : g.csv_queue.advance pos = some (first_or todo pos, todo.head?.map Prod.snd) := by
      rcases hc with ⟨h1, h2⟩ | ⟨pre, x, h2⟩
      · subst h1 h2; exact hq.advance_start
      · subst h2; exact hq.advance_at
    cases todo with
    | nil =>
      have hs : csv_writer_thread_fn g pos = some (g, pos) := by
        unfold csv_writer_thread_fn
        rw [hadv]
        rfl
      obtain ⟨g1, pos1, h1, h2, h3, h4⟩ := ih g pos cells [] hq hc
      refine ⟨g1, pos1, ?_, ?_, h3, h4⟩
      · simp only [csv_writer_run, hs]; exact h1
      · rw [h2]; simp
    | cons c todo =>
      obtain ⟨b, y⟩ := c
      have hc1 : CursorAt b cells todo := by
        rcases hc with ⟨h1, h2⟩ | ⟨pre, x, h2⟩
        · exact Or.inr ⟨[], y, by rw [h2]; rfl⟩
        · exact Or.inr ⟨pre ++ [(pos, x)], y, by rw [h2]; simp⟩
      by_cases hlog : g.log_file = true
      · have hs : csv_writer_thread_fn g pos =
            some ({ g with log_rows := g.log_rows ++ [csv_row y] }, b) := by
          unfold csv_writer_thread_fn
          rw [hadv]
          simp [hlog]
        obtain ⟨g1, pos1, h1, h2, h3, h4⟩ :=
          ih { g with log_rows := g.log_rows ++ [csv_row y] } b cells todo hq hc1
        refine ⟨g1, pos1, ?_, ?_, h3, h4⟩
        · simp only [csv_writer_run, hs]; exact h1
        · rw [h2]; simp [hlog]
      · have hs : csv_writer_thread_fn g pos = some (g, b) := by
          unfold csv_writer_thread_fn
          rw [hadv]
          simp [hlog]
        obtain ⟨g1, pos1, h1, h2, h3, h4⟩ := ih g b cells todo hq hc1
        refine ⟨g1, pos1, ?_, ?_, h3, h4⟩
        · simp only [csv_writer_run, hs]; exact h1
        · rw [h2]; simp [hlog]

end Fifo
set_option maxRecDepth 1000000 in
/-- C14, as stated, fails twice over. The rows have 15 columns, not 14: the format string
of `csv_writer_thread_fn` prints `packet_count` a second time between `trust` and `action`,
and the header row names that column `packet_count_dup`; here the first record of
10.0.0.5, classified "high", is written by the first iteration of the writer thread. And
the number of columns is not fixed: the action string comes unchecked from the classifier
and is printed with `%s`, so that the answer "a,b" gives a row of 16 columns under the
header of 15. -/
theorem C14_counterexample :
    (Fifo.csv_writer_run 1
        (ex_after ex_plugin
          [Fifo.Event.message (ex_msg "10.0.0.5".toList 1000000),
            Fifo.Event.process (ex_env (ex_curl "high".toList) 67 true)]) 0).map
      (fun r => r.1.log_rows) =
      some [("packet_count,recv_ts,service_start_ts,api_start_ts,api_end_ts,service_end_ts," ++
          "ip,delta,p_value,trust,packet_count_dup,action,actual_api_time_ms,wait_time_ms," ++
          "total_service_time_ms\n").toList,
        ("1,1.000000,5.000000,5.000001,5.000100,5.000101,10.0.0.5,0.000000,0.2500,0.500," ++
          "1,high,0.099,0.000,0.101\n").toList] ∧
    (Fifo.row_columns
        ("1,1.000000,5.000000,5.000001,5.000100,5.000101,10.0.0.5,0.000000,0.2500,0.500," ++
          "1,high,0.099,0.000,0.101\n").toList).length = 15 ∧
    (Fifo.csv_writer_run 1
        (ex_after ex_plugin
          [Fifo.Event.message (ex_msg "10.0.0.5".toList 1000000),
            Fifo.Event.process (ex_env (ex_curl "a,b".toList) 67 true)]) 0).map
      (fun r => r.1.log_rows) =
      some [("packet_count,recv_ts,service_start_ts,api_start_ts,api_end_ts,service_end_ts," ++
          "ip,delta,p_value,trust,packet_count_dup,action,actual_api_time_ms,wait_time_ms," ++
          "total_service_time_ms\n").toList,
        ("1,1.000000,5.000000,5.000001,5.000100,5.000101,10.0.0.5,0.000000,0.2500,0.500," ++
          "1,a,b,0.099,0.000,0.101\n").toList] ∧
    (Fifo.row_columns
        ("1,1.000000,5.000000,5.000001,5.000100,5.000101,10.0.0.5,0.000000,0.2500,0.500," ++
          "1,a,b,0.099,0.000,0.101\n").toList).length = 16 := by
  decide

/-- C14 (amended): every row the telemetry writer appends to the log is made of the 15
fields packet_count, recv_ts, service_start_ts, api_start_ts, api_end_ts, service_end_ts,
ip, delta, p_value, trust, packet_count (again), action, actual_api_time_ms, wait_time_ms,
total_service_time_ms, in this order and separated by commas. Split at its commas the row
has 15 columns plus one for every comma in the address and in the action string: exactly
the 15 fields when neither holds a comma; and it ends with its only newline when neither
holds one. The header row written at start names 15 columns, the eleventh as
`packet_count_dup`. After any run of the plugin, `k` iterations of the writer thread
leave in the log the header and the rows of the first `k` records of the CSV queue, in
order (nothing when the log could not be opened). -/
theorem C14_log_columns (env : Fifo.InitEnv) (evs : List Fifo.Event) (g : Fifo.Globals)
    (k : ℕ) (hrun : Fifo.run_state (Fifo.mosquitto_plugin_init env) evs = some g) :
    (∃ g1 pos, Fifo.csv_writer_run k g 0 = some (g1, pos) ∧
      g1.log_rows =
        if env.log_open then
          Fifo.csv_header :: (g.csv_queue.toList.take k).map Fifo.csv_row
        else []) ∧
    Fifo.csv_header = List.intercalate [','] Fifo.csv_column_names ++ ['\n'] ∧
    Fifo.row_columns Fifo.csv_header = Fifo.csv_column_names ∧
    Fifo.csv_column_names.length = 15 ∧
    ∀ r : Fifo.CSVRecord,
      Fifo.csv_row r = List.intercalate [','] (Fifo.csv_columns r) ++ ['\n'] ∧
      (Fifo.csv_columns r).length = 15 ∧
      (Fifo.row_columns (Fifo.csv_row r)).length =
        15 + r.ip.count ',' + r.action.count ',' ∧
      (Fifo.csv_row r).count '\n' = 1 + r.ip.count '\n' + r.action.count '\n' ∧
      (',' ∉ r.ip → ',' ∉ r.action → Fifo.row_columns (Fifo.csv_row r) = Fifo.csv_columns r) := by
  refine ⟨?_, Fifo.csv_header_columns.1, Fifo.csv_header_split, Fifo.csv_header_columns.2,
    fun r => ⟨(Fifo.csv_row_columns r).1, (Fifo.csv_row_columns r).2,
      Fifo.csv_row_column_count r, Fifo.csv_row_newlines_count r, Fifo.csv_row_split r⟩⟩
  obtain ⟨_, hI⟩ := Fifo.run_state_inv evs _ g [] 0 [] (Fifo.inv_init env) hrun
  obtain ⟨_, ccells, hq, _⟩ := hI
  obtain ⟨l1, l2⟩ := Fifo.log_run evs _ g hrun
  obtain ⟨g1, pos1, h1, h2, _, _⟩ :=
    Fifo.writer_run_spec k g 0 ccells ccells hq (Or.inl ⟨rfl, rfl⟩)
  refine ⟨g1, pos1, h1, ?_⟩
  rw [h2, l1, l2, hq.toList_eq]
  simp only [Fifo.mosquitto_plugin_init]
  by_cases hlog : env.log_open = true
  · simp [hlog, List.map_take]
    rfl
  · simp [hlog]

set_option maxRecDepth 1000000 in
/-- C14, witness: two records are classified, the second with the answer "a,b"; the writer
thread runs three iterations; the log holds the header and the two rows, of 15 and of 16
columns, and the first row splits into its 15 fields. -/
theorem C14_log_columns_witness :
    Fifo.run_state (Fifo.mosquitto_plugin_init { log_open := true, high_fd := 5, low_fd := 6 })
        [Fifo.Event.message (ex_msg "10.0.0.5".toList 1000000),
          Fifo.Event.message (ex_msg "10.0.0.5".toList 2000000),
          Fifo.Event.process (ex_env (ex_curl "high".toList) 67 true),
          Fifo.Event.process (ex_env (ex_curl "a,b".toList) 0 true)] =
      some (ex_after ex_plugin
        [Fifo.Event.message (ex_msg "10.0.0.5".toList 1000000),
          Fifo.Event.message (ex_msg "10.0.0.5".toList 2000000),
          Fifo.Event.process (ex_env (ex_curl "high".toList) 67 true),
          Fifo.Event.process (ex_env (ex_curl "a,b".toList) 0 true)]) ∧
    (∃ g1 pos, Fifo.csv_writer_run 3
        (ex_after ex_plugin
          [Fifo.Event.message (ex_msg "10.0.0.5".toList 1000000),
            Fifo.Event.message (ex_msg "10.0.0.5".toList 2000000),
            Fifo.Event.process (ex_env (ex_curl "high".toList) 67 true),
            Fifo.Event.process (ex_env (ex_curl "a,b".toList) 0 true)]) 0 = some (g1, pos) ∧
      g1.log_rows =
        if true then
          Fifo.csv_header :: ((ex_after ex_plugin
            [Fifo.Event.message (ex_msg "10.0.0.5".toList 1000000),
              Fifo.Event.message (ex_msg "10.0.0.5".toList 2000000),
              Fifo.Event.process (ex_env (ex_curl "high".toList) 67 true),
              Fifo.Event.process (ex_env (ex_curl "a,b".toList) 0 true)]).csv_queue.toList.take
            3).map Fifo.csv_row
        else []) ∧
    ((ex_after ex_plugin
        [Fifo.Event.message (ex_msg "10.0.0.5".toList 1000000),
          Fifo.Event.message (ex_msg "10.0.0.5".toList 2000000),
          Fifo.Event.process (ex_env (ex_curl "high".toList) 67 true),
          Fifo.Event.process (ex_env (ex_curl "a,b".toList) 0 true)]).csv_queue.toList.map
        (fun r => ((Fifo.row_columns (Fifo.csv_row r)).length, r.ip.count ',',
          r.action.count ','))) = [(15, 0, 0), (16, 0, 1)] ∧
    (',' ∉ (ex_telemetry 1).ip ∧ ',' ∉ (ex_telemetry 1).action ∧
      Fifo.row_columns (Fifo.csv_row (ex_telemetry 1)) = Fifo.csv_columns (ex_telemetry 1)) :=
  have hrun := Fifo.run_state_eq_after ex_plugin
    [Fifo.Event.message (ex_msg "10.0.0.5".toList 1000000),
      Fifo.Event.message (ex_msg "10.0.0.5".toList 2000000),
      Fifo.Event.process (ex_env (ex_curl "high".toList) 67 true),
      Fifo.Event.process (ex_env (ex_curl "a,b".toList) 0 true)] (by decide)
  ⟨hrun, (C14_log_columns { log_open := true, high_fd := 5, low_fd := 6 } _ _ 3 hrun).1,
    by decide,
    by decide, by decide,
    ((C14_log_columns { log_open := true, high_fd := 5, low_fd := 6 } _ _ 3 hrun).2.2.2.2
      (ex_telemetry 1)).2.2.2.2 (by decide) (by decide)⟩

/-! ## The sweep -/

namespace Fifo

theorem kept_map (now : double) (l : List (ℕ × ReceiveNode)) :
    (kept now l).map Prod.snd =
      (l.map Prod.snd).filter (fun r => decide (¬ (now - r.recv_ts > 300000000))) := by
  unfold kept
  rw [List.filter_map]
  rfl

theorem walk_from {q : Queue ReceiveNode} {pre post : List (ℕ × ReceiveNode)} {pos : ℕ}
    {x : ReceiveNode} (h : QueueInv q (pre ++ (pos, x) :: post)) :
    Queue.walk q.mem q.brk pos = x :: post.map Prod.snd := by
  have hseg := ((seg_append q.mem pre ((pos, x) :: post) 0).mp h.seg).2
  have hlen : ((pos, x) :: post).length ≤ q.brk := by
    have := nodup_length_lt h.nodup h.below
    simp at this ⊢
    omega
  have := walk_of_seg hseg q.brk hlen
  simpa using this

theorem sweep_spec {g : Globals} {hist : List ReceiveNode} {n : ℕ} {tele : List CSVRecord}
    (h : Inv g hist n tele) (now : double) :
    ∃ g1, cleanup_old_receive_nodes g now = some g1 ∧
      (g.receive_current_pos = 0 → g1 = g) ∧
      (g.receive_current_pos ≠ 0 →
        ∃ behind, g.receive.toList = behind ++ from_cursor g ∧
          from_cursor g ≠ [] ∧ (from_cursor g).drop 1 = hist.drop n ∧
          g1.receive.toList =
            behind.filter (fun r => decide (¬ (now - r.recv_ts > 300000000))) ++
              from_cursor g ∧
          from_cursor g1 = from_cursor g) := by
  obtain ⟨⟨cells, hq, hc⟩, hcsv⟩ := h
  rcases hc with ⟨h1, _, _⟩ | ⟨pre, x, post, h1, h2, h3⟩
  · refine ⟨g, ?_, fun _ => rfl, fun hne => absurd h1 hne⟩
    unfold cleanup_old_receive_nodes
    simp [h1]
  · subst h1
    have hseg := hq.seg
    have hpos : g.receive_current_pos ≠ 0 :=
      seg_addr_ne_zero hseg g.receive_current_pos (by simp)
    have hhead : g.receive.head = first_or pre g.receive_current_pos := by
      rw [hq.head_eq, first_or_append]; rfl
    have hhead0 : g.receive.head ≠ 0 := by
      rw [hhead]
      cases pre with
      | nil => simpa using hpos
      | cons c pre =>
        obtain ⟨a, y⟩ := c
        exact seg_addr_ne_zero hseg a (by simp)
    have hlen : pre.length ≤ g.receive.brk := by
      have := nodup_length_lt hq.nodup hq.below
      simp at this; omega
    have hq2 : QueueInv g.receive ([] ++ (pre ++ (g.receive_current_pos, x) :: post)) := by
      simpa using hq
    obtain ⟨q1, hl, hq1, hbrk⟩ :=
      cleanup_loop_spec now g.receive_current_pos x post pre [] g.receive g.receive.brk hq2 hlen
    simp only [last_or_nil, List.nil_append] at hl hq1
    refine ⟨{ g with receive := q1 }, ?_, fun h0 => absurd h0 hpos, fun _ => ?_⟩
    · unfold cleanup_old_receive_nodes
      have hcond : ¬ (g.receive.head = 0 ∨ g.receive_current_pos = 0) := by
        intro hc
        rcases hc with hc | hc
        · exact hhead0 hc
        · exact hpos hc
      simp only [hcond, if_false]
      rw [hhead, hl]
    · have hw : from_cursor g = x :: post.map Prod.snd := walk_from hq
      have hw1 : from_cursor { g with receive := q1 } = x :: post.map Prod.snd := by
        unfold from_cursor
        exact walk_from hq1
      refine ⟨pre.map Prod.snd, ?_, ?_, ?_, ?_, ?_⟩
      · rw [hq.toList_eq, hw]; simp
      · rw [hw]; simp
      · rw [hw]; simpa using h2
      · show q1.toList = _
        rw [hq1.toList_eq, hw, ← kept_map]; simp
      · rw [hw1, hw]

end Fifo

/-- C15: in every state the plugin reaches, the sweep `cleanup_old_receive_nodes` run
at time `now` returns, and it removes from the receive queue exactly the records that
are strictly behind the cursor and were received more than 300 seconds before `now`:
with the cursor `NULL` it changes nothing; otherwise the queue is `behind` followed by
the records from the cursor node on (the cursor node and the records not yet taken),
and afterwards it is the records of `behind` not older than 300 seconds, in their order,
followed by the same records from the cursor node on. Cursor, source table, CSV queue
and FIFOs are left alone. -/
theorem C15_sweep_behind_cursor (env : Fifo.InitEnv) (evs : List Fifo.Event)
    (g : Fifo.Globals) (now : double)
    (hrun : Fifo.run_state (Fifo.mosquitto_plugin_init env) evs = some g) :
    ∃ g1, Fifo.cleanup_old_receive_nodes g now = some g1 ∧
      g1.receive_current_pos = g.receive_current_pos ∧ g1.ip_table = g.ip_table ∧
      g1.csv_queue = g.csv_queue ∧ Fifo.io g1 = Fifo.io g ∧
      (g.receive_current_pos = 0 → g1 = g) ∧
      (g.receive_current_pos ≠ 0 →
        ∃ behind, g.receive.toList = behind ++ Fifo.from_cursor g ∧
          Fifo.from_cursor g ≠ [] ∧
          (Fifo.from_cursor g).drop 1 =
            (Fifo.enqueued_of (Fifo.run (Fifo.mosquitto_plugin_init env) evs)).drop
              (Fifo.processed_of (Fifo.run (Fifo.mosquitto_plugin_init env) evs)).length ∧
          g1.receive.toList =
            behind.filter (fun r => decide (¬ (now - r.recv_ts > 300000000))) ++
              Fifo.from_cursor g ∧
          Fifo.from_cursor g1 = Fifo.from_cursor g) := by
  obtain ⟨_, hI⟩ := Fifo.run_state_inv evs _ g [] 0 [] (Fifo.inv_init env) hrun
  simp only [List.nil_append, Nat.zero_add] at hI
  obtain ⟨g1, h1, h2, h3⟩ := Fifo.sweep_spec hI now
  obtain ⟨f1, f2, f3, f4, _⟩ := Fifo.cleanup_frame h1
  exact ⟨g1, h1, f4, f2, f3, f1, h2, h3⟩

set_option maxRecDepth 1000000 in
/-- C15, witness: three records received at seconds 1, 2 and 3, the cursor on the
second. A sweep at second 400 removes the first record only; a sweep at second 300.5
removes nothing, the first record being 299.5 seconds old. -/
theorem C15_sweep_behind_cursor_witness :
    Fifo.run_state (Fifo.mosquitto_plugin_init { log_open := true, high_fd := 5, low_fd := 6 })
      ex_two_taken = some (ex_after ex_plugin ex_two_taken) ∧
    (∃ g1, Fifo.cleanup_old_receive_nodes (ex_after ex_plugin ex_two_taken) 400000000 =
        some g1 ∧
      g1.receive_current_pos = (ex_after ex_plugin ex_two_taken).receive_current_pos ∧
      g1.ip_table = (ex_after ex_plugin ex_two_taken).ip_table ∧
      g1.csv_queue = (ex_after ex_plugin ex_two_taken).csv_queue ∧
      Fifo.io g1 = Fifo.io (ex_after ex_plugin ex_two_taken)) ∧
    (ex_after ex_plugin ex_two_taken).receive.toList.map Fifo.ReceiveNode.recv_ts =
      [1000000, 2000000, 3000000] ∧
    (Fifo.from_cursor (ex_after ex_plugin ex_two_taken)).map Fifo.ReceiveNode.recv_ts =
      [2000000, 3000000] ∧
    (ex_after ex_plugin (ex_two_taken ++ [Fifo.Event.sweep 400000000])).receive.toList.map
      Fifo.ReceiveNode.recv_ts = [2000000, 3000000] ∧
    (ex_after ex_plugin (ex_two_taken ++ [Fifo.Event.sweep 300500000])).receive.toList.map
      Fifo.ReceiveNode.recv_ts = [1000000, 2000000, 3000000] :=
  have hrun := Fifo.run_state_eq_after ex_plugin ex_two_taken (by decide)
  have h := C15_sweep_behind_cursor { log_open := true, high_fd := 5, low_fd := 6 }
    ex_two_taken _ 400000000 hrun
  ⟨hrun, h.elim (fun g1 hg => ⟨g1, hg.1, hg.2.1, hg.2.2.1, hg.2.2.2.1, hg.2.2.2.2.1⟩),
    by decide, by decide, by decide, by decide⟩

/-- C16: when the `write` of `write_to_fifo` to the FIFO chosen by the action ("high" or
"low", descriptor open, line within the buffer) fails with `EPIPE`, the function closes
that descriptor and calls `open` on that FIFO's path once, with `O_WRONLY | O_NONBLOCK`;
the descriptor of that FIFO becomes the new descriptor if the `open` succeeds and -1 if
it fails; the descriptor of the other FIFO, what was written to the two FIFOs and the
rest of the state are unchanged. -/
theorem C16_broken_pipe_reopen (g : Fifo.Globals) (action ip : CStr) (count : ℕ)
    (enqueue_ts : double) (w : WriteEnv)
    (hact : action = "high".toList ∨ action = "low".toList)
    (hfd : (if action = "high".toList then g.high_fifo_fd else g.low_fifo_fd) ≠ -1)
    (hlen : (Fifo.fifo_line ip count enqueue_ts action).length < 256)
    (hwritten : w.written < 0) (herrno : w.errno = EPIPE) :
    Fifo.write_to_fifo_calls g action ip count enqueue_ts w =
      [Fifo.Syscall.close (if action = "high".toList then g.high_fifo_fd else g.low_fifo_fd),
        Fifo.Syscall.open_nonblock (decide (action = "high".toList))] ∧
    (action = "high".toList →
      (w.new_fd ≠ -1 →
        (Fifo.write_to_fifo g action ip count enqueue_ts w).high_fifo_fd = w.new_fd) ∧
      (w.new_fd = -1 →
        (Fifo.write_to_fifo g action ip count enqueue_ts w).high_fifo_fd = -1) ∧
      (Fifo.write_to_fifo g action ip count enqueue_ts w).low_fifo_fd = g.low_fifo_fd) ∧
    (action = "low".toList →
      (w.new_fd ≠ -1 →
        (Fifo.write_to_fifo g action ip count enqueue_ts w).low_fifo_fd = w.new_fd) ∧
      (w.new_fd = -1 →
        (Fifo.write_to_fifo g action ip count enqueue_ts w).low_fifo_fd = -1) ∧
      (Fifo.write_to_fifo g action ip count enqueue_ts w).high_fifo_fd = g.high_fifo_fd) ∧
    (Fifo.write_to_fifo g action ip count enqueue_ts w).high_pipe = g.high_pipe ∧
    (Fifo.write_to_fifo g action ip count enqueue_ts w).low_pipe = g.low_pipe ∧
    Fifo.core (Fifo.write_to_fifo g action ip count enqueue_ts w) = Fifo.core g := by
  have hpos : (0 : ℤ) < ((Fifo.fifo_line ip count enqueue_ts action).length : ℤ) := by
    exact_mod_cast Fifo.fifo_line_pos ip count enqueue_ts action
  have hlt : ((Fifo.fifo_line ip count enqueue_ts action).length : ℤ) < 256 := by
    exact_mod_cast hlen
  have hne : ¬ w.written = ((Fifo.fifo_line ip count enqueue_ts action).length : ℤ) := by
    omega
  have hlh : ¬ "low".toList = "high".toList := by decide
  refine ⟨?_, ?_, ?_, ?_, ?_, Fifo.core_write_to_fifo _ _ _ _ _ _⟩
  · rcases hact with ha | ha
    · subst ha
      simp only [if_true] at hfd
      simp only [Fifo.write_to_fifo_calls, Fifo.fifo_write_calls, if_true, hfd, if_false, hpos,
        hlt, and_self, hne, hwritten, herrno, decide_True]
    · subst ha
      simp only [hlh, if_false] at hfd
      simp only [Fifo.write_to_fifo_calls, Fifo.fifo_write_calls, hlh, if_false, if_true, hfd,
        hpos, hlt, and_self, hne, hwritten, herrno, decide_False, Bool.false_eq_true]
  · intro ha
    subst ha
    simp only [if_true] at hfd
    simp only [Fifo.write_to_fifo, Fifo.fifo_write, if_true, hfd, if_false, hpos, hlt,
      and_self, hne, hwritten, herrno, Fifo.set_fifo_fd]
    refine ⟨fun h => by simp [h], fun h => by simp [h], by split_ifs <;> rfl⟩
  · intro ha
    subst ha
    simp only [hlh, if_false] at hfd
    simp only [Fifo.write_to_fifo, Fifo.fifo_write, hlh, if_false, if_true, hfd, hpos, hlt,
      and_self, hne, hwritten, herrno, Fifo.set_fifo_fd, Bool.false_eq_true]
    refine ⟨fun h => by simp [h], fun h => by simp [h], by split_ifs <;> rfl⟩
  · rcases hact with ha | ha
    · subst ha
      simp only [if_true] at hfd
      simp only [Fifo.write_to_fifo, Fifo.fifo_write, if_true, hfd, if_false, hpos, hlt,
        and_self, hne, hwritten, herrno, Fifo.set_fifo_fd]
      split_ifs <;> rfl
    · subst ha
      simp only [hlh, if_false] at hfd
      simp only [Fifo.write_to_fifo, Fifo.fifo_write, hlh, if_false, if_true, hfd, hpos, hlt,
        and_self, hne, hwritten, herrno, Fifo.set_fifo_fd, Bool.false_eq_true]
      split_ifs <;> rfl
  · rcases hact with ha | ha
    · subst ha
      simp only [if_true] at hfd
      simp only [Fifo.write_to_fifo, Fifo.fifo_write, if_true, hfd, if_false, hpos, hlt,
        and_self, hne, hwritten, herrno, Fifo.set_fifo_fd]
      split_ifs <;> rfl
    · subst ha
      simp only [hlh, if_false] at hfd
      simp only [Fifo.write_to_fifo, Fifo.fifo_write, hlh, if_false, if_true, hfd, hpos, hlt,
        and_self, hne, hwritten, herrno, Fifo.set_fifo_fd, Bool.false_eq_true]
      split_ifs <;> rfl

/-- C16, witness: the HIGH write of the plugin (descriptors 5 and 6) fails with `EPIPE`
and the reopen returns descriptor 9: descriptor 5 is closed, the HIGH descriptor is 9,
the LOW descriptor still 6. -/
theorem C16_broken_pipe_reopen_witness :
    ("high".toList = "high".toList ∨ "high".toList = "low".toList) ∧
    (if "high".toList = "high".toList then ex_plugin.high_fifo_fd else ex_plugin.low_fifo_fd)
      ≠ -1 ∧
    (Fifo.fifo_line "10.0.0.5".toList 1 1500000 "high".toList).length < 256 ∧
    Fifo.write_to_fifo_calls ex_plugin "high".toList "10.0.0.5".toList 1 1500000
        { written := -1, errno := EPIPE, new_fd := 9 } =
      [Fifo.Syscall.close
          (if "high".toList = "high".toList then ex_plugin.high_fifo_fd
            else ex_plugin.low_fifo_fd),
        Fifo.Syscall.open_nonblock (decide ("high".toList = "high".toList))] ∧
    Fifo.write_to_fifo_calls ex_plugin "high".toList "10.0.0.5".toList 1 1500000
        { written := -1, errno := EPIPE, new_fd := 9 } =
      [Fifo.Syscall.close 5, Fifo.Syscall.open_nonblock true] ∧
    (Fifo.write_to_fifo ex_plugin "high".toList "10.0.0.5".toList 1 1500000
        { written := -1, errno := EPIPE, new_fd := 9 }).high_fifo_fd = 9 ∧
    (Fifo.write_to_fifo ex_plugin "high".toList "10.0.0.5".toList 1 1500000
        { written := -1, errno := EPIPE, new_fd := 9 }).low_fifo_fd = 6 :=
  have h := C16_broken_pipe_reopen ex_plugin "high".toList "10.0.0.5".toList 1 1500000
    { written := -1, errno := EPIPE, new_fd := 9 } (Or.inl rfl) (by decide) (by decide)
    (by decide) rfl
  ⟨Or.inl rfl, by decide, by decide, h.1, by decide, by decide, by decide⟩

namespace Fifo

theorem fifo_write_failed (g : Globals) (high : Bool) (buffer : CStr) (w : WriteEnv)
    (hw : w.written < 0) (he : w.errno ≠ EPIPE) : fifo_write g high buffer w = g := by
  have hne : ¬ w.written = (buffer.length : ℤ) := by
    have : (0 : ℤ) ≤ (buffer.length : ℤ) := Int.natCast_nonneg _
    omega
  unfold fifo_write
  simp only [hne, hw, he, if_false, if_true]
  split_ifs <;> rfl

theorem route_failed (g : Globals) (action : CStr) (d : ReceiveNode) (ts : double)
    (w : WriteEnv) (hw : w.written < 0) (he : w.errno ≠ EPIPE) : route g action d ts w = g := by
  unfold route write_to_fifo
  split_ifs <;> first | rfl | exact fifo_write_failed _ _ _ _ hw he

end Fifo

set_option maxRecDepth 1000000 in
/-- C17, as stated, fails: the write of the record of 10.0.0.5, classified "high", fails
with `EAGAIN` and in the same iteration the `malloc` of the telemetry record fails:
the record is classified, nothing is written, the descriptors are unchanged, but no
telemetry is enqueued. -/
theorem C17_counterexample :
    (ex_env (ex_curl "high".toList) (-1) false).write.errno = EAGAIN ∧
    (Fifo.processed_of (Fifo.run ex_plugin
      [Fifo.Event.message (ex_msg "10.0.0.5".toList 1000000),
        Fifo.Event.process (ex_env (ex_curl "high".toList) (-1) false)])).map
      Fifo.Processed.action = ["high".toList] ∧
    Fifo.io (ex_after ex_plugin
      [Fifo.Event.message (ex_msg "10.0.0.5".toList 1000000),
        Fifo.Event.process (ex_env (ex_curl "high".toList) (-1) false)]) = (5, 6, [], []) ∧
    (ex_after ex_plugin
      [Fifo.Event.message (ex_msg "10.0.0.5".toList 1000000),
        Fifo.Event.process (ex_env (ex_curl "high".toList) (-1) false)]).csv_queue.toList =
      [] := by
  decide

/-- C17 (amended): when the channel write of an iteration of the processing thread fails
with `EAGAIN`, nothing is written to either FIFO and nothing is retried, both
descriptors are unchanged, the telemetry record of the record is appended to the CSV
queue provided its allocation succeeds (that is the only condition), and the thread
goes on with the queue: in every continuation of the run the records taken are the
records appended by the hook, in order, none skipped. -/
theorem C17_pipe_full_goes_on (env : Fifo.InitEnv) (evs : List Fifo.Event)
    (g g1 : Fifo.Globals) (penv : Fifo.ProcEnv) (p : Fifo.Processed)
    (hrun : Fifo.run_state (Fifo.mosquitto_plugin_init env) evs = some g)
    (hwritten : penv.write.written < 0) (herrno : penv.write.errno = EAGAIN)
    (hstep : Fifo.processor_thread_fn g penv = some (g1, some p)) :
    Fifo.io g1 = Fifo.io g ∧
    g1.csv_queue.toList = g.csv_queue.toList ++ p.telemetry.toList ∧
    p.telemetry.isSome = penv.csv_alloc ∧
    (Fifo.enqueued_of (Fifo.run (Fifo.mosquitto_plugin_init env) evs))[
        (Fifo.processed_of (Fifo.run (Fifo.mosquitto_plugin_init env) evs)).length]? =
      some p.current_data ∧
    ∀ rest : List Fifo.Event,
      (Fifo.processed_of (Fifo.run (Fifo.mosquitto_plugin_init env)
          (evs ++ Fifo.Event.process penv :: rest))).map Fifo.Processed.current_data =
        (Fifo.enqueued_of (Fifo.run (Fifo.mosquitto_plugin_init env)
          (evs ++ Fifo.Event.process penv :: rest))).take
          (Fifo.processed_of (Fifo.run (Fifo.mosquitto_plugin_init env)
            (evs ++ Fifo.Event.process penv :: rest))).length := by
  have he : penv.write.errno ≠ EPIPE := by rw [herrno]; decide
  obtain ⟨_, hI⟩ := Fifo.run_state_inv evs _ g [] 0 [] (Fifo.inv_init env) hrun
  simp only [List.nil_append, Nat.zero_add] at hI
  obtain ⟨_, _, _, _, _, _, _, _, _, _, hio, htel, _⟩ := Fifo.processor_some hstep
  rw [Fifo.route_failed g _ _ _ _ hwritten he] at hio
  refine ⟨hio, ?_, htel, ?_, ?_⟩
  · rcases Fifo.inv_process hI penv with ⟨_, hs⟩ | ⟨d, hd, ⟨_, hs⟩ | ⟨g2, p2, hs, hp, hI2⟩⟩
    · rw [hs] at hstep; simp at hstep
    · rw [hs] at hstep; simp at hstep
    · rw [hs] at hstep
      simp only [Option.some.injEq, Prod.mk.injEq] at hstep
      obtain ⟨rfl, rfl⟩ := hstep
      obtain ⟨_, c1, hq1, hc1⟩ := hI
      obtain ⟨_, c2, hq2, hc2⟩ := hI2
      rw [hq1.toList_eq, hq2.toList_eq, hc1, hc2]
  · rcases Fifo.inv_process hI penv with ⟨_, hs⟩ | ⟨d, hd, ⟨_, hs⟩ | ⟨g2, p2, hs, hp, hI2⟩⟩
    · rw [hs] at hstep; simp at hstep
    · rw [hs] at hstep; simp at hstep
    · rw [hs] at hstep
      simp only [Option.some.injEq, Prod.mk.injEq] at hstep
      obtain ⟨rfl, rfl⟩ := hstep
      rw [hp]
      exact hd
  · intro rest
    have := Fifo.run_fifo (evs ++ Fifo.Event.process penv :: rest) _ [] 0 []
      (Fifo.inv_init env)
    simpa using this

set_option maxRecDepth 1000000 in
/-- C17, witness: two records are queued; the write of the first fails with `EAGAIN`;
its telemetry is enqueued, the FIFOs and descriptors are untouched, and the next
iteration takes the second record. -/
theorem C17_pipe_full_goes_on_witness :
    Fifo.run_state (Fifo.mosquitto_plugin_init { log_open := true, high_fd := 5, low_fd := 6 })
        [Fifo.Event.message (ex_msg "10.0.0.5".toList 1000000),
          Fifo.Event.message (ex_msg "10.0.0.5".toList 2000000)] =
      some (ex_after ex_plugin
        [Fifo.Event.message (ex_msg "10.0.0.5".toList 1000000),
          Fifo.Event.message (ex_msg "10.0.0.5".toList 2000000)]) ∧
    (ex_env (ex_curl "high".toList) (-1) true).write.written < 0 ∧
    (ex_env (ex_curl "high".toList) (-1) true).write.errno = EAGAIN ∧
    Fifo.io (ex_step_state
        (ex_after ex_plugin
          [Fifo.Event.message (ex_msg "10.0.0.5".toList 1000000),
            Fifo.Event.message (ex_msg "10.0.0.5".toList 2000000)])
        (ex_env (ex_curl "high".toList) (-1) true)) =
      Fifo.io (ex_after ex_plugin
        [Fifo.Event.message (ex_msg "10.0.0.5".toList 1000000),
          Fifo.Event.message (ex_msg "10.0.0.5".toList 2000000)]) ∧
    (ex_step_done
        (ex_after ex_plugin
          [Fifo.Event.message (ex_msg "10.0.0.5".toList 1000000),
            Fifo.Event.message (ex_msg "10.0.0.5".toList 2000000)])
        (ex_env (ex_curl "high".toList) (-1) true)).telemetry.isSome = true ∧
    (Fifo.processed_of (Fifo.run ex_plugin
        [Fifo.Event.message (ex_msg "10.0.0.5".toList 1000000),
          Fifo.Event.message (ex_msg "10.0.0.5".toList 2000000),
          Fifo.Event.process (ex_env (ex_curl "high".toList) (-1) true),
          Fifo.Event.process (ex_env (ex_curl "low".toList) 66 true)])).map
      (fun p => p.current_data.packet_count) = [1, 2] :=
  have hrun := Fifo.run_state_eq_after ex_plugin
    [Fifo.Event.message (ex_msg "10.0.0.5".toList 1000000),
      Fifo.Event.message (ex_msg "10.0.0.5".toList 2000000)] (by decide)
  have h := C17_pipe_full_goes_on { log_open := true, high_fd := 5, low_fd := 6 } _ _ _
    (ex_env (ex_curl "high".toList) (-1) true) _ hrun (by decide) rfl
    (Fifo.processor_step_eq _ _ (by decide))
  ⟨hrun, by decide, rfl, h.1, h.2.2.1, by decide⟩

/-! ## The result of the hook -/

namespace Fifo

/-- The hook of the dual-FIFO plugin performs no classification and no channel write:
with a client, an address and both allocations succeeding it returns
`MOSQ_ERR_ACL_DENIED`, appends one record, and leaves FIFOs, descriptors, cursor, CSV
queue, counter and log alone. -/
theorem hook_acl_denied {g g1 : Globals} {m : Msg} {r : HookResult} {a : CStr}
    (h : on_message_callback g m = some (g1, r)) (hsrc : m.source = some a)
    (hea : m.entry_alloc = true) (hna : m.node_alloc = true) :
    r.rc = MOSQ_ERR_ACL_DENIED ∧ r.enqueued.isSome = true ∧ io g1 = io g ∧
      g1.csv_queue = g.csv_queue ∧ g1.receive_current_pos = g.receive_current_pos ∧
      g1.process_counter = g.process_counter := by
  obtain ⟨i1, i2, i3, i4, _, _⟩ := hook_io h
  refine ⟨?_, ?_, i1, i2, i3, i4⟩
  · have hcl : m.client = true := by
      unfold Msg.source at hsrc
      by_cases hc : m.client = true
      · exact hc
      · simp [hc] at hsrc
    have hadr : m.address = some a := by
      unfold Msg.source at hsrc
      simpa [hcl] using hsrc
    unfold on_message_callback at h
    simp only [hcl, hadr, hea, hna, Bool.not_true, Bool.false_eq_true, if_false] at h
    split at h
    · split at h
      · exact absurd h (by simp)
      · simp only [Option.some.injEq, Prod.mk.injEq] at h
        obtain ⟨_, rfl⟩ := h
        rfl
    · split at h
      · exact absurd h (by simp)
      · simp only [Option.some.injEq, Prod.mk.injEq] at h
        obtain ⟨_, rfl⟩ := h
        rfl
  · rcases hook_spec h with ⟨hs, _⟩ | ⟨a1, _, hcase⟩
    · rw [hsrc] at hs; exact absurd hs (by simp)
    · rcases hcase with ⟨_, hea1, _⟩ | ⟨_, _, _, _, henq⟩ | ⟨e, _, _, _, henq⟩
      · rw [hea] at hea1; exact absurd hea1 (by simp)
      · rw [henq, hna]; rfl
      · rw [henq, hna]; rfl

end Fifo

namespace Simple

/-- Whenever the hook of the single-FIFO plugin returns for a message with a client and
an address, it returns `MOSQ_ERR_ACL_DENIED`; with the allocation succeeding it fails to
return exactly when `call_policy_api` crashes. -/
theorem simple_hook_acl_denied (g : Globals) (m : Msg) (a : CStr)
    (hsrc : m.source = some a) (hea : m.entry_alloc = true) :
    (∀ g1 r, on_message_callback g m = some (g1, r) → r.rc = MOSQ_ERR_ACL_DENIED) ∧
    (on_message_callback g m = none ↔ call_policy_api m.curl = none) := by
  have hcl : m.client = true := by
    unfold Msg.source at hsrc
    by_cases hc : m.client = true
    · exact hc
    · simp [hc] at hsrc
  have hadr : m.address = some a := by
    unfold Msg.source at hsrc
    simpa [hcl] using hsrc
  unfold on_message_callback
  simp only [hcl, hadr, hea, Bool.not_true, Bool.false_eq_true, if_false, Bool.true_eq_false,
    and_false]
  cases hapi : call_policy_api m.curl with
  | none => simp
  | some api =>
    simp only [Option.some.injEq, Prod.mk.injEq, reduceCtorEq, iff_false, not_false_eq_true,
      and_true]
    rintro g1 r ⟨_, rfl⟩
    rfl

end Simple

set_option maxRecDepth 1000000 in
/-- C18, the code at the failing input: in the single-FIFO plugin a message from
10.0.0.5 for which the policy service answers `{"action": null}` makes
`call_policy_api` pass the `NULL` of `json_object_get_string` to `strncpy`; the hook
does not return. For the answers "forward" and "drop", an answer that is not JSON and a
transfer that times out the hook returns `MOSQ_ERR_ACL_DENIED`; so does the hook of the
dual-FIFO plugin, which makes no classifier call. -/
theorem C18_hook_crash_on_null_action :
    (Simple.on_message_callback (Simple.mosquitto_plugin_init true 5)
      (ex_simple_answer "\x7b\"action\":null\x7d".toList)).isNone = true ∧
    (Simple.run (Simple.mosquitto_plugin_init true 5)
      [ex_simple_answer "\x7b\"action\":\"forward\"\x7d".toList,
        ex_simple_answer "\x7b\"action\":\"drop\"\x7d".toList,
        ex_simple_answer "no json".toList,
        ex_simple_curl ex_curl_timeout]).map Simple.HookResult.rc =
      [MOSQ_ERR_ACL_DENIED, MOSQ_ERR_ACL_DENIED, MOSQ_ERR_ACL_DENIED, MOSQ_ERR_ACL_DENIED] ∧
    (Fifo.run ex_plugin [Fifo.Event.message (ex_msg "10.0.0.5".toList 1000000)]).map
      (fun o => match o with
        | Fifo.Obs.hook r => some r.rc
        | _ => none) = [some MOSQ_ERR_ACL_DENIED] := by
  decide
/-! ## C19: the wait that makes up the minimum service time -/

namespace Binary64

theorem bit_length_le : ∀ (fuel n k : ℕ), n < 2 ^ k → bit_length fuel n ≤ k
  | 0, _, _, _ => by simp [bit_length]
  | fuel + 1, n, k, h => by
    unfold bit_length
    split_ifs with hn
    · omega
    · cases k with
      | zero =>
        simp at h
        omega
      | succ k =>
        have h2 : n / 2 < 2 ^ k := by
          rw [pow_succ] at h
          omega
        have := bit_length_le fuel (n / 2) k h2
        omega

/-- Rounding leaves a number with a significand of 53 bits as it is. -/
theorem round_small (m e : ℤ) (hm : m.natAbs < 2 ^ 53) :
    round m e = { mant := m, expo := e } := by
  unfold round
  have := bit_length_le m.natAbs m.natAbs 53 hm
  have h0 : bit_length m.natAbs m.natAbs - 53 = 0 := by omega
  simp only [h0, if_true]

end Binary64

namespace Fifo

end Fifo

namespace Fifo

end Fifo

namespace PqForwarder

end PqForwarder

namespace PqForwarder

/-- Once the HIGH stream has met end of file `fgets` reads nothing more from it: the
bytes that arrive stay in the FIFO and the HIGH half of the cycle publishes nothing. -/
theorem read_high_at_eof (s : State) (env : CycleEnv) (heof : s.high_eof = true) :
    read_high s env = some { s with high_file := s.high_file ++ env.high_arrival } := by
  unfold read_high
  rw [if_pos heof]

/-- The stream meets end of file when `fgets` uses up the bytes at hand and the FIFO has
no writer: here in the first cycle. The line `h` that a new writer sends before the second
cycle is not read, and the two cycles publish `l1` and `l2`. -/
theorem read_high_hangup_example :
    (main_loop [ex_cycle_hangup [], ex_cycle_hangup "h\n".toList]
        (main_start [] "l1\nl2\n".toList)).1.published.map
      (fun p => (p.priority, p.payload)) =
      [("LOW".toList, Payload.raw "l1".toList), ("LOW".toList, Payload.raw "l2".toList)] ∧
    (main_loop [ex_cycle_hangup [], ex_cycle_hangup "h\n".toList]
        (main_start [] "l1\nl2\n".toList)).1.high_file = "h\n".toList ∧
    (main_loop [ex_cycle_hangup [], ex_cycle_hangup "h\n".toList]
        (main_start [] "l1\nl2\n".toList)).1.high_eof = true := by
  decide

end PqForwarder

theorem strncat_length_le (dest src : CStr) (n : ℕ) :
    (strncat dest src n).length ≤ dest.length + min src.length n := by
  unfold strncat
  have h1 := (List.takeWhile_prefix (fun c => decide (c ≠ '\x00')) (l := src.take n)).length_le
  have h2 : (src.take n).length = min n src.length := List.length_take n src
  rw [List.length_append]
  omega

theorem curl_write_cb_returns (ud ptr : CStr) :
    (curl_write_cb ud ptr).2 = min ptr.length (255 - ud.length) := by
  unfold curl_write_cb
  simp only
  split_ifs with h <;> omega

theorem curl_write_cb_buffer (ud ptr : CStr) :
    (curl_write_cb ud ptr).1 = strncat ud ptr (min ptr.length (255 - ud.length)) := by
  have h := curl_write_cb_returns ud ptr
  unfold curl_write_cb at h ⊢
  simp only at h ⊢
  rw [h]

theorem curl_write_cb_length (ud ptr : CStr) (h : ud.length ≤ 255) :
    (curl_write_cb ud ptr).1.length ≤ 255 := by
  rw [curl_write_cb_buffer]
  have := strncat_length_le ud ptr (min ptr.length (255 - ud.length))
  omega

theorem curl_deliver_length (chunks : List CStr) :
    ∀ ud : CStr, ud.length ≤ 255 → (curl_deliver chunks ud).1.length ≤ 255 := by
  induction chunks with
  | nil => intro ud h; exact h
  | cons ptr rest ih =>
    intro ud h
    unfold curl_deliver
    split_ifs
    · exact ih _ (curl_write_cb_length ud ptr h)
    · exact curl_write_cb_length ud ptr h

/-- C27, as stated, fails: `strncat` stops at a NUL byte. With the buffer holding "ab" the
chunk of the five bytes 'c', 'd', NUL, 'e', 'f' fits; the callback returns 5 but appends
the two bytes "cd" only. -/
theorem C27_counterexample :
    curl_write_cb "ab".toList ['c', 'd', '\x00', 'e', 'f'] = ("abcd".toList, 5) ∧
    min ['c', 'd', '\x00', 'e', 'f'].length (255 - "ab".toList.length) = 5 ∧
    (curl_write_cb "ab".toList ['c', 'd', '\x00', 'e', 'f']).1.length =
      "ab".toList.length + 2 := by
  decide

/-- C27 (amended): for a response buffer of length `n ≤ 255` and a chunk of `size * nmemb`
bytes, the write callback of both plugins returns `min (size * nmemb) (255 - n)` and
appends the first `min (size * nmemb) (255 - n)` bytes of the chunk up to the first NUL
byte among them, all of them when there is no NUL byte among them; the resulting length
is at most 255, also after any sequence of chunks; the value returned is less than
`size * nmemb` exactly when the chunk does not fit, `size * nmemb > 255 - n`. -/
theorem C27_accumulator_bounded (ud ptr : CStr) (h : ud.length ≤ 255) :
    (curl_write_cb ud ptr).2 = min ptr.length (255 - ud.length) ∧
    (curl_write_cb ud ptr).1 =
      ud ++ (ptr.take (min ptr.length (255 - ud.length))).takeWhile (fun c => c ≠ '\x00') ∧
    ('\x00' ∉ ptr.take (min ptr.length (255 - ud.length)) →
      (curl_write_cb ud ptr).1 = ud ++ ptr.take (min ptr.length (255 - ud.length)) ∧
      (curl_write_cb ud ptr).1.length = ud.length + min ptr.length (255 - ud.length)) ∧
    (curl_write_cb ud ptr).1.length ≤ ud.length + min ptr.length (255 - ud.length) ∧
    (curl_write_cb ud ptr).1.length ≤ 255 ∧
    ((curl_write_cb ud ptr).2 < ptr.length ↔ 255 - ud.length < ptr.length) ∧
    ∀ chunks : List CStr, (curl_deliver chunks ud).1.length ≤ 255 := by
  have hb := curl_write_cb_buffer ud ptr
  have hr := curl_write_cb_returns ud ptr
  refine ⟨hr, ?_, ?_, ?_, curl_write_cb_length ud ptr h, ?_,
    fun chunks => curl_deliver_length chunks ud h⟩
  · rw [hb]; rfl
  · intro hn
    have e : (curl_write_cb ud ptr).1 = ud ++ ptr.take (min ptr.length (255 - ud.length)) := by
      rw [hb]
      unfold strncat
      rw [List.takeWhile_eq_self_iff.mpr]
      intro x hx
      simp only [ne_eq, decide_eq_true_eq]
      intro e
      exact hn (e ▸ hx)
    refine ⟨e, ?_⟩
    rw [e, List.length_append, List.length_take]
    omega
  · rw [hb]
    have := strncat_length_le ud ptr (min ptr.length (255 - ud.length))
    omega
  · rw [hr]
    omega

set_option maxRecDepth 100000 in
/-- C27, witness: the buffer holds 253 bytes and the chunk is "cdef": two bytes fit, the
callback appends "cd" and returns 2, less than 4. -/
theorem C27_accumulator_bounded_witness :
    (List.replicate 253 'a').length ≤ 255 ∧
    (curl_write_cb (List.replicate 253 'a') "cdef".toList).2 = 2 ∧
    (curl_write_cb (List.replicate 253 'a') "cdef".toList).1 =
      List.replicate 253 'a' ++ "cd".toList ∧
    (curl_write_cb (List.replicate 253 'a') "cdef".toList).1.length ≤ 255 ∧
    (curl_write_cb (List.replicate 253 'a') "cdef".toList).2 < "cdef".toList.length :=
  have h := C27_accumulator_bounded (List.replicate 253 'a') "cdef".toList (by decide)
  ⟨by decide, h.1.trans (by decide), (h.2.2.1 (by decide)).1.trans (by decide), h.2.2.2.2.1,
    h.2.2.2.2.2.1.mpr (by decide)⟩

/-! ## C21: the telemetry writer -/

namespace Fifo

theorem cursor_at_enqueue {α : Type} {pos : ℕ} {cells todo : List (ℕ × α)}
    (h : CursorAt pos cells todo) (c : ℕ × α) : CursorAt pos (cells ++ [c]) (todo ++ [c]) := by
  rcases h with ⟨h1, h2⟩ | ⟨pre, x, h2⟩
  · exact Or.inl ⟨h1, by rw [h2]⟩
  · exact Or.inr ⟨pre, x, by rw [h2]; simp⟩

theorem rows_written_acts (log : Bool) (rs : List CSVRecord) :
    rows_written (rs.flatMap (acts_of log)) = if log then rs.length else 0 := by
  induction rs with
  | nil => simp [rows_written]
  | cons r rs ih =>
    unfold rows_written at ih ⊢
    rw [List.flatMap_cons, List.filter_append, List.length_append, ih]
    cases log <;> simp [acts_of]
    omega

theorem records_taken_acts (log : Bool) (rs : List CSVRecord) :
    records_taken (rs.flatMap (acts_of log)) = rs.length := by
  induction rs with
  | nil => simp [records_taken]
  | cons r rs ih =>
    unfold records_taken at ih ⊢
    rw [List.flatMap_cons, List.filter_append, List.length_append, ih]
    cases log <;> simp [acts_of]
    all_goals omega

/-- The steps at the CSV queue from a state in which the writer has the cells `todo` in
front of it: they never crash, the writer takes the records in front of it and then the
appended ones, in order, one per iteration that finds a new record. -/
theorem csv_steps_spec (evs : List CsvEvent) :
    ∀ (g : Globals) (pos : ℕ) (cells todo : List (ℕ × CSVRecord)),
      QueueInv g.csv_queue cells → CursorAt pos cells todo →
      ∃ g1 pos1 k, csv_steps evs g pos = some (g1, pos1) ∧
        k ≤ (todo.map Prod.snd ++ csv_enqueued evs).length ∧
        csv_steps_acts evs g pos =
          ((todo.map Prod.snd ++ csv_enqueued evs).take k).flatMap (acts_of g.log_file) ∧
        g1.log_rows = g.log_rows ++
          (if g.log_file then ((todo.map Prod.snd ++ csv_enqueued evs).take k).map csv_row
            else []) ∧
        g1.csv_queue.toList = cells.map Prod.snd ++ csv_enqueued evs ∧
        g1.log_file = g.log_file := by
  induction evs with
  | nil =>
    intro g pos cells todo hq _
    exact ⟨g, pos, 0, rfl, Nat.zero_le _, by simp [csv_steps_acts], by simp,
      by simp [csv_enqueued, hq.toList_eq], rfl⟩
  | cons ev evs ih =>
    intro g pos cells todo hq hc
    cases ev with
    | enqueue alloc record =>
      cases alloc with
      | false =>
        have hs : csv_step g pos (CsvEvent.enqueue false record) = some (g, pos) := by
          simp [csv_step, enqueue_csv_record]
        obtain ⟨g1, pos1, k, h1, h2, h3, h4, h5, h6⟩ := ih g pos cells todo hq hc
        refine ⟨g1, pos1, k, ?_, ?_, ?_, ?_, ?_, h6⟩
        · simp only [csv_steps, hs]; exact h1
        · simpa [csv_enqueued] using h2
        · simp only [csv_steps_acts, hs, List.nil_append]
          simpa [csv_enqueued] using h3
        · simpa [csv_enqueued] using h4
        · simpa [csv_enqueued] using h5
      | true =>
        obtain ⟨q1, he, hq1, _⟩ := hq.enqueue (csv_record_stored record)
        have hs : csv_step g pos (CsvEvent.enqueue true record) =
            some ({ g with csv_queue := q1 }, pos) := by
          simp [csv_step, enqueue_csv_record, he]
        obtain ⟨g1, pos1, k, h1, h2, h3, h4, h5, h6⟩ :=
          ih { g with csv_queue := q1 } pos _ _ hq1 (cursor_at_enqueue hc _)
        have e : (todo ++ [(g.csv_queue.brk, csv_record_stored record)]).map Prod.snd ++
              csv_enqueued evs =
            todo.map Prod.snd ++ csv_enqueued (CsvEvent.enqueue true record :: evs) := by
          simp [csv_enqueued]
        rw [e] at h2 h3 h4
        refine ⟨g1, pos1, k, ?_, h2, ?_, h4, ?_, h6⟩
        · simp only [csv_steps, hs]; exact h1
        · simp only [csv_steps_acts, hs, List.nil_append]
          exact h3
        · rw [h5]; simp [csv_enqueued]
    | writer =>
      have hadv : g.csv_queue.advance pos =
          some (first_or todo pos, todo.head?.map Prod.snd) := by
        rcases hc with ⟨h1, h2⟩ | ⟨pre, x, h2⟩
        · subst h1 h2; exact hq.advance_start
        · subst h2; exact hq.advance_at
      cases todo with
      | nil =>
        have hs : csv_step g pos CsvEvent.writer = some (g, pos) := by
          simp only [csv_step, csv_writer_thread_fn, hadv]
          rfl
        have ha : csv_writer_acts g pos = [] := by
          simp only [csv_writer_acts, hadv]
          rfl
        obtain ⟨g1, pos1, k, h1, h2, h3, h4, h5, h6⟩ := ih g pos cells [] hq hc
        refine ⟨g1, pos1, k, ?_, ?_, ?_, ?_, ?_, h6⟩
        · simp only [csv_steps, hs]; exact h1
        · simpa [csv_enqueued] using h2
        · simp only [csv_steps_acts, hs, ha, List.nil_append]
          simpa [csv_enqueued] using h3
        · simpa [csv_enqueued] using h4
        · simpa [csv_enqueued] using h5
      | cons c todo =>
        obtain ⟨b, y⟩ := c
        have hc1 : CursorAt b cells todo := by
          rcases hc with ⟨h1, h2⟩ | ⟨pre, x, h2⟩
          · exact Or.inr ⟨[], y, by rw [h2]; rfl⟩
          · exact Or.inr ⟨pre ++ [(pos, x)], y, by rw [h2]; simp⟩
        have ha : csv_writer_acts g pos = acts_of g.log_file y := by
          simp only [csv_writer_acts, hadv]
          rfl
        by_cases hlog : g.log_file = true
        · have hs : csv_step g pos CsvEvent.writer =
              some ({ g with log_rows := g.log_rows ++ [csv_row y] }, b) := by
            simp only [csv_step, csv_writer_thread_fn, hadv]
            simp [hlog]
          obtain ⟨g1, pos1, k, h1, h2, h3, h4, h5, h6⟩ :=
            ih { g with log_rows := g.log_rows ++ [csv_row y] } b cells todo hq hc1
          refine ⟨g1, pos1, k + 1, ?_, ?_, ?_, ?_, ?_, h6⟩
          · simp only [csv_steps, hs]; exact h1
          · simp only [csv_enqueued, List.map_cons, List.cons_append, List.length_cons] at h2 ⊢
            omega
          · simp only [csv_steps_acts, hs, ha]
            rw [h3]
            simp [csv_enqueued]
          · rw [h4]
            simp [hlog, csv_enqueued]
          · simpa [csv_enqueued] using h5
        · have hs : csv_step g pos CsvEvent.writer = some (g, b) := by
            simp only [csv_step, csv_writer_thread_fn, hadv]
            simp [hlog]
          obtain ⟨g1, pos1, k, h1, h2, h3, h4, h5, h6⟩ := ih g b cells todo hq hc1
          refine ⟨g1, pos1, k + 1, ?_, ?_, ?_, ?_, ?_, h6⟩
          · simp only [csv_steps, hs]; exact h1
          · simp only [csv_enqueued, List.map_cons, List.cons_append, List.length_cons] at h2 ⊢
            omega
          · simp only [csv_steps_acts, hs, ha]
            rw [h3]
            simp [csv_enqueued]
          · rw [h4]
            simp [hlog]
          · simpa [csv_enqueued] using h5

end Fifo

set_option maxRecDepth 100000 in
/-- C21, as stated, fails: the log file could not be opened at initialisation
(`log_file` is `NULL`). A record is appended and an iteration of the writer finds it
(`has_new_record`) and takes it, but the `if (log_file)` skips `fprintf` and `fflush`: no
row is written for the record, and the writer never comes back to it. -/
theorem C21_counterexample :
    Fifo.csv_enqueued [Fifo.CsvEvent.enqueue true (ex_telemetry 1), Fifo.CsvEvent.writer] =
      [Fifo.csv_record_stored (ex_telemetry 1)] ∧
    Fifo.csv_steps_acts [Fifo.CsvEvent.enqueue true (ex_telemetry 1), Fifo.CsvEvent.writer]
        (Fifo.mosquitto_plugin_init { log_open := false, high_fd := 5, low_fd := 6 }) 0 =
      [Fifo.WriterAct.take (ex_telemetry 1)] ∧
    (Fifo.csv_steps [Fifo.CsvEvent.enqueue true (ex_telemetry 1), Fifo.CsvEvent.writer]
        (Fifo.mosquitto_plugin_init { log_open := false, high_fd := 5, low_fd := 6 }) 0).map
      (fun r => r.1.log_rows) = some [] ∧
    (Fifo.csv_steps [Fifo.CsvEvent.enqueue true (ex_telemetry 1), Fifo.CsvEvent.writer,
          Fifo.CsvEvent.writer]
        (Fifo.mosquitto_plugin_init { log_open := false, high_fd := 5, low_fd := 6 }) 0).map
      (fun r => r.1.log_rows) = some [] := by
  decide

/-- C21 (amended): for every sequence of calls of `enqueue_csv_record` and iterations of
the writer thread after initialisation, no step crashes, and what the writer does is, for
the first `n` records appended to the queue, in the order in which they were appended,
and for each of them once: take the record and, when the log file is open, write its row
and flush (`fprintf`, then `fflush`, before the next record is taken), where `n` is the
number of iterations that found a new record. The rows in the log after the header are
those of the first `w` appended records, in order, `w` being the number of iterations
that wrote a row: every iteration that took a record when the log file is open, none
when it could not be opened. -/
theorem C21_writer_in_order (env : Fifo.InitEnv) (evs : List Fifo.CsvEvent) :
    ∃ g1 pos, Fifo.csv_steps evs (Fifo.mosquitto_plugin_init env) 0 = some (g1, pos) ∧
      Fifo.records_taken (Fifo.csv_steps_acts evs (Fifo.mosquitto_plugin_init env) 0) ≤
        (Fifo.csv_enqueued evs).length ∧
      Fifo.csv_steps_acts evs (Fifo.mosquitto_plugin_init env) 0 =
        ((Fifo.csv_enqueued evs).take
          (Fifo.records_taken
            (Fifo.csv_steps_acts evs (Fifo.mosquitto_plugin_init env) 0))).flatMap
          (Fifo.acts_of env.log_open) ∧
      Fifo.rows_written (Fifo.csv_steps_acts evs (Fifo.mosquitto_plugin_init env) 0) =
        (if env.log_open then
          Fifo.records_taken (Fifo.csv_steps_acts evs (Fifo.mosquitto_plugin_init env) 0)
          else 0) ∧
      g1.log_rows = (Fifo.mosquitto_plugin_init env).log_rows ++
        ((Fifo.csv_enqueued evs).take
          (Fifo.rows_written
            (Fifo.csv_steps_acts evs (Fifo.mosquitto_plugin_init env) 0))).map Fifo.csv_row ∧
      g1.csv_queue.toList = Fifo.csv_enqueued evs := by
  obtain ⟨g1, pos1, k, h1, h2, h3, h4, h5, _⟩ :=
    Fifo.csv_steps_spec evs (Fifo.mosquitto_plugin_init env) 0 [] []
      QueueInv.empty (Or.inl ⟨rfl, rfl⟩)
  simp only [List.map_nil, List.nil_append] at h2 h3 h4 h5
  have hlog : (Fifo.mosquitto_plugin_init env).log_file = env.log_open := rfl
  rw [hlog] at h3 h4
  have hlen : ((Fifo.csv_enqueued evs).take k).length = k := by
    rw [List.length_take]; omega
  have ht : Fifo.records_taken
      (Fifo.csv_steps_acts evs (Fifo.mosquitto_plugin_init env) 0) = k := by
    rw [h3, Fifo.records_taken_acts, hlen]
  have hw : Fifo.rows_written
      (Fifo.csv_steps_acts evs (Fifo.mosquitto_plugin_init env) 0) =
        if env.log_open then k else 0 := by
    rw [h3, Fifo.rows_written_acts, hlen]
  refine ⟨g1, pos1, h1, by rw [ht]; exact h2, by rw [ht]; exact h3, by rw [hw, ht], ?_, h5⟩
  rw [h4, hw]
  cases env.log_open <;> simp

set_option maxRecDepth 100000 in
/-- C21, witness: three calls of `enqueue_csv_record` for the records 1, 2 and 3,
the `malloc` of the second failing, and four iterations of the writer: it takes record 1,
writes and flushes its row, then does the same with record 3. -/
theorem C21_writer_in_order_witness :
    Fifo.csv_enqueued ex_csv_events =
      [Fifo.csv_record_stored (ex_telemetry 1), Fifo.csv_record_stored (ex_telemetry 3)] ∧
    Fifo.csv_steps_acts ex_csv_events ex_plugin 0 =
      [Fifo.WriterAct.take (ex_telemetry 1),
        Fifo.WriterAct.fprintf (Fifo.csv_row (ex_telemetry 1)), Fifo.WriterAct.fflush,
        Fifo.WriterAct.take (ex_telemetry 3),
        Fifo.WriterAct.fprintf (Fifo.csv_row (ex_telemetry 3)), Fifo.WriterAct.fflush] ∧
    (∃ g1 pos, Fifo.csv_steps ex_csv_events ex_plugin 0 = some (g1, pos) ∧
      g1.log_rows = ex_plugin.log_rows ++
        ((Fifo.csv_enqueued ex_csv_events).take
          (Fifo.rows_written (Fifo.csv_steps_acts ex_csv_events ex_plugin 0))).map
          Fifo.csv_row) ∧
    Fifo.rows_written (Fifo.csv_steps_acts ex_csv_events ex_plugin 0) = 2 :=
  have h := C21_writer_in_order { log_open := true, high_fd := 5, low_fd := 6 } ex_csv_events
  ⟨by decide, by decide,
    h.elim (fun g1 h1 => h1.elim (fun pos h2 => ⟨g1, pos, h2.1, h2.2.2.2.2.1⟩)),
    by decide⟩

/-! ## C22: the structure of the receive queue -/

theorem addrs_of_seg {α : Type} {mem : ℕ → Option (Cell α)} {l : List (ℕ × α)}
    (h : Seg mem l 0) (fuel : ℕ) (hf : l.length ≤ fuel) :
    Queue.addrs mem fuel (first_or l 0) = l.map Prod.fst := by
  induction l generalizing fuel with
  | nil => cases fuel <;> simp [Queue.addrs]
  | cons c l ih =>
    obtain ⟨a, x⟩ := c
    obtain ⟨h0, h1, h2⟩ := h
    cases fuel with
    | zero => simp at hf
    | succ fuel =>
      simp only [List.length_cons, Nat.add_le_add_iff_right] at hf
      simp [Queue.addrs, h0, h1, ih h2 fuel hf]

theorem QueueInv.nodes_eq {α : Type} {q : Queue α} {l : List (ℕ × α)} (h : QueueInv q l) :
    q.nodes = l.map Prod.fst := by
  unfold Queue.nodes
  rw [h.head_eq]
  apply addrs_of_seg h.seg
  simpa using nodup_length_lt h.nodup h.below

theorem last_or_getLast {α : Type} (l : List (ℕ × α)) (d : ℕ) :
    last_or l d = ((l.map Prod.fst).getLast?).getD d := by
  induction l generalizing d with
  | nil => rfl
  | cons c l ih =>
    obtain ⟨a, x⟩ := c
    rw [last_or_cons, ih]
    cases l with
    | nil => rfl
    | cons c2 l =>
      simp only [List.map_cons, List.getLast?_cons_cons]
      cases h : (c2.1 :: List.map Prod.fst l).getLast? with
      | none => exact absurd (List.getLast?_eq_none_iff.mp h) (by simp)
      | some b => rfl

theorem QueueInv.tail_last {α : Type} {q : Queue α} {l : List (ℕ × α)} (h : QueueInv q l) :
    q.tail = (q.nodes.getLast?).getD 0 := by
  rw [h.nodes_eq, h.tail_eq, last_or_getLast]

namespace Fifo

theorem cursor_mem {pos : ℕ} {cells : List (ℕ × ReceiveNode)} {hist : List ReceiveNode}
    {n : ℕ} (h : CursorInv pos cells hist n) (hp : pos ≠ 0) : pos ∈ cells.map Prod.fst := by
  rcases h with ⟨h1, _, _⟩ | ⟨pre, x, post, h1, _, _⟩
  · exact absurd h1 hp
  · rw [h1]; simp

/-- The hook on a queue of cells `cells`: it returns, and the queue afterwards is `cells`
followed by the new cell, if one was appended. -/
theorem hook_cells {g : Globals} {cells : List (ℕ × ReceiveNode)}
    (hq : QueueInv g.receive cells) (m : Msg) :
    ∃ g1 r, on_message_callback g m = some (g1, r) ∧
      QueueInv g1.receive
        (cells ++ (r.enqueued.map (fun x => (g.receive.brk, x))).toList) := by
  unfold on_message_callback
  by_cases hcl : m.client = true
  swap
  · simp only [Bool.not_eq_true] at hcl
    simp only [hcl, Bool.not_false, if_true]
    exact ⟨_, _, rfl, by simpa using hq⟩
  simp only [hcl, Bool.not_true, Bool.false_eq_true, if_false]
  cases haddr : m.address with
  | none => exact ⟨_, _, rfl, by simpa using hq⟩
  | some ip =>
    simp only
    cases hfind : HASH_FIND_STR g.ip_table ip with
    | none =>
      simp only
      by_cases hea : m.entry_alloc = true
      swap
      · simp only [Bool.not_eq_true] at hea
        simp only [hea, Bool.not_false, if_true]
        exact ⟨_, _, rfl, by simpa using hq⟩
      simp only [hea, Bool.not_true, Bool.false_eq_true, if_false]
      by_cases hna : m.node_alloc = true
      swap
      · simp only [Bool.not_eq_true] at hna
        simp only [hna, Bool.not_false, if_true]
        exact ⟨_, _, rfl, by simpa using hq⟩
      simp only [hna, Bool.not_true, Bool.false_eq_true, if_false]
      obtain ⟨q1, he, hq1, _⟩ := hq.enqueue
        { ip := strncpy ip 63, recv_ts := m.recv_ts,
          packet_count := (packet_count_incr
            { ip := strncpy ip 63, last_time := m.recv_ts, packet_count := 0 }).packet_count }
      rw [he]
      exact ⟨_, _, rfl, by simpa using hq1⟩
    | some e =>
      simp only
      by_cases hna : m.node_alloc = true
      swap
      · simp only [Bool.not_eq_true] at hna
        simp only [hna, Bool.not_false, if_true]
        exact ⟨_, _, rfl, by simpa using hq⟩
      simp only [hna, Bool.not_true, Bool.false_eq_true, if_false]
      obtain ⟨q1, he, hq1, _⟩ := hq.enqueue
        { ip := strncpy ip 63, recv_ts := m.recv_ts,
          packet_count := (packet_count_incr e).packet_count }
      rw [he]
      exact ⟨_, _, rfl, by simpa using hq1⟩

/-- The sweep on a queue of cells `cells` with the cursor in it, or `NULL`: it returns,
the cells afterwards are a sublist of `cells` with the same last cell, and the cursor
cell is among them. -/
theorem sweep_cells {g : Globals} {cells : List (ℕ × ReceiveNode)} {hist : List ReceiveNode}
    {n : ℕ} (hq : QueueInv g.receive cells)
    (hc : CursorInv g.receive_current_pos cells hist n) (now : double) :
    ∃ g1 cells1, cleanup_old_receive_nodes g now = some g1 ∧
      QueueInv g1.receive cells1 ∧ cells1.Sublist cells ∧
      last_or cells1 0 = last_or cells 0 ∧
      g1.receive_current_pos = g.receive_current_pos ∧
      CursorInv g1.receive_current_pos cells1 hist n := by
  unfold cleanup_old_receive_nodes
  by_cases h0 : g.receive.head = 0 ∨ g.receive_current_pos = 0
  · simp only [h0, if_true]
    exact ⟨g, cells, rfl, hq, List.Sublist.refl _, rfl, rfl, hc⟩
  · simp only [h0, if_false]
    rcases hc with ⟨h1, _, _⟩ | ⟨pre, x, post, h1, h2, h3⟩
    · exact absurd (Or.inr h1) h0
    · subst h1
      have hlen : pre.length ≤ g.receive.brk := by
        have := nodup_length_lt hq.nodup hq.below
        simp at this; omega
      have hq2 : QueueInv g.receive ([] ++ (pre ++ (g.receive_current_pos, x) :: post)) := by
        simpa using hq
      obtain ⟨q1, hl, hq1, _⟩ :=
        cleanup_loop_spec now g.receive_current_pos x post pre [] g.receive g.receive.brk hq2 hlen
      have hhead : g.receive.head = first_or pre g.receive_current_pos := by
        rw [hq.head_eq, first_or_append]; rfl
      rw [hhead]
      simp only [last_or_nil] at hl
      rw [hl]
      refine ⟨_, kept now pre ++ (g.receive_current_pos, x) :: post, rfl, by simpa using hq1,
        ?_, ?_, rfl, Or.inr ⟨kept now pre, x, post, rfl, h2, h3⟩⟩
      · exact List.Sublist.append (List.filter_sublist _) (List.Sublist.refl _)
      · rw [last_or_append, last_or_append]; rfl

end Fifo

/-- C22: in every state the plugin reaches by hook invocations, iterations of the
processing thread and sweeps, `receive_tail` is the last node reachable from
`receive_head` (`NULL` when there is none) and the cursor, when set, is reachable from
`receive_head`. A sweep in such a state returns; the nodes after it are a sublist of the
nodes before, `receive_tail` and the cursor are unchanged and still in the queue; and a
hook invocation after the sweep returns with the new node, if it allocated one, linked
behind the nodes that were in the queue. -/
theorem C22_receive_queue_linked (env : Fifo.InitEnv) (evs : List Fifo.Event)
    (g : Fifo.Globals)
    (hrun : Fifo.run_state (Fifo.mosquitto_plugin_init env) evs = some g) :
    g.receive.tail = (g.receive.nodes.getLast?).getD 0 ∧
    (g.receive_current_pos ≠ 0 → g.receive_current_pos ∈ g.receive.nodes) ∧
    ∀ now : double, ∃ g1, Fifo.cleanup_old_receive_nodes g now = some g1 ∧
      g1.receive.nodes.Sublist g.receive.nodes ∧
      g1.receive.tail = g.receive.tail ∧
      g1.receive_current_pos = g.receive_current_pos ∧
      g1.receive.tail = (g1.receive.nodes.getLast?).getD 0 ∧
      (g.receive_current_pos ≠ 0 → g.receive_current_pos ∈ g1.receive.nodes) ∧
      ∀ m : Fifo.Msg, ∃ g2 r, Fifo.on_message_callback g1 m = some (g2, r) ∧
        g2.receive.nodes =
          g1.receive.nodes ++ (r.enqueued.map (fun _ => g2.receive.tail)).toList ∧
        g2.receive.toList = g1.receive.toList ++ r.enqueued.toList ∧
        g2.receive.tail = (g2.receive.nodes.getLast?).getD 0 := by
  obtain ⟨_, hI⟩ := Fifo.run_state_inv evs _ g [] 0 [] (Fifo.inv_init env) hrun
  obtain ⟨⟨cells, hq, hc⟩, _⟩ := hI
  refine ⟨hq.tail_last, fun hp => by rw [hq.nodes_eq]; exact Fifo.cursor_mem hc hp, ?_⟩
  intro now
  obtain ⟨g1, cells1, h1, hq1, hsub, hlast, hpos, hc1⟩ := Fifo.sweep_cells hq hc now
  refine ⟨g1, h1, ?_, ?_, hpos, hq1.tail_last, ?_, ?_⟩
  · rw [hq1.nodes_eq, hq.nodes_eq]
    exact hsub.map _
  · rw [hq1.tail_eq, hq.tail_eq, hlast]
  · intro hp
    rw [hq1.nodes_eq, ← hpos]
    exact Fifo.cursor_mem hc1 (by rw [hpos]; exact hp)
  · intro m
    obtain ⟨g2, r, h2, hq2⟩ := Fifo.hook_cells hq1 m
    refine ⟨g2, r, h2, ?_, ?_, hq2.tail_last⟩
    · rw [hq2.nodes_eq, hq1.nodes_eq, hq2.tail_eq]
      cases r.enqueued with
      | none => simp
      | some x => simp [last_or_append]
    · rw [hq2.toList_eq, hq1.toList_eq]
      cases r.enqueued with
      | none => simp
      | some x => simp

set_option maxRecDepth 1000000 in
/-- C22, witness: three records received at seconds 1, 2 and 3 in the nodes 1, 2 and 3,
the cursor on node 2. A sweep at second 400 frees node 1; nodes 2 and 3 stay, the tail is
node 3, and the next hook invocation links node 4 behind node 3. -/
theorem C22_receive_queue_linked_witness :
    Fifo.run_state (Fifo.mosquitto_plugin_init { log_open := true, high_fd := 5, low_fd := 6 })
      ex_two_taken = some (ex_after ex_plugin ex_two_taken) ∧
    (ex_after ex_plugin ex_two_taken).receive.tail =
      ((ex_after ex_plugin ex_two_taken).receive.nodes.getLast?).getD 0 ∧
    (ex_after ex_plugin ex_two_taken).receive.nodes = [1, 2, 3] ∧
    (ex_after ex_plugin ex_two_taken).receive_current_pos = 2 ∧
    (∃ g1, Fifo.cleanup_old_receive_nodes (ex_after ex_plugin ex_two_taken) 400000000 =
        some g1 ∧
      g1.receive.nodes.Sublist (ex_after ex_plugin ex_two_taken).receive.nodes ∧
      g1.receive.tail = (ex_after ex_plugin ex_two_taken).receive.tail) ∧
    (ex_after ex_plugin (ex_two_taken ++ [Fifo.Event.sweep 400000000])).receive.nodes =
      [2, 3] ∧
    (ex_after ex_plugin (ex_two_taken ++ [Fifo.Event.sweep 400000000,
      Fifo.Event.message (ex_msg "10.0.0.5".toList 401000000)])).receive.nodes = [2, 3, 4] :=
  have hrun := Fifo.run_state_eq_after ex_plugin ex_two_taken (by decide)
  have h := C22_receive_queue_linked { log_open := true, high_fd := 5, low_fd := 6 }
    ex_two_taken _ hrun
  ⟨hrun, h.1, by decide, by decide,
    (h.2.2 400000000).elim (fun g1 h1 => ⟨g1, h1.1, h1.2.1, h1.2.2.1⟩), by decide, by decide⟩

/-! ## C23: a FIFO marked unavailable -/

namespace Fifo

theorem route_cases (g : Globals) (action : CStr) (d : ReceiveNode) (ts : double)
    (w : WriteEnv) :
    route g action d ts w = g ∨
      route g action d ts w =
        fifo_write g true (fifo_line d.ip d.packet_count ts "high".toList) w ∨
      route g action d ts w =
        fifo_write g false (fifo_line d.ip d.packet_count ts "low".toList) w := by
  by_cases h1 : action = "drop".toList
  · left; simp [route, h1]
  by_cases h2 : action = "high".toList
  · right; left; rw [h2]; exact route_high g d ts w
  by_cases h3 : action = "low".toList
  · right; right; rw [h3]; exact route_low g d ts w
  · right; right; rw [route_other g action d ts w h1 h2 h3]; exact route_low g d ts w

theorem route_closed (g : Globals) (action : CStr) (d : ReceiveNode) (ts : double)
    (w : WriteEnv) :
    (g.high_fifo_fd = -1 →
      (route g action d ts w).high_fifo_fd = -1 ∧
        (route g action d ts w).high_pipe = g.high_pipe) ∧
    (g.low_fifo_fd = -1 →
      (route g action d ts w).low_fifo_fd = -1 ∧
        (route g action d ts w).low_pipe = g.low_pipe) := by
  rcases route_cases g action d ts w with h | h | h
  · rw [h]; exact ⟨fun h1 => ⟨h1, rfl⟩, fun h1 => ⟨h1, rfl⟩⟩
  · rw [h]
    obtain ⟨a1, a2, _, a4, _⟩ := fifo_write_high g
      (fifo_line d.ip d.packet_count ts "high".toList) w
    exact ⟨fun h1 => by rw [a4 h1]; exact ⟨h1, rfl⟩, fun h1 => ⟨by rw [a2]; exact h1, a1⟩⟩
  · rw [h]
    obtain ⟨a1, a2, _, a4, _⟩ := fifo_write_low g
      (fifo_line d.ip d.packet_count ts "low".toList) w
    exact ⟨fun h1 => ⟨by rw [a2]; exact h1, a1⟩, fun h1 => by rw [a4 h1]; exact ⟨h1, rfl⟩⟩

theorem io_fields {ga gb : Globals} (h : io ga = io gb) :
    ga.high_fifo_fd = gb.high_fifo_fd ∧ ga.low_fifo_fd = gb.low_fifo_fd ∧
      ga.high_pipe = gb.high_pipe ∧ ga.low_pipe = gb.low_pipe := by
  simp only [io, Prod.mk.injEq] at h
  exact h

/-- A step of the plugin leaves a FIFO whose descriptor is -1 as it is: the descriptor
stays -1 and nothing reaches the FIFO. -/
theorem step_closed {g g1 : Globals} {ev : Event} {o : Obs} (h : step g ev = some (g1, o)) :
    (g.high_fifo_fd = -1 → g1.high_fifo_fd = -1 ∧ g1.high_pipe = g.high_pipe) ∧
    (g.low_fifo_fd = -1 → g1.low_fifo_fd = -1 ∧ g1.low_pipe = g.low_pipe) := by
  have hsame : ∀ ga : Globals, io ga = io g →
      (g.high_fifo_fd = -1 → ga.high_fifo_fd = -1 ∧ ga.high_pipe = g.high_pipe) ∧
      (g.low_fifo_fd = -1 → ga.low_fifo_fd = -1 ∧ ga.low_pipe = g.low_pipe) := by
    intro ga hio
    obtain ⟨e1, e2, e3, e4⟩ := io_fields hio
    exact ⟨fun h1 => ⟨by rw [e1]; exact h1, e3⟩, fun h1 => ⟨by rw [e2]; exact h1, e4⟩⟩
  cases ev with
  | message m =>
    simp only [step, Option.map_eq_some', Prod.mk.injEq] at h
    obtain ⟨⟨ga, r⟩, hm, hg, _⟩ := h
    subst hg
    exact hsame _ (hook_io hm).1
  | process env =>
    simp only [step, Option.map_eq_some', Prod.mk.injEq] at h
    obtain ⟨⟨ga, op⟩, hm, hg, _⟩ := h
    subst hg
    cases op with
    | none => rw [processor_none hm]; exact hsame g rfl
    | some p =>
      obtain ⟨_, _, _, _, _, _, _, _, _, _, hio, _⟩ := processor_some hm
      obtain ⟨e1, e2, e3, e4⟩ := io_fields hio
      obtain ⟨r1, r2⟩ := route_closed g p.action p.current_data env.service_end_ts env.write
      exact ⟨fun h1 => ⟨by rw [e1]; exact (r1 h1).1, by rw [e3]; exact (r1 h1).2⟩,
        fun h1 => ⟨by rw [e2]; exact (r2 h1).1, by rw [e4]; exact (r2 h1).2⟩⟩
  | sweep now =>
    simp only [step, Option.map_eq_some', Prod.mk.injEq] at h
    obtain ⟨ga, hm, hg, _⟩ := h
    subst hg
    exact hsame _ (cleanup_frame hm).1

theorem run_closed (evs : List Event) :
    ∀ g g1 : Globals, run_state g evs = some g1 →
      (g.high_fifo_fd = -1 → g1.high_fifo_fd = -1 ∧ g1.high_pipe = g.high_pipe) ∧
      (g.low_fifo_fd = -1 → g1.low_fifo_fd = -1 ∧ g1.low_pipe = g.low_pipe) := by
  induction evs with
  | nil =>
    intro g g1 h
    simp only [run_state, Option.some.injEq] at h
    subst h
    exact ⟨fun h1 => ⟨h1, rfl⟩, fun h1 => ⟨h1, rfl⟩⟩
  | cons ev evs ih =>
    intro g g2 h
    unfold run_state at h
    cases hs : step g ev with
    | none => rw [hs] at h; exact absurd h (by simp)
    | some x =>
      obtain ⟨ga, o⟩ := x
      rw [hs] at h
      simp only at h
      obtain ⟨s1, s2⟩ := step_closed hs
      obtain ⟨i1, i2⟩ := ih ga g2 h
      exact ⟨fun h1 => ⟨(i1 (s1 h1).1).1, ((i1 (s1 h1).1).2).trans (s1 h1).2⟩,
        fun h1 => ⟨(i2 (s2 h1).1).1, ((i2 (s2 h1).1).2).trans (s2 h1).2⟩⟩

end Fifo

/-- C23: once the descriptor of a FIFO is -1, no step of the plugin (hook invocation,
iteration of the processing thread, sweep) makes it anything else, and nothing more
reaches that FIFO: after any sequence of steps the descriptor is still -1 and the bytes
written to the FIFO are the same. A call of `write_to_fifo` for that FIFO returns without
`write`, `close` or `open` and leaves the whole state, both descriptors included,
unchanged. -/
theorem C23_unavailable_stays (g g1 : Fifo.Globals) (evs : List Fifo.Event)
    (hrun : Fifo.run_state g evs = some g1) :
    (g.high_fifo_fd = -1 → g1.high_fifo_fd = -1 ∧ g1.high_pipe = g.high_pipe) ∧
    (g.low_fifo_fd = -1 → g1.low_fifo_fd = -1 ∧ g1.low_pipe = g.low_pipe) ∧
    (∀ (ip : CStr) (count : ℕ) (ts : double) (w : WriteEnv),
      (g1.high_fifo_fd = -1 →
        Fifo.write_to_fifo g1 "high".toList ip count ts w = g1 ∧
          Fifo.write_to_fifo_calls g1 "high".toList ip count ts w = []) ∧
      (g1.low_fifo_fd = -1 →
        Fifo.write_to_fifo g1 "low".toList ip count ts w = g1 ∧
          Fifo.write_to_fifo_calls g1 "low".toList ip count ts w = [])) := by
  obtain ⟨h1, h2⟩ := Fifo.run_closed evs g g1 hrun
  refine ⟨h1, h2, fun ip count ts w => ⟨fun hh => ?_, fun hl => ?_⟩⟩
  · have e : "high".toList = "high".toList := rfl
    simp only [Fifo.write_to_fifo, Fifo.write_to_fifo_calls, e, if_true, Fifo.fifo_write,
      Fifo.fifo_write_calls, hh, and_self]
  · have e : ¬ ("low".toList = "high".toList) := by decide
    simp only [Fifo.write_to_fifo, Fifo.write_to_fifo_calls, e, if_false, if_true,
      Fifo.fifo_write, Fifo.fifo_write_calls, hl, and_self, Bool.false_eq_true]

set_option maxRecDepth 1000000 in
/-- C23, witness: the open of the HIGH FIFO failed at initialisation. After four messages
classified "high", "low", "drop" and "medium" the HIGH descriptor is still -1, nothing is
on the HIGH FIFO, and the two LOW lines are on the LOW FIFO. -/
theorem C23_unavailable_stays_witness :
    Fifo.run_state ex_plugin_no_high ex_channels =
      some (ex_after ex_plugin_no_high ex_channels) ∧
    ex_plugin_no_high.high_fifo_fd = -1 ∧
    ((ex_after ex_plugin_no_high ex_channels).high_fifo_fd = -1 ∧
      (ex_after ex_plugin_no_high ex_channels).high_pipe = ex_plugin_no_high.high_pipe) ∧
    (Fifo.processed_of (Fifo.run ex_plugin_no_high ex_channels)).map Fifo.Processed.action =
      ["high".toList, "low".toList, "drop".toList, "medium".toList] ∧
    (ex_after ex_plugin_no_high ex_channels).high_pipe = [] ∧
    (ex_after ex_plugin_no_high ex_channels).low_pipe =
      ("\x7b\"ip\":\"10.0.0.5\",\"count\":2,\"timestamp\":5.000101,\"priority\":\"low\"\x7d\n" ++
        "\x7b\"ip\":\"10.0.0.5\",\"count\":4,\"timestamp\":5.000101,\"priority\":\"low\"\x7d\n").toList :=
  have hrun := Fifo.run_state_eq_after ex_plugin_no_high ex_channels (by decide)
  ⟨hrun, by decide, (C23_unavailable_stays _ _ ex_channels hrun).1 (by decide), by decide,
    by decide, by decide⟩

/-! ## C24: the counters of the dual-FIFO forwarder -/

namespace PqForwarder

/-- A call of `process_message` on a non-empty line increments exactly one of the three
counters and leaves `total_messages` alone. -/
theorem process_message_counters {s s1 : State} {line priority : CStr} {env : PubEnv} {r : ℤ}
    (hl : line ≠ []) (h : process_message s line priority env = some (s1, r)) :
    (s1.high_processed, s1.low_processed, s1.publish_failures) =
      (if env.rc = MQTTCLIENT_SUCCESS then
        (if priority = "HIGH".toList then
          (s.high_processed + 1, s.low_processed, s.publish_failures)
          else (s.high_processed, s.low_processed + 1, s.publish_failures))
        else (s.high_processed, s.low_processed, s.publish_failures + 1)) ∧
    s1.total_messages = s.total_messages := by
  unfold process_message at h
  simp only [hl, if_false] at h
  split at h
  · exact absurd h (by simp)
  · simp only [Option.some.injEq, Prod.mk.injEq] at h
    obtain ⟨h, _⟩ := h
    subst h
    by_cases hrc : env.rc = MQTTCLIENT_SUCCESS
    · by_cases hpr : priority = "HIGH".toList
      · simp [hrc, hpr]
      · simp only [hrc, hpr, decide_True, if_true, if_false]
        simp
    · simp [hrc]

/-- The counters after the first half of a cycle: as before when nothing was processed,
otherwise `total_messages` and one of `high_processed` and `publish_failures` are
incremented. -/
theorem read_high_counters {s s1 : State} {env : CycleEnv} (h : read_high s env = some s1) :
    (s1.high_processed = s.high_processed ∧ s1.low_processed = s.low_processed ∧
        s1.publish_failures = s.publish_failures ∧ s1.total_messages = s.total_messages) ∨
      (s1.total_messages = s.total_messages + 1 ∧ s1.low_processed = s.low_processed ∧
        ((env.high_pub.rc = MQTTCLIENT_SUCCESS ∧ s1.high_processed = s.high_processed + 1 ∧
            s1.publish_failures = s.publish_failures) ∨
          (env.high_pub.rc ≠ MQTTCLIENT_SUCCESS ∧ s1.high_processed = s.high_processed ∧
            s1.publish_failures = s.publish_failures + 1))) := by
  unfold read_high at h
  by_cases he : s.high_eof = true
  · rw [if_pos he] at h
    simp only [Option.some.injEq] at h
    subst h
    exact Or.inl ⟨rfl, rfl, rfl, rfl⟩
  rw [if_neg he] at h
  simp only at h
  split at h
  · simp only [Option.some.injEq] at h
    subst h
    exact Or.inl ⟨rfl, rfl, rfl, rfl⟩
  · rename_i buf rest hf
    by_cases hl : strip_newline buf = []
    · rw [if_neg (not_not.mpr hl)] at h
      simp only [Option.some.injEq] at h
      subst h
      exact Or.inl ⟨rfl, rfl, rfl, rfl⟩
    · rw [if_pos hl] at h
      split at h
      · exact absurd h (by simp)
      · rename_i s2 r hp
        simp only [Option.some.injEq] at h
        subst h
        obtain ⟨c1, c2⟩ := process_message_counters hl hp
        right
        by_cases hrc : env.high_pub.rc = MQTTCLIENT_SUCCESS
        · simp only [hrc, if_true, Prod.mk.injEq] at c1
          exact ⟨by simp [c2], c1.2.1, Or.inl ⟨hrc, c1.1, c1.2.2⟩⟩
        · simp only [hrc, if_false, Prod.mk.injEq] at c1
          exact ⟨by simp [c2], c1.2.1, Or.inr ⟨hrc, c1.1, c1.2.2⟩⟩

/-- The counters after the second half of a cycle: as before when nothing was processed,
otherwise `total_messages` and one of `low_processed` and `publish_failures` are
incremented. -/
theorem read_low_counters {s s1 : State} {env : CycleEnv} (h : read_low s env = some s1) :
    (s1.high_processed = s.high_processed ∧ s1.low_processed = s.low_processed ∧
        s1.publish_failures = s.publish_failures ∧ s1.total_messages = s.total_messages) ∨
      (s1.total_messages = s.total_messages + 1 ∧ s1.high_processed = s.high_processed ∧
        ((env.low_pub.rc = MQTTCLIENT_SUCCESS ∧ s1.low_processed = s.low_processed + 1 ∧
            s1.publish_failures = s.publish_failures) ∨
          (env.low_pub.rc ≠ MQTTCLIENT_SUCCESS ∧ s1.low_processed = s.low_processed ∧
            s1.publish_failures = s.publish_failures + 1))) := by
  unfold read_low at h
  by_cases he : s.low_eof = true
  · rw [if_pos he] at h
    simp only [Option.some.injEq] at h
    subst h
    exact Or.inl ⟨rfl, rfl, rfl, rfl⟩
  rw [if_neg he] at h
  simp only at h
  split at h
  · simp only [Option.some.injEq] at h
    subst h
    exact Or.inl ⟨rfl, rfl, rfl, rfl⟩
  · rename_i buf rest hf
    by_cases hl : strip_newline buf = []
    · rw [if_neg (not_not.mpr hl)] at h
      simp only [Option.some.injEq] at h
      subst h
      exact Or.inl ⟨rfl, rfl, rfl, rfl⟩
    · rw [if_pos hl] at h
      split at h
      · exact absurd h (by simp)
      · rename_i s2 r hp
        simp only [Option.some.injEq] at h
        subst h
        obtain ⟨c1, c2⟩ := process_message_counters hl hp
        have hne : ¬ ("LOW".toList = "HIGH".toList) := by decide
        right
        by_cases hrc : env.low_pub.rc = MQTTCLIENT_SUCCESS
        · simp only [hrc, if_true, hne, if_false, Prod.mk.injEq] at c1
          exact ⟨by simp [c2], c1.1, Or.inl ⟨hrc, c1.2.1, c1.2.2⟩⟩
        · simp only [hrc, if_false, Prod.mk.injEq] at c1
          exact ⟨by simp [c2], c1.1, Or.inr ⟨hrc, c1.2.1, c1.2.2⟩⟩

/-- A cycle keeps the balance of the counters and decreases none of them. -/
theorem cycle_counters {s s1 : State} {env : CycleEnv} (h : cycle s env = some s1) :
    (((s.total_messages : ℤ) = s.high_processed + s.low_processed + s.publish_failures) →
      (s1.total_messages : ℤ) = s1.high_processed + s1.low_processed + s1.publish_failures) ∧
    s.high_processed ≤ s1.high_processed ∧ s.low_processed ≤ s1.low_processed ∧
    s.publish_failures ≤ s1.publish_failures ∧ s.total_messages ≤ s1.total_messages := by
  unfold cycle at h
  cases h1 : read_high { s with debug_cycle := s.debug_cycle + 1 } env with
  | none => rw [h1] at h; exact absurd h (by simp)
  | some s2 =>
    rw [h1] at h
    simp only at h
    have a := read_high_counters h1
    have b := read_low_counters h
    simp only at a
    rcases a with ⟨a1, a2, a3, a4⟩ | ⟨a1, a2, ⟨_, a3, a4⟩ | ⟨_, a3, a4⟩⟩ <;>
      rcases b with ⟨b1, b2, b3, b4⟩ | ⟨b1, b2, ⟨_, b3, b4⟩ | ⟨_, b3, b4⟩⟩ <;>
      (refine ⟨fun hb => ?_, ?_, ?_, ?_, ?_⟩ <;> omega)

/-- The counters are balanced at the end of every run of the loop that starts balanced. -/
theorem main_loop_counters (envs : List CycleEnv) :
    ∀ s : State,
      ((s.total_messages : ℤ) = s.high_processed + s.low_processed + s.publish_failures) →
      (((main_loop envs s).1.total_messages : ℤ) =
        (main_loop envs s).1.high_processed + (main_loop envs s).1.low_processed +
          (main_loop envs s).1.publish_failures) := by
  induction envs with
  | nil => intro s h; exact h
  | cons env envs ih =>
    intro s h
    unfold main_loop
    split_ifs with hr
    · exact h
    · cases hc : cycle s env with
      | none => exact h
      | some s1 =>
        simp only
        have h1 := (cycle_counters hc).1 h
        split_ifs
        · exact h1
        · exact ih s1 h1

end PqForwarder

/-- C24: in the dual-FIFO forwarder `total_messages = high_processed + low_processed +
publish_failures` holds when the loop is entered and at the end of every cycle, so at the
end of every run of the loop. A call of `process_message` on a non-empty line increments
exactly one of the three counters: `high_processed` for a successful publish with priority
"HIGH", `low_processed` for a successful publish with another priority, `publish_failures`
for a failed one. No cycle decreases a counter. (The `size_t` counters are natural
numbers here; a run does not reach the 2^64 lines at which they would wrap.) -/
theorem C24_counters_balanced (envs : List PqForwarder.CycleEnv) (high low : CStr) :
    (((PqForwarder.main_loop envs (PqForwarder.main_start high low)).1.total_messages : ℤ) =
      (PqForwarder.main_loop envs (PqForwarder.main_start high low)).1.high_processed +
        (PqForwarder.main_loop envs (PqForwarder.main_start high low)).1.low_processed +
        (PqForwarder.main_loop envs (PqForwarder.main_start high low)).1.publish_failures) ∧
    (∀ (s s1 : PqForwarder.State) (env : PqForwarder.CycleEnv),
      PqForwarder.cycle s env = some s1 →
      (((s.total_messages : ℤ) = s.high_processed + s.low_processed + s.publish_failures) →
        (s1.total_messages : ℤ) =
          s1.high_processed + s1.low_processed + s1.publish_failures) ∧
      s.high_processed ≤ s1.high_processed ∧ s.low_processed ≤ s1.low_processed ∧
      s.publish_failures ≤ s1.publish_failures ∧ s.total_messages ≤ s1.total_messages) ∧
    (∀ (s s1 : PqForwarder.State) (line priority : CStr) (env : PqForwarder.PubEnv) (r : ℤ),
      line ≠ [] → PqForwarder.process_message s line priority env = some (s1, r) →
      (s1.high_processed, s1.low_processed, s1.publish_failures) =
        (if env.rc = MQTTCLIENT_SUCCESS then
          (if priority = "HIGH".toList then
            (s.high_processed + 1, s.low_processed, s.publish_failures)
            else (s.high_processed, s.low_processed + 1, s.publish_failures))
          else (s.high_processed, s.low_processed, s.publish_failures + 1))) :=
  ⟨PqForwarder.main_loop_counters envs _ (by simp [PqForwarder.main_start]),
    fun _ _ _ h => PqForwarder.cycle_counters h,
    fun _ _ _ _ _ _ hl h => (PqForwarder.process_message_counters hl h).1⟩

set_option maxRecDepth 100000 in
/-- C24, witness: three cycles on a HIGH FIFO of three lines and a LOW FIFO of two, the
HIGH publish of the second cycle and the LOW publish of the first failing: five lines
read, two HIGH successes, one LOW success, two failures. -/
theorem C24_counters_balanced_witness :
    ((PqForwarder.main_loop [ex_cycle 0 (-1), ex_cycle (-1) 0, ex_cycle 0 0]
        (PqForwarder.main_start (ex_lines 3) (ex_lines 2))).1.total_messages : ℤ) =
      (PqForwarder.main_loop [ex_cycle 0 (-1), ex_cycle (-1) 0, ex_cycle 0 0]
        (PqForwarder.main_start (ex_lines 3) (ex_lines 2))).1.high_processed +
      (PqForwarder.main_loop [ex_cycle 0 (-1), ex_cycle (-1) 0, ex_cycle 0 0]
        (PqForwarder.main_start (ex_lines 3) (ex_lines 2))).1.low_processed +
      (PqForwarder.main_loop [ex_cycle 0 (-1), ex_cycle (-1) 0, ex_cycle 0 0]
        (PqForwarder.main_start (ex_lines 3) (ex_lines 2))).1.publish_failures ∧
    (PqForwarder.main_loop [ex_cycle 0 (-1), ex_cycle (-1) 0, ex_cycle 0 0]
        (PqForwarder.main_start (ex_lines 3) (ex_lines 2))).1.total_messages = 5 ∧
    (PqForwarder.main_loop [ex_cycle 0 (-1), ex_cycle (-1) 0, ex_cycle 0 0]
        (PqForwarder.main_start (ex_lines 3) (ex_lines 2))).1.high_processed = 2 ∧
    (PqForwarder.main_loop [ex_cycle 0 (-1), ex_cycle (-1) 0, ex_cycle 0 0]
        (PqForwarder.main_start (ex_lines 3) (ex_lines 2))).1.low_processed = 1 ∧
    (PqForwarder.main_loop [ex_cycle 0 (-1), ex_cycle (-1) 0, ex_cycle 0 0]
        (PqForwarder.main_start (ex_lines 3) (ex_lines 2))).1.publish_failures = 2 :=
  ⟨(C24_counters_balanced [ex_cycle 0 (-1), ex_cycle (-1) 0, ex_cycle 0 0] (ex_lines 3)
      (ex_lines 2)).1,
    by decide, by decide, by decide, by decide⟩

/-! ## C25: the value of the failure counter at the breaker -/

/-- C25: when the single-FIFO forwarder leaves its loop through the circuit breaker,
`publish_failures` is exactly 101; when the dual-FIFO forwarder does, it is 101 or 102:
the test `publish_failures > 100` comes once per cycle, after the cycle's publishes, and a
cycle adds at most 2 to the counter, one for a failed HIGH publish and one for a failed
LOW publish. -/
theorem C25_breaker_exit_count (file : CStr) (ienvs : List PahoForwarder.IterEnv)
    (high low : CStr) (cenvs : List PqForwarder.CycleEnv) :
    ((PahoForwarder.main_loop ienvs (PahoForwarder.main_start file)).2 = Exit.breaker →
      (PahoForwarder.main_loop ienvs (PahoForwarder.main_start file)).1.publish_failures
        = 101) ∧
    ((PqForwarder.main_loop cenvs (PqForwarder.main_start high low)).2 = Exit.breaker →
      (PqForwarder.main_loop cenvs (PqForwarder.main_start high low)).1.publish_failures
          = 101 ∨
        (PqForwarder.main_loop cenvs (PqForwarder.main_start high low)).1.publish_failures
          = 102) ∧
    (∀ (s s1 : PqForwarder.State) (env : PqForwarder.CycleEnv),
      PqForwarder.cycle s env = some s1 →
      s.publish_failures ≤ s1.publish_failures ∧
        s1.publish_failures ≤ s.publish_failures + 2 ∧
        (s1.publish_failures = s.publish_failures + 2 →
          env.high_pub.rc ≠ MQTTCLIENT_SUCCESS ∧ env.low_pub.rc ≠ MQTTCLIENT_SUCCESS)) := by
  obtain ⟨_, a2, _, _⟩ := PahoForwarder.paho_main_loop_spec ienvs (PahoForwarder.main_start file)
    (by simp [PahoForwarder.main_start, PahoForwarder.failed])
    (by simp [PahoForwarder.main_start])
  obtain ⟨_, b2, _, _⟩ := PqForwarder.main_loop_spec cenvs (PqForwarder.main_start high low)
    (by simp [PqForwarder.main_start, PqForwarder.failed])
    (by simp [PqForwarder.main_start])
  refine ⟨a2, b2, ?_⟩
  intro s s1 env h
  unfold PqForwarder.cycle at h
  cases h1 : PqForwarder.read_high { s with debug_cycle := s.debug_cycle + 1 } env with
  | none => rw [h1] at h; exact absurd h (by simp)
  | some s2 =>
    rw [h1] at h
    simp only at h
    have a := PqForwarder.read_high_counters h1
    have b := PqForwarder.read_low_counters h
    simp only at a
    rcases a with ⟨_, _, a3, _⟩ | ⟨_, _, ⟨ha, _, a3⟩ | ⟨ha, _, a3⟩⟩ <;>
      rcases b with ⟨_, _, b3, _⟩ | ⟨_, _, ⟨hb, _, b3⟩ | ⟨hb, _, b3⟩⟩ <;>
      (refine ⟨by omega, by omega, fun h2 => ?_⟩
       first | exact ⟨ha, hb⟩ | (exfalso; omega))

set_option maxRecDepth 100000 in
/-- C25, witness: with every publish failing, the single-FIFO forwarder leaves its loop
with 101 failures; the dual-FIFO forwarder with 102 when both FIFOs hold 51 lines (the
51st cycle takes the counter from 100 to 102), and with 101 when only the HIGH FIFO holds
lines. -/
theorem C25_breaker_exit_count_witness :
    (PahoForwarder.main_loop (List.replicate 101 (ex_iter (-1)))
      (PahoForwarder.main_start (ex_lines 101))).2 = Exit.breaker ∧
    (PahoForwarder.main_loop (List.replicate 101 (ex_iter (-1)))
      (PahoForwarder.main_start (ex_lines 101))).1.publish_failures = 101 ∧
    (PqForwarder.main_loop (List.replicate 51 (ex_cycle (-1) (-1)))
      (PqForwarder.main_start (ex_lines 51) (ex_lines 51))).2 = Exit.breaker ∧
    (PqForwarder.main_loop (List.replicate 51 (ex_cycle (-1) (-1)))
      (PqForwarder.main_start (ex_lines 51) (ex_lines 51))).1.publish_failures = 102 ∧
    (PqForwarder.main_loop (List.replicate 50 (ex_cycle (-1) (-1)))
      (PqForwarder.main_start (ex_lines 51) (ex_lines 51))).1.publish_failures = 100 ∧
    (PqForwarder.main_loop (List.replicate 101 (ex_cycle (-1) (-1)))
      (PqForwarder.main_start (ex_lines 101) [])).2 = Exit.breaker ∧
    ((PqForwarder.main_loop (List.replicate 101 (ex_cycle (-1) (-1)))
        (PqForwarder.main_start (ex_lines 101) [])).1.publish_failures = 101 ∨
      (PqForwarder.main_loop (List.replicate 101 (ex_cycle (-1) (-1)))
        (PqForwarder.main_start (ex_lines 101) [])).1.publish_failures = 102) ∧
    (PqForwarder.main_loop (List.replicate 101 (ex_cycle (-1) (-1)))
      (PqForwarder.main_start (ex_lines 101) [])).1.publish_failures = 101 :=
  have h := C25_breaker_exit_count (ex_lines 101) (List.replicate 101 (ex_iter (-1)))
    (ex_lines 101) [] (List.replicate 101 (ex_cycle (-1) (-1)))
  ⟨by decide, h.1 (by decide), by decide, by decide, by decide, by decide,
    h.2.1 (by decide), by decide⟩

/-! ## C26: the action kept in the telemetry -/

namespace Fifo

theorem call_policy_api_buffer (c : CurlEnv) :
    call_policy_api c =
      if c.init_ok = true ∧ (curl_easy_perform c).2 = true then
        api_result_of (json_tokener_parse (curl_easy_perform c).1)
      else some ApiResult.failed := by
  unfold call_policy_api
  by_cases hi : c.init_ok = true
  swap
  · simp [hi]
  by_cases hp : (curl_easy_perform c).2 = true
  swap
  · simp [hi, hp]
  · simp only [hi, hp, Bool.not_true, Bool.false_eq_true, if_false, and_self, if_true]
    unfold api_result_of
    rfl

/-- The action `call_policy_api` returns is the string of the `action` field of the
response in the buffer, cut to 15 characters. -/
theorem api_action_cut {c : CurlEnv} {a : CStr} {t p : double}
    (h : call_policy_api c = some (ApiResult.ok a t p)) :
    ∃ r ja s, json_tokener_parse (curl_easy_perform c).1 = some r ∧
      json_object_object_get_ex r "action".toList = some ja ∧
      json_object_get_string ja = some s ∧ a = strncpy s 15 := by
  rw [call_policy_api_buffer] at h
  split_ifs at h
  · obtain ⟨r0, ja, jt, jp, s, h1, h2, _, _, h5, h6, _⟩ := (api_result_ok_iff _ a t p).mp h
    exact ⟨r0, ja, s, h1, h2, h5, h6⟩
  · simp at h

theorem strncpy_idem (s : CStr) (n : ℕ) : strncpy (strncpy s n) n = strncpy s n := by
  unfold strncpy
  rw [List.take_take, min_self]

end Fifo

set_option maxRecDepth 1000000 in
/-- C26, as stated, fails: the record of 10.0.0.5 is classified "medium" while the LOW
FIFO is unavailable (descriptor -1): its telemetry keeps "medium", but the record is
not written to the LOW FIFO, nor to the HIGH FIFO. -/
theorem C26_counterexample :
    (Fifo.processed_of (Fifo.run ex_plugin_no_low
      [Fifo.Event.message (ex_msg "10.0.0.5".toList 1000000),
        Fifo.Event.process (ex_env (ex_curl "medium".toList) 66 true)])).map
      (fun p => (p.action, p.telemetry.map Fifo.CSVRecord.action)) =
      [("medium".toList, some "medium".toList)] ∧
    Fifo.io (ex_after ex_plugin_no_low
      [Fifo.Event.message (ex_msg "10.0.0.5".toList 1000000),
        Fifo.Event.process (ex_env (ex_curl "medium".toList) 66 true)]) = (5, -1, [], []) := by
  decide

/-- C26 (amended): the action in the telemetry record of an iteration of the processing
thread, when the record could be allocated, is the classifier's own action string, that
is the string of the `action` field of the response cut to 15 characters, and the default
"low" when `call_policy_api` failed; it is not the label used for routing. For an action
that is none of "drop", "high" and "low" the iteration makes the write of the line with
label "low" to the LOW FIFO, which receives the line when its descriptor is open, the
line fits the buffer and `write` returns its full length (and nothing when the
descriptor is -1), the HIGH FIFO being left alone, while the telemetry keeps the
unrecognised string. -/
theorem C26_telemetry_action (g g1 : Fifo.Globals) (env : Fifo.ProcEnv) (p : Fifo.Processed)
    (t : Fifo.CSVRecord) (hstep : Fifo.processor_thread_fn g env = some (g1, some p))
    (htel : p.telemetry = some t) :
    (∀ (a : CStr) (tr pv : double),
      Fifo.call_policy_api env.curl = some (Fifo.ApiResult.ok a tr pv) →
      t.action = a ∧ p.action = a ∧ a.length ≤ 15 ∧
        ∃ r ja s, json_tokener_parse (curl_easy_perform env.curl).1 = some r ∧
          json_object_object_get_ex r "action".toList = some ja ∧
          json_object_get_string ja = some s ∧ a = strncpy s 15) ∧
    (Fifo.call_policy_api env.curl = some Fifo.ApiResult.failed →
      t.action = "low".toList ∧ p.api_failed = true) ∧
    (p.action ≠ "drop".toList → p.action ≠ "high".toList → p.action ≠ "low".toList →
      t.action = p.action ∧
      Fifo.io g1 = Fifo.io (Fifo.write_to_fifo g "low".toList p.current_data.ip
        p.current_data.packet_count env.service_end_ts env.write) ∧
      g1.high_pipe = g.high_pipe ∧ g1.high_fifo_fd = g.high_fifo_fd ∧
      (g.low_fifo_fd = -1 → g1.low_pipe = g.low_pipe) ∧
      (g.low_fifo_fd ≠ -1 →
        (Fifo.fifo_line p.current_data.ip p.current_data.packet_count env.service_end_ts
          "low".toList).length < 256 →
        env.write.written = (Fifo.fifo_line p.current_data.ip p.current_data.packet_count
          env.service_end_ts "low".toList).length →
        g1.low_pipe = g.low_pipe ++ Fifo.fifo_line p.current_data.ip
          p.current_data.packet_count env.service_end_ts "low".toList)) := by
  obtain ⟨pos, api, _, hapi, _, _, hfail, hact, _, _, hio, _, hrec⟩ := Fifo.processor_some hstep
  obtain ⟨hta, _⟩ := hrec t htel
  have hcut : ∀ (a : CStr) (tr pv : double),
      Fifo.call_policy_api env.curl = some (Fifo.ApiResult.ok a tr pv) →
      p.action = a ∧ strncpy a 15 = a ∧ a.length ≤ 15 := by
    intro a tr pv h
    rw [h] at hapi
    simp only [Option.some.injEq] at hapi
    subst hapi
    obtain ⟨r, ja, s, _, _, _, h4⟩ := Fifo.api_action_cut h
    refine ⟨hact, by rw [h4, Fifo.strncpy_idem], ?_⟩
    rw [h4]
    unfold strncpy
    rw [List.length_take]
    omega
  refine ⟨?_, ?_, ?_⟩
  · intro a tr pv h
    obtain ⟨c1, c2, c3⟩ := hcut a tr pv h
    exact ⟨by rw [hta, c1, c2], c1, c3, Fifo.api_action_cut h⟩
  · intro h
    rw [h] at hapi
    simp only [Option.some.injEq] at hapi
    subst hapi
    refine ⟨?_, by simpa using hfail⟩
    rw [hta, hact]
    decide
  · intro h1 h2 h3
    have hroute : Fifo.route g p.action p.current_data env.service_end_ts env.write =
        Fifo.fifo_write g false (Fifo.fifo_line p.current_data.ip p.current_data.packet_count
          env.service_end_ts "low".toList) env.write := by
      rw [Fifo.route_other g p.action _ _ _ h1 h2 h3, Fifo.route_low]
    have hw : Fifo.write_to_fifo g "low".toList p.current_data.ip
        p.current_data.packet_count env.service_end_ts env.write =
        Fifo.fifo_write g false (Fifo.fifo_line p.current_data.ip p.current_data.packet_count
          env.service_end_ts "low".toList) env.write := by
      have e : ¬ ("low".toList = "high".toList) := by decide
      simp only [Fifo.write_to_fifo, e, if_false, if_true]
    rw [hroute] at hio
    obtain ⟨e1, e2, e3, e4⟩ := Fifo.io_fields hio
    obtain ⟨w1, w2, _, w4, w5⟩ := Fifo.fifo_write_low g
      (Fifo.fifo_line p.current_data.ip p.current_data.packet_count env.service_end_ts
        "low".toList) env.write
    have hkeep : t.action = p.action := by
      rw [hta]
      cases hapi2 : api with
      | ok a tr pv =>
        rw [hapi2] at hapi
        obtain ⟨c1, c2, _⟩ := hcut a tr pv hapi
        rw [c1, c2]
      | failed =>
        rw [hapi2] at hact
        exact absurd hact h3
    refine ⟨hkeep, by rw [hio, hw], by rw [e3, w1], by rw [e1, w2], ?_, ?_⟩
    · intro hfd
      rw [e4, w4 hfd]
    · intro hfd hlen hwr
      have hpos : 0 < (Fifo.fifo_line p.current_data.ip p.current_data.packet_count
          env.service_end_ts "low".toList).length := by
        simp [Fifo.fifo_line]
      rw [e4, (w5 hfd hpos hlen hwr).1]

set_option maxRecDepth 1000000 in
/-- C26, witness: with both FIFOs open the record classified "medium" is written to the LOW
FIFO with label "low" and its telemetry keeps "medium"; the classifier string
"high-priority-level-one" is kept as "high-priority-l"; when the transfer times out the
telemetry action is "low". -/
theorem C26_telemetry_action_witness :
    Fifo.processor_thread_fn ex_queued (ex_env (ex_curl "medium".toList) 66 true) =
      some (ex_step_state ex_queued (ex_env (ex_curl "medium".toList) 66 true),
        some (ex_step_done ex_queued (ex_env (ex_curl "medium".toList) 66 true))) ∧
    (ex_step_done ex_queued (ex_env (ex_curl "medium".toList) 66 true)).telemetry =
      some ((ex_step_done ex_queued
        (ex_env (ex_curl "medium".toList) 66 true)).telemetry.getD (ex_telemetry 0)) ∧
    ((ex_step_done ex_queued
        (ex_env (ex_curl "medium".toList) 66 true)).telemetry.getD (ex_telemetry 0)).action =
      (ex_step_done ex_queued (ex_env (ex_curl "medium".toList) 66 true)).action ∧
    (ex_step_done ex_queued (ex_env (ex_curl "medium".toList) 66 true)).action =
      "medium".toList ∧
    (ex_step_state ex_queued (ex_env (ex_curl "medium".toList) 66 true)).low_pipe =
      "\x7b\"ip\":\"10.0.0.5\",\"count\":1,\"timestamp\":5.000101,\"priority\":\"low\"\x7d\n".toList ∧
    (ex_step_done ex_queued
      (ex_env (ex_curl "high-priority-level-one".toList) 66 true)).telemetry.map
        Fifo.CSVRecord.action = some "high-priority-l".toList ∧
    (ex_step_done ex_queued (ex_env ex_curl_timeout 66 true)).telemetry.map
        Fifo.CSVRecord.action = some "low".toList :=
  have hstep := Fifo.processor_step_eq ex_queued (ex_env (ex_curl "medium".toList) 66 true)
    (by decide)
  have h := C26_telemetry_action ex_queued _ (ex_env (ex_curl "medium".toList) 66 true) _
    ((ex_step_done ex_queued
      (ex_env (ex_curl "medium".toList) 66 true)).telemetry.getD (ex_telemetry 0))
    hstep (by decide)
  ⟨hstep, by decide, (h.2.2 (by decide) (by decide) (by decide)).1, by decide, by decide,
    by decide, by decide⟩
